import Mathlib

/-!
# StateOS: scheduler core and message-queue transfer engine

A shallow embedding of `kernel/oskernel.c` and `kernel/src/os_msg.c`.

Representation.  The kernel's intrusive lists are kept as Lean lists of node
addresses:

* the ready list is the sequence `IDLE.sub.next, ...` up to, and without, the
  `IDLE` sentinel;
* the timer list is the sequence `WAIT.sub.next, ...` up to, and without, the
  `WAIT` sentinel;
* a wait list is the chain `*que, (*que)->sub.obj.queue, ...` up to the null
  pointer, stored under the address `que` of its head pointer.

The wait lists are modelled a second time at the level of their pointers
(`Links`: the cell `*que` or `tsk->sub.obj.queue` at an address, and the back
pointer of a task), where `core_tsk_append` and `core_tsk_unlink` are the
pointer writes of the source; `is_chain` relates the two levels.  The ready
list and the timer list are modelled a second time as well (`Ring`: the links
`sub.next` and `sub.prev` of a node), where `priv_rdy_insert` and
`priv_rdy_remove` are the pointer writes of the source; `is_ring` relates the
two levels.

Invariants are stated for the states reachable by the calls of the kernel:
`rdy_reach` for the ready list and its links, `msg_reach` for a message queue.

A pointer to a task or timer is an `Option Nat` (`none` is the null pointer), a
pointer to user data is an address into the byte memory `mem`.  Blocking calls
are split at the suspension point: the first half runs up to the context
switch, the second half computes the return value once the task has been
resumed.

Conventions.

* Unsigned machine arithmetic is arithmetic on `Nat` reduced modulo the width
  of the type: `UMOD` for `unsigned` (and for `size_t`, which has the width
  of `unsigned` on the ports of the kernel), `CMOD` for `cnt_t`.
* The bytes of an `unsigned` are laid out least significant byte first.
* The sums of the fit tests of a message queue are taken modulo `UMOD`, as in the
  source.  The properties that need them not to wrap carry the hypothesis
  `2 * limit + usz < UMOD`; the run from `ex_wrap0` shows a queue without it.
* The buffer of a message queue and the user memory do not overlap.
* `IDLE` keeps the priority 0 and `WAIT` the delay `INFINITE` of their
  initialisers, so the walks over the ready list and the timer list end at
  the sentinel.
* A loop that takes the head out of a wait list in every round is run for as
  many rounds as the list has tasks; the loop of `core_tmr_handler` and the
  recursion of `core_tsk_prio` carry an explicit bound, and the properties
  say when the bound is not reached.
-/

namespace StateOS

/-! ## Types -/

/-- Modelled from the spec: the object tags ready/delayed/idle/stopped of the kernel
header, which is not among the sources, and the tag of a timer. -/
inductive tid_t where
  | ID_STOPPED
  | ID_READY
  | ID_DELAYED
  | ID_TIMER
  | ID_IDLE
  deriving DecidableEq, Repr

/-- Modelled from the spec: the event codes success, stopped and timeout of the kernel
header, which is not among the sources; the three codes are distinct. -/
inductive event_t where
  | E_SUCCESS
  | E_STOPPED
  | E_TIMEOUT
  deriving DecidableEq, Repr

/-- Build configuration: the values of the configuration and port headers the code is
compiled against. -/
structure Config where
  /-- the value of `sizeof(unsigned)`, in bytes -/
  usz : Nat
  /-- width of `cnt_t`, in bits -/
  cnt_bits : Nat
  /-- whether `HW_TIMER_SIZE` is non-zero -/
  hw_timer : Bool
  /-- whether `OS_ROBIN` is non-zero -/
  robin : Bool
  /-- the value of `(OS_FREQUENCY)/(OS_ROBIN)` -/
  slice_max : Nat
  deriving Repr

/-- Number of values of an `unsigned`. -/
def UMOD (cfg : Config) : Nat := 2 ^ (8 * cfg.usz)

/-- Number of values of a `cnt_t`. -/
def CMOD (cfg : Config) : Nat := 2 ^ cfg.cnt_bits

/-- Largest value of a `cnt_t`. -/
def CNT_MAX (cfg : Config) : Nat := CMOD cfg - 1

/-- Modelled from the spec: the "wait forever" sentinel of the kernel header; the
periodic-tick expiry test relies on it being the largest counter value. -/
def INFINITE (cfg : Config) : Nat := CNT_MAX cfg

/-- Modelled from the spec: the "zero wait" request of the kernel header. -/
def IMMEDIATE : Nat := 0

/-- A task control block `tsk_t`; its head is the timer `tmr_t` (`sub`, `state`, `start`,
`delay`, `period`), so the same record stands for a timer.  The links `sub.prev`,
`sub.next`, `sub.obj.queue` and `back` are held by the lists of the kernel state. -/
structure tsk_t where
  /-- the tag `sub.id` -/
  id : tid_t
  /-- whether the callback pointer `state` is non-null -/
  state : Bool
  start : Nat
  delay : Nat
  period : Nat
  prio : Nat
  basic : Nat
  event : event_t
  /-- address of the head pointer of the wait list the task is queued on -/
  guard : Option Nat
  /-- the destination pointer `tmp.idata` -/
  idata : Nat
  /-- the source pointer `tmp.odata` -/
  odata : Nat
  /-- the transfer size `evt.size` -/
  evt_size : Nat
  /-- the held locks `mtx.list, mtx.list->list, ...` -/
  mtx_list : List Nat
  /-- the owner `mtx.tree` of the lock the task waits for -/
  mtx_tree : Option Nat
  slice : Nat

/-- A message queue `msg_t`; its wait list `queue` is held by the kernel state under the
address of the object. -/
structure msg_t where
  count : Nat
  limit : Nat
  first : Nat
  next : Nat
  size : Nat
  /-- the bytes `data[0], data[1], ...` of the buffer -/
  data : Nat → Nat

/-- The machine state seen by the kernel: the globals `System`, `IDLE`, `WAIT`, the
control blocks, the objects and the user memory. -/
structure Kernel where
  /-- the current task `System.cur` -/
  cur : Nat
  /-- the tick counter `System.cnt` -/
  cnt : Nat
  /-- control blocks of tasks and timers, by address -/
  tsk : Nat → tsk_t
  /-- the ready list, from `IDLE.sub.next` round to `IDLE` -/
  ready : List Nat
  /-- the timer list, from `WAIT.sub.next` round to `WAIT` -/
  timers : List Nat
  /-- the wait lists, by the address of their head pointer -/
  queue : Nat → List Nat
  /-- the message queues, by address -/
  msg : Nat → msg_t
  /-- the user memory, one byte per address -/
  mem : Nat → Nat
  /-- whether a context switch has been requested by `port_ctx_switch` -/
  ctx_switch : Bool
  /-- the timers whose callback has been invoked, latest first -/
  fired : List Nat
  /-- successive readings of the hardware counter -/
  hw_time : Nat → Nat
  /-- number of readings of the hardware counter taken so far -/
  hw_reads : Nat

/-- Address of the idle task `IDLE`, the sentinel of the ready list. -/
def IDLE : Nat := 0

/-- Address of the timer `WAIT`, the sentinel of the timer list. -/
def WAIT : Nat := 1

/-- Address of the main task `MAIN`. -/
def MAIN : Nat := 2

/-- Replace the value of a map at one key. -/
def upd {α : Type} (f : Nat → α) (k : Nat) (v : α) : Nat → α :=
  fun i => if i = k then v else f i

/-- Store a control block. -/
def Kernel.setTsk (s : Kernel) (t : Nat) (v : tsk_t) : Kernel :=
  { s with tsk := upd s.tsk t v }

/-- Store a message queue. -/
def Kernel.setMsg (s : Kernel) (m : Nat) (v : msg_t) : Kernel :=
  { s with msg := upd s.msg m v }

/-! ## oskernel.c: list primitive -/

/-- The list primitive `priv_rdy_insert(sub, nxt)` on the sequence of a circular list:
`sub` is linked immediately before `nxt`; `none` stands for the sentinel, which
closes the sequence. -/
def priv_rdy_insert (sub : Nat) : Option Nat → List Nat → List Nat
  | none, l => l ++ [sub]
  | some _, [] => [sub]
  | some n, x :: l => if x = n then sub :: x :: l else x :: priv_rdy_insert sub (some n) l

/-- The list primitive `priv_rdy_remove(sub)`: the node is taken out of the list it is
linked in; a node has one pair of links, shared by the ready list and the timer
list.  The source reads the links `sub->next` and `sub->prev` of the node and writes
through them, so the call is defined for a node that is linked in one of the two lists;
for such a node the sequence without the node is the effect of the pointer writes
(`priv_rdy_remove_links`).  The embedding stands for the call on a linked node. -/
def priv_rdy_remove (s : Kernel) (sub : Nat) : Kernel :=
  { s with ready := s.ready.filter (fun n => decide (n ≠ sub)),
           timers := s.timers.filter (fun n => decide (n ≠ sub)) }

/-! ## oskernel.c: timers -/

/-- The clock `core_sys_time()`: the tick counter, or the next reading of the hardware
counter when the port has one. -/
def core_sys_time (cfg : Config) (s : Kernel) : Nat × Kernel :=
  if cfg.hw_timer then (s.hw_time s.hw_reads % CMOD cfg, { s with hw_reads := s.hw_reads + 1 })
  else (s.cnt, s)

/-- The walk of `priv_tmr_insert`: the first timer `nxt` of the list for which
`nxt->delay < (cnt_t)(tmr->start + tmr->delay - nxt->start)` fails; the walk ends at
`WAIT` (`none`), whose delay is `INFINITE`. -/
def tmr_walk (cfg : Config) (tsk : Nat → tsk_t) (start delay : Nat) : List Nat → Option Nat
  | [] => none
  | n :: l =>
    if (tsk n).delay < (start + delay + CMOD cfg - (tsk n).start % CMOD cfg) % CMOD cfg
    then tmr_walk cfg tsk start delay l else some n

/-- Embedding of `priv_tmr_insert`. -/
def priv_tmr_insert (cfg : Config) (s : Kernel) (tmr : Nat) (id : tid_t) : Kernel :=
  let s1 := s.setTsk tmr { s.tsk tmr with id := id }
  let t := s1.tsk tmr
  let nxt := if t.delay ≠ INFINITE cfg then tmr_walk cfg s1.tsk t.start t.delay s1.timers else none
  { s1 with timers := priv_rdy_insert tmr nxt s1.timers }

/-- Embedding of `priv_tmr_remove`. -/
def priv_tmr_remove (s : Kernel) (tmr : Nat) : Kernel :=
  priv_rdy_remove s tmr

/-- Embedding of `core_tmr_insert`; `port_tmr_force` acts on the hardware only. -/
def core_tmr_insert (cfg : Config) (s : Kernel) (tmr : Nat) (id : tid_t) : Kernel :=
  priv_tmr_insert cfg s tmr id

/-- Embedding of `core_tmr_remove`. -/
def core_tmr_remove (s : Kernel) (tmr : Nat) : Kernel :=
  priv_tmr_remove (s.setTsk tmr { s.tsk tmr with id := tid_t.ID_STOPPED }) tmr

/-- The periodic-tick variant of `priv_tmr_expired` on the fields of a timer, at the
clock reading `now`. -/
def priv_tmr_expired_tick (cfg : Config) (now start delay : Nat) : Bool :=
  if delay ≥ (now + CMOD cfg - start % CMOD cfg + 1) % CMOD cfg then false else true

/-- The hardware-compare variant of `priv_tmr_expired` on the fields of a timer; `now1`
and `now2` are the two readings of the clock, the second taken after the compare
register has been programmed. -/
def priv_tmr_expired_hw (cfg : Config) (now1 now2 start delay : Nat) : Bool :=
  if delay = INFINITE cfg then false
  else if delay ≤ (now1 + CMOD cfg - start % CMOD cfg) % CMOD cfg then true
  else if delay > (now2 + CMOD cfg - start % CMOD cfg) % CMOD cfg then false
  else true

/-- Embedding of `priv_tmr_expired(tmr)` in both variants; the sentinel `WAIT`
(`none`) has the delay `INFINITE` and the start 0. -/
def priv_tmr_expired (cfg : Config) (s : Kernel) (tmr : Option Nat) : Bool × Kernel :=
  let start := match tmr with
    | some t => (s.tsk t).start
    | none => 0
  let delay := match tmr with
    | some t => (s.tsk t).delay
    | none => INFINITE cfg
  if cfg.hw_timer then
    if delay = INFINITE cfg then (false, s)
    else
      let r1 := core_sys_time cfg s
      if delay ≤ (r1.1 + CMOD cfg - start % CMOD cfg) % CMOD cfg then (true, r1.2)
      else
        let r2 := core_sys_time cfg r1.2
        (priv_tmr_expired_hw cfg r1.1 r2.1 start delay, r2.2)
  else
    let r := core_sys_time cfg s
    (priv_tmr_expired_tick cfg r.1 start delay, r.2)

/-! ## oskernel.c: tasks -/

/-- Embedding of `port_ctx_switch`: a context switch is requested. -/
def port_ctx_switch (s : Kernel) : Kernel :=
  { s with ctx_switch := true }

/-- The walk of `priv_tsk_insert` and of `core_tsk_append`: the first task `nxt` of the
list for which `prio <= nxt->prio` fails; the walk ends at the end of the list
(`none`): the null pointer of a wait list, or `IDLE`, whose priority is 0. -/
def tsk_walk (tsk : Nat → tsk_t) (prio : Nat) : List Nat → Option Nat
  | [] => none
  | n :: l => if prio ≤ (tsk n).prio then tsk_walk tsk prio l else some n

/-- Embedding of `priv_tsk_insert`. -/
def priv_tsk_insert (cfg : Config) (s : Kernel) (tsk : Nat) : Kernel :=
  let s1 := if cfg.robin && !cfg.hw_timer then s.setTsk tsk { s.tsk tsk with slice := 0 } else s
  let nxt := if (s1.tsk tsk).prio ≠ 0 then tsk_walk s1.tsk (s1.tsk tsk).prio s1.ready else none
  { s1 with ready := priv_rdy_insert tsk nxt s1.ready }

/-- Embedding of `priv_tsk_remove`. -/
def priv_tsk_remove (s : Kernel) (tsk : Nat) : Kernel :=
  priv_rdy_remove s tsk

/-- The task `IDLE.sub.next`: the head of the ready list, or `IDLE` itself. -/
def IDLE_next (s : Kernel) : Nat :=
  s.ready.headD IDLE

/-- Embedding of `core_tsk_insert`. -/
def core_tsk_insert (cfg : Config) (s : Kernel) (tsk : Nat) : Kernel :=
  let s1 := priv_tsk_insert cfg (s.setTsk tsk { s.tsk tsk with id := tid_t.ID_READY }) tsk
  if tsk = IDLE_next s1 then port_ctx_switch s1 else s1

/-- Embedding of `core_tsk_remove`; `priv_ctx_switchNow` requests the switch, which
takes the task off the processor. -/
def core_tsk_remove (s : Kernel) (tsk : Nat) : Kernel :=
  let s1 := priv_tsk_remove (s.setTsk tsk { s.tsk tsk with id := tid_t.ID_STOPPED }) tsk
  if tsk = s1.cur then port_ctx_switch s1 else s1

/-- Embedding of `core_ctx_switch`; the task after the last one is `IDLE`, of
priority 0. -/
def core_ctx_switch (s : Kernel) : Kernel :=
  let cur := IDLE_next s
  let nxt := match s.ready with
    | _ :: n :: _ => n
    | _ => IDLE
  if (s.tsk nxt).prio = (s.tsk cur).prio then port_ctx_switch s else s

/-- Embedding of `core_tsk_append`; linking the task into the chain in front of `nxt` is
the splice of `priv_rdy_insert` on the sequence of the wait list. -/
def core_tsk_append (s : Kernel) (tsk : Nat) (que : Nat) : Kernel :=
  let s1 := s.setTsk tsk { s.tsk tsk with guard := some que }
  let nxt := tsk_walk s1.tsk (s1.tsk tsk).prio (s1.queue que)
  { s1 with queue := upd s1.queue que (priv_rdy_insert tsk nxt (s1.queue que)) }

/-- Embedding of `core_tsk_unlink`: the back pointer of the task addresses the link
that points to it, so the task leaves the wait list that holds it. -/
def core_tsk_unlink (s : Kernel) (tsk : Nat) (event : event_t) : Kernel :=
  let s1 := s.setTsk tsk { s.tsk tsk with event := event, guard := none }
  { s1 with queue := fun q => (s1.queue q).filter (fun n => decide (n ≠ tsk)) }

/-- Embedding of `core_tsk_transfer`. -/
def core_tsk_transfer (s : Kernel) (tsk : Nat) (que : Nat) : Kernel :=
  core_tsk_append (core_tsk_unlink s tsk (s.tsk tsk).event) tsk que

/-- The first half of `priv_tsk_wait`, up to the context switch; the second half returns
`tsk->event` when the task runs again. -/
def priv_tsk_wait (cfg : Config) (s : Kernel) (tsk : Nat) (que : Nat) (yield : Bool) : Kernel :=
  let s1 := core_tsk_append s tsk que
  let s2 := priv_tsk_remove s1 tsk
  let s3 := core_tmr_insert cfg s2 tsk tid_t.ID_DELAYED
  if yield then port_ctx_switch s3 else s3

/-- Embedding of `core_tsk_waitFor`: `some e` is an immediate return of `e`, `none` means
the task has been blocked and the call returns `tsk->event` on resumption. -/
def core_tsk_waitFor (cfg : Config) (s : Kernel) (que : Nat) (delay : Nat) :
    Kernel × Option event_t :=
  let r := core_sys_time cfg s
  let s1 := r.2.setTsk s.cur { r.2.tsk s.cur with start := r.1, delay := delay }
  if delay = IMMEDIATE then (s1, some event_t.E_TIMEOUT)
  else (priv_tsk_wait cfg s1 s.cur que true, none)

/-- Embedding of `core_tsk_waitNext`. -/
def core_tsk_waitNext (cfg : Config) (s : Kernel) (que : Nat) (delay : Nat) :
    Kernel × Option event_t :=
  let s1 := s.setTsk s.cur { s.tsk s.cur with delay := delay }
  if delay = IMMEDIATE then (s1, some event_t.E_TIMEOUT)
  else (priv_tsk_wait cfg s1 s.cur que true, none)

/-- Embedding of `core_tsk_waitUntil`. -/
def core_tsk_waitUntil (cfg : Config) (s : Kernel) (que : Nat) (time : Nat) :
    Kernel × Option event_t :=
  let r := core_sys_time cfg s
  let delay := (time + CMOD cfg - r.1 % CMOD cfg) % CMOD cfg
  let s1 := r.2.setTsk s.cur { r.2.tsk s.cur with start := r.1, delay := delay }
  if delay > CNT_MAX cfg / 2 then (s1, some event_t.E_TIMEOUT)
  else (priv_tsk_wait cfg s1 s.cur que true, none)

/-- Embedding of `core_tsk_suspend`. -/
def core_tsk_suspend (cfg : Config) (s : Kernel) (tsk : Nat) : Kernel :=
  priv_tsk_wait cfg (s.setTsk tsk { s.tsk tsk with delay := INFINITE cfg }) tsk WAIT
    (decide (tsk = s.cur))

/-- Embedding of `core_tsk_wakeup`; the second component is the returned pointer. -/
def core_tsk_wakeup (cfg : Config) (s : Kernel) (tsk : Option Nat) (event : event_t) :
    Kernel × Option Nat :=
  match tsk with
  | some t => (core_tsk_insert cfg (core_tmr_remove (core_tsk_unlink s t event) t) t, some t)
  | none => (s, none)

/-- The loop of `core_all_wakeup`, run for at most `fuel` rounds. -/
def core_all_wakeup_loop (cfg : Config) (que : Nat) (event : event_t) : Nat → Kernel → Kernel
  | 0, s => s
  | fuel + 1, s =>
    match (s.queue que).head? with
    | some t => core_all_wakeup_loop cfg que event fuel (core_tsk_wakeup cfg s (some t) event).1
    | none => s

/-- Embedding of `core_all_wakeup`: every round takes the head out of the wait list, so
the loop ends within as many rounds as the list has tasks. -/
def core_all_wakeup (cfg : Config) (s : Kernel) (que : Nat) (event : event_t) : Kernel :=
  core_all_wakeup_loop cfg que event (s.queue que).length s

/-- Embedding of `priv_tmr_wakeup`. -/
def priv_tmr_wakeup (cfg : Config) (s : Kernel) (tmr : Nat) (event : event_t) : Kernel :=
  let s1 := if (s.tsk tmr).state then { s with fired := tmr :: s.fired } else s
  let s2 := core_tmr_remove s1 tmr
  let r := core_sys_time cfg s2
  let s3 :=
    if (r.2.tsk tmr).delay ≥ (r.1 + CMOD cfg - (r.2.tsk tmr).start % CMOD cfg + 1) % CMOD cfg
    then priv_tmr_insert cfg r.2 tmr tid_t.ID_TIMER else r.2
  core_all_wakeup cfg s3 tmr event

/-- The body of the loop of `core_tmr_handler` for the expired head `tmr` of the timer
list. -/
def core_tmr_handler_body (cfg : Config) (s : Kernel) (tmr : Nat) : Kernel :=
  let t := s.tsk tmr
  let s1 := s.setTsk tmr { t with start := (t.start + t.delay) % CMOD cfg }
  if t.id = tid_t.ID_TIMER then
    priv_tmr_wakeup cfg (s1.setTsk tmr { s1.tsk tmr with delay := t.period }) tmr
      event_t.E_SUCCESS
  else (core_tsk_wakeup cfg s1 (some tmr) event_t.E_TIMEOUT).1

/-- Embedding of `core_tmr_handler`, run for at most `fuel` rounds of its loop. -/
def core_tmr_handler (cfg : Config) : Nat → Kernel → Kernel
  | 0, s => s
  | fuel + 1, s =>
    let r := priv_tmr_expired cfg s s.timers.head?
    match r.1, s.timers.head? with
    | true, some tmr => core_tmr_handler cfg fuel (core_tmr_handler_body cfg r.2 tmr)
    | _, _ => r.2

/-- The node `tsk->sub.next` of a task linked in the ready list; the node after the last
one is `IDLE`, and the node after `IDLE` is the first one. -/
def sub_next (s : Kernel) (tsk : Nat) : Nat :=
  if tsk = IDLE then IDLE_next s
  else ((s.ready.dropWhile (fun n => decide (n ≠ tsk))).drop 1).headD IDLE

/-- The priority computed at the head of `core_tsk_prio` and of `core_cur_prio`: the
requested one, raised to the basic priority and to the priority of the first waiter
of every held lock. -/
def inherited_prio (s : Kernel) (tsk : Nat) (prio : Nat) : Nat :=
  (s.tsk tsk).mtx_list.foldl
    (fun p mtx =>
      match (s.queue mtx).head? with
      | some w => if p < (s.tsk w).prio then (s.tsk w).prio else p
      | none => p)
    (if prio < (s.tsk tsk).basic then (s.tsk tsk).basic else prio)

/-- Embedding of `core_tsk_prio`, with at most `fuel` nested calls; a delayed task is
queued on a wait list, so its `guard` is not null. -/
def core_tsk_prio (cfg : Config) : Nat → Kernel → Nat → Nat → Kernel
  | 0, s, _, _ => s
  | fuel + 1, s, tsk, prio =>
    let p := inherited_prio s tsk prio
    if (s.tsk tsk).prio ≠ p then
      let s1 := s.setTsk tsk { s.tsk tsk with prio := p }
      if tsk = s1.cur then
        if (s1.tsk (sub_next s1 tsk)).prio > p then port_ctx_switch s1 else s1
      else if (s1.tsk tsk).id = tid_t.ID_READY then
        core_tsk_insert cfg (priv_tsk_remove s1 tsk) tsk
      else if (s1.tsk tsk).id = tid_t.ID_DELAYED then
        let s2 := match (s1.tsk tsk).guard with
          | some que => core_tsk_transfer s1 tsk que
          | none => s1
        match (s2.tsk tsk).mtx_tree with
        | some owner => core_tsk_prio cfg fuel s2 owner p
        | none => s2
      else s1
    else s

/-- Embedding of `core_cur_prio`. -/
def core_cur_prio (s : Kernel) (prio : Nat) : Kernel :=
  let tsk := s.cur
  let p := inherited_prio s tsk prio
  if (s.tsk tsk).prio ≠ p then
    let s1 := s.setTsk tsk { s.tsk tsk with prio := p }
    if (s1.tsk (sub_next s1 tsk)).prio > p then port_ctx_switch s1 else s1
  else s

/-- The block of `core_tsk_handler` that unlinks the first task and links it again; when
the first node is `IDLE` the list holds `IDLE` alone and no link changes. -/
def tsk_rotate (cfg : Config) (s : Kernel) (nxt : Nat) : Kernel :=
  let s1 :=
    if nxt = IDLE then
      (if cfg.robin && !cfg.hw_timer then s.setTsk nxt { s.tsk nxt with slice := 0 } else s)
    else priv_tsk_insert cfg (priv_tsk_remove s nxt) nxt
  { s1 with cur := IDLE_next s1 }

/-- Embedding of `core_tsk_handler`; `core_ctx_reset` withdraws the request for a
context switch, the stack pointers are not part of the state. -/
def core_tsk_handler (cfg : Config) (s : Kernel) : Kernel :=
  let s0 := { s with ctx_switch := false }
  let nxt := IDLE_next s0
  if s0.cur = nxt then tsk_rotate cfg s0 nxt
  else if (cfg.robin && !cfg.hw_timer) && decide ((s0.tsk nxt).slice ≥ cfg.slice_max) then
    tsk_rotate cfg (s0.setTsk nxt { s0.tsk nxt with slice := 0 }) nxt
  else { s0 with cur := nxt }

/-! ## os_msg.c -/

/-- Embedding of `msg_init`. -/
def msg_init (s : Kernel) (msg : Nat) (limit : Nat) (data : Nat → Nat) : Kernel :=
  { s.setMsg msg { count := 0, limit := limit, first := 0, next := 0, size := 0, data := data }
    with queue := upd s.queue msg [] }

/-- Embedding of `msg_kill`. -/
def msg_kill (cfg : Config) (s : Kernel) (msg : Nat) : Kernel :=
  core_all_wakeup cfg
    (s.setMsg msg { s.msg msg with count := 0, first := 0, next := 0, size := 0 })
    msg event_t.E_STOPPED

/-- Embedding of `priv_msg_count`. -/
def priv_msg_count (s : Kernel) (msg : Nat) : Nat :=
  (s.msg msg).size

/-- Embedding of `priv_msg_space`. -/
def priv_msg_space (cfg : Config) (s : Kernel) (msg : Nat) : Nat :=
  let m := s.msg msg
  if m.count = 0 then m.limit
  else if s.queue msg = [] ∧ (m.count + cfg.usz) % UMOD cfg < m.limit then
    (m.limit + 2 * UMOD cfg - m.count % UMOD cfg - cfg.usz % UMOD cfg) % UMOD cfg
  else 0

/-- Embedding of `priv_msg_getc`: the character read and the queue after the read. -/
def priv_msg_getc (cfg : Config) (m : msg_t) : Nat × msg_t :=
  let i := (m.first + 1) % UMOD cfg
  (m.data m.first,
   { m with first := if i < m.limit then i else 0,
            count := (m.count + UMOD cfg - 1) % UMOD cfg })

/-- Embedding of `priv_msg_putc`. -/
def priv_msg_putc (cfg : Config) (m : msg_t) (c : Nat) : msg_t :=
  let i := (m.next + 1) % UMOD cfg
  { m with data := upd m.data m.next c,
           next := if i < m.limit then i else 0,
           count := (m.count + 1) % UMOD cfg }

/-- The loop `while (size--) ... priv_msg_getc(msg)` of `priv_msg_get`: the characters
read, in order, and the queue after the reads. -/
def msg_getn (cfg : Config) : Nat → msg_t → List Nat × msg_t
  | 0, m => ([], m)
  | size + 1, m =>
    let r := priv_msg_getc cfg m
    let r2 := msg_getn cfg size r.2
    (r.1 :: r2.1, r2.2)

/-- The loop `while (size--) priv_msg_putc(msg, *data++)` of `priv_msg_put` for the
characters at `data`. -/
def msg_putn (cfg : Config) : List Nat → msg_t → msg_t
  | [], m => m
  | c :: cs, m => msg_putn cfg cs (priv_msg_putc cfg m c)

/-- The `size` bytes found in memory from the address `data` on. -/
def load (mem : Nat → Nat) (data : Nat) (size : Nat) : List Nat :=
  (List.range size).map (fun i => mem (data + i))

/-- Memory after the bytes `bs` have been written from the address `data` on. -/
def store (mem : Nat → Nat) (data : Nat) : List Nat → Nat → Nat
  | [] => mem
  | b :: bs => store (upd mem data b) (data + 1) bs

/-- The bytes of an `unsigned` in memory, least significant byte first. -/
def enc_unsigned : Nat → Nat → List Nat
  | 0, _ => []
  | n + 1, v => v % 256 :: enc_unsigned n (v / 256)

/-- The `unsigned` that a sequence of bytes in memory stands for, least significant
byte first. -/
def dec_unsigned : List Nat → Nat
  | [] => 0
  | b :: bs => b % 256 + 256 * dec_unsigned bs

/-- Embedding of `priv_msg_get` with a destination in user memory. -/
def priv_msg_get (cfg : Config) (s : Kernel) (msg : Nat) (data : Nat) (size : Nat) : Kernel :=
  let r := msg_getn cfg size (s.msg msg)
  { s.setMsg msg r.2 with mem := store s.mem data r.1 }

/-- Embedding of `priv_msg_put` with a source in user memory. -/
def priv_msg_put (cfg : Config) (s : Kernel) (msg : Nat) (data : Nat) (size : Nat) : Kernel :=
  s.setMsg msg (msg_putn cfg (load s.mem data size) (s.msg msg))

/-- Embedding of `priv_msg_getSize`: the bytes of the length are read into the field
`size`. -/
def priv_msg_getSize (cfg : Config) (s : Kernel) (msg : Nat) : Kernel :=
  let m := s.msg msg
  if m.count = 0 then s.setMsg msg { m with size := 0 }
  else
    let r := msg_getn cfg cfg.usz m
    s.setMsg msg { r.2 with size := dec_unsigned r.1 }

/-- Embedding of `priv_msg_putSize`: the bytes of the argument `size` are written. -/
def priv_msg_putSize (cfg : Config) (s : Kernel) (msg : Nat) (size : Nat) : Kernel :=
  let m := s.msg msg
  if m.count = 0 then s.setMsg msg { m with size := size }
  else if size > 0 then s.setMsg msg (msg_putn cfg (enc_unsigned cfg.usz size) m)
  else s

/-- The loop of `priv_msg_getUpdate`, run for at most `fuel` rounds. -/
def priv_msg_getUpdate_loop (cfg : Config) (msg : Nat) : Nat → Kernel → Kernel
  | 0, s => s
  | fuel + 1, s =>
    match (s.queue msg).head? with
    | some q =>
      if (s.msg msg).count = 0 ∨
         ((s.msg msg).count + (s.tsk q).evt_size + cfg.usz) % UMOD cfg ≤ (s.msg msg).limit then
        let s1 := priv_msg_putSize cfg s msg (s.tsk q).evt_size
        let s2 := priv_msg_put cfg s1 msg (s1.tsk q).odata (s1.tsk q).evt_size
        let s3 := s2.setTsk q { s2.tsk q with evt_size := 0 }
        priv_msg_getUpdate_loop cfg msg fuel (core_tsk_wakeup cfg s3 (some q) event_t.E_SUCCESS).1
      else s
    | none => s

/-- Embedding of `priv_msg_getUpdate`: every round takes the head out of the wait list,
so the loop ends within as many rounds as the list has tasks. -/
def priv_msg_getUpdate (cfg : Config) (s : Kernel) (msg : Nat) : Kernel :=
  priv_msg_getUpdate_loop cfg msg (s.queue msg).length s

/-- The loop of `priv_msg_putUpdate`, run for at most `fuel` rounds. -/
def priv_msg_putUpdate_loop (cfg : Config) (msg : Nat) : Nat → Kernel → Kernel
  | 0, s => s
  | fuel + 1, s =>
    match (s.queue msg).head? with
    | some q =>
      if (s.msg msg).size > (s.tsk q).evt_size then
        priv_msg_putUpdate_loop cfg msg fuel (core_tsk_wakeup cfg s (some q) event_t.E_TIMEOUT).1
      else s
    | none => s

/-- Embedding of `priv_msg_putUpdate`; the loop ends within as many rounds as the wait
list has tasks. -/
def priv_msg_putUpdate (cfg : Config) (s : Kernel) (msg : Nat) : Kernel :=
  let s1 := priv_msg_putUpdate_loop cfg msg (s.queue msg).length s
  match (s1.queue msg).head? with
  | some q =>
    let s2 := priv_msg_get cfg s1 msg (s1.tsk q).idata (s1.msg msg).size
    let s3 := s2.setTsk q
      { s2.tsk q with
        evt_size := ((s2.tsk q).evt_size + UMOD cfg - (s2.msg msg).size % UMOD cfg) % UMOD cfg }
    let s4 := priv_msg_getSize cfg s3 msg
    (core_tsk_wakeup cfg s4 (some q) event_t.E_SUCCESS).1
  | none => s1

/-- The transfer made by `msg_take` and by `priv_msg_wait` when a frame is buffered. -/
def msg_receive (cfg : Config) (s : Kernel) (msg : Nat) (data : Nat) (size : Nat) :
    Kernel × Nat :=
  if size ≥ priv_msg_count s msg then
    let len := (s.msg msg).size
    let s1 := priv_msg_get cfg s msg data len
    let s2 := priv_msg_getSize cfg s1 msg
    (priv_msg_getUpdate cfg s2 msg, len)
  else (s, 0)

/-- Embedding of `msg_take`: the state after the call and the returned length. -/
def msg_take (cfg : Config) (s : Kernel) (msg : Nat) (data : Nat) (size : Nat) : Kernel × Nat :=
  if size > 0 then
    if (s.msg msg).size > 0 then msg_receive cfg s msg data size
    else (s, 0)
  else (s, 0)

/-- The value `len = size - System.cur->evt.size` that a blocking call returns once the
task that made it runs again. -/
def msg_resume (cfg : Config) (s : Kernel) (tsk : Nat) (size : Nat) : Nat :=
  (size + UMOD cfg - (s.tsk tsk).evt_size % UMOD cfg) % UMOD cfg

/-- Embedding of `priv_msg_wait`; `wait` is the wait primitive passed by the caller.  The
result is `some len` when the call returns without a context switch and `none` when
the caller has been blocked; the call then returns `msg_resume` on resumption. -/
def priv_msg_wait (cfg : Config) (s : Kernel) (msg : Nat) (data : Nat) (size : Nat) (time : Nat)
    (wait : Kernel → Nat → Nat → Kernel × Option event_t) : Kernel × Option Nat :=
  if size > 0 then
    if (s.msg msg).size > 0 then
      let r := msg_receive cfg s msg data size
      (r.1, some r.2)
    else
      let s1 := s.setTsk s.cur { s.tsk s.cur with idata := data, evt_size := size }
      let r := wait s1 msg time
      match r.2 with
      | some _ => (r.1, some (msg_resume cfg r.1 s.cur size))
      | none => (r.1, none)
  else (s, some 0)

/-- Embedding of `msg_waitUntil`. -/
def msg_waitUntil (cfg : Config) (s : Kernel) (msg : Nat) (data : Nat) (size : Nat)
    (time : Nat) : Kernel × Option Nat :=
  priv_msg_wait cfg s msg data size time (core_tsk_waitUntil cfg)

/-- Embedding of `msg_waitFor`. -/
def msg_waitFor (cfg : Config) (s : Kernel) (msg : Nat) (data : Nat) (size : Nat)
    (delay : Nat) : Kernel × Option Nat :=
  priv_msg_wait cfg s msg data size delay (core_tsk_waitFor cfg)

/-- The transfer made by `msg_give` and by `priv_msg_send` when the frame fits. -/
def msg_transmit (cfg : Config) (s : Kernel) (msg : Nat) (data : Nat) (size : Nat) : Kernel :=
  let s1 := priv_msg_putSize cfg s msg size
  let s2 := priv_msg_put cfg s1 msg data size
  priv_msg_putUpdate cfg s2 msg

/-- Embedding of `msg_give`: the state after the call and the returned length. -/
def msg_give (cfg : Config) (s : Kernel) (msg : Nat) (data : Nat) (size : Nat) : Kernel × Nat :=
  if size > 0 ∧ size ≤ (s.msg msg).limit then
    if size ≤ priv_msg_space cfg s msg then (msg_transmit cfg s msg data size, size)
    else (s, 0)
  else (s, 0)

/-- Embedding of `priv_msg_send`, with the result as for `priv_msg_wait`. -/
def priv_msg_send (cfg : Config) (s : Kernel) (msg : Nat) (data : Nat) (size : Nat) (time : Nat)
    (wait : Kernel → Nat → Nat → Kernel × Option event_t) : Kernel × Option Nat :=
  if size > 0 ∧ size ≤ (s.msg msg).limit then
    if size ≤ priv_msg_space cfg s msg then (msg_transmit cfg s msg data size, some size)
    else
      let s1 := s.setTsk s.cur { s.tsk s.cur with odata := data, evt_size := size }
      let r := wait s1 msg time
      match r.2 with
      | some _ => (r.1, some (msg_resume cfg r.1 s.cur size))
      | none => (r.1, none)
  else (s, some 0)

/-- Embedding of `msg_sendUntil`. -/
def msg_sendUntil (cfg : Config) (s : Kernel) (msg : Nat) (data : Nat) (size : Nat)
    (time : Nat) : Kernel × Option Nat :=
  priv_msg_send cfg s msg data size time (core_tsk_waitUntil cfg)

/-- Embedding of `msg_sendFor`. -/
def msg_sendFor (cfg : Config) (s : Kernel) (msg : Nat) (data : Nat) (size : Nat)
    (delay : Nat) : Kernel × Option Nat :=
  priv_msg_send cfg s msg data size delay (core_tsk_waitFor cfg)

/-- Embedding of `msg_count`. -/
def msg_count (s : Kernel) (msg : Nat) : Nat :=
  priv_msg_count s msg

/-- Embedding of `msg_space`. -/
def msg_space (cfg : Config) (s : Kernel) (msg : Nat) : Nat :=
  priv_msg_space cfg s msg

/-! ## States used as examples -/

/-- A control block with every field zero, as in zero-initialised storage. -/
def tsk_zero : tsk_t :=
  { id := tid_t.ID_STOPPED, state := false, start := 0, delay := 0, period := 0, prio := 0,
    basic := 0, event := event_t.E_SUCCESS, guard := none, idata := 0, odata := 0,
    evt_size := 0, mtx_list := [], mtx_tree := none, slice := 0 }

/-- A message queue with every field zero. -/
def msg_zero : msg_t :=
  { count := 0, limit := 0, first := 0, next := 0, size := 0, data := fun _ => 0 }

/-- The kernel state given by the initialisers of `WAIT`, `MAIN`, `IDLE` and `System`;
`main_prio` is the value of `OS_MAIN_PRIO`. -/
def boot (cfg : Config) (main_prio : Nat) : Kernel :=
  { cur := MAIN, cnt := 0,
    tsk := upd (upd (upd (fun _ => tsk_zero)
      WAIT { tsk_zero with id := tid_t.ID_TIMER, delay := INFINITE cfg })
      IDLE { tsk_zero with id := tid_t.ID_IDLE, state := true })
      MAIN { tsk_zero with id := tid_t.ID_READY, basic := main_prio, prio := main_prio },
    ready := [MAIN], timers := [], queue := fun _ => [], msg := fun _ => msg_zero,
    mem := fun _ => 0, ctx_switch := false, fired := [], hw_time := fun _ => 0, hw_reads := 0 }

/-- A 32-bit port with a periodic tick and no time slicing. -/
def cfg32 : Config :=
  { usz := 4, cnt_bits := 32, hw_timer := false, robin := false, slice_max := 0 }

/-- The state after `msg_init` of a queue of 8 bytes at address 100 and a `msg_give` of
6 bytes from address 1000. -/
def ex_space : Kernel :=
  (msg_give cfg32 (msg_init (boot cfg32 1) 100 8 (fun _ => 0)) 100 1000 6).1

/-! ## Relations used in the statements -/

/-- No task is put on a wait list, no task leaves the ready list, and the current task
stays the current one. -/
def keeps_running (s s' : Kernel) : Prop :=
  s'.cur = s.cur ∧ (∀ q x, x ∈ s'.queue q → x ∈ s.queue q) ∧ (∀ x, x ∈ s.ready → x ∈ s'.ready)

/-- The bytes held by the buffer of a message queue, oldest first: `count` bytes from the
index `first` on, wrapping at `limit`. -/
def ring (m : msg_t) : List Nat :=
  (List.range m.count).map (fun k => m.data ((m.first + k) % m.limit))

/-- The indices of a message queue are consistent: `limit` is a value of `unsigned`,
`first` is an index of the buffer, at most `limit` bytes are in use and `next` is the
index after the last byte in use. -/
def msg_wf (cfg : Config) (m : msg_t) : Prop :=
  m.limit < UMOD cfg ∧ m.first < m.limit ∧ m.count ≤ m.limit ∧
    m.next = (m.first + m.count) % m.limit

/-- The task is in the ready list with the tag `ID_READY` and the event code `e`, and is
not in the timer list. -/
def woken (e : event_t) (t : Nat) (s : Kernel) : Prop :=
  t ∈ s.ready ∧ (s.tsk t).event = e ∧ (s.tsk t).id = tid_t.ID_READY ∧ t ∉ s.timers

/-- Successive calls `core_tsk_append(tsk, que)` for the tasks of a list, in the order of
the list. -/
def append_all (s : Kernel) (que : Nat) : List Nat → Kernel
  | [] => s
  | t :: ts => append_all (core_tsk_append s t que) que ts

/-- Successive calls `core_tsk_wakeup(*que, event)`, `n` of them: the state after the
calls and the returned pointers, in the order of the calls. -/
def wakeup_n (cfg : Config) (que : Nat) (event : event_t) : Nat → Kernel → Kernel × List (Option Nat)
  | 0, s => (s, [])
  | n + 1, s =>
    let r := core_tsk_wakeup cfg s (s.queue que).head? event
    let r2 := wakeup_n cfg que event n r.1
    (r2.1, r.2 :: r2.2)

/-- The value `now` is a reading of the clock taken in the state `s` or later: the tick
counter, which an interrupt handler does not advance, or one of the readings of the
hardware counter not yet taken. -/
def clock_reading (cfg : Config) (s : Kernel) (now : Nat) : Prop :=
  if cfg.hw_timer then ∃ k, s.hw_reads ≤ k ∧ now = s.hw_time k % CMOD cfg else now = s.cnt

/-- The state in which the main task has called `core_tsk_waitFor` on the wait list at
address 50 with a delay of 5 ticks, 5 ticks later. -/
def ex_delayed : Kernel :=
  { (core_tsk_waitFor cfg32 (boot cfg32 1) 50 5).1 with cnt := 5 }

/-- Successive calls `msg_give(msg, data, size)` for a list of pairs `(data, size)`: the
state after the calls and the returned lengths, in the order of the calls. -/
def give_all (cfg : Config) (msg : Nat) : List (Nat × Nat) → Kernel → Kernel × List Nat
  | [], s => (s, [])
  | f :: fs, s =>
    let r := msg_give cfg s msg f.1 f.2
    let r2 := give_all cfg msg fs r.1
    (r2.1, r.2 :: r2.2)

/-- Successive calls `msg_take(msg, data, size)` for a list of pairs `(data, size)`: the
state after the calls and, for every call, the returned length together with the bytes
found at `data` when the call returns. -/
def take_all (cfg : Config) (msg : Nat) :
    List (Nat × Nat) → Kernel → Kernel × List (Nat × List Nat)
  | [], s => (s, [])
  | d :: ds, s =>
    let r := msg_take cfg s msg d.1 d.2
    let r2 := take_all cfg msg ds r.1
    (r2.1, (r.2, load r.1.mem d.1 r.2) :: r2.2)

/-- The bytes of frames that follow the first one in the buffer: every frame is preceded
by the bytes of its length. -/
def tail_stream (cfg : Config) : List (List Nat) → List Nat
  | [] => []
  | g :: gs => enc_unsigned cfg.usz g.length ++ g ++ tail_stream cfg gs

/-- The bytes of a sequence of frames in the buffer: the first frame has no length in
front of it. -/
def stream (cfg : Config) : List (List Nat) → List Nat
  | [] => []
  | f :: gs => f ++ tail_stream cfg gs

/-- The buffer of a message queue holds the frames `fs`, and `size` is the length of
the first of them, or 0 when there is none. -/
def framed (cfg : Config) (m : msg_t) (fs : List (List Nat)) : Prop :=
  ring m = stream cfg fs ∧ m.size = (match fs with
    | [] => 0
    | f :: _ => f.length)

/-- The highest priority of the tasks in a wait list, 0 for an empty list. -/
def highest_prio (s : Kernel) (que : Nat) : Nat :=
  (s.queue que).foldr (fun w a => max (s.tsk w).prio a) 0

/-- As the specification words it: the highest priority of any task waiting on any lock
in the held-lock list of the task, 0 when no task waits. -/
def highest_waiter (s : Kernel) (tsk : Nat) : Nat :=
  (s.tsk tsk).mtx_list.foldr (fun mtx a => max (highest_prio s mtx) a) 0

/-- As the specification words it: the effective priority of a task for a requested
priority, the maximum of the requested priority, the basic priority and the highest
priority of any task blocked on a lock the task holds. -/
def effective_prio (s : Kernel) (tsk : Nat) (prio : Nat) : Nat :=
  max prio (max (s.tsk tsk).basic (highest_waiter s tsk))

/-- The task reached from `tsk` by following the owner pointer `mtx.tree` `n` times,
`none` when the chain of owners ends before. -/
def owner_n (f : Nat → tsk_t) : Nat → Nat → Option Nat
  | 0, tsk => some tsk
  | n + 1, tsk => (owner_n f n tsk).bind (fun x => (f x).mtx_tree)

/-- A task of priority 1 that holds the lock at address 60. -/
def ex_low : tsk_t :=
  { tsk_zero with id := tid_t.ID_READY, prio := 1, basic := 1, mtx_list := [60] }

/-- A task of priority 5 that waits for the lock at address 60, held by the task 7. -/
def ex_high : tsk_t :=
  { tsk_zero with
    id := tid_t.ID_DELAYED, prio := 5, basic := 5, guard := some 60, mtx_tree := some 7 }

/-- A state with the ready task 7 of priority 1 that holds the lock at address 60, on
which the task 8 of priority 5 waits. -/
def ex_inherit : Kernel :=
  { boot cfg32 1 with
    tsk := upd (upd (boot cfg32 1).tsk 7 ex_low) 8 ex_high,
    ready := [MAIN, 7],
    queue := upd (fun _ => []) 60 [8] }

/-! ## The wait lists at the level of the pointers -/

/-- The pointers that make up the wait lists.  `cell a` is the pointer `tsk_t *` stored
at the address `a`: the head `queue` of the object at `a`, which for a task is its
link `sub.obj.queue` to the next task of the wait list it is queued on; `back t` is
the pointer `t->back` to the cell that points to the task `t`. -/
structure Links where
  cell : Nat → Option Nat
  back : Nat → Nat

/-- The loop of `core_tsk_append`, run for at most `fuel` rounds: the address `que` of
the cell in front of which the walk stops. -/
def append_walk (tsk : Nat → tsk_t) (L : Links) (prio : Nat) : Nat → Nat → Nat
  | 0, que => que
  | fuel + 1, que =>
    match L.cell que with
    | some nxt => if prio ≤ (tsk nxt).prio then append_walk tsk L prio fuel nxt else que
    | none => que

/-- The pointer writes at the end of `core_tsk_append` for the cell at `que` in front of
which the walk has stopped: `nxt->back`, `tsk->back`, `tsk->sub.obj.queue` and `*que`,
in this order, with `nxt = *que` read before. -/
def link_before (L : Links) (t : Nat) (que : Nat) : Links :=
  let nxt := L.cell que
  let back1 := match nxt with
    | some n => upd L.back n t
    | none => L.back
  { cell := upd (upd L.cell t nxt) que (some t), back := upd back1 t que }

/-- Embedding of `core_tsk_append` on the pointers, with the loop run for at most `fuel`
rounds: the control blocks and the links after the call. -/
def core_tsk_append_links (fuel : Nat) (tsk : Nat → tsk_t) (L : Links) (t : Nat) (que : Nat) :
    (Nat → tsk_t) × Links :=
  let tsk1 := upd tsk t { tsk t with guard := some que }
  (tsk1, link_before L t (append_walk tsk1 L (tsk1 t).prio fuel que))

/-- The pointer writes of `core_tsk_unlink`: `nxt->back` and `*que`, with `que = tsk->back`
and `nxt = tsk->sub.obj.queue` read before, and then `tsk->sub.obj.queue`. -/
def link_out (L : Links) (t : Nat) : Links :=
  let que := L.back t
  let nxt := L.cell t
  let back1 := match nxt with
    | some n => upd L.back n que
    | none => L.back
  { cell := upd (upd L.cell que nxt) t none, back := back1 }

/-- Embedding of `core_tsk_unlink` on the pointers. -/
def core_tsk_unlink_links (tsk : Nat → tsk_t) (L : Links) (t : Nat) (event : event_t) :
    (Nat → tsk_t) × Links :=
  (upd tsk t { tsk t with event := event, guard := none }, link_out L t)

/-- The wait list whose head pointer is stored at the address `que` is the sequence `l`
of tasks: every cell points to the next task, the last one holds the null pointer,
and the back pointer of every task addresses the cell that points to it. -/
def is_chain (L : Links) : Nat → List Nat → Prop
  | que, [] => L.cell que = none
  | que, t :: l => L.cell que = some t ∧ L.back t = que ∧ is_chain L t l

/-- Whether a sequence is the chain of a wait list can be computed. -/
instance is_chain_decidable (L : Links) : (que : Nat) → (l : List Nat) →
    Decidable (is_chain L que l)
  | que, [] => inferInstanceAs (Decidable (L.cell que = none))
  | que, t :: l =>
    have : Decidable (is_chain L t l) := is_chain_decidable L t l
    inferInstanceAs (Decidable (L.cell que = some t ∧ L.back t = que ∧ is_chain L t l))

/-! ## Further relations used in the statements -/

/-- The frame that a blocked sender offers: the `evt.size` bytes at `tmp.odata`. -/
def sender_frame (s : Kernel) (t : Nat) : List Nat :=
  load s.mem (s.tsk t).odata (s.tsk t).evt_size

/-- As the specification words it: a frame of `e` bytes fits in a buffer of `limit` bytes
of which `count` are in use when the buffer is empty, or when the bytes of the frame
and of its length fit in the free part. -/
def frame_fits (cfg : Config) (limit count e : Nat) : Prop :=
  count = 0 ∨ count + e + cfg.usz ≤ limit

/-- The body of the loop of `priv_msg_getUpdate` for the task `q` at the head of the wait
list: its frame is written to the buffer and the task is woken. -/
def priv_msg_getUpdate_body (cfg : Config) (s : Kernel) (msg : Nat) (q : Nat) : Kernel :=
  let s1 := priv_msg_putSize cfg s msg (s.tsk q).evt_size
  let s2 := priv_msg_put cfg s1 msg (s1.tsk q).odata (s1.tsk q).evt_size
  let s3 := s2.setTsk q { s2.tsk q with evt_size := 0 }
  (core_tsk_wakeup cfg s3 (some q) event_t.E_SUCCESS).1

/-- The block of `priv_msg_putUpdate` that hands the frame at the head of the buffer to
the task `q` at the head of the wait list. -/
def priv_msg_putUpdate_body (cfg : Config) (s : Kernel) (msg : Nat) (q : Nat) : Kernel :=
  let s2 := priv_msg_get cfg s msg (s.tsk q).idata (s.msg msg).size
  let s3 := s2.setTsk q
    { s2.tsk q with
      evt_size := ((s2.tsk q).evt_size + UMOD cfg - (s2.msg msg).size % UMOD cfg) % UMOD cfg }
  let s4 := priv_msg_getSize cfg s3 msg
  (core_tsk_wakeup cfg s4 (some q) event_t.E_SUCCESS).1

/-- The task is blocked: it carries the tag `ID_DELAYED` and is not the current task. -/
@[reducible] def blocked (s : Kernel) (t : Nat) : Prop :=
  (s.tsk t).id = tid_t.ID_DELAYED ∧ t ≠ s.cur

/-! ## Further states used as examples -/

/-- The state after `msg_init` of a queue of 16 bytes at address 100, a `msg_give` of the
8 bytes at address 1000 and a `msg_sendFor` of the 8 bytes at address 2000 by the main
task, which does not fit and blocks the main task; the byte at address `a` of the user
memory is `a % 7`. -/
def ex_pull : Kernel :=
  (msg_sendFor cfg32
    (msg_give cfg32 (msg_init { boot cfg32 1 with mem := fun a => a % 7 } 100 16 (fun _ => 0))
      100 1000 8).1
    100 2000 8 5).1

/-- The state of `ex_pull` in the middle of a `msg_take` of 8 bytes to the address 3000:
the frame has been read by `priv_msg_get` and `priv_msg_getSize`, the call of
`priv_msg_getUpdate` is next. -/
def ex_taken : Kernel :=
  priv_msg_getSize cfg32 (priv_msg_get cfg32 ex_pull 100 3000 8) 100

/-- The state after `msg_init` of a queue of 16 bytes at address 100 and a `msg_waitFor` of
the main task for 3 bytes to the address 2000, which blocks the main task; the byte at
address `a` of the user memory is `a % 7`. -/
def ex_push : Kernel :=
  (msg_waitFor cfg32 (msg_init { boot cfg32 1 with mem := fun a => a % 7 } 100 16 (fun _ => 0))
    100 2000 3 5).1

/-- The boot state with a further task 7 of priority 1, which is not in the ready list. -/
def ex_second : Kernel :=
  { boot cfg32 1 with tsk := upd (boot cfg32 1).tsk 7 ex_low }

/-- The pointers of the wait list of `ex_inherit` at address 60, which holds the task 8. -/
def ex_links : Links :=
  { cell := upd (fun _ => none) 60 (some 8), back := fun _ => 60 }

/-- A ready task of priority 3. -/
def ex_mid : tsk_t :=
  { tsk_zero with id := tid_t.ID_READY, prio := 3, basic := 3 }

/-- A ready task of basic priority 1 that runs with the inherited priority 5. -/
def ex_boosted : tsk_t :=
  { tsk_zero with id := tid_t.ID_READY, prio := 5, basic := 1 }

/-- A state in which the main task runs with the inherited priority 5 over its basic
priority 1, and the task 7 of priority 3 is ready behind it. -/
def ex_lower : Kernel :=
  { boot cfg32 1 with
    tsk := upd (upd (boot cfg32 1).tsk 7 ex_mid) MAIN ex_boosted,
    ready := [MAIN, 7] }

/-- A blocked task of priority 5 that holds the lock at address 62 and waits for the lock
at address 60, held by the task 7. -/
def ex_waiter : tsk_t :=
  { tsk_zero with
    id := tid_t.ID_DELAYED, prio := 5, basic := 5, guard := some 60, mtx_tree := some 7,
    mtx_list := [62] }

/-- A blocked task of basic priority 1 and inherited priority 5 that holds the lock at
address 60 and waits for the lock at address 61, held by the task 6. -/
def ex_owner1 : tsk_t :=
  { tsk_zero with
    id := tid_t.ID_DELAYED, prio := 5, basic := 1, guard := some 61, mtx_tree := some 6,
    mtx_list := [60] }

/-- A ready task of basic priority 1 and inherited priority 5 that holds the lock at
address 61. -/
def ex_owner2 : tsk_t :=
  { tsk_zero with id := tid_t.ID_READY, prio := 5, basic := 1, mtx_list := [61] }

/-- A blocked task of priority 9 that waits for the lock at address 62, held by the
task 8. -/
def ex_urgent : tsk_t :=
  { tsk_zero with
    id := tid_t.ID_DELAYED, prio := 9, basic := 9, guard := some 62, mtx_tree := some 8 }

/-- A state with a chain of owners: the task 9 waits for a lock of the task 8, which waits
for a lock of the task 7, which waits for a lock of the ready task 6. -/
def ex_chain : Kernel :=
  { boot cfg32 1 with
    tsk := upd (upd (upd (upd (boot cfg32 1).tsk 6 ex_owner2) 7 ex_owner1) 8 ex_waiter) 9
      ex_urgent,
    ready := [6, MAIN],
    queue := upd (upd (upd (fun _ => []) 60 [8]) 61 [7]) 62 [9] }


/-! ## States and relations for the timer list -/

/-- A periodic timer of 5 ticks, started at tick 0. -/
def ex_tmr5 : tsk_t :=
  { tsk_zero with id := tid_t.ID_TIMER, delay := 5, period := 5 }

/-- The state in which the timer 7 of `ex_tmr5` runs and the main task has called
`core_tsk_waitFor` on the wait list of the timer with the delay `INFINITE`, 5 ticks
later. -/
def ex_forever : Kernel :=
  { (core_tsk_waitFor cfg32
      { boot cfg32 1 with tsk := upd (boot cfg32 1).tsk 7 ex_tmr5, timers := [7] }
      7 (INFINITE cfg32)).1 with cnt := 5 }

/-- As the specification words it: the timer list is sorted by non-decreasing expiry
`start + delay`, with all timers of delay `INFINITE` after all finite ones. -/
def tmr_sorted (cfg : Config) (f : Nat → tsk_t) (l : List Nat) : Prop :=
  l.Pairwise (fun a b =>
    ((f a).delay = INFINITE cfg → (f b).delay = INFINITE cfg) ∧
    ((f b).delay ≠ INFINITE cfg → (f a).start + (f a).delay ≤ (f b).start + (f b).delay))

/-- A state with the timer 7 of `ex_tmr5` in the timer list and a second timer 8 with the
same start and delay, which is not in the list. -/
def ex_equal : Kernel :=
  { boot cfg32 1 with
    tsk := upd (upd (boot cfg32 1).tsk 7 ex_tmr5) 8 ex_tmr5, timers := [7] }

/-- A periodic timer of 2 ticks with a first delay of 5 ticks, started at tick 0. -/
def ex_tmr2 : tsk_t :=
  { tsk_zero with id := tid_t.ID_TIMER, delay := 5, period := 2 }

/-- A state with the timer 7 of `ex_tmr2` at the head of the timer list, at tick 10. -/
def ex_late : Kernel :=
  { boot cfg32 1 with tsk := upd (boot cfg32 1).tsk 7 ex_tmr2, timers := [7], cnt := 10 }

/-! ## The ready list and the timer list at the level of the pointers -/

/-- The links `sub.next` and `sub.prev` of the nodes of a circular list, by the address of
the node. -/
structure Ring where
  next : Nat → Nat
  prev : Nat → Nat

/-- Embedding of `priv_rdy_insert` on the pointers: the writes `sub->prev`, `sub->next`,
`nxt->prev` and `prv->next`, in this order, with `prv = nxt->prev` read before. -/
def priv_rdy_insert_links (R : Ring) (sub nxt : Nat) : Ring :=
  let prv := R.prev nxt
  let prev1 := upd R.prev sub prv
  let next1 := upd R.next sub nxt
  let prev2 := upd prev1 nxt sub
  let next2 := upd next1 prv sub
  { next := next2, prev := prev2 }

/-- Embedding of `priv_rdy_remove` on the pointers: the writes `nxt->prev` and `prv->next`,
in this order, with `nxt = sub->next` and `prv = sub->prev` read before. -/
def priv_rdy_remove_links (R : Ring) (sub : Nat) : Ring :=
  let nxt := R.next sub
  let prv := R.prev sub
  let prev1 := upd R.prev nxt prv
  let next1 := upd R.next prv nxt
  { next := next1, prev := prev1 }

/-- The nodes of `l` are linked one after the other, in both directions, between the nodes
`a` and `z`. -/
def is_seg (R : Ring) : Nat → List Nat → Nat → Prop
  | a, [], z => R.next a = z ∧ R.prev z = a
  | a, b :: l, z => R.next a = b ∧ R.prev b = a ∧ is_seg R b l z

/-- Whether a sequence of nodes is linked between two nodes can be computed. -/
instance is_seg_decidable (R : Ring) : (a : Nat) → (l : List Nat) → (z : Nat) →
    Decidable (is_seg R a l z)
  | a, [], z => inferInstanceAs (Decidable (R.next a = z ∧ R.prev z = a))
  | a, b :: l, z =>
    have : Decidable (is_seg R b l z) := is_seg_decidable R b l z
    inferInstanceAs (Decidable (R.next a = b ∧ R.prev b = a ∧ is_seg R b l z))

/-- The circular list of the sentinel `h` is the sequence `l` of nodes: from `h` round to
`h`, every node is linked to the next one in both directions. -/
@[reducible] def is_ring (R : Ring) (h : Nat) (l : List Nat) : Prop :=
  is_seg R h l h

/-- The links given by the initialisers of `MAIN` and `IDLE`; the links of a node that is
in no list point to the node. -/
def ex_ring : Ring :=
  { next := upd (upd (fun n => n) IDLE MAIN) MAIN IDLE,
    prev := upd (upd (fun n => n) IDLE MAIN) MAIN IDLE }

/-- The loop `do nxt = nxt->sub.next; while (tsk->prio <= nxt->prio);` of `priv_tsk_insert`
from the node `nxt` on, run for at most `fuel` rounds: the node at which the loop ends,
`none` when it has not ended within the rounds. -/
def rdy_walk (tsk : Nat → tsk_t) (R : Ring) (prio : Nat) : Nat → Nat → Option Nat
  | 0, _ => none
  | fuel + 1, nxt =>
    if prio ≤ (tsk (R.next nxt)).prio then rdy_walk tsk R prio fuel (R.next nxt)
    else some (R.next nxt)

/-- Embedding of `priv_tsk_insert` on the pointers, for the control blocks `tsk`: the links
after the call, `none` when the loop has not ended within `fuel` rounds. -/
def priv_tsk_insert_links (fuel : Nat) (tsk : Nat → tsk_t) (R : Ring) (t : Nat) : Option Ring :=
  if (tsk t).prio ≠ 0 then
    (rdy_walk tsk R (tsk t).prio fuel IDLE).map (fun nxt => priv_rdy_insert_links R t nxt)
  else some (priv_rdy_insert_links R t IDLE)

/-- Embedding of `core_tsk_handler` on the pointers, for the control blocks and the current
task of the state `s`: the first node `IDLE.sub.next` is unlinked and linked again when it
is the current task or its time slice is used up; the links after the call, `none` when the
loop of `priv_tsk_insert` has not ended within `fuel` rounds. -/
def core_tsk_handler_links (cfg : Config) (fuel : Nat) (s : Kernel) (R : Ring) : Option Ring :=
  if s.cur = R.next IDLE then
    priv_tsk_insert_links fuel s.tsk (priv_rdy_remove_links R (R.next IDLE)) (R.next IDLE)
  else if (cfg.robin && !cfg.hw_timer) &&
      decide ((s.tsk (R.next IDLE)).slice ≥ cfg.slice_max) then
    priv_tsk_insert_links fuel s.tsk (priv_rdy_remove_links R (R.next IDLE)) (R.next IDLE)
  else some R

/-- Embedding of `core_tsk_prio` on the pointers of the ready list, with at most `fuel`
nested calls and at most `w` rounds of the loop of `priv_tsk_insert`: a ready task that is
not the current one is unlinked and linked again. -/
def core_tsk_prio_links (cfg : Config) (w : Nat) : Nat → Kernel → Ring → Nat → Nat → Option Ring
  | 0, _, R, _, _ => some R
  | fuel + 1, s, R, tsk, prio =>
    let p := inherited_prio s tsk prio
    if (s.tsk tsk).prio ≠ p then
      let s1 := s.setTsk tsk { s.tsk tsk with prio := p }
      if tsk = s1.cur then some R
      else if (s1.tsk tsk).id = tid_t.ID_READY then
        priv_tsk_insert_links w s1.tsk (priv_rdy_remove_links R tsk) tsk
      else if (s1.tsk tsk).id = tid_t.ID_DELAYED then
        let s2 := match (s1.tsk tsk).guard with
          | some que => core_tsk_transfer s1 tsk que
          | none => s1
        match (s2.tsk tsk).mtx_tree with
        | some owner => core_tsk_prio_links cfg w fuel s2 R owner p
        | none => some R
      else some R
    else some R

/-- The states of the scheduler, with the links of the ready list, that are reachable from
the initial ready list of `MAIN` and `IDLE` by `core_tsk_insert` of tasks that are not
ready, `core_tsk_remove` of ready tasks, priority changes of tasks other than `IDLE` and
`core_tsk_handler`.  In the initial state `IDLE` has the priority 0 and the tag `ID_IDLE`,
`MAIN` is the only task with the tag `ID_READY`, and `IDLE` is the owner of no lock. -/
inductive rdy_reach (cfg : Config) : Kernel → Ring → Prop
  | init (s : Kernel) (R : Ring) :
      s.ready = [MAIN] → is_ring R IDLE [MAIN] →
      (s.tsk IDLE).prio = 0 → (s.tsk IDLE).id = tid_t.ID_IDLE →
      (∀ t, (s.tsk t).id = tid_t.ID_READY ↔ t = MAIN) →
      (∀ t, (s.tsk t).mtx_tree ≠ some IDLE) → rdy_reach cfg s R
  | insert (s : Kernel) (R : Ring) (t w : Nat) (R' : Ring) :
      rdy_reach cfg s R → t ≠ IDLE → (s.tsk t).id ≠ tid_t.ID_READY →
      priv_tsk_insert_links w s.tsk R t = some R' → rdy_reach cfg (core_tsk_insert cfg s t) R'
  | remove (s : Kernel) (R : Ring) (t : Nat) :
      rdy_reach cfg s R → (s.tsk t).id = tid_t.ID_READY →
      rdy_reach cfg (core_tsk_remove s t) (priv_rdy_remove_links R t)
  | prio (s : Kernel) (R : Ring) (t p fuel w : Nat) (R' : Ring) :
      rdy_reach cfg s R → t ≠ IDLE →
      core_tsk_prio_links cfg w fuel s R t p = some R' →
      rdy_reach cfg (core_tsk_prio cfg fuel s t p) R'
  | cur_prio (s : Kernel) (R : Ring) (p : Nat) :
      rdy_reach cfg s R → s.cur ≠ IDLE → rdy_reach cfg (core_cur_prio s p) R
  | handler (s : Kernel) (R : Ring) (w : Nat) (R' : Ring) :
      rdy_reach cfg s R → core_tsk_handler_links cfg w s R = some R' →
      rdy_reach cfg (core_tsk_handler cfg s) R'

/-- The ready list of the state is the circular list of `IDLE` on the pointers, it holds no
node twice, `IDLE` has the priority 0 and the tag `ID_IDLE`, the tasks with the tag
`ID_READY` are the tasks of the ready list, and `IDLE` is the owner of no lock. -/
def rdy_inv (s : Kernel) (R : Ring) : Prop :=
  is_ring R IDLE s.ready ∧ (IDLE :: s.ready).Nodup ∧
  (s.tsk IDLE).prio = 0 ∧ (s.tsk IDLE).id = tid_t.ID_IDLE ∧
  (∀ t, (s.tsk t).id = tid_t.ID_READY ↔ t ∈ s.ready) ∧
  (∀ t, (s.tsk t).mtx_tree ≠ some IDLE)

/-- The boot state with a further task 7 of priority 5, which has not been started. -/
def ex_start : Kernel :=
  (boot cfg32 1).setTsk 7 { tsk_zero with prio := 5, basic := 5 }


/-! ## The states of a message queue -/

/-- The states reachable from `msg_init` of the message queue at the address `msg` with the
capacity `limit` by `msg_give`, `msg_take`, the blocking calls `msg_sendFor`,
`msg_sendUntil`, `msg_waitFor` and `msg_waitUntil` of a task that is not on the wait list of
the queue, `msg_kill`, context switches by `core_tsk_handler`, ticks of the counter and runs
of `core_tmr_handler`, which wakes the tasks whose delay has expired. -/
inductive msg_reach (cfg : Config) (msg limit : Nat) : Kernel → Prop
  | init (s : Kernel) (data : Nat → Nat) :
      1 ≤ limit → msg_reach cfg msg limit (msg_init s msg limit data)
  | give (s : Kernel) (data size : Nat) :
      msg_reach cfg msg limit s → msg_reach cfg msg limit (msg_give cfg s msg data size).1
  | take (s : Kernel) (data size : Nat) :
      msg_reach cfg msg limit s → msg_reach cfg msg limit (msg_take cfg s msg data size).1
  | sendFor (s : Kernel) (data size delay : Nat) :
      msg_reach cfg msg limit s → s.cur ∉ s.queue msg →
      msg_reach cfg msg limit (msg_sendFor cfg s msg data size delay).1
  | sendUntil (s : Kernel) (data size time : Nat) :
      msg_reach cfg msg limit s → s.cur ∉ s.queue msg →
      msg_reach cfg msg limit (msg_sendUntil cfg s msg data size time).1
  | waitFor (s : Kernel) (data size delay : Nat) :
      msg_reach cfg msg limit s → s.cur ∉ s.queue msg →
      msg_reach cfg msg limit (msg_waitFor cfg s msg data size delay).1
  | waitUntil (s : Kernel) (data size time : Nat) :
      msg_reach cfg msg limit s → s.cur ∉ s.queue msg →
      msg_reach cfg msg limit (msg_waitUntil cfg s msg data size time).1
  | kill (s : Kernel) :
      msg_reach cfg msg limit s → msg_reach cfg msg limit (msg_kill cfg s msg)
  | switch (s : Kernel) :
      msg_reach cfg msg limit s → msg_reach cfg msg limit (core_tsk_handler cfg s)
  | tick (s : Kernel) :
      msg_reach cfg msg limit s →
      msg_reach cfg msg limit { s with cnt := (s.cnt + 1) % CMOD cfg }
  | timer (s : Kernel) (fuel : Nat) :
      msg_reach cfg msg limit s → msg_reach cfg msg limit (core_tmr_handler cfg fuel s)

/-- The indices of the message queue are consistent, its capacity is `limit`, its buffer
holds a sequence of frames of at least one byte each, no task is twice on its wait list,
and when the buffer is not empty the tasks on the wait list are senders that offer a frame
of at least one and at most `limit` bytes. -/
def msg_inv (cfg : Config) (msg limit : Nat) (s : Kernel) : Prop :=
  msg_wf cfg (s.msg msg) ∧ (s.msg msg).limit = limit ∧
  (∃ fs, framed cfg (s.msg msg) fs ∧ ∀ f, f ∈ fs → 1 ≤ f.length) ∧
  (s.queue msg).Nodup ∧
  ((s.msg msg).count ≠ 0 → ∀ t, t ∈ s.queue msg →
    1 ≤ (s.tsk t).evt_size ∧ (s.tsk t).evt_size ≤ limit)

/-- A queue of 16 bytes at address 100 after a `msg_give` of 3 bytes from address 1000
and a `msg_give` of 2 bytes from address 2000. -/
def ex_frames : Kernel :=
  (msg_give cfg32 (msg_give cfg32 (msg_init (boot cfg32 1) 100 16 (fun _ => 0)) 100 1000 3).1
    100 2000 2).1

/-! ## States and relations for the scheduler and the timer handler -/

/-- A state in which the main task and the task 7 are ready with the priority 3, in front
of the task 8 of priority 1; the main task is the current one. -/
def ex_band : Kernel :=
  { boot cfg32 3 with
    tsk := upd (upd (boot cfg32 3).tsk 7 ex_mid) 8 ex_low,
    ready := [MAIN, 7, 8] }

/-- The test of the periodic-tick variant of `priv_tmr_expired` for the timer `t` at the
count of the tick counter of the state. -/
def tmr_expired_now (cfg : Config) (s : Kernel) (t : Nat) : Bool :=
  priv_tmr_expired_tick cfg s.cnt (s.tsk t).start (s.tsk t).delay

/-! ## Wait lists of several tasks at the level of the pointers -/

/-- Successive calls `core_tsk_append(tsk, que)` on the pointers for the tasks of a list,
in the order of the list, every walk run for at most `fuel` rounds. -/
def append_all_links (fuel : Nat) (que : Nat) :
    List Nat → (Nat → tsk_t) × Links → (Nat → tsk_t) × Links
  | [], r => r
  | t :: ts, r => append_all_links fuel que ts (core_tsk_append_links fuel r.1 r.2 t que)

/-- The pointer writes of `core_tsk_unlink` in successive calls
`core_tsk_wakeup(*que, event)`, `n` of them: every call reads the head `*que` of the wait
list. -/
def unlink_heads_links (event : event_t) (que : Nat) :
    Nat → (Nat → tsk_t) × Links → (Nat → tsk_t) × Links
  | 0, r => r
  | n + 1, r =>
    match r.2.cell que with
    | some t => unlink_heads_links event que n (core_tsk_unlink_links r.1 r.2 t event)
    | none => r

/-- A state in which the main task and the tasks 7, 5 and 9 are in the ready list, all
with the priority 3; the main task is the current one. -/
def ex_trio : Kernel :=
  { boot cfg32 3 with
    tsk := upd (upd (upd (boot cfg32 3).tsk 7 ex_mid) 5 ex_mid) 9 ex_mid,
    ready := [MAIN, 7, 5, 9] }

/-- The pointers of wait lists that are all empty. -/
def ex_nolinks : Links :=
  { cell := fun _ => none, back := fun _ => 0 }

/-! ## Further states of a message queue -/

/-- A receive with two blocked senders, before `priv_msg_getUpdate`.  In `ex_band`, with
the byte `a % 7` at the address `a` of the user memory, a queue of 32 bytes at address 100
is initialised and given the 8 bytes at address 1000 and the 4 bytes at address 1100; the
main task sends the 13 bytes at address 2000, which do not fit, and is blocked; after the
context switch the task 7 sends the 20 bytes at address 3000 and is blocked behind it.
The state is that of a `msg_take` of 8 bytes to the address 4000 after the frame has been
read by `priv_msg_get` and `priv_msg_getSize`. -/
def ex_senders : Kernel :=
  priv_msg_getSize cfg32 (priv_msg_get cfg32
    (msg_sendFor cfg32 (core_tsk_handler cfg32
      (msg_sendFor cfg32
        (msg_give cfg32 (msg_give cfg32
          (msg_init { ex_band with mem := fun a => a % 7 } 100 32 (fun _ => 0))
          100 1000 8).1 100 1100 4).1
        100 2000 13 5).1)
      100 3000 20 5).1
    100 4000 8) 100

/-- A queue of 3221225472 bytes at address 100 after `msg_init` on the 32-bit port; the
bytes of the user memory below the address 3000000000 are 1, the others are 0. -/
def ex_wrap0 : Kernel :=
  msg_init { boot cfg32 1 with mem := fun a => if a < 3000000000 then 1 else 0 }
    100 3221225472 (fun _ => 0)

/-- The queue of `ex_wrap0` after a `msg_give` of the byte at address 0. -/
def ex_wrap1 : Kernel :=
  (msg_give cfg32 ex_wrap0 100 0 1).1

/-- The queue of `ex_wrap1` after a `msg_give` of the 2147483648 bytes at address 0: the
buffer holds a frame of 1 byte and a frame of 2147483648 bytes. -/
def ex_wrap2 : Kernel :=
  (msg_give cfg32 ex_wrap1 100 0 2147483648).1

/-! ## Properties -/

/-! ### Maps and lists -/

@[simp] theorem upd_same {α : Type} (f : Nat → α) (k : Nat) (v : α) : upd f k v k = v := by
  simp [upd]

theorem upd_other {α : Type} (f : Nat → α) (k : Nat) (v : α) (i : Nat) (h : i ≠ k) :
    upd f k v i = f i := by
  simp [upd, h]


@[simp] theorem upd_upd {α : Type} (f : Nat → α) (k : Nat) (v w : α) :
    upd (upd f k v) k w = upd f k w := by
  funext i; simp only [upd]; split <;> rfl

theorem mem_priv_rdy_insert (sub : Nat) (nxt : Option Nat) (l : List Nat) (x : Nat) :
    x ∈ priv_rdy_insert sub nxt l ↔ x = sub ∨ x ∈ l := by
  cases nxt with
  | none => simp [priv_rdy_insert, or_comm]
  | some n =>
    induction l with
    | nil => simp [priv_rdy_insert]
    | cons a l ih =>
      unfold priv_rdy_insert
      split
      · simp
      · simp [ih]; tauto

/-! ### The wake-up of one task, field by field -/

theorem core_tsk_insert_eq (cfg : Config) (s : Kernel) (tsk : Nat) :
    core_tsk_insert cfg s tsk =
      { priv_tsk_insert cfg (s.setTsk tsk { s.tsk tsk with id := tid_t.ID_READY }) tsk with
        ctx_switch :=
          (priv_tsk_insert cfg (s.setTsk tsk { s.tsk tsk with id := tid_t.ID_READY }) tsk).ctx_switch
          || decide (tsk = IDLE_next
              (priv_tsk_insert cfg (s.setTsk tsk { s.tsk tsk with id := tid_t.ID_READY }) tsk)) } := by
  unfold core_tsk_insert
  simp only []
  split
  · rename_i h; simp [port_ctx_switch, ← h]
  · rename_i h; simp [h]

theorem wakeup_cur (cfg : Config) (s : Kernel) (t : Nat) (e : event_t) :
    (core_tsk_wakeup cfg s (some t) e).1.cur = s.cur := by
  simp only [core_tsk_wakeup, core_tsk_insert_eq, priv_tsk_insert]
  split <;> rfl

theorem wakeup_msg (cfg : Config) (s : Kernel) (t : Nat) (e : event_t) :
    (core_tsk_wakeup cfg s (some t) e).1.msg = s.msg := by
  simp only [core_tsk_wakeup, core_tsk_insert_eq, priv_tsk_insert]
  split <;> rfl

theorem wakeup_mem (cfg : Config) (s : Kernel) (t : Nat) (e : event_t) :
    (core_tsk_wakeup cfg s (some t) e).1.mem = s.mem := by
  simp only [core_tsk_wakeup, core_tsk_insert_eq, priv_tsk_insert]
  split <;> rfl

theorem wakeup_queue (cfg : Config) (s : Kernel) (t : Nat) (e : event_t) (q : Nat) :
    (core_tsk_wakeup cfg s (some t) e).1.queue q =
      (s.queue q).filter (fun n => decide (n ≠ t)) := by
  simp only [core_tsk_wakeup, core_tsk_insert_eq, priv_tsk_insert]
  split <;> rfl

theorem wakeup_timers (cfg : Config) (s : Kernel) (t : Nat) (e : event_t) :
    (core_tsk_wakeup cfg s (some t) e).1.timers =
      s.timers.filter (fun n => decide (n ≠ t)) := by
  simp only [core_tsk_wakeup, core_tsk_insert_eq, priv_tsk_insert]
  split <;> rfl

theorem wakeup_mem_ready (cfg : Config) (s : Kernel) (t : Nat) (e : event_t) (x : Nat) :
    x ∈ (core_tsk_wakeup cfg s (some t) e).1.ready ↔ x = t ∨ x ∈ s.ready := by
  simp only [core_tsk_wakeup, core_tsk_insert_eq, priv_tsk_insert]
  split <;>
  · simp only [mem_priv_rdy_insert]
    simp [core_tmr_remove, priv_tmr_remove, priv_rdy_remove, core_tsk_unlink, Kernel.setTsk]
    by_cases h : x = t <;> simp [h]

theorem wakeup_tsk_other (cfg : Config) (s : Kernel) (t : Nat) (e : event_t) (x : Nat)
    (h : x ≠ t) : (core_tsk_wakeup cfg s (some t) e).1.tsk x = s.tsk x := by
  simp only [core_tsk_wakeup, core_tsk_insert_eq, priv_tsk_insert]
  split <;>
    simp [core_tmr_remove, priv_tmr_remove, priv_rdy_remove, core_tsk_unlink, Kernel.setTsk,
      upd_other _ _ _ _ h]

theorem wakeup_tsk_self (cfg : Config) (s : Kernel) (t : Nat) (e : event_t) :
    (core_tsk_wakeup cfg s (some t) e).1.tsk t =
      { s.tsk t with
        id := tid_t.ID_READY, event := e, guard := none,
        slice := if cfg.robin && !cfg.hw_timer then 0 else (s.tsk t).slice } := by
  simp only [core_tsk_wakeup, core_tsk_insert_eq, priv_tsk_insert]
  split <;> rename_i h <;>
    simp [core_tmr_remove, priv_tmr_remove, priv_rdy_remove, core_tsk_unlink, Kernel.setTsk, h]


/-! ### The circular buffer -/

theorem mod_wrap (a l : Nat) (h : a < 2 * l) : a % l = if a < l then a else a - l := by
  split
  · exact Nat.mod_eq_of_lt (by assumption)
  · rename_i h1
    rw [Nat.mod_eq_sub_mod (by omega)]
    exact Nat.mod_eq_of_lt (by omega)

theorem putc_wf (cfg : Config) (m : msg_t) (c : Nat) (h : msg_wf cfg m)
    (hc : m.count < m.limit) :
    msg_wf cfg (priv_msg_putc cfg m c) ∧ ring (priv_msg_putc cfg m c) = ring m ++ [c] ∧
    (priv_msg_putc cfg m c).count = m.count + 1 ∧
    (priv_msg_putc cfg m c).size = m.size ∧ (priv_msg_putc cfg m c).limit = m.limit := by
  obtain ⟨hU, hf, hcl, hn⟩ := h
  have hnl : m.next < m.limit := by rw [hn]; exact Nat.mod_lt _ (by omega)
  have h1 : (m.next + 1) % UMOD cfg = m.next + 1 := Nat.mod_eq_of_lt (by omega)
  have h2 : (m.count + 1) % UMOD cfg = m.count + 1 := Nat.mod_eq_of_lt (by omega)
  have hw := mod_wrap (m.first + m.count) m.limit (by omega)
  have hw1 := mod_wrap (m.first + (m.count + 1)) m.limit (by omega)
  refine ⟨⟨hU, hf, ?_, ?_⟩, ?_, ?_, rfl, rfl⟩
  · simp only [priv_msg_putc, h2]; omega
  · simp only [priv_msg_putc, h1, h2]
    rw [hw1]
    rw [hw] at hn
    split <;> split <;> split at hn <;> omega
  · simp only [ring, priv_msg_putc, h2, List.range_succ, List.map_append, List.map_cons,
      List.map_nil]
    congr 1
    · apply List.map_congr_left
      intro k hk
      have hk' : k < m.count := List.mem_range.mp hk
      have hwk := mod_wrap (m.first + k) m.limit (by omega)
      have : (m.first + k) % m.limit ≠ m.next := by
        rw [hn, hw, hwk]
        split <;> split <;> omega
      simp [upd, this]
    · rw [← hn]; simp
  · simp only [priv_msg_putc, h2]

theorem getc_wf (cfg : Config) (m : msg_t) (h : msg_wf cfg m) (hc : 0 < m.count) :
    msg_wf cfg (priv_msg_getc cfg m).2 ∧
    ring m = (priv_msg_getc cfg m).1 :: ring (priv_msg_getc cfg m).2 ∧
    (priv_msg_getc cfg m).2.count = m.count - 1 ∧
    (priv_msg_getc cfg m).2.size = m.size ∧ (priv_msg_getc cfg m).2.limit = m.limit := by
  obtain ⟨hU, hf, hcl, hn⟩ := h
  have h1 : (m.first + 1) % UMOD cfg = m.first + 1 := Nat.mod_eq_of_lt (by omega)
  have h2 : (m.count + UMOD cfg - 1) % UMOD cfg = m.count - 1 := by
    have : m.count + UMOD cfg - 1 = (m.count - 1) + UMOD cfg := by omega
    rw [this, Nat.add_mod_right]
    exact Nat.mod_eq_of_lt (by omega)
  have hw := mod_wrap (m.first + m.count) m.limit (by omega)
  refine ⟨⟨hU, ?_, ?_, ?_⟩, ?_, ?_, rfl, rfl⟩
  · simp only [priv_msg_getc, h1]; split <;> omega
  · simp only [priv_msg_getc, h2]; omega
  · simp only [priv_msg_getc, h1, h2]
    rw [hn, hw]
    by_cases hlt : m.first + 1 < m.limit
    · have hw1 := mod_wrap (m.first + 1 + (m.count - 1)) m.limit (by omega)
      simp only [hlt, if_true]
      rw [hw1]; split <;> split <;> omega
    · have hw1 := mod_wrap (0 + (m.count - 1)) m.limit (by omega)
      simp only [hlt, if_false]
      rw [hw1]; split <;> split <;> omega
  · obtain ⟨n, hn'⟩ : ∃ n, m.count = n + 1 := ⟨m.count - 1, by omega⟩
    have h2' : (n + 1 + UMOD cfg - 1) % UMOD cfg = n := by rw [hn'] at h2; simpa using h2
    simp only [ring, priv_msg_getc, h1, hn', h2', List.range_succ_eq_map, List.map_cons,
      List.map_map, Nat.add_zero]
    rw [Nat.mod_eq_of_lt hf]
    congr 1
    apply List.map_congr_left
    intro k hk
    have hk' : k < n := List.mem_range.mp hk
    simp only [Function.comp]
    congr 1
    split
    · congr 1; omega
    · have : m.first + 1 = m.limit := by omega
      have e : m.first + (k + 1) = k + m.limit := by omega
      rw [e, Nat.add_mod_right]; simp
  · simp only [priv_msg_getc, h2]


theorem ring_length (m : msg_t) : (ring m).length = m.count := by
  simp [ring]

theorem putn_wf (cfg : Config) (bs : List Nat) (m : msg_t) (h : msg_wf cfg m)
    (hc : m.count + bs.length ≤ m.limit) :
    msg_wf cfg (msg_putn cfg bs m) ∧ ring (msg_putn cfg bs m) = ring m ++ bs ∧
    (msg_putn cfg bs m).count = m.count + bs.length ∧
    (msg_putn cfg bs m).size = m.size ∧ (msg_putn cfg bs m).limit = m.limit := by
  induction bs generalizing m with
  | nil => simp [msg_putn, h]
  | cons b bs ih =>
    simp only [List.length_cons] at hc
    obtain ⟨w1, r1, c1, s1, l1⟩ := putc_wf cfg m b h (by omega)
    obtain ⟨w2, r2, c2, s2, l2⟩ := ih (priv_msg_putc cfg m b) w1 (by rw [c1, l1]; omega)
    refine ⟨w2, ?_, ?_, ?_, ?_⟩
    · simp only [msg_putn]; rw [r2, r1]; simp
    · simp only [msg_putn, List.length_cons]; rw [c2, c1]; omega
    · simp only [msg_putn]; rw [s2, s1]
    · simp only [msg_putn]; rw [l2, l1]

theorem getn_wf (cfg : Config) (n : Nat) (m : msg_t) (h : msg_wf cfg m) (hc : n ≤ m.count) :
    msg_wf cfg (msg_getn cfg n m).2 ∧ (msg_getn cfg n m).1 = (ring m).take n ∧
    ring (msg_getn cfg n m).2 = (ring m).drop n ∧
    (msg_getn cfg n m).2.count = m.count - n ∧
    (msg_getn cfg n m).2.size = m.size ∧ (msg_getn cfg n m).2.limit = m.limit := by
  induction n generalizing m with
  | zero => simp [msg_getn, h]
  | succ n ih =>
    obtain ⟨w1, r1, c1, s1, l1⟩ := getc_wf cfg m h (by omega)
    obtain ⟨w2, t2, r2, c2, s2, l2⟩ := ih (priv_msg_getc cfg m).2 w1 (by rw [c1]; omega)
    refine ⟨w2, ?_, ?_, ?_, ?_, ?_⟩
    · simp only [msg_getn]; rw [t2, r1]; simp
    · simp only [msg_getn]; rw [r2, r1]; simp
    · simp only [msg_getn]; rw [c2, c1]; omega
    · simp only [msg_getn]; rw [s2, s1]
    · simp only [msg_getn]; rw [l2, l1]

theorem enc_unsigned_length (n v : Nat) : (enc_unsigned n v).length = n := by
  induction n generalizing v with
  | zero => rfl
  | succ n ih => simp [enc_unsigned, ih]

theorem dec_enc_unsigned (n v : Nat) (h : v < 256 ^ n) :
    dec_unsigned (enc_unsigned n v) = v := by
  induction n generalizing v with
  | zero => simp at h; simp [enc_unsigned, dec_unsigned, h]
  | succ n ih =>
    have h1 : v / 256 < 256 ^ n := by
      rw [Nat.div_lt_iff_lt_mul (by norm_num)]
      rw [pow_succ] at h; exact h
    simp only [enc_unsigned, dec_unsigned, ih _ h1, Nat.mod_mod]
    omega

theorem UMOD_eq (cfg : Config) : UMOD cfg = 256 ^ cfg.usz := by
  unfold UMOD
  rw [pow_mul]; norm_num

theorem store_other (bs : List Nat) (mem : Nat → Nat) (a x : Nat)
    (h : x < a ∨ a + bs.length ≤ x) : store mem a bs x = mem x := by
  induction bs generalizing mem a with
  | nil => rfl
  | cons b bs ih =>
    simp only [store]
    simp only [List.length_cons] at h
    rw [ih _ _ (by omega)]
    exact upd_other _ _ _ _ (by omega)

theorem load_store (bs : List Nat) (mem : Nat → Nat) (a : Nat) :
    load (store mem a bs) a bs.length = bs := by
  induction bs generalizing mem a with
  | nil => rfl
  | cons b bs ih =>
    simp only [load, List.length_cons, List.range_succ_eq_map, List.map_cons, List.map_map,
      store, Nat.add_zero]
    congr 1
    · rw [store_other _ _ _ _ (by omega)]; simp
    · have := ih (upd mem a b) (a + 1)
      simp only [load] at this
      refine Eq.trans ?_ this
      apply List.map_congr_left
      intro k _
      simp only [Function.comp]
      congr 1; omega

theorem load_length (mem : Nat → Nat) (a n : Nat) : (load mem a n).length = n := by
  simp [load]

/-! ### The loops over a wait list end by their own test, not by the bound on rounds -/

theorem putUpdate_loop_cons (cfg : Config) (msg n : Nat) (s : Kernel) (t : Nat) (rest : List Nat)
    (hq : s.queue msg = t :: rest) :
    priv_msg_putUpdate_loop cfg msg (n + 1) s =
      if (s.msg msg).size > (s.tsk t).evt_size then
        priv_msg_putUpdate_loop cfg msg n (core_tsk_wakeup cfg s (some t) event_t.E_TIMEOUT).1
      else s := by
  rw [priv_msg_putUpdate_loop, hq]; rfl

theorem getUpdate_loop_cons (cfg : Config) (msg n : Nat) (s : Kernel) (t : Nat) (rest : List Nat)
    (hq : s.queue msg = t :: rest) :
    priv_msg_getUpdate_loop cfg msg (n + 1) s =
      if (s.msg msg).count = 0 ∨
         ((s.msg msg).count + (s.tsk t).evt_size + cfg.usz) % UMOD cfg ≤ (s.msg msg).limit then
        priv_msg_getUpdate_loop cfg msg n
          (core_tsk_wakeup cfg
            ((priv_msg_put cfg (priv_msg_putSize cfg s msg (s.tsk t).evt_size) msg
              ((priv_msg_putSize cfg s msg (s.tsk t).evt_size).tsk t).odata
              ((priv_msg_putSize cfg s msg (s.tsk t).evt_size).tsk t).evt_size).setTsk t
            { (priv_msg_put cfg (priv_msg_putSize cfg s msg (s.tsk t).evt_size) msg
                ((priv_msg_putSize cfg s msg (s.tsk t).evt_size).tsk t).odata
                ((priv_msg_putSize cfg s msg (s.tsk t).evt_size).tsk t).evt_size).tsk t with
              evt_size := 0 }) (some t) event_t.E_SUCCESS).1
      else s := by
  rw [priv_msg_getUpdate_loop, hq]; rfl

theorem putUpdate_loop_exit (cfg : Config) (msg : Nat) (fuel : Nat) (s : Kernel)
    (hf : (s.queue msg).length ≤ fuel) :
    ∀ q, ((priv_msg_putUpdate_loop cfg msg fuel s).queue msg).head? = some q →
      ¬ ((priv_msg_putUpdate_loop cfg msg fuel s).msg msg).size >
        ((priv_msg_putUpdate_loop cfg msg fuel s).tsk q).evt_size := by
  induction fuel generalizing s with
  | zero =>
    have hq : s.queue msg = [] := List.eq_nil_of_length_eq_zero (by omega)
    intro q h
    simp [priv_msg_putUpdate_loop, hq] at h
  | succ n ih =>
    cases hq : s.queue msg with
    | nil => intro q h; simp [priv_msg_putUpdate_loop, hq] at h
    | cons t rest =>
      rw [putUpdate_loop_cons cfg msg n s t rest hq]
      by_cases hc : (s.msg msg).size > (s.tsk t).evt_size
      · rw [if_pos hc]
        apply ih
        rw [wakeup_queue, hq]
        have h1 := List.length_filter_le (fun n => decide (n ≠ t)) rest
        rw [hq] at hf; simp only [List.length_cons] at hf
        rw [List.filter_cons_of_neg (by simp)]
        omega
      · rw [if_neg hc]
        intro q h
        rw [hq] at h
        simp only [List.head?_cons, Option.some.injEq] at h
        rw [← h]; exact hc

theorem getUpdate_loop_exit (cfg : Config) (msg : Nat) (fuel : Nat) (s : Kernel)
    (hf : (s.queue msg).length ≤ fuel) :
    ∀ q, ((priv_msg_getUpdate_loop cfg msg fuel s).queue msg).head? = some q →
      ¬ (((priv_msg_getUpdate_loop cfg msg fuel s).msg msg).count = 0 ∨
        (((priv_msg_getUpdate_loop cfg msg fuel s).msg msg).count +
          ((priv_msg_getUpdate_loop cfg msg fuel s).tsk q).evt_size + cfg.usz) % UMOD cfg ≤
          ((priv_msg_getUpdate_loop cfg msg fuel s).msg msg).limit) := by
  induction fuel generalizing s with
  | zero =>
    have hq : s.queue msg = [] := List.eq_nil_of_length_eq_zero (by omega)
    intro q h
    simp [priv_msg_getUpdate_loop, hq] at h
  | succ n ih =>
    cases hq : s.queue msg with
    | nil => intro q h; simp [priv_msg_getUpdate_loop, hq] at h
    | cons t rest =>
      rw [getUpdate_loop_cons cfg msg n s t rest hq]
      by_cases hc : (s.msg msg).count = 0 ∨
         ((s.msg msg).count + (s.tsk t).evt_size + cfg.usz) % UMOD cfg ≤ (s.msg msg).limit
      · rw [if_pos hc]
        apply ih
        rw [wakeup_queue]
        have e : (((priv_msg_put cfg (priv_msg_putSize cfg s msg (s.tsk t).evt_size) msg
              ((priv_msg_putSize cfg s msg (s.tsk t).evt_size).tsk t).odata
              ((priv_msg_putSize cfg s msg (s.tsk t).evt_size).tsk t).evt_size).setTsk t
            { (priv_msg_put cfg (priv_msg_putSize cfg s msg (s.tsk t).evt_size) msg
                ((priv_msg_putSize cfg s msg (s.tsk t).evt_size).tsk t).odata
                ((priv_msg_putSize cfg s msg (s.tsk t).evt_size).tsk t).evt_size).tsk t with
              evt_size := 0 }).queue msg) = s.queue msg := by
          unfold priv_msg_put priv_msg_putSize
          simp only [Kernel.setTsk, Kernel.setMsg]
          split
          · rfl
          · split <;> rfl
        rw [e, hq]
        have h1 := List.length_filter_le (fun n => decide (n ≠ t)) rest
        rw [hq] at hf; simp only [List.length_cons] at hf
        rw [List.filter_cons_of_neg (by simp)]
        omega
      · rw [if_neg hc]
        intro q h
        rw [hq] at h
        simp only [List.head?_cons, Option.some.injEq] at h
        rw [← h]; exact hc


/-! ### C9: free space -/

theorem priv_msg_space_cases (cfg : Config) (s : Kernel) (msg : Nat) :
    ((s.msg msg).count = 0 → msg_space cfg s msg = (s.msg msg).limit) ∧
    (0 < (s.msg msg).count → s.queue msg = [] →
      (s.msg msg).count + cfg.usz < (s.msg msg).limit → (s.msg msg).limit < UMOD cfg →
      msg_space cfg s msg = (s.msg msg).limit - (s.msg msg).count - cfg.usz) ∧
    (0 < (s.msg msg).count →
      (s.queue msg ≠ [] ∨
        ((s.msg msg).limit ≤ (s.msg msg).count + cfg.usz ∧
          (s.msg msg).count + cfg.usz < UMOD cfg)) →
      msg_space cfg s msg = 0) := by
  refine ⟨?_, ?_, ?_⟩
  · intro h
    simp [msg_space, priv_msg_space, h]
  · intro h0 hq hlt hU
    have h1 : (s.msg msg).count ≠ 0 := by omega
    have h2 : ((s.msg msg).count + cfg.usz) % UMOD cfg = (s.msg msg).count + cfg.usz :=
      Nat.mod_eq_of_lt (by omega)
    have h3 : (s.msg msg).count % UMOD cfg = (s.msg msg).count := Nat.mod_eq_of_lt (by omega)
    have h4 : cfg.usz % UMOD cfg = cfg.usz := Nat.mod_eq_of_lt (by omega)
    simp only [msg_space, priv_msg_space, h1, hq, h2, hlt, h3, h4, if_false, and_self, if_true]
    have h5 : (s.msg msg).limit + 2 * UMOD cfg - (s.msg msg).count - cfg.usz
        = ((s.msg msg).limit - (s.msg msg).count - cfg.usz) + 2 * UMOD cfg := by omega
    rw [h5, Nat.add_mul_mod_self_right]
    exact Nat.mod_eq_of_lt (by omega)
  · intro h0 h
    have h1 : (s.msg msg).count ≠ 0 := by omega
    rcases h with hq | ⟨hle, hU⟩
    · simp [msg_space, priv_msg_space, h1, hq]
    · have h2 : ((s.msg msg).count + cfg.usz) % UMOD cfg = (s.msg msg).count + cfg.usz :=
        Nat.mod_eq_of_lt hU
      have h3 : ¬ ((s.msg msg).count + cfg.usz < (s.msg msg).limit) := by omega
      simp [msg_space, priv_msg_space, h1, h2, h3]

/-- C9 as amended, free space.  `msg_space` returns `limit` when `count = 0`; returns
`limit - count - sizeof(unsigned)` when `count > 0`, no task is queued on the wait list
and `count + sizeof(unsigned) < limit` (`limit` being a value of `unsigned`); and returns
0 when `count > 0` and a task is queued on the wait list or
`limit <= count + sizeof(unsigned)` (the sum being a value of `unsigned`). -/
theorem msg_space_amended (cfg : Config) (s : Kernel) (msg : Nat) :
    ((s.msg msg).count = 0 → msg_space cfg s msg = (s.msg msg).limit) ∧
    (0 < (s.msg msg).count → s.queue msg = [] →
      (s.msg msg).count + cfg.usz < (s.msg msg).limit → (s.msg msg).limit < UMOD cfg →
      msg_space cfg s msg = (s.msg msg).limit - (s.msg msg).count - cfg.usz) ∧
    (0 < (s.msg msg).count →
      (s.queue msg ≠ [] ∨
        ((s.msg msg).limit ≤ (s.msg msg).count + cfg.usz ∧
          (s.msg msg).count + cfg.usz < UMOD cfg)) →
      msg_space cfg s msg = 0) :=
  priv_msg_space_cases cfg s msg

/-- Witness of C9 as amended: a fresh queue of 8 bytes has 8 bytes of space, and none
once 6 bytes are in use. -/
theorem msg_space_amended_witness :
    msg_space cfg32 (msg_init (boot cfg32 1) 100 8 (fun _ => 0)) 100 = 8 ∧
    msg_space cfg32 ex_space 100 = 0 :=
  ⟨(msg_space_amended cfg32 (msg_init (boot cfg32 1) 100 8 (fun _ => 0)) 100).1 (by decide),
   (msg_space_amended cfg32 ex_space 100).2.2 (by decide) (Or.inr (by decide))⟩

/-- Counterexample to C9 as stated: with 6 of 8 bytes in use and no task queued,
`msg_space` returns 0, which is not `limit - count - sizeof(unsigned)`, neither as an
integer (-2) nor in the arithmetic of `unsigned` (2^32 - 2). -/
theorem msg_space_counterexample :
    0 < (ex_space.msg 100).count ∧ ex_space.queue 100 = [] ∧
    ((msg_space cfg32 ex_space 100 : Nat) : Int) ≠
      ((ex_space.msg 100).limit : Int) - ((ex_space.msg 100).count : Int) - (cfg32.usz : Int) ∧
    msg_space cfg32 ex_space 100 ≠
      ((ex_space.msg 100).limit + 2 * UMOD cfg32 - (ex_space.msg 100).count - cfg32.usz)
        % UMOD cfg32 := by
  decide

/-! ### C2: direct hand-off -/


theorem priv_tsk_wait_fields (cfg : Config) (s : Kernel) (tsk que : Nat) (y : Bool) :
    (priv_tsk_wait cfg s tsk que y).msg = s.msg ∧
    (priv_tsk_wait cfg s tsk que y).mem = s.mem ∧
    (priv_tsk_wait cfg s tsk que y).cur = s.cur ∧
    (priv_tsk_wait cfg s tsk que y).queue que =
      priv_rdy_insert tsk (tsk_walk (upd s.tsk tsk { s.tsk tsk with guard := some que })
        (s.tsk tsk).prio (s.queue que)) (s.queue que) ∧
    ((priv_tsk_wait cfg s tsk que y).tsk tsk).idata = (s.tsk tsk).idata ∧
    ((priv_tsk_wait cfg s tsk que y).tsk tsk).odata = (s.tsk tsk).odata ∧
    ((priv_tsk_wait cfg s tsk que y).tsk tsk).evt_size = (s.tsk tsk).evt_size ∧
    ((priv_tsk_wait cfg s tsk que y).tsk tsk).id = tid_t.ID_DELAYED := by
  unfold priv_tsk_wait
  cases y <;>
    simp [core_tsk_append, priv_tsk_remove, priv_rdy_remove, core_tmr_insert, priv_tmr_insert,
      port_ctx_switch, Kernel.setTsk]

theorem wait_blocked_fields (cfg : Config) (s : Kernel) (que time : Nat)
    (wait : Kernel → Nat → Nat → Kernel × Option event_t)
    (hwait : wait = core_tsk_waitFor cfg ∨ wait = core_tsk_waitUntil cfg)
    (hb : (wait s que time).2 = none) :
    (wait s que time).1.msg = s.msg ∧
    (wait s que time).1.mem = s.mem ∧
    (wait s que time).1.cur = s.cur ∧
    (s.queue que = [] → (wait s que time).1.queue que = [s.cur]) ∧
    ((wait s que time).1.tsk s.cur).idata = (s.tsk s.cur).idata ∧
    ((wait s que time).1.tsk s.cur).odata = (s.tsk s.cur).odata ∧
    ((wait s que time).1.tsk s.cur).evt_size = (s.tsk s.cur).evt_size ∧
    ((wait s que time).1.tsk s.cur).id = tid_t.ID_DELAYED := by
  rcases hwait with rfl | rfl
  · unfold core_tsk_waitFor at hb ⊢
    simp only [] at hb ⊢
    split at hb
    · simp at hb
    · rename_i hd
      simp only [hd, if_false]
      obtain ⟨h1, h2, h3, h4, h5, h6, h7, h8⟩ := priv_tsk_wait_fields cfg
        ((core_sys_time cfg s).2.setTsk s.cur
          { (core_sys_time cfg s).2.tsk s.cur with
            start := (core_sys_time cfg s).1, delay := time }) s.cur que true
      refine ⟨?_, ?_, ?_, ?_, ?_, ?_, ?_, ?_⟩
      · rw [h1]; unfold core_sys_time; split <;> rfl
      · rw [h2]; unfold core_sys_time; split <;> rfl
      · rw [h3]; unfold core_sys_time; split <;> rfl
      · intro hq
        rw [h4]
        have : ((core_sys_time cfg s).2.setTsk s.cur
          { (core_sys_time cfg s).2.tsk s.cur with
            start := (core_sys_time cfg s).1, delay := time }).queue que = [] := by
          unfold core_sys_time; split <;> exact hq
        rw [this]; simp [tsk_walk, priv_rdy_insert]
      · rw [h5]; unfold core_sys_time; split <;> simp [Kernel.setTsk]
      · rw [h6]; unfold core_sys_time; split <;> simp [Kernel.setTsk]
      · rw [h7]; unfold core_sys_time; split <;> simp [Kernel.setTsk]
      · exact h8
  · unfold core_tsk_waitUntil at hb ⊢
    simp only [] at hb ⊢
    split at hb
    · simp at hb
    · rename_i hd
      simp only [hd, if_false]
      obtain ⟨h1, h2, h3, h4, h5, h6, h7, h8⟩ := priv_tsk_wait_fields cfg
        ((core_sys_time cfg s).2.setTsk s.cur
          { (core_sys_time cfg s).2.tsk s.cur with
            start := (core_sys_time cfg s).1,
            delay := (time + CMOD cfg - (core_sys_time cfg s).1 % CMOD cfg) % CMOD cfg })
        s.cur que true
      refine ⟨?_, ?_, ?_, ?_, ?_, ?_, ?_, ?_⟩
      · rw [h1]; unfold core_sys_time; split <;> rfl
      · rw [h2]; unfold core_sys_time; split <;> rfl
      · rw [h3]; unfold core_sys_time; split <;> rfl
      · intro hq
        rw [h4]
        have : ((core_sys_time cfg s).2.setTsk s.cur
          { (core_sys_time cfg s).2.tsk s.cur with
            start := (core_sys_time cfg s).1,
            delay := (time + CMOD cfg - (core_sys_time cfg s).1 % CMOD cfg) % CMOD cfg }).queue
              que = [] := by
          unfold core_sys_time; split <;> exact hq
        rw [this]; simp [tsk_walk, priv_rdy_insert]
      · rw [h5]; unfold core_sys_time; split <;> simp [Kernel.setTsk]
      · rw [h6]; unfold core_sys_time; split <;> simp [Kernel.setTsk]
      · rw [h7]; unfold core_sys_time; split <;> simp [Kernel.setTsk]
      · exact h8

theorem sub_self_wrap (cfg : Config) (S : Nat) (h : S < UMOD cfg) :
    (S + UMOD cfg - S % UMOD cfg) % UMOD cfg = 0 := by
  rw [Nat.mod_eq_of_lt h]
  have : S + UMOD cfg - S = UMOD cfg := by omega
  rw [this, Nat.mod_self]

theorem give_to_receiver (cfg : Config) (s : Kernel) (msg r dst src S : Nat)
    (hwf : msg_wf cfg (s.msg msg)) (hempty : (s.msg msg).count = 0)
    (hq : s.queue msg = [r]) (hS : 1 ≤ S) (hSl : S ≤ (s.msg msg).limit)
    (hsz : (s.tsk r).evt_size = S) (hdst : (s.tsk r).idata = dst) :
    (msg_give cfg s msg src S).2 = S ∧
    ((msg_give cfg s msg src S).1.tsk r).event = event_t.E_SUCCESS ∧
    ((msg_give cfg s msg src S).1.tsk r).id = tid_t.ID_READY ∧
    r ∈ (msg_give cfg s msg src S).1.ready ∧
    load (msg_give cfg s msg src S).1.mem dst S = load s.mem src S ∧
    ((msg_give cfg s msg src S).1.tsk r).evt_size = 0 ∧
    ((msg_give cfg s msg src S).1.msg msg).count = 0 ∧
    ((msg_give cfg s msg src S).1.msg msg).size = 0 ∧
    (msg_give cfg s msg src S).1.queue msg = [] := by
  have hU : S < UMOD cfg := lt_of_le_of_lt hSl hwf.1
  have hg : msg_give cfg s msg src S = (msg_transmit cfg s msg src S, S) := by
    have h1 : S > 0 ∧ S ≤ (s.msg msg).limit := ⟨hS, hSl⟩
    simp [msg_give, h1, priv_msg_space, hempty, hSl]
  rw [hg]
  -- the frame is written to the buffer
  obtain ⟨m1, hm1⟩ : ∃ m1 : msg_t, m1 = { s.msg msg with size := S } := ⟨_, rfl⟩
  have hm1c : m1.count = 0 := by rw [hm1]; exact hempty
  have hm1l : m1.limit = (s.msg msg).limit := by rw [hm1]
  have hm1s : m1.size = S := by rw [hm1]
  have hwf1 : msg_wf cfg m1 := by rw [hm1]; exact hwf
  have hring1 : ring m1 = [] := by simp [ring, hm1c]
  obtain ⟨m2, hm2⟩ : ∃ m2 : msg_t, m2 = msg_putn cfg (load s.mem src S) m1 := ⟨_, rfl⟩
  obtain ⟨w2, r2, c2, s2, l2⟩ := putn_wf cfg (load s.mem src S) m1 hwf1
    (by simp [load_length, hm1c, hm1l, hSl])
  rw [← hm2] at w2 r2 c2 s2 l2
  simp only [hring1, List.nil_append, hm1c, load_length, Nat.zero_add, hm1s] at r2 c2 s2
  -- and read back for the receiver
  obtain ⟨m3, hm3⟩ : ∃ m3 : msg_t, m3 = (msg_getn cfg S m2).2 := ⟨_, rfl⟩
  obtain ⟨w3, t3, r3, c3, s3, l3⟩ := getn_wf cfg S m2 w2 (by rw [c2])
  rw [← hm3] at w3 r3 c3 s3 l3
  rw [r2] at t3
  rw [c2, Nat.sub_self] at c3
  have hlen : (load s.mem src S).length = S := load_length _ _ _
  rw [List.take_of_length_le (by omega)] at t3
  have e1 : priv_msg_put cfg (priv_msg_putSize cfg s msg S) msg src S = s.setMsg msg m2 := by
    rw [hm2, hm1]
    simp [priv_msg_put, priv_msg_putSize, hempty, Kernel.setMsg]
  have hloop : priv_msg_putUpdate_loop cfg msg 1 (s.setMsg msg m2) = s.setMsg msg m2 := by
    simp [priv_msg_putUpdate_loop, Kernel.setMsg, hq, hsz, s2]
  simp only [msg_transmit, e1, priv_msg_putUpdate]
  have hq1 : (s.setMsg msg m2).queue msg = [r] := hq
  simp only [hq1, List.length_singleton, hloop, List.head?_cons]
  simp only [wakeup_queue, wakeup_tsk_self, wakeup_mem, wakeup_msg, wakeup_mem_ready]
  simp only [priv_msg_getSize, priv_msg_get, Kernel.setTsk, Kernel.setMsg, upd_same, ← hm3, c3,
    hdst, t3, hq, if_true, s2, hsz]
  refine ⟨trivial, trivial, trivial, by simp, ?_, ?_, ?_, ?_, ?_⟩
  · have := load_store (load s.mem src S) s.mem dst
    rw [hlen] at this
    exact this
  · rw [s3, s2]; exact sub_self_wrap cfg S hU
  · trivial
  · trivial
  · simp


/-- C2, direct hand-off.  On an empty message queue without waiting tasks the current task
is blocked by `priv_msg_wait` (through `core_tsk_waitFor` or `core_tsk_waitUntil`) with a
requested size `S >= 1`; it is then the one task on the wait list.  In every later state
`s'` in which the queue, its wait list and the transfer fields of the receiver are as the
blocking call left them, a `msg_give` of exactly `S` bytes (`S <= limit`) returns `S`,
wakes the receiver with `E_SUCCESS` into the ready list, has copied the `S` bytes of the
source to the receiver's destination, makes the receiver's call return `S`, and leaves
`count = 0`, `size = 0` and an empty wait list. -/
theorem msg_direct_handoff (cfg : Config) (s : Kernel) (msg dst src S time : Nat)
    (wait : Kernel → Nat → Nat → Kernel × Option event_t)
    (hwait : wait = core_tsk_waitFor cfg ∨ wait = core_tsk_waitUntil cfg)
    (hwf : msg_wf cfg (s.msg msg)) (hcount : (s.msg msg).count = 0)
    (hsize : (s.msg msg).size = 0) (hq : s.queue msg = [])
    (hS : 1 ≤ S) (hSl : S ≤ (s.msg msg).limit)
    (hblocked : (priv_msg_wait cfg s msg dst S time wait).2 = none) :
    (priv_msg_wait cfg s msg dst S time wait).1.queue msg = [s.cur] ∧
    ∀ s' : Kernel,
      s'.msg msg = (priv_msg_wait cfg s msg dst S time wait).1.msg msg →
      s'.queue msg = (priv_msg_wait cfg s msg dst S time wait).1.queue msg →
      (s'.tsk s.cur).evt_size =
        ((priv_msg_wait cfg s msg dst S time wait).1.tsk s.cur).evt_size →
      (s'.tsk s.cur).idata = ((priv_msg_wait cfg s msg dst S time wait).1.tsk s.cur).idata →
      (msg_give cfg s' msg src S).2 = S ∧
      ((msg_give cfg s' msg src S).1.tsk s.cur).event = event_t.E_SUCCESS ∧
      ((msg_give cfg s' msg src S).1.tsk s.cur).id = tid_t.ID_READY ∧
      s.cur ∈ (msg_give cfg s' msg src S).1.ready ∧
      load (msg_give cfg s' msg src S).1.mem dst S = load s'.mem src S ∧
      msg_resume cfg (msg_give cfg s' msg src S).1 s.cur S = S ∧
      ((msg_give cfg s' msg src S).1.msg msg).count = 0 ∧
      ((msg_give cfg s' msg src S).1.msg msg).size = 0 ∧
      (msg_give cfg s' msg src S).1.queue msg = [] := by
  have hS0 : S > 0 := hS
  have hns : ¬ ((s.msg msg).size > 0) := by omega
  obtain ⟨s0, hs0⟩ : ∃ s0 : Kernel,
    s0 = s.setTsk s.cur { s.tsk s.cur with idata := dst, evt_size := S } := ⟨_, rfl⟩
  have hcur0 : s0.cur = s.cur := by rw [hs0]; rfl
  have hw1 : (priv_msg_wait cfg s msg dst S time wait).1 = (wait s0 msg time).1 := by
    rw [hs0]; unfold priv_msg_wait; simp only [hS0, hns, if_true, if_false]
    split <;> rfl
  have hb : (wait s0 msg time).2 = none := by
    rw [hs0]
    unfold priv_msg_wait at hblocked; simp only [hS0, hns, if_true, if_false] at hblocked
    split at hblocked
    · simp at hblocked
    · assumption
  obtain ⟨f1, f2, f3, f4, f5, f6, f7, f8⟩ := wait_blocked_fields cfg s0 msg time wait hwait hb
  rw [hcur0] at f4 f5 f6 f7 f8
  have hq0 : s0.queue msg = [] := by rw [hs0]; exact hq
  have hmsg0 : s0.msg = s.msg := by rw [hs0]; rfl
  have hi0 : (s0.tsk s.cur).idata = dst := by rw [hs0]; simp [Kernel.setTsk]
  have he0 : (s0.tsk s.cur).evt_size = S := by rw [hs0]; simp [Kernel.setTsk]
  rw [hw1]
  refine ⟨f4 hq0, ?_⟩
  intro s' hm' hq' he' hi'
  rw [f1, hmsg0] at hm'
  have key := give_to_receiver cfg s' msg s.cur dst src S
    (by rw [hm']; exact hwf) (by rw [hm']; exact hcount) (by rw [hq']; exact f4 hq0) hS
    (by rw [hm']; exact hSl) (by rw [he', f7, he0]) (by rw [hi', f5, hi0])
  obtain ⟨k1, k2, k3, k4, k5, k6, k7, k8, k9⟩ := key
  refine ⟨k1, k2, k3, k4, k5, ?_, k7, k8, k9⟩
  unfold msg_resume
  rw [k6]
  have hU : S < UMOD cfg := lt_of_le_of_lt hSl hwf.1
  simp [Nat.mod_eq_of_lt hU]

/-- Witness of C2: the main task waits for 3 bytes on a queue of 8 bytes. -/
theorem msg_direct_handoff_witness :
    (msg_give cfg32 (priv_msg_wait cfg32 (msg_init (boot cfg32 1) 100 8 (fun _ => 0)) 100 2000 3 5
      (core_tsk_waitFor cfg32)).1 100 1000 3).2 = 3 :=
  ((msg_direct_handoff cfg32 (msg_init (boot cfg32 1) 100 8 (fun _ => 0)) 100 2000 1000 3 5
    (core_tsk_waitFor cfg32) (Or.inl rfl) (by unfold msg_wf; decide) (by decide) (by decide)
    (by decide) (by decide) (by decide) (by decide)).2 _ rfl rfl rfl rfl).1

/-! ### C3: preemption -/

theorem tsk_walk_congr (f g : Nat → tsk_t) (p : Nat) (l : List Nat)
    (h : ∀ n, (f n).prio = (g n).prio) : tsk_walk f p l = tsk_walk g p l := by
  induction l with
  | nil => rfl
  | cons a l ih => simp only [tsk_walk, h a, ih]

theorem priv_tsk_insert_prio (cfg : Config) (s : Kernel) (tsk n : Nat) :
    ((priv_tsk_insert cfg s tsk).tsk n).prio = (s.tsk n).prio := by
  unfold priv_tsk_insert
  simp only []
  split
  · by_cases h : n = tsk
    · subst h; simp [Kernel.setTsk]
    · simp [Kernel.setTsk, upd_other _ _ _ _ h]
  · rfl

theorem priv_tsk_insert_ready (cfg : Config) (s : Kernel) (tsk : Nat) :
    (priv_tsk_insert cfg s tsk).ready =
      priv_rdy_insert tsk
        (if (s.tsk tsk).prio ≠ 0 then tsk_walk s.tsk (s.tsk tsk).prio s.ready else none)
        s.ready := by
  unfold priv_tsk_insert
  simp only []
  split
  · have hp : ∀ n, ((s.setTsk tsk { s.tsk tsk with slice := 0 }).tsk n).prio = (s.tsk n).prio := by
      intro n
      by_cases h : n = tsk
      · subst h; simp [Kernel.setTsk]
      · simp [Kernel.setTsk, upd_other _ _ _ _ h]
    rw [tsk_walk_congr _ _ _ _ hp, hp tsk]
    rfl
  · rfl

theorem priv_tsk_insert_front (cfg : Config) (s : Kernel) (tsk c : Nat) (rest : List Nat)
    (hr : s.ready = c :: rest) (hp : (s.tsk c).prio < (s.tsk tsk).prio) :
    (priv_tsk_insert cfg s tsk).ready = tsk :: c :: rest := by
  rw [priv_tsk_insert_ready, hr]
  have h0 : (s.tsk tsk).prio ≠ 0 := by omega
  have h1 : ¬ ((s.tsk tsk).prio ≤ (s.tsk c).prio) := by omega
  simp [h0, tsk_walk, h1, priv_rdy_insert]

theorem core_tsk_insert_prio (cfg : Config) (s : Kernel) (tsk n : Nat) :
    ((core_tsk_insert cfg s tsk).tsk n).prio = (s.tsk n).prio := by
  rw [core_tsk_insert_eq]
  simp only [priv_tsk_insert_prio]
  by_cases h : n = tsk
  · subst h; simp [Kernel.setTsk]
  · simp [Kernel.setTsk, upd_other _ _ _ _ h]

theorem core_tsk_insert_front (cfg : Config) (s : Kernel) (tsk c : Nat) (rest : List Nat)
    (hr : s.ready = c :: rest) (hp : (s.tsk c).prio < (s.tsk tsk).prio) (hne : c ≠ tsk) :
    (core_tsk_insert cfg s tsk).ready = tsk :: c :: rest ∧
    (core_tsk_insert cfg s tsk).ctx_switch = true ∧
    (core_tsk_insert cfg s tsk).cur = s.cur := by
  have hf := priv_tsk_insert_front cfg (s.setTsk tsk { s.tsk tsk with id := tid_t.ID_READY })
    tsk c rest hr (by simp [Kernel.setTsk, upd_other _ _ _ _ hne]; exact hp)
  rw [core_tsk_insert_eq]
  refine ⟨hf, ?_, ?_⟩
  · simp [IDLE_next, hf]
  · simp only [priv_tsk_insert]; split <;> rfl

theorem tsk_rotate_front (cfg : Config) (s : Kernel) (tsk c : Nat) (rest : List Nat)
    (hidle : tsk ≠ IDLE) (hr : s.ready = tsk :: c :: rest) (hn : tsk ∉ c :: rest)
    (hp : (s.tsk c).prio < (s.tsk tsk).prio) :
    (tsk_rotate cfg s tsk).cur = tsk ∧ (tsk_rotate cfg s tsk).ready = tsk :: c :: rest ∧
    ∀ n, ((tsk_rotate cfg s tsk).tsk n).prio = (s.tsk n).prio := by
  have hrem : (priv_tsk_remove s tsk).ready = c :: rest := by
    simp only [priv_tsk_remove, priv_rdy_remove, hr]
    rw [List.filter_cons_of_neg (by simp)]
    exact List.filter_eq_self.mpr (fun a ha => by
      have : a ≠ tsk := fun h => hn (h ▸ ha)
      simpa using this)
  have hf := priv_tsk_insert_front cfg (priv_tsk_remove s tsk) tsk c rest hrem hp
  unfold tsk_rotate
  simp only [hidle, if_false]
  refine ⟨by simp [IDLE_next, hf], hf, ?_⟩
  intro n
  rw [priv_tsk_insert_prio]; rfl

theorem handler_preempt (cfg : Config) (s1 : Kernel) (tsk c : Nat) (rest : List Nat)
    (hidle : tsk ≠ IDLE) (hr : s1.ready = tsk :: c :: rest) (hcur : s1.cur = c) (hne : c ≠ tsk)
    (hn : tsk ∉ c :: rest) (hp : (s1.tsk c).prio < (s1.tsk tsk).prio) :
    (core_tsk_handler cfg s1).cur = tsk ∧ (core_tsk_handler cfg s1).ready = tsk :: c :: rest ∧
    ∀ n, ((core_tsk_handler cfg s1).tsk n).prio = (s1.tsk n).prio := by
  obtain ⟨s0, hs0⟩ : ∃ s0 : Kernel, s0 = { s1 with ctx_switch := false } := ⟨_, rfl⟩
  have h0r : s0.ready = tsk :: c :: rest := by rw [hs0]; exact hr
  have h0c : s0.cur = c := by rw [hs0]; exact hcur
  have h0t : s0.tsk = s1.tsk := by rw [hs0]
  have hnx : IDLE_next s0 = tsk := by simp [IDLE_next, h0r]
  have e : core_tsk_handler cfg s1 =
      if s0.cur = IDLE_next s0 then tsk_rotate cfg s0 (IDLE_next s0)
      else if (cfg.robin && !cfg.hw_timer) &&
          decide ((s0.tsk (IDLE_next s0)).slice ≥ cfg.slice_max) then
        tsk_rotate cfg (s0.setTsk (IDLE_next s0) { s0.tsk (IDLE_next s0) with slice := 0 })
          (IDLE_next s0)
      else { s0 with cur := IDLE_next s0 } := by
    rw [hs0]; rfl
  rw [e, hnx, h0c, if_neg hne]
  split
  · obtain ⟨s2, hs2⟩ : ∃ s2 : Kernel,
      s2 = s0.setTsk tsk { s0.tsk tsk with slice := 0 } := ⟨_, rfl⟩
    have h2p : ∀ n, (s2.tsk n).prio = (s1.tsk n).prio := by
      intro n
      rw [hs2, ← h0t]
      by_cases h : n = tsk
      · subst h; simp [Kernel.setTsk]
      · simp [Kernel.setTsk, upd_other _ _ _ _ h]
    have h2r : s2.ready = tsk :: c :: rest := by rw [hs2]; exact h0r
    rw [← hs2]
    obtain ⟨r1, r2, r3⟩ := tsk_rotate_front cfg s2 tsk c rest hidle h2r hn
      (by rw [h2p, h2p]; exact hp)
    exact ⟨r1, r2, fun n => by rw [r3, h2p]⟩
  · exact ⟨rfl, h0r, fun n => by rw [← h0t]⟩

/-- C3, preemption.  The ready list is sorted by non-increasing priority and its first task
is the running task `System.cur`; a task that is not in the list (and is not `IDLE`) has a
higher priority than the running one.  Then `core_tsk_insert` links the task first after
`IDLE` and requests a context switch, the following `core_tsk_handler` makes it
`System.cur`, and no task of the ready list has a higher priority than the current task
after the handler. -/
theorem preemption (cfg : Config) (s : Kernel) (tsk : Nat)
    (hsorted : s.ready.Pairwise (fun a b => (s.tsk b).prio ≤ (s.tsk a).prio))
    (hcur : s.ready.head? = some s.cur)
    (hidle : tsk ≠ IDLE) (hnot : tsk ∉ s.ready)
    (hprio : (s.tsk s.cur).prio < (s.tsk tsk).prio) :
    (core_tsk_insert cfg s tsk).ready = tsk :: s.ready ∧
    (core_tsk_insert cfg s tsk).ctx_switch = true ∧
    (core_tsk_handler cfg (core_tsk_insert cfg s tsk)).cur = tsk ∧
    ∀ t, t ∈ (core_tsk_handler cfg (core_tsk_insert cfg s tsk)).ready →
      ((core_tsk_handler cfg (core_tsk_insert cfg s tsk)).tsk t).prio ≤
        ((core_tsk_handler cfg (core_tsk_insert cfg s tsk)).tsk
          (core_tsk_handler cfg (core_tsk_insert cfg s tsk)).cur).prio := by
  obtain ⟨rest, hr⟩ : ∃ rest, s.ready = s.cur :: rest := by
    cases h : s.ready with
    | nil => rw [h] at hcur; simp at hcur
    | cons a l => rw [h] at hcur; simp at hcur; exact ⟨l, by rw [hcur]⟩
  have hne : s.cur ≠ tsk := fun h => hnot (by rw [hr, h]; exact List.mem_cons_self _ _)
  obtain ⟨i1, i2, i3⟩ := core_tsk_insert_front cfg s tsk s.cur rest hr hprio hne
  have hmax : ∀ t, t ∈ tsk :: s.cur :: rest → (s.tsk t).prio ≤ (s.tsk tsk).prio := by
    intro t ht
    rcases List.mem_cons.mp ht with h | h
    · rw [h]
    · rcases List.mem_cons.mp h with h | h
      · rw [h]; omega
      · rw [hr] at hsorted
        have := (List.pairwise_cons.mp hsorted).1 t h
        omega
  have hnot' : tsk ∉ s.cur :: rest := by rw [← hr]; exact hnot
  obtain ⟨k1, k2, k3⟩ := handler_preempt cfg (core_tsk_insert cfg s tsk) tsk s.cur rest hidle i1
    i3 hne hnot' (by rw [core_tsk_insert_prio, core_tsk_insert_prio]; exact hprio)
  refine ⟨by rw [i1, hr], i2, k1, ?_⟩
  intro t ht
  rw [k2] at ht
  rw [k1, k3, k3, core_tsk_insert_prio, core_tsk_insert_prio]
  exact hmax t ht

/-- Witness of C3: a task of priority 5 is made ready while the main task of priority 1
runs. -/
theorem preemption_witness :
    (core_tsk_handler cfg32 (core_tsk_insert cfg32
      ((boot cfg32 1).setTsk 7 { tsk_zero with prio := 5, basic := 5 }) 7)).cur = 7 :=
  (preemption cfg32 ((boot cfg32 1).setTsk 7 { tsk_zero with prio := 5, basic := 5 }) 7
    (by decide) (by decide) (by decide) (by decide) (by decide)).2.2.1


/-! ### C6: kill wakes every waiter -/

theorem woken_wakeup_self (cfg : Config) (s : Kernel) (h : Nat) (e : event_t) :
    woken e h (core_tsk_wakeup cfg s (some h) e).1 := by
  refine ⟨(wakeup_mem_ready cfg s h e h).mpr (Or.inl rfl), ?_, ?_, ?_⟩
  · rw [wakeup_tsk_self]
  · rw [wakeup_tsk_self]
  · rw [wakeup_timers]; simp

theorem woken_wakeup_other (cfg : Config) (s : Kernel) (h t : Nat) (e e' : event_t)
    (hne : t ≠ h) (hw : woken e t s) : woken e t (core_tsk_wakeup cfg s (some h) e').1 := by
  obtain ⟨h1, h2, h3, h4⟩ := hw
  refine ⟨(wakeup_mem_ready cfg s h e' t).mpr (Or.inr h1), ?_, ?_, ?_⟩
  · rw [wakeup_tsk_other cfg s h e' t hne]; exact h2
  · rw [wakeup_tsk_other cfg s h e' t hne]; exact h3
  · rw [wakeup_timers]; intro hm; exact h4 (List.mem_filter.mp hm).1

theorem core_all_wakeup_loop_spec (cfg : Config) (que : Nat) (e : event_t) (fuel : Nat)
    (s : Kernel) (hf : (s.queue que).length ≤ fuel) :
    (core_all_wakeup_loop cfg que e fuel s).queue que = [] ∧
    (∀ t, t ∈ s.queue que → woken e t (core_all_wakeup_loop cfg que e fuel s)) ∧
    (∀ t, t ∉ s.queue que → woken e t s → woken e t (core_all_wakeup_loop cfg que e fuel s)) ∧
    (core_all_wakeup_loop cfg que e fuel s).msg = s.msg ∧
    (core_all_wakeup_loop cfg que e fuel s).mem = s.mem ∧
    (∀ t, ((core_all_wakeup_loop cfg que e fuel s).tsk t).evt_size = (s.tsk t).evt_size) := by
  induction fuel generalizing s with
  | zero =>
    have hq : s.queue que = [] := List.eq_nil_of_length_eq_zero (by omega)
    simp [core_all_wakeup_loop, hq]
  | succ n ih =>
    unfold core_all_wakeup_loop
    cases hq : s.queue que with
    | nil => simp [hq]
    | cons h rest =>
      simp only [List.head?_cons]
      have hq1 : (core_tsk_wakeup cfg s (some h) e).1.queue que =
          rest.filter (fun n => decide (n ≠ h)) := by
        rw [wakeup_queue, hq]; simp
      have hlen : ((core_tsk_wakeup cfg s (some h) e).1.queue que).length ≤ n := by
        rw [hq1]
        have := List.length_filter_le (fun n => decide (n ≠ h)) rest
        rw [hq] at hf; simp only [List.length_cons] at hf
        omega
      obtain ⟨i1, i2, i3, i4, i5, i6⟩ := ih (core_tsk_wakeup cfg s (some h) e).1 hlen
      have hnot : h ∉ (core_tsk_wakeup cfg s (some h) e).1.queue que := by
        rw [hq1]; simp
      refine ⟨i1, ?_, ?_, ?_, ?_, ?_⟩
      · intro t ht
        by_cases hth : t = h
        · subst hth
          exact i3 t hnot (woken_wakeup_self cfg s t e)
        · apply i2
          rw [hq1]
          rcases List.mem_cons.mp ht with h1 | h1
          · exact absurd h1 hth
          · exact List.mem_filter.mpr ⟨h1, by simpa using hth⟩
      · intro t ht hw
        have hth : t ≠ h := fun h1 => ht (by rw [h1]; exact List.mem_cons_self _ _)
        apply i3
        · rw [hq1]; intro hm
          exact ht (List.mem_cons_of_mem _ (List.mem_filter.mp hm).1)
        · exact woken_wakeup_other cfg s h t e e hth hw
      · rw [i4, wakeup_msg]
      · rw [i5, wakeup_mem]
      · intro t
        rw [i6]
        by_cases hth : t = h
        · subst hth; rw [wakeup_tsk_self]
        · rw [wakeup_tsk_other cfg s h e t hth]

/-- C6, kill wakes every waiter.  For every state of a message queue and of its wait list,
`msg_kill` leaves `count = 0`, `first = 0`, `next = 0` and `size = 0`, leaves the wait
list empty, and every task that was on the wait list is in the ready list with the tag
`ID_READY` and the event code `E_STOPPED`, and is not in the timer list. -/
theorem msg_kill_wakes_all (cfg : Config) (s : Kernel) (msg : Nat) :
    ((msg_kill cfg s msg).msg msg).count = 0 ∧ ((msg_kill cfg s msg).msg msg).first = 0 ∧
    ((msg_kill cfg s msg).msg msg).next = 0 ∧ ((msg_kill cfg s msg).msg msg).size = 0 ∧
    (msg_kill cfg s msg).queue msg = [] ∧
    ∀ t, t ∈ s.queue msg →
      t ∈ (msg_kill cfg s msg).ready ∧ ((msg_kill cfg s msg).tsk t).event = event_t.E_STOPPED ∧
      ((msg_kill cfg s msg).tsk t).id = tid_t.ID_READY ∧ t ∉ (msg_kill cfg s msg).timers := by
  unfold msg_kill core_all_wakeup
  obtain ⟨h1, h2, _, h4, _, _⟩ := core_all_wakeup_loop_spec cfg msg event_t.E_STOPPED
    ((s.setMsg msg { s.msg msg with count := 0, first := 0, next := 0, size := 0 }).queue
      msg).length
    (s.setMsg msg { s.msg msg with count := 0, first := 0, next := 0, size := 0 }) (le_refl _)
  rw [h4]
  refine ⟨by simp [Kernel.setMsg], by simp [Kernel.setMsg], by simp [Kernel.setMsg],
    by simp [Kernel.setMsg], h1, ?_⟩
  intro t ht
  exact h2 t ht


/-! ### C8: nothing transferred, nothing returned -/

theorem resume_zero (cfg : Config) (s : Kernel) (tsk size : Nat) (hsz : size < UMOD cfg)
    (he : (s.tsk tsk).evt_size = size) : msg_resume cfg s tsk size = 0 := by
  unfold msg_resume
  rw [he]
  exact sub_self_wrap cfg size hsz

theorem wait_blocked_mem (cfg : Config) (s : Kernel) (que time : Nat)
    (wait : Kernel → Nat → Nat → Kernel × Option event_t)
    (hwait : wait = core_tsk_waitFor cfg ∨ wait = core_tsk_waitUntil cfg)
    (hb : (wait s que time).2 = none) : s.cur ∈ (wait s que time).1.queue que := by
  rcases hwait with rfl | rfl
  · unfold core_tsk_waitFor at hb ⊢
    simp only [] at hb ⊢
    split at hb
    · simp at hb
    · rename_i hd
      simp only [hd, if_false]
      rw [(priv_tsk_wait_fields cfg _ s.cur que true).2.2.2.1]
      exact (mem_priv_rdy_insert _ _ _ _).mpr (Or.inl rfl)
  · unfold core_tsk_waitUntil at hb ⊢
    simp only [] at hb ⊢
    split at hb
    · simp at hb
    · rename_i hd
      simp only [hd, if_false]
      rw [(priv_tsk_wait_fields cfg _ s.cur que true).2.2.2.1]
      exact (mem_priv_rdy_insert _ _ _ _).mpr (Or.inl rfl)

theorem wait_immediate_event (cfg : Config) (s : Kernel) (que time : Nat)
    (wait : Kernel → Nat → Nat → Kernel × Option event_t)
    (hwait : wait = core_tsk_waitFor cfg ∨ wait = core_tsk_waitUntil cfg) (e : event_t)
    (hb : (wait s que time).2 = some e) :
    e = event_t.E_TIMEOUT ∧ ((wait s que time).1.tsk s.cur).evt_size = (s.tsk s.cur).evt_size := by
  rcases hwait with rfl | rfl
  · unfold core_tsk_waitFor at hb ⊢
    simp only [] at hb ⊢
    split at hb
    · rename_i hd
      simp only [hd, if_true]
      simp only [Option.some.injEq] at hb
      refine ⟨hb.symm, ?_⟩
      unfold core_sys_time; split <;> simp [Kernel.setTsk]
    · simp at hb
  · unfold core_tsk_waitUntil at hb ⊢
    simp only [] at hb ⊢
    split at hb
    · rename_i hd
      simp only [hd, if_true]
      simp only [Option.some.injEq] at hb
      refine ⟨hb.symm, ?_⟩
      unfold core_sys_time; split <;> simp [Kernel.setTsk]
    · simp at hb

theorem resume_zero_paths (cfg : Config) (s1 : Kernel) (tsk msg size : Nat)
    (hsz : size < UMOD cfg) (he : (s1.tsk tsk).evt_size = size)
    (hid : (s1.tsk tsk).id = tid_t.ID_DELAYED) (hq : tsk ∈ s1.queue msg) :
    (∀ (s' : Kernel) (e : event_t), (s'.tsk tsk).evt_size = (s1.tsk tsk).evt_size →
      ((core_tsk_wakeup cfg s' (some tsk) e).1.tsk tsk).event = e ∧
      msg_resume cfg (core_tsk_wakeup cfg s' (some tsk) e).1 tsk size = 0) ∧
    (((core_tmr_handler_body cfg s1 tsk).tsk tsk).event = event_t.E_TIMEOUT ∧
      msg_resume cfg (core_tmr_handler_body cfg s1 tsk) tsk size = 0) ∧
    (((msg_kill cfg s1 msg).tsk tsk).event = event_t.E_STOPPED ∧
      msg_resume cfg (msg_kill cfg s1 msg) tsk size = 0) := by
  refine ⟨?_, ?_, ?_⟩
  · intro s' e h
    refine ⟨by rw [wakeup_tsk_self], resume_zero cfg _ tsk size hsz ?_⟩
    rw [wakeup_tsk_self]; simp only []; rw [h, he]
  · have hb : core_tmr_handler_body cfg s1 tsk =
        (core_tsk_wakeup cfg
          (s1.setTsk tsk { s1.tsk tsk with
            start := ((s1.tsk tsk).start + (s1.tsk tsk).delay) % CMOD cfg })
          (some tsk) event_t.E_TIMEOUT).1 := by
      unfold core_tmr_handler_body
      simp [hid]
    rw [hb]
    refine ⟨by rw [wakeup_tsk_self], resume_zero cfg _ tsk size hsz ?_⟩
    rw [wakeup_tsk_self]; simp [Kernel.setTsk, he]
  · obtain ⟨_, h2, _, _, _, h6⟩ := core_all_wakeup_loop_spec cfg msg event_t.E_STOPPED
      ((s1.setMsg msg { s1.msg msg with count := 0, first := 0, next := 0, size := 0 }).queue
        msg).length
      (s1.setMsg msg { s1.msg msg with count := 0, first := 0, next := 0, size := 0 })
      (le_refl _)
    refine ⟨(h2 tsk hq).2.1, resume_zero cfg _ tsk size hsz ?_⟩
    unfold msg_kill core_all_wakeup
    rw [h6]; exact he


theorem blocked_call_zero (cfg : Config) (s0 : Kernel) (msg size time : Nat)
    (wait : Kernel → Nat → Nat → Kernel × Option event_t)
    (hwait : wait = core_tsk_waitFor cfg ∨ wait = core_tsk_waitUntil cfg)
    (hsz : size < UMOD cfg) (he : (s0.tsk s0.cur).evt_size = size) :
    (∀ e, (wait s0 msg time).2 = some e →
      e = event_t.E_TIMEOUT ∧ msg_resume cfg (wait s0 msg time).1 s0.cur size = 0) ∧
    ((wait s0 msg time).2 = none →
      (∀ (s' : Kernel) (e : event_t),
        (s'.tsk s0.cur).evt_size = ((wait s0 msg time).1.tsk s0.cur).evt_size →
        ((core_tsk_wakeup cfg s' (some s0.cur) e).1.tsk s0.cur).event = e ∧
        msg_resume cfg (core_tsk_wakeup cfg s' (some s0.cur) e).1 s0.cur size = 0) ∧
      (((core_tmr_handler_body cfg (wait s0 msg time).1 s0.cur).tsk s0.cur).event
          = event_t.E_TIMEOUT ∧
        msg_resume cfg (core_tmr_handler_body cfg (wait s0 msg time).1 s0.cur) s0.cur size = 0) ∧
      (((msg_kill cfg (wait s0 msg time).1 msg).tsk s0.cur).event = event_t.E_STOPPED ∧
        msg_resume cfg (msg_kill cfg (wait s0 msg time).1 msg) s0.cur size = 0)) := by
  refine ⟨?_, ?_⟩
  · intro e h
    obtain ⟨h1, h2⟩ := wait_immediate_event cfg s0 msg time wait hwait e h
    exact ⟨h1, resume_zero cfg _ _ size hsz (by rw [h2, he])⟩
  · intro hb
    obtain ⟨_, _, _, _, _, _, f7, f8⟩ := wait_blocked_fields cfg s0 msg time wait hwait hb
    exact resume_zero_paths cfg (wait s0 msg time).1 s0.cur msg size hsz (by rw [f7, he]) f8
      (wait_blocked_mem cfg s0 msg time wait hwait hb)

/-- C8, zero bytes on timeout or stop.  For a blocking receive on an empty queue
(`priv_msg_wait`, `size = 0` in the queue) and for a blocking send of a frame that does
not fit (`priv_msg_send`), with either wait primitive: a call that returns without a
context switch (the immediate timeout) returns 0; and when the caller has been blocked,
the call returns 0 after any wake-up that finds `evt.size` as the call left it (no
transfer made), in particular after the time-out wake-up of `core_tmr_handler`, which
delivers `E_TIMEOUT`, and after `msg_kill`, which delivers `E_STOPPED`. -/
theorem msg_zero_on_timeout (cfg : Config) (s : Kernel) (msg data size time : Nat)
    (wait : Kernel → Nat → Nat → Kernel × Option event_t)
    (hwait : wait = core_tsk_waitFor cfg ∨ wait = core_tsk_waitUntil cfg)
    (hsz : size < UMOD cfg) :
    ((s.msg msg).size = 0 →
      (∀ len, (priv_msg_wait cfg s msg data size time wait).2 = some len → len = 0) ∧
      ((priv_msg_wait cfg s msg data size time wait).2 = none →
        (∀ (s' : Kernel) (e : event_t),
          (s'.tsk s.cur).evt_size =
            ((priv_msg_wait cfg s msg data size time wait).1.tsk s.cur).evt_size →
          ((core_tsk_wakeup cfg s' (some s.cur) e).1.tsk s.cur).event = e ∧
          msg_resume cfg (core_tsk_wakeup cfg s' (some s.cur) e).1 s.cur size = 0) ∧
        (((core_tmr_handler_body cfg (priv_msg_wait cfg s msg data size time wait).1
              s.cur).tsk s.cur).event = event_t.E_TIMEOUT ∧
          msg_resume cfg (core_tmr_handler_body cfg
            (priv_msg_wait cfg s msg data size time wait).1 s.cur) s.cur size = 0) ∧
        (((msg_kill cfg (priv_msg_wait cfg s msg data size time wait).1 msg).tsk s.cur).event
            = event_t.E_STOPPED ∧
          msg_resume cfg (msg_kill cfg (priv_msg_wait cfg s msg data size time wait).1 msg)
            s.cur size = 0))) ∧
    (priv_msg_space cfg s msg < size →
      (∀ len, (priv_msg_send cfg s msg data size time wait).2 = some len → len = 0) ∧
      ((priv_msg_send cfg s msg data size time wait).2 = none →
        (∀ (s' : Kernel) (e : event_t),
          (s'.tsk s.cur).evt_size =
            ((priv_msg_send cfg s msg data size time wait).1.tsk s.cur).evt_size →
          ((core_tsk_wakeup cfg s' (some s.cur) e).1.tsk s.cur).event = e ∧
          msg_resume cfg (core_tsk_wakeup cfg s' (some s.cur) e).1 s.cur size = 0) ∧
        (((core_tmr_handler_body cfg (priv_msg_send cfg s msg data size time wait).1
              s.cur).tsk s.cur).event = event_t.E_TIMEOUT ∧
          msg_resume cfg (core_tmr_handler_body cfg
            (priv_msg_send cfg s msg data size time wait).1 s.cur) s.cur size = 0) ∧
        (((msg_kill cfg (priv_msg_send cfg s msg data size time wait).1 msg).tsk s.cur).event
            = event_t.E_STOPPED ∧
          msg_resume cfg (msg_kill cfg (priv_msg_send cfg s msg data size time wait).1 msg)
            s.cur size = 0))) := by
  refine ⟨?_, ?_⟩
  · intro hempty
    have hns : ¬ ((s.msg msg).size > 0) := by omega
    obtain ⟨s0, hs0⟩ : ∃ s0 : Kernel,
      s0 = s.setTsk s.cur { s.tsk s.cur with idata := data, evt_size := size } := ⟨_, rfl⟩
    have hcur : s0.cur = s.cur := by rw [hs0]; rfl
    have he0 : (s0.tsk s0.cur).evt_size = size := by rw [hs0]; simp [Kernel.setTsk]
    obtain ⟨k1, k2⟩ := blocked_call_zero cfg s0 msg size time wait hwait hsz he0
    rw [hcur] at k1 k2
    by_cases hs : size > 0
    · have e1 : (priv_msg_wait cfg s msg data size time wait).1 = (wait s0 msg time).1 := by
        rw [hs0]; unfold priv_msg_wait; simp only [hs, hns, if_true, if_false]
        split <;> rfl
      have e2 : (priv_msg_wait cfg s msg data size time wait).2 =
          match (wait s0 msg time).2 with
          | some _ => some (msg_resume cfg (wait s0 msg time).1 s.cur size)
          | none => none := by
        rw [hs0]; unfold priv_msg_wait; simp only [hs, hns, if_true, if_false]
        split <;> rename_i h <;> simp [h]
      rw [e1, e2]
      refine ⟨?_, ?_⟩
      · intro len hl
        cases hw : (wait s0 msg time).2 with
        | none => rw [hw] at hl; simp at hl
        | some e =>
          rw [hw] at hl
          simp only [Option.some.injEq] at hl
          rw [← hl]; exact (k1 e hw).2
      · intro hb
        cases hw : (wait s0 msg time).2 with
        | none => exact k2 hw
        | some e => rw [hw] at hb; simp at hb
    · have e1 : priv_msg_wait cfg s msg data size time wait = (s, some 0) := by
        unfold priv_msg_wait; simp only [hs, if_false]
      rw [e1]
      refine ⟨fun len hl => by simpa using hl.symm, fun hb => by simp at hb⟩
  · intro hfit
    obtain ⟨s0, hs0⟩ : ∃ s0 : Kernel,
      s0 = s.setTsk s.cur { s.tsk s.cur with odata := data, evt_size := size } := ⟨_, rfl⟩
    have hcur : s0.cur = s.cur := by rw [hs0]; rfl
    have he0 : (s0.tsk s0.cur).evt_size = size := by rw [hs0]; simp [Kernel.setTsk]
    obtain ⟨k1, k2⟩ := blocked_call_zero cfg s0 msg size time wait hwait hsz he0
    rw [hcur] at k1 k2
    have hnf : ¬ (size ≤ priv_msg_space cfg s msg) := by omega
    by_cases hs : size > 0 ∧ size ≤ (s.msg msg).limit
    · have e1 : (priv_msg_send cfg s msg data size time wait).1 = (wait s0 msg time).1 := by
        rw [hs0]; unfold priv_msg_send; simp only [hs, hnf, and_self, if_true, if_false]
        split <;> rfl
      have e2 : (priv_msg_send cfg s msg data size time wait).2 =
          match (wait s0 msg time).2 with
          | some _ => some (msg_resume cfg (wait s0 msg time).1 s.cur size)
          | none => none := by
        rw [hs0]; unfold priv_msg_send; simp only [hs, hnf, and_self, if_true, if_false]
        split <;> rename_i h <;> simp [h]
      rw [e1, e2]
      refine ⟨?_, ?_⟩
      · intro len hl
        cases hw : (wait s0 msg time).2 with
        | none => rw [hw] at hl; simp at hl
        | some e =>
          rw [hw] at hl
          simp only [Option.some.injEq] at hl
          rw [← hl]; exact (k1 e hw).2
      · intro hb
        cases hw : (wait s0 msg time).2 with
        | none => exact k2 hw
        | some e => rw [hw] at hb; simp at hb
    · have e1 : priv_msg_send cfg s msg data size time wait = (s, some 0) := by
        unfold priv_msg_send; simp only [hs, if_false]
      rw [e1]
      refine ⟨fun len hl => by simpa using hl.symm, fun hb => by simp at hb⟩

/-- Witness of C8: the main task waits for 3 bytes and the queue is killed. -/
theorem msg_zero_on_timeout_witness :
    3 < UMOD cfg32 ∧
    msg_resume cfg32 (msg_kill cfg32 (priv_msg_wait cfg32
      (msg_init (boot cfg32 1) 100 8 (fun _ => 0)) 100 2000 3 5 (core_tsk_waitFor cfg32)).1 100)
      (msg_init (boot cfg32 1) 100 8 (fun _ => 0)).cur 3 = 0 :=
  ⟨by decide,
   ((((msg_zero_on_timeout cfg32 (msg_init (boot cfg32 1) 100 8 (fun _ => 0)) 100 2000 3 5
      (core_tsk_waitFor cfg32) (Or.inl rfl) (by decide)).1 (by decide)).2 (by decide)).2.2).2⟩

/-! ### C5: first in, first out -/

theorem tsk_walk_none (f : Nat → tsk_t) (p : Nat) (l : List Nat)
    (h : ∀ n, n ∈ l → p ≤ (f n).prio) : tsk_walk f p l = none := by
  induction l with
  | nil => rfl
  | cons a l ih =>
    simp only [tsk_walk, h a (List.mem_cons_self _ _), if_true]
    exact ih (fun n hn => h n (List.mem_cons_of_mem _ hn))

theorem core_tsk_append_prio (s : Kernel) (tsk que n : Nat) :
    ((core_tsk_append s tsk que).tsk n).prio = (s.tsk n).prio := by
  unfold core_tsk_append
  by_cases h : n = tsk
  · subst h; simp [Kernel.setTsk]
  · simp [Kernel.setTsk, upd_other _ _ _ _ h]

theorem core_tsk_append_queue (s : Kernel) (tsk que : Nat) :
    (core_tsk_append s tsk que).queue que =
      priv_rdy_insert tsk (tsk_walk s.tsk (s.tsk tsk).prio (s.queue que)) (s.queue que) := by
  have hp : ∀ n, ((s.setTsk tsk { s.tsk tsk with guard := some que }).tsk n).prio
      = (s.tsk n).prio := by
    intro n
    by_cases h : n = tsk
    · subst h; simp [Kernel.setTsk]
    · simp [Kernel.setTsk, upd_other _ _ _ _ h]
  unfold core_tsk_append
  simp only [upd_same]
  rw [tsk_walk_congr _ _ _ _ hp, hp tsk]
  rfl

theorem append_all_queue (que p : Nat) (ts : List Nat) (s : Kernel)
    (h : ∀ n, n ∈ s.queue que ++ ts → (s.tsk n).prio = p) :
    (append_all s que ts).queue que = s.queue que ++ ts := by
  induction ts generalizing s with
  | nil => simp [append_all]
  | cons t ts ih =>
    have hq : (core_tsk_append s t que).queue que = s.queue que ++ [t] := by
      rw [core_tsk_append_queue, tsk_walk_none]
      · cases s.queue que <;> rfl
      · intro n hn
        rw [h n (by simp [hn]), h t (by simp)]
    simp only [append_all]
    rw [ih, hq]
    · simp
    · intro n hn
      rw [core_tsk_append_prio]
      apply h
      rw [hq] at hn
      simpa using hn

theorem wakeup_n_fifo (cfg : Config) (que : Nat) (e : event_t) (ts : List Nat) (s : Kernel)
    (hq : s.queue que = ts) (hnd : ts.Nodup) :
    (wakeup_n cfg que e ts.length s).2 = ts.map some ∧
    (wakeup_n cfg que e ts.length s).1.queue que = [] ∧
    (∀ t, t ∈ ts → woken e t (wakeup_n cfg que e ts.length s).1) ∧
    (∀ t, t ∉ ts → woken e t s → woken e t (wakeup_n cfg que e ts.length s).1) := by
  induction ts generalizing s with
  | nil => simp [wakeup_n, hq]
  | cons t ts ih =>
    have hnd' := List.nodup_cons.mp hnd
    have hq1 : (core_tsk_wakeup cfg s (some t) e).1.queue que = ts := by
      rw [wakeup_queue, hq, List.filter_cons_of_neg (by simp)]
      exact List.filter_eq_self.mpr (fun a ha => by
        have : a ≠ t := fun h => hnd'.1 (h ▸ ha)
        simpa using this)
    obtain ⟨i1, i2, i3, i4⟩ := ih (core_tsk_wakeup cfg s (some t) e).1 hq1 hnd'.2
    simp only [List.length_cons, wakeup_n, hq, List.head?_cons, List.map_cons]
    refine ⟨?_, i2, ?_, ?_⟩
    · rw [i1]; rfl
    · intro x hx
      rcases List.mem_cons.mp hx with h | h
      · subst h
        exact i4 x hnd'.1 (woken_wakeup_self cfg s x e)
      · exact i3 x h
    · intro x hx hw
      have hxt : x ≠ t := fun h => hx (by rw [h]; exact List.mem_cons_self _ _)
      exact i4 x (fun h => hx (List.mem_cons_of_mem _ h)) (woken_wakeup_other cfg s t x e e hxt hw)


/-! ### C7: no early timeout -/

theorem expired_tick_elapsed (cfg : Config) (now start delay : Nat)
    (h : priv_tmr_expired_tick cfg now start delay = true) :
    delay ≠ INFINITE cfg ∧ delay ≤ (now + CMOD cfg - start % CMOD cfg) % CMOD cfg := by
  unfold priv_tmr_expired_tick at h
  have hM : 0 < CMOD cfg := by unfold CMOD; positivity
  split at h
  · simp at h
  · rename_i hlt
    have hlt' : delay < (now + CMOD cfg - start % CMOD cfg + 1) % CMOD cfg := by omega
    have hb : (now + CMOD cfg - start % CMOD cfg + 1) % CMOD cfg < CMOD cfg := Nat.mod_lt _ hM
    refine ⟨?_, ?_⟩
    · unfold INFINITE CNT_MAX; omega
    · rw [Nat.add_mod] at hlt'
      have hx : (now + CMOD cfg - start % CMOD cfg) % CMOD cfg < CMOD cfg := Nat.mod_lt _ hM
      by_cases h1 : CMOD cfg = 1
      · rw [h1] at hlt'; simp [Nat.mod_one] at hlt'
      · have h1' : 1 % CMOD cfg = 1 := Nat.mod_eq_of_lt (by omega)
        rw [h1'] at hlt'
        by_cases h2 : (now + CMOD cfg - start % CMOD cfg) % CMOD cfg + 1 = CMOD cfg
        · rw [h2, Nat.mod_self] at hlt'; omega
        · rw [Nat.mod_eq_of_lt (by omega)] at hlt'; omega

theorem expired_hw_elapsed (cfg : Config) (now1 now2 start delay : Nat)
    (h : priv_tmr_expired_hw cfg now1 now2 start delay = true) :
    delay ≠ INFINITE cfg ∧
    (delay ≤ (now1 + CMOD cfg - start % CMOD cfg) % CMOD cfg ∨
      delay ≤ (now2 + CMOD cfg - start % CMOD cfg) % CMOD cfg) := by
  unfold priv_tmr_expired_hw at h
  split at h
  · simp at h
  · rename_i hinf
    refine ⟨hinf, ?_⟩
    split at h
    · left; assumption
    · split at h
      · simp at h
      · right; omega

theorem clock_reading_mono (cfg : Config) (s s' : Kernel) (now : Nat)
    (hc : s'.cnt = s.cnt) (ht : s'.hw_time = s.hw_time) (hr : s.hw_reads ≤ s'.hw_reads)
    (h : clock_reading cfg s' now) : clock_reading cfg s now := by
  unfold clock_reading at h ⊢
  split
  · rename_i hw
    simp only [hw, if_true] at h
    obtain ⟨k, hk, hn⟩ := h
    exact ⟨k, by omega, by rw [hn, ht]⟩
  · rename_i hw
    simp only [hw] at h
    rw [h, hc]

theorem core_sys_time_reading (cfg : Config) (s : Kernel) :
    clock_reading cfg s (core_sys_time cfg s).1 ∧
    (core_sys_time cfg s).2.cnt = s.cnt ∧ (core_sys_time cfg s).2.hw_time = s.hw_time ∧
    s.hw_reads ≤ (core_sys_time cfg s).2.hw_reads ∧
    (core_sys_time cfg s).2.tsk = s.tsk ∧ (core_sys_time cfg s).2.timers = s.timers ∧
    (core_sys_time cfg s).2.queue = s.queue ∧ (core_sys_time cfg s).2.ready = s.ready := by
  unfold core_sys_time clock_reading
  split
  · rename_i hw
    exact ⟨⟨s.hw_reads, le_refl _, rfl⟩, rfl, rfl, by simp, rfl, rfl, rfl, rfl⟩
  · exact ⟨rfl, rfl, rfl, le_refl _, rfl, rfl, rfl, rfl⟩

theorem priv_tmr_expired_spec (cfg : Config) (s : Kernel) (t : Nat) :
    (priv_tmr_expired cfg s (some t)).2.cnt = s.cnt ∧
    (priv_tmr_expired cfg s (some t)).2.hw_time = s.hw_time ∧
    s.hw_reads ≤ (priv_tmr_expired cfg s (some t)).2.hw_reads ∧
    (priv_tmr_expired cfg s (some t)).2.tsk = s.tsk ∧
    (priv_tmr_expired cfg s (some t)).2.timers = s.timers ∧
    (priv_tmr_expired cfg s (some t)).2.queue = s.queue ∧
    ((priv_tmr_expired cfg s (some t)).1 = true →
      (s.tsk t).delay ≠ INFINITE cfg ∧
      ∃ now, clock_reading cfg s now ∧
        (s.tsk t).delay ≤ (now + CMOD cfg - (s.tsk t).start % CMOD cfg) % CMOD cfg) := by
  obtain ⟨a1, a2, a3, a4, a5, a6, a7, _⟩ := core_sys_time_reading cfg s
  obtain ⟨b1, b2, b3, b4, b5, b6, b7, _⟩ := core_sys_time_reading cfg (core_sys_time cfg s).2
  unfold priv_tmr_expired
  simp only []
  split
  · split
    · refine ⟨rfl, rfl, le_refl _, rfl, rfl, rfl, ?_⟩
      intro h; simp at h
    · rename_i hinf
      split
      · rename_i hle
        exact ⟨a2, a3, a4, a5, a6, a7, fun _ => ⟨hinf, _, a1, hle⟩⟩
      · refine ⟨by rw [b2, a2], by rw [b3, a3], le_trans a4 b4, by rw [b5, a5],
          by rw [b6, a6], by rw [b7, a7], ?_⟩
        intro h
        obtain ⟨_, h2⟩ := expired_hw_elapsed cfg _ _ _ _ h
        rcases h2 with h2 | h2
        · exact ⟨hinf, _, a1, h2⟩
        · exact ⟨hinf, _, clock_reading_mono cfg s _ _ a2 a3 a4 b1, h2⟩
  · refine ⟨a2, a3, a4, a5, a6, a7, ?_⟩
    intro h
    obtain ⟨h1, h2⟩ := expired_tick_elapsed cfg _ _ _ h
    exact ⟨h1, _, a1, h2⟩


theorem wakeup_clock (cfg : Config) (s : Kernel) (t : Nat) (e : event_t) :
    (core_tsk_wakeup cfg s (some t) e).1.cnt = s.cnt ∧
    (core_tsk_wakeup cfg s (some t) e).1.hw_time = s.hw_time ∧
    (core_tsk_wakeup cfg s (some t) e).1.hw_reads = s.hw_reads := by
  simp only [core_tsk_wakeup, core_tsk_insert_eq, priv_tsk_insert]
  split <;> exact ⟨rfl, rfl, rfl⟩

theorem core_all_wakeup_loop_frame (cfg : Config) (que : Nat) (e : event_t) (fuel : Nat)
    (s : Kernel) :
    (core_all_wakeup_loop cfg que e fuel s).cnt = s.cnt ∧
    (core_all_wakeup_loop cfg que e fuel s).hw_time = s.hw_time ∧
    (core_all_wakeup_loop cfg que e fuel s).hw_reads = s.hw_reads ∧
    (∀ x, x ∈ (core_all_wakeup_loop cfg que e fuel s).timers → x ∈ s.timers) ∧
    (∀ t, t ∉ s.queue que → (core_all_wakeup_loop cfg que e fuel s).tsk t = s.tsk t) := by
  induction fuel generalizing s with
  | zero => simp [core_all_wakeup_loop]
  | succ n ih =>
    unfold core_all_wakeup_loop
    cases hq : s.queue que with
    | nil => simp
    | cons h rest =>
      simp only [List.head?_cons]
      obtain ⟨i1, i2, i3, i4, i5⟩ := ih (core_tsk_wakeup cfg s (some h) e).1
      obtain ⟨c1, c2, c3⟩ := wakeup_clock cfg s h e
      refine ⟨by rw [i1, c1], by rw [i2, c2], by rw [i3, c3], ?_, ?_⟩
      · intro x hx
        have := i4 x hx
        rw [wakeup_timers] at this
        exact (List.mem_filter.mp this).1
      · intro t ht
        have hth : t ≠ h := fun h1 => ht (by rw [h1]; exact List.mem_cons_self _ _)
        rw [i5, wakeup_tsk_other cfg s h e t hth]
        rw [wakeup_queue, hq]
        intro hm
        exact ht (List.mem_filter.mp hm).1

theorem priv_tmr_insert_frame (cfg : Config) (s : Kernel) (tmr : Nat) (id : tid_t) :
    (priv_tmr_insert cfg s tmr id).cnt = s.cnt ∧
    (priv_tmr_insert cfg s tmr id).hw_time = s.hw_time ∧
    (priv_tmr_insert cfg s tmr id).hw_reads = s.hw_reads ∧
    (priv_tmr_insert cfg s tmr id).queue = s.queue ∧
    (∀ x, x ∈ (priv_tmr_insert cfg s tmr id).timers → x = tmr ∨ x ∈ s.timers) ∧
    (∀ t, t ≠ tmr → (priv_tmr_insert cfg s tmr id).tsk t = s.tsk t) := by
  unfold priv_tmr_insert
  refine ⟨rfl, rfl, rfl, rfl, ?_, ?_⟩
  · intro x hx
    exact (mem_priv_rdy_insert _ _ _ _).mp hx
  · intro t ht
    simp [Kernel.setTsk, upd_other _ _ _ _ ht]

theorem handler_body_frame (cfg : Config) (s : Kernel) (tmr t : Nat) (hne : t ≠ tmr) :
    (core_tmr_handler_body cfg s tmr).cnt = s.cnt ∧
    (core_tmr_handler_body cfg s tmr).hw_time = s.hw_time ∧
    s.hw_reads ≤ (core_tmr_handler_body cfg s tmr).hw_reads ∧
    (t ∉ s.timers → t ∉ (core_tmr_handler_body cfg s tmr).timers) ∧
    ((core_tmr_handler_body cfg s tmr).tsk t = s.tsk t ∨
      (((core_tmr_handler_body cfg s tmr).tsk t).event = event_t.E_SUCCESS ∧
        t ∉ (core_tmr_handler_body cfg s tmr).timers)) := by
  unfold core_tmr_handler_body
  simp only []
  split
  · -- a periodic timer
    obtain ⟨s2, hs2⟩ : ∃ s2 : Kernel,
      s2 = (s.setTsk tmr { s.tsk tmr with
          start := ((s.tsk tmr).start + (s.tsk tmr).delay) % CMOD cfg }).setTsk tmr
        { (s.setTsk tmr { s.tsk tmr with
            start := ((s.tsk tmr).start + (s.tsk tmr).delay) % CMOD cfg }).tsk tmr with
          delay := (s.tsk tmr).period } := ⟨_, rfl⟩
    rw [← hs2]
    have h2a : s2.cnt = s.cnt ∧ s2.hw_time = s.hw_time ∧ s2.hw_reads = s.hw_reads ∧
        s2.timers = s.timers ∧ s2.tsk t = s.tsk t := by
      rw [hs2]; simp [Kernel.setTsk, upd_other _ _ _ _ hne]
    obtain ⟨s3, hs3⟩ : ∃ s3 : Kernel,
      s3 = core_tmr_remove
        (if (s2.tsk tmr).state then { s2 with fired := tmr :: s2.fired } else s2) tmr := ⟨_, rfl⟩
    have h3a : s3.cnt = s.cnt ∧ s3.hw_time = s.hw_time ∧ s3.hw_reads = s.hw_reads ∧
        (∀ x, x ∈ s3.timers → x ∈ s.timers) ∧ s3.tsk t = s.tsk t := by
      rw [hs3]
      obtain ⟨a1, a2, a3, a4, a5⟩ := h2a
      split <;>
      · refine ⟨a1, a2, a3, ?_, ?_⟩
        · intro x hx
          simp only [core_tmr_remove, priv_tmr_remove, priv_rdy_remove, Kernel.setTsk] at hx
          rw [← a4]; exact (List.mem_filter.mp hx).1
        · simp [core_tmr_remove, priv_tmr_remove, priv_rdy_remove, Kernel.setTsk,
            upd_other _ _ _ _ hne, a5]
    obtain ⟨t1, t2, t3, t4, t5, t6, t7, _⟩ := core_sys_time_reading cfg s3
    obtain ⟨s5, hs5⟩ : ∃ s5 : Kernel,
      s5 = (if ((core_sys_time cfg s3).2.tsk tmr).delay ≥
              ((core_sys_time cfg s3).1 + CMOD cfg -
                ((core_sys_time cfg s3).2.tsk tmr).start % CMOD cfg + 1) % CMOD cfg
            then priv_tmr_insert cfg (core_sys_time cfg s3).2 tmr tid_t.ID_TIMER
            else (core_sys_time cfg s3).2) := ⟨_, rfl⟩
    have h5a : s5.cnt = s.cnt ∧ s5.hw_time = s.hw_time ∧ s.hw_reads ≤ s5.hw_reads ∧
        (∀ x, x ∈ s5.timers → x = tmr ∨ x ∈ s.timers) ∧ s5.tsk t = s.tsk t := by
      obtain ⟨a1, a2, a3, a4, a5⟩ := h3a
      rw [hs5]
      split
      · obtain ⟨p1, p2, p3, _, p5, p6⟩ := priv_tmr_insert_frame cfg (core_sys_time cfg s3).2 tmr
          tid_t.ID_TIMER
        refine ⟨by rw [p1, t2, a1], by rw [p2, t3, a2], by rw [p3]; omega, ?_, ?_⟩
        · intro x hx
          rcases p5 x hx with h | h
          · exact Or.inl h
          · rw [t6] at h; exact Or.inr (a4 x h)
        · rw [p6 t hne, t5, a5]
      · refine ⟨by rw [t2, a1], by rw [t3, a2], by omega, ?_, by rw [t5, a5]⟩
        intro x hx
        rw [t6] at hx; exact Or.inr (a4 x hx)
    have e : priv_tmr_wakeup cfg s2 tmr event_t.E_SUCCESS =
        core_all_wakeup_loop cfg tmr event_t.E_SUCCESS (s5.queue tmr).length s5 := by
      rw [hs5, hs3]; rfl
    rw [e]
    obtain ⟨f1, f2, f3, f4, f5⟩ := core_all_wakeup_loop_frame cfg tmr event_t.E_SUCCESS
      (s5.queue tmr).length s5
    obtain ⟨g1, g2, g3, g4, g5, g6⟩ := core_all_wakeup_loop_spec cfg tmr event_t.E_SUCCESS
      (s5.queue tmr).length s5 (le_refl _)
    obtain ⟨a1, a2, a3, a4, a5⟩ := h5a
    refine ⟨by rw [f1, a1], by rw [f2, a2], by rw [f3]; exact a3, ?_, ?_⟩
    · intro ht hm
      rcases a4 t (f4 t hm) with h | h
      · exact hne h
      · exact ht h
    · by_cases hq : t ∈ s5.queue tmr
      · right
        exact ⟨(g2 t hq).2.1, (g2 t hq).2.2.2⟩
      · left
        rw [f5 t hq, a5]
  · -- the delay of a task
    obtain ⟨c1, c2, c3⟩ := wakeup_clock cfg
      (s.setTsk tmr { s.tsk tmr with
        start := ((s.tsk tmr).start + (s.tsk tmr).delay) % CMOD cfg }) tmr event_t.E_TIMEOUT
    refine ⟨by rw [c1]; rfl, by rw [c2]; rfl, by rw [c3]; exact le_refl _, ?_, ?_⟩
    · intro ht hm
      rw [wakeup_timers] at hm
      exact ht (List.mem_filter.mp hm).1
    · left
      rw [wakeup_tsk_other _ _ _ _ _ hne]
      simp [Kernel.setTsk, upd_other _ _ _ _ hne]


theorem handler_step (cfg : Config) (fuel : Nat) (s : Kernel) :
    core_tmr_handler cfg (fuel + 1) s =
      match s.timers.head? with
      | some tmr =>
        if (priv_tmr_expired cfg s (some tmr)).1 = true then
          core_tmr_handler cfg fuel
            (core_tmr_handler_body cfg (priv_tmr_expired cfg s (some tmr)).2 tmr)
        else (priv_tmr_expired cfg s (some tmr)).2
      | none => (priv_tmr_expired cfg s none).2 := by
  rw [core_tmr_handler]
  cases h : s.timers.head? with
  | none => simp only []; split <;> simp_all
  | some tmr =>
    simp only []
    cases h1 : (priv_tmr_expired cfg s (some tmr)).1 <;> simp

theorem priv_tmr_expired_none (cfg : Config) (s : Kernel) :
    (priv_tmr_expired cfg s none).2.tsk = s.tsk := by
  unfold priv_tmr_expired
  simp only []
  split
  · simp
  · unfold core_sys_time; split <;> rfl

theorem handler_outside (cfg : Config) (t : Nat) (fuel : Nat) (s : Kernel)
    (ht : t ∉ s.timers) :
    (core_tmr_handler cfg fuel s).tsk t = s.tsk t ∨
    ((core_tmr_handler cfg fuel s).tsk t).event = event_t.E_SUCCESS := by
  induction fuel generalizing s with
  | zero => left; rfl
  | succ n ih =>
    rw [handler_step]
    cases hh : s.timers.head? with
    | none => left; simp only []; rw [priv_tmr_expired_none]
    | some tmr =>
      simp only []
      obtain ⟨e1, e2, e3, e4, e5, e6, e7⟩ := priv_tmr_expired_spec cfg s tmr
      have hmem : tmr ∈ s.timers := List.mem_of_mem_head? hh
      have hne : t ≠ tmr := fun h => ht (h ▸ hmem)
      split
      · obtain ⟨b1, b2, b3, b4, b5⟩ := handler_body_frame cfg (priv_tmr_expired cfg s (some tmr)).2
          tmr t hne
        have ht' : t ∉ (core_tmr_handler_body cfg (priv_tmr_expired cfg s (some tmr)).2 tmr).timers :=
          b4 (by rw [e5]; exact ht)
        rcases ih _ ht' with i | i
        · rcases b5 with b | b
          · left; rw [i, b, e4]
          · right; rw [i]; exact b.1
        · right; exact i
      · left; rw [e4]

theorem handler_timeout (cfg : Config) (t : Nat) (fuel : Nat) (s : Kernel)
    (hid : (s.tsk t).id = tid_t.ID_DELAYED)
    (hr : ((core_tmr_handler cfg fuel s).tsk t).id = tid_t.ID_READY)
    (he : ((core_tmr_handler cfg fuel s).tsk t).event = event_t.E_TIMEOUT) :
    (s.tsk t).delay ≠ INFINITE cfg ∧
    ∃ now, clock_reading cfg s now ∧
      (s.tsk t).delay ≤ (now + CMOD cfg - (s.tsk t).start % CMOD cfg) % CMOD cfg := by
  induction fuel generalizing s with
  | zero =>
    simp only [core_tmr_handler] at hr
    rw [hid] at hr; cases hr
  | succ n ih =>
    rw [handler_step] at hr he
    cases hh : s.timers.head? with
    | none =>
      rw [hh] at hr; simp only [] at hr
      rw [priv_tmr_expired_none, hid] at hr; cases hr
    | some tmr =>
      rw [hh] at hr he
      simp only [] at hr he
      obtain ⟨e1, e2, e3, e4, e5, e6, e7⟩ := priv_tmr_expired_spec cfg s tmr
      by_cases hx : (priv_tmr_expired cfg s (some tmr)).1 = true
      · rw [if_pos hx] at hr he
        by_cases hne : t = tmr
        · subst hne
          exact e7 hx
        · obtain ⟨b1, b2, b3, b4, b5⟩ := handler_body_frame cfg
            (priv_tmr_expired cfg s (some tmr)).2 tmr t hne
          rcases b5 with b | b
          · rw [e4] at b
            obtain ⟨i1, now, i2, i3⟩ := ih _ (by rw [b]; exact hid) hr he
            rw [b] at i1 i3
            refine ⟨i1, now, ?_, i3⟩
            apply clock_reading_mono cfg s _ now _ _ _ i2
            · rw [b1, e1]
            · rw [b2, e2]
            · omega
          · rcases handler_outside cfg t n _ b.2 with o | o
            · rw [o, b.1] at he; cases he
            · rw [o] at he; cases he
      · rw [if_neg hx, e4, hid] at hr; cases hr


/-- C7, no early timeout.  The expiry test answers true only for a finite delay `d` with
`(now - start) mod 2^w >= d` at a reading `now` of the clock: in the periodic-tick
variant, in the hardware-compare variant with its two readings, and for
`priv_tmr_expired` on a timer of the list.  A delayed task that `core_tmr_handler` (run
for any number of rounds) has made ready with the event code `E_TIMEOUT` had, on entry to
the handler, a finite delay with `(now - start) mod 2^w >= delay` for a clock reading
`now` taken by the handler. -/
theorem no_early_timeout (cfg : Config) :
    (∀ now start delay, priv_tmr_expired_tick cfg now start delay = true →
      delay ≠ INFINITE cfg ∧ delay ≤ (now + CMOD cfg - start % CMOD cfg) % CMOD cfg) ∧
    (∀ now1 now2 start delay, priv_tmr_expired_hw cfg now1 now2 start delay = true →
      delay ≠ INFINITE cfg ∧
      (delay ≤ (now1 + CMOD cfg - start % CMOD cfg) % CMOD cfg ∨
        delay ≤ (now2 + CMOD cfg - start % CMOD cfg) % CMOD cfg)) ∧
    (∀ (s : Kernel) (t : Nat), (priv_tmr_expired cfg s (some t)).1 = true →
      (s.tsk t).delay ≠ INFINITE cfg ∧
      ∃ now, clock_reading cfg s now ∧
        (s.tsk t).delay ≤ (now + CMOD cfg - (s.tsk t).start % CMOD cfg) % CMOD cfg) ∧
    (∀ (fuel : Nat) (s : Kernel) (t : Nat), (s.tsk t).id = tid_t.ID_DELAYED →
      ((core_tmr_handler cfg fuel s).tsk t).id = tid_t.ID_READY →
      ((core_tmr_handler cfg fuel s).tsk t).event = event_t.E_TIMEOUT →
      (s.tsk t).delay ≠ INFINITE cfg ∧
      ∃ now, clock_reading cfg s now ∧
        (s.tsk t).delay ≤ (now + CMOD cfg - (s.tsk t).start % CMOD cfg) % CMOD cfg) :=
  ⟨expired_tick_elapsed cfg, expired_hw_elapsed cfg,
   fun s t => (priv_tmr_expired_spec cfg s t).2.2.2.2.2.2,
   fun fuel s t => handler_timeout cfg t fuel s⟩

/-- Witness of C7: the main task waits with a delay of 5 ticks and is woken by the handler
5 ticks later. -/
theorem no_early_timeout_witness :
    ((core_tmr_handler cfg32 2 ex_delayed).tsk MAIN).event = event_t.E_TIMEOUT ∧
    (ex_delayed.tsk MAIN).delay ≠ INFINITE cfg32 ∧
    ∃ now, clock_reading cfg32 ex_delayed now ∧
      (ex_delayed.tsk MAIN).delay ≤
        (now + CMOD cfg32 - (ex_delayed.tsk MAIN).start % CMOD cfg32) % CMOD cfg32 :=
  ⟨by decide,
   (no_early_timeout cfg32).2.2.2 2 ex_delayed MAIN (by decide) (by decide) (by decide)⟩


/-! ### C10: the non-blocking send -/

theorem keeps_running_refl (s : Kernel) : keeps_running s s :=
  ⟨rfl, fun _ _ h => h, fun _ h => h⟩

theorem keeps_running_trans {a b c : Kernel} (h1 : keeps_running a b) (h2 : keeps_running b c) :
    keeps_running a c :=
  ⟨h2.1.trans h1.1, fun q x h => h1.2.1 q x (h2.2.1 q x h), fun x h => h2.2.2 x (h1.2.2 x h)⟩

theorem keeps_running_of_eq {s s' : Kernel} (hc : s'.cur = s.cur) (hq : s'.queue = s.queue)
    (hr : s'.ready = s.ready) : keeps_running s s' :=
  ⟨hc, fun q x h => by rw [hq] at h; exact h, fun x h => by rw [hr]; exact h⟩

theorem keeps_running_wakeup (cfg : Config) (s : Kernel) (t : Nat) (e : event_t) :
    keeps_running s (core_tsk_wakeup cfg s (some t) e).1 := by
  refine ⟨wakeup_cur cfg s t e, ?_, ?_⟩
  · intro q x h
    rw [wakeup_queue] at h
    exact (List.mem_filter.mp h).1
  · intro x h
    exact (wakeup_mem_ready cfg s t e x).mpr (Or.inr h)

theorem keeps_running_putUpdate_loop (cfg : Config) (msg : Nat) (fuel : Nat) (s : Kernel) :
    keeps_running s (priv_msg_putUpdate_loop cfg msg fuel s) := by
  induction fuel generalizing s with
  | zero => exact keeps_running_refl s
  | succ n ih =>
    unfold priv_msg_putUpdate_loop
    split
    · split
      · exact keeps_running_trans (keeps_running_wakeup cfg s _ _) (ih _)
      · exact keeps_running_refl s
    · exact keeps_running_refl s

theorem keeps_running_getSize (cfg : Config) (s : Kernel) (msg : Nat) :
    keeps_running s (priv_msg_getSize cfg s msg) := by
  unfold priv_msg_getSize
  simp only []
  split <;> exact keeps_running_of_eq rfl rfl rfl

theorem keeps_running_putSize (cfg : Config) (s : Kernel) (msg : Nat) (size : Nat) :
    keeps_running s (priv_msg_putSize cfg s msg size) := by
  unfold priv_msg_putSize
  simp only []
  split
  · exact keeps_running_of_eq rfl rfl rfl
  · split
    · exact keeps_running_of_eq rfl rfl rfl
    · exact keeps_running_refl s

theorem keeps_running_putUpdate (cfg : Config) (s : Kernel) (msg : Nat) :
    keeps_running s (priv_msg_putUpdate cfg s msg) := by
  unfold priv_msg_putUpdate
  simp only []
  have h1 := keeps_running_putUpdate_loop cfg msg (s.queue msg).length s
  split
  · refine keeps_running_trans h1 ?_
    refine keeps_running_trans ?_ (keeps_running_wakeup cfg _ _ _)
    refine keeps_running_trans ?_ (keeps_running_getSize cfg _ _)
    exact keeps_running_of_eq rfl rfl rfl
  · exact h1

theorem keeps_running_transmit (cfg : Config) (s : Kernel) (msg data size : Nat) :
    keeps_running s (msg_transmit cfg s msg data size) := by
  unfold msg_transmit
  simp only []
  refine keeps_running_trans (keeps_running_putSize cfg s msg size) ?_
  refine keeps_running_trans ?_ (keeps_running_putUpdate cfg _ _)
  exact keeps_running_of_eq rfl rfl rfl

/-- C10, the non-blocking send.  For every state and every block of `n` bytes, `msg_give`
returns `n` when `1 <= n <= limit` and `n <= msg_space`, and otherwise returns 0 and
leaves the whole state unchanged; in every case the calling task is put on no wait list
and stays in the ready list. -/
theorem msg_give_nonblocking (cfg : Config) (s : Kernel) (msg data n : Nat) :
    ((1 ≤ n ∧ n ≤ (s.msg msg).limit ∧ n ≤ msg_space cfg s msg) →
      (msg_give cfg s msg data n).2 = n) ∧
    (¬ (1 ≤ n ∧ n ≤ (s.msg msg).limit ∧ n ≤ msg_space cfg s msg) →
      msg_give cfg s msg data n = (s, 0)) ∧
    (∀ q, s.cur ∉ s.queue q → (msg_give cfg s msg data n).1.cur ∉ (msg_give cfg s msg data n).1.queue q) ∧
    (s.cur ∈ s.ready → (msg_give cfg s msg data n).1.cur ∈ (msg_give cfg s msg data n).1.ready) := by
  have hk : keeps_running s (msg_give cfg s msg data n).1 := by
    unfold msg_give
    split
    · split
      · exact keeps_running_transmit cfg s msg data n
      · exact keeps_running_refl s
    · exact keeps_running_refl s
  refine ⟨?_, ?_, ?_, ?_⟩
  · rintro ⟨h1, h2, h3⟩
    have : n > 0 ∧ n ≤ (s.msg msg).limit := ⟨h1, h2⟩
    simp only [msg_space] at h3
    simp [msg_give, this, h3]
  · intro h
    unfold msg_give
    split
    · rename_i h1
      split
      · rename_i h2
        exact absurd ⟨h1.1, h1.2, h2⟩ h
      · rfl
    · rfl
  · intro q hq h
    rw [hk.1] at h
    exact hq (hk.2.1 q _ h)
  · intro h
    rw [hk.1]
    exact hk.2.2 _ h


/-! ### C1: round trip -/

theorem tail_stream_append (cfg : Config) (a b : List (List Nat)) :
    tail_stream cfg (a ++ b) = tail_stream cfg a ++ tail_stream cfg b := by
  induction a with
  | nil => rfl
  | cons g gs ih => simp [tail_stream, ih]

theorem stream_snoc (cfg : Config) (f : List Nat) (fs : List (List Nat)) (b : List Nat) :
    stream cfg ((f :: fs) ++ [b]) = stream cfg (f :: fs) ++ enc_unsigned cfg.usz b.length ++ b := by
  simp [stream, tail_stream_append, tail_stream]

theorem putUpdate_idle (cfg : Config) (s : Kernel) (msg : Nat) (hq : s.queue msg = []) :
    priv_msg_putUpdate cfg s msg = s := by
  simp [priv_msg_putUpdate, hq, priv_msg_putUpdate_loop]

theorem getUpdate_idle (cfg : Config) (s : Kernel) (msg : Nat) (hq : s.queue msg = []) :
    priv_msg_getUpdate cfg s msg = s := by
  simp [priv_msg_getUpdate, hq, priv_msg_getUpdate_loop]

theorem give_step (cfg : Config) (s : Kernel) (msg data size : Nat) (fs : List (List Nat))
    (hwf : msg_wf cfg (s.msg msg)) (hq : s.queue msg = [])
    (hfr : framed cfg (s.msg msg) fs) (hne : ∀ f, f ∈ fs → 1 ≤ f.length) (hs : 1 ≤ size)
    (hfit : (stream cfg fs).length + size + cfg.usz ≤ (s.msg msg).limit) :
    (msg_give cfg s msg data size).2 = size ∧
    msg_wf cfg ((msg_give cfg s msg data size).1.msg msg) ∧
    (msg_give cfg s msg data size).1.queue msg = [] ∧
    (msg_give cfg s msg data size).1.mem = s.mem ∧
    framed cfg ((msg_give cfg s msg data size).1.msg msg) (fs ++ [load s.mem data size]) ∧
    ((msg_give cfg s msg data size).1.msg msg).limit = (s.msg msg).limit := by
  have hcount : (s.msg msg).count = (stream cfg fs).length := by
    rw [← hfr.1, ring_length]
  have hU := hwf.1
  have hsl : size > 0 ∧ size ≤ (s.msg msg).limit := ⟨hs, by omega⟩
  have hlen : (load s.mem data size).length = size := load_length _ _ _
  cases fs with
  | nil =>
    have hc0 : (s.msg msg).count = 0 := by rw [hcount]; rfl
    have hg : msg_give cfg s msg data size = (msg_transmit cfg s msg data size, size) := by
      simp [msg_give, hsl, priv_msg_space, hc0]
    obtain ⟨m1, hm1⟩ : ∃ m1 : msg_t, m1 = { s.msg msg with size := size } := ⟨_, rfl⟩
    have hm1c : m1.count = 0 := by rw [hm1]; exact hc0
    have hm1l : m1.limit = (s.msg msg).limit := by rw [hm1]
    have hm1s : m1.size = size := by rw [hm1]
    have hwf1 : msg_wf cfg m1 := by rw [hm1]; exact hwf
    have hring1 : ring m1 = [] := by simp [ring, hm1c]
    obtain ⟨w2, r2, c2, s2, l2⟩ := putn_wf cfg (load s.mem data size) m1 hwf1
      (by rw [hm1c, hm1l, hlen]; omega)
    have e1 : msg_transmit cfg s msg data size =
        s.setMsg msg (msg_putn cfg (load s.mem data size) m1) := by
      have h1 : priv_msg_put cfg (priv_msg_putSize cfg s msg size) msg data size =
          s.setMsg msg (msg_putn cfg (load s.mem data size) m1) := by
        rw [hm1]
        simp [priv_msg_put, priv_msg_putSize, hc0, Kernel.setMsg]
      unfold msg_transmit
      simp only []
      rw [h1, putUpdate_idle _ _ _ (by exact hq)]
    rw [hg, e1]
    simp only [Kernel.setMsg, upd_same]
    refine ⟨trivial, w2, hq, trivial, ⟨?_, ?_⟩, by rw [l2, hm1l]⟩
    · rw [r2, hring1]; simp [stream, tail_stream]
    · rw [s2, hm1s]; simp [hlen]
  | cons f rest =>
    have hfl : 1 ≤ f.length := hne f (List.mem_cons_self _ _)
    have hcpos : 0 < (s.msg msg).count := by
      rw [hcount]; simp only [stream, List.length_append]; omega
    have hc0 : (s.msg msg).count ≠ 0 := by omega
    have hsp : priv_msg_space cfg s msg = (s.msg msg).limit - (s.msg msg).count - cfg.usz :=
      (priv_msg_space_cases cfg s msg).2.1 hcpos hq (by omega) hU
    have hg : msg_give cfg s msg data size = (msg_transmit cfg s msg data size, size) := by
      have : size ≤ priv_msg_space cfg s msg := by rw [hsp]; omega
      simp [msg_give, hsl, this]
    have hel : (enc_unsigned cfg.usz size).length = cfg.usz := enc_unsigned_length _ _
    obtain ⟨w1, r1, c1, s1, l1⟩ := putn_wf cfg (enc_unsigned cfg.usz size) (s.msg msg) hwf
      (by rw [hel]; omega)
    obtain ⟨w2, r2, c2, s2, l2⟩ := putn_wf cfg (load s.mem data size)
      (msg_putn cfg (enc_unsigned cfg.usz size) (s.msg msg)) w1
      (by rw [c1, l1, hel, hlen]; omega)
    have e1 : msg_transmit cfg s msg data size =
        s.setMsg msg (msg_putn cfg (load s.mem data size)
          (msg_putn cfg (enc_unsigned cfg.usz size) (s.msg msg))) := by
      have hs0 : size > 0 := hs
      have h1 : priv_msg_put cfg (priv_msg_putSize cfg s msg size) msg data size =
          s.setMsg msg (msg_putn cfg (load s.mem data size)
            (msg_putn cfg (enc_unsigned cfg.usz size) (s.msg msg))) := by
        simp [priv_msg_put, priv_msg_putSize, hc0, hs0, Kernel.setMsg]
      unfold msg_transmit
      simp only []
      rw [h1, putUpdate_idle _ _ _ (by exact hq)]
    rw [hg, e1]
    simp only [Kernel.setMsg, upd_same]
    refine ⟨trivial, w2, hq, trivial, ⟨?_, ?_⟩, by rw [l2, l1]⟩
    · rw [r2, r1, hfr.1, stream_snoc, hlen]
    · rw [s2, s1, hfr.2]; rfl


theorem take_step (cfg : Config) (s : Kernel) (msg data size : Nat) (f : List Nat)
    (rest : List (List Nat))
    (hwf : msg_wf cfg (s.msg msg)) (hq : s.queue msg = [])
    (hfr : framed cfg (s.msg msg) (f :: rest))
    (hne : ∀ g, g ∈ f :: rest → 1 ≤ g.length ∧ g.length < UMOD cfg)
    (hcap : f.length ≤ size) :
    (msg_take cfg s msg data size).2 = f.length ∧
    load (msg_take cfg s msg data size).1.mem data f.length = f ∧
    msg_wf cfg ((msg_take cfg s msg data size).1.msg msg) ∧
    (msg_take cfg s msg data size).1.queue msg = [] ∧
    framed cfg ((msg_take cfg s msg data size).1.msg msg) rest := by
  have hfl := (hne f (List.mem_cons_self _ _)).1
  have hsz : (s.msg msg).size = f.length := hfr.2
  have hcount : (s.msg msg).count = (stream cfg (f :: rest)).length := by
    rw [← hfr.1, ring_length]
  have hs0 : size > 0 := by omega
  have hm0 : (s.msg msg).size > 0 := by omega
  have hge : size ≥ priv_msg_count s msg := by unfold priv_msg_count; omega
  obtain ⟨w1, t1, r1, c1, s1, l1⟩ := getn_wf cfg f.length (s.msg msg) hwf
    (by rw [hcount]; simp [stream])
  rw [hfr.1] at t1 r1
  have ht1 : (msg_getn cfg f.length (s.msg msg)).1 = f := by
    rw [t1]; simp [stream]
  have hr1 : ring (msg_getn cfg f.length (s.msg msg)).2 = tail_stream cfg rest := by
    rw [r1]; simp [stream]
  have hc1 : (msg_getn cfg f.length (s.msg msg)).2.count = (tail_stream cfg rest).length := by
    rw [← hr1, ring_length]
  obtain ⟨m1, hm1⟩ : ∃ m1 : msg_t, m1 = (msg_getn cfg f.length (s.msg msg)).2 := ⟨_, rfl⟩
  rw [← hm1] at w1 hr1 hc1 s1 l1
  have e0 : msg_take cfg s msg data size =
      (priv_msg_getUpdate cfg
        (priv_msg_getSize cfg ({ s.setMsg msg m1 with mem := store s.mem data f }) msg) msg,
        f.length) := by
    unfold msg_take
    simp only [hs0, hm0, if_true]
    unfold msg_receive
    simp only [hge, if_true, hsz]
    unfold priv_msg_get
    simp only [ht1, ← hm1]
  rw [e0]
  cases rest with
  | nil =>
    have hc0 : m1.count = 0 := by rw [hc1]; rfl
    have e1 : priv_msg_getSize cfg ({ s.setMsg msg m1 with mem := store s.mem data f }) msg =
        { s with msg := upd s.msg msg { m1 with size := 0 }, mem := store s.mem data f } := by
      simp [priv_msg_getSize, Kernel.setMsg, hc0]
    rw [e1, getUpdate_idle _ _ _ (by exact hq)]
    simp only [upd_same]
    refine ⟨trivial, load_store f s.mem data, w1, hq, ⟨?_, rfl⟩⟩
    show ring { m1 with size := 0 } = _
    have : ring { m1 with size := 0 } = ring m1 := rfl
    rw [this, hr1]; rfl
  | cons g gs =>
    have hg := hne g (by simp)
    have hel : (enc_unsigned cfg.usz g.length).length = cfg.usz := enc_unsigned_length _ _
    have hcpos : m1.count ≠ 0 := by
      rw [hc1]; simp only [tail_stream, List.length_append]; omega
    obtain ⟨w2, t2, r2, c2, s2, l2⟩ := getn_wf cfg cfg.usz m1 w1
      (by rw [hc1]; simp only [tail_stream, List.length_append, hel]; omega)
    rw [hr1] at t2 r2
    have ht2 : (msg_getn cfg cfg.usz m1).1 = enc_unsigned cfg.usz g.length := by
      rw [t2]; simp only [tail_stream, List.append_assoc]
      rw [List.take_append_of_le_length (by rw [hel])]
      exact List.take_of_length_le (by rw [hel])
    have hr2 : ring (msg_getn cfg cfg.usz m1).2 = stream cfg (g :: gs) := by
      rw [r2]; simp only [tail_stream, List.append_assoc, stream]
      rw [List.drop_append_of_le_length (by rw [hel])]
      rw [List.drop_of_length_le (by rw [hel])]
      rfl
    have hdec : dec_unsigned (enc_unsigned cfg.usz g.length) = g.length :=
      dec_enc_unsigned _ _ (by rw [← UMOD_eq]; exact hg.2)
    have e1 : priv_msg_getSize cfg ({ s.setMsg msg m1 with mem := store s.mem data f }) msg =
        { s with msg := upd s.msg msg { (msg_getn cfg cfg.usz m1).2 with size := g.length },
                 mem := store s.mem data f } := by
      simp [priv_msg_getSize, Kernel.setMsg, hcpos, ht2, hdec]
    rw [e1, getUpdate_idle _ _ _ (by exact hq)]
    simp only [upd_same]
    refine ⟨trivial, load_store f s.mem data, w2, hq, ⟨?_, rfl⟩⟩
    exact hr2


theorem stream_snoc_length (cfg : Config) (fs : List (List Nat)) (b : List Nat) :
    (stream cfg (fs ++ [b])).length ≤ (stream cfg fs).length + cfg.usz + b.length := by
  cases fs with
  | nil => simp [stream, tail_stream]
  | cons f rest =>
    rw [stream_snoc]
    simp only [List.length_append, enc_unsigned_length]
    omega

theorem give_all_spec (cfg : Config) (msg : Nat) (frames : List (Nat × Nat)) (s : Kernel)
    (fs : List (List Nat))
    (hwf : msg_wf cfg (s.msg msg)) (hq : s.queue msg = [])
    (hfr : framed cfg (s.msg msg) fs) (hne : ∀ f, f ∈ fs → 1 ≤ f.length)
    (hpos : ∀ p, p ∈ frames → 1 ≤ p.2)
    (hfit : (stream cfg fs).length + (frames.map (fun p => p.2 + cfg.usz)).sum
      ≤ (s.msg msg).limit) :
    (give_all cfg msg frames s).2 = frames.map Prod.snd ∧
    msg_wf cfg ((give_all cfg msg frames s).1.msg msg) ∧
    (give_all cfg msg frames s).1.queue msg = [] ∧
    (give_all cfg msg frames s).1.mem = s.mem ∧
    framed cfg ((give_all cfg msg frames s).1.msg msg)
      (fs ++ frames.map (fun p => load s.mem p.1 p.2)) ∧
    ((give_all cfg msg frames s).1.msg msg).limit = (s.msg msg).limit := by
  induction frames generalizing s fs with
  | nil => simp [give_all, hwf, hq, hfr]
  | cons p ps ih =>
    simp only [List.map_cons, List.sum_cons] at hfit
    obtain ⟨g1, g2, g3, g4, g5, g6⟩ := give_step cfg s msg p.1 p.2 fs hwf hq hfr hne
      (hpos p (List.mem_cons_self _ _)) (by omega)
    have hne' : ∀ f, f ∈ fs ++ [load s.mem p.1 p.2] → 1 ≤ f.length := by
      intro f hf
      rcases List.mem_append.mp hf with h | h
      · exact hne f h
      · simp only [List.mem_singleton] at h
        rw [h, load_length]; exact hpos p (List.mem_cons_self _ _)
    have hsl := stream_snoc_length cfg fs (load s.mem p.1 p.2)
    rw [load_length] at hsl
    obtain ⟨i1, i2, i3, i4, i5, i6⟩ := ih (msg_give cfg s msg p.1 p.2).1
      (fs ++ [load s.mem p.1 p.2]) g2 g3 g5 hne'
      (fun q hq' => hpos q (List.mem_cons_of_mem _ hq')) (by rw [g6]; omega)
    simp only [give_all, List.map_cons]
    refine ⟨by rw [i1, g1], i2, i3, by rw [i4, g4], ?_, by rw [i6, g6]⟩
    rw [g4] at i5
    simpa using i5

theorem take_all_spec (cfg : Config) (msg : Nat) (fs : List (List Nat))
    (dsts : List (Nat × Nat)) (s : Kernel)
    (hwf : msg_wf cfg (s.msg msg)) (hq : s.queue msg = [])
    (hfr : framed cfg (s.msg msg) fs)
    (hne : ∀ g, g ∈ fs → 1 ≤ g.length ∧ g.length < UMOD cfg)
    (hcap : List.Forall₂ (fun (f : List Nat) (d : Nat × Nat) => f.length ≤ d.2) fs dsts) :
    (take_all cfg msg dsts s).2 = fs.map (fun f => (f.length, f)) ∧
    framed cfg ((take_all cfg msg dsts s).1.msg msg) [] := by
  induction hcap generalizing s with
  | nil => simp [take_all, hfr]
  | @cons f d fs ds hfd _ ih =>
    obtain ⟨t1, t2, t3, t4, t5⟩ := take_step cfg s msg d.1 d.2 f fs hwf hq hfr hne hfd
    obtain ⟨i1, i2⟩ := ih (msg_take cfg s msg d.1 d.2).1 t3 t4 t5
      (fun g hg => hne g (List.mem_cons_of_mem _ hg))
    simp only [take_all, List.map_cons]
    refine ⟨?_, i2⟩
    rw [i1, t1, t2]


theorem sum_sizes (usz : Nat) (frames : List (Nat × Nat)) :
    (frames.map (fun p => p.2 + usz)).sum = (frames.map Prod.snd).sum + frames.length * usz := by
  induction frames with
  | nil => simp
  | cons p ps ih =>
    simp only [List.map_cons, List.sum_cons, List.length_cons, ih]
    rw [Nat.add_mul]; omega

theorem size_le_sum (frames : List (Nat × Nat)) (p : Nat × Nat) (h : p ∈ frames) :
    p.2 ≤ (frames.map Prod.snd).sum := by
  induction frames with
  | nil => cases h
  | cons q qs ih =>
    simp only [List.map_cons, List.sum_cons]
    rcases List.mem_cons.mp h with h1 | h1
    · rw [h1]; omega
    · have := ih h1; omega

/-- C1, message round trip.  For an empty message queue without waiting tasks (`count = 0`,
`size = 0`, `first = next` at any index below `limit`, `limit` a value of `unsigned`) and
frames of sizes at least 1 whose sizes plus one `sizeof(unsigned)` each sum to at most
`limit`: the calls of `msg_give` return the sizes; the following calls of `msg_take`,
each with a buffer at least as large as its frame, return the sizes again and leave at
the destination exactly the bytes that stood at the source, in the order sent; afterwards
`msg_count` returns 0 and `count = 0`. -/
theorem msg_round_trip (cfg : Config) (s : Kernel) (msg : Nat) (frames dsts : List (Nat × Nat))
    (hwf : msg_wf cfg (s.msg msg)) (hcount : (s.msg msg).count = 0)
    (hsize : (s.msg msg).size = 0) (hq : s.queue msg = [])
    (hpos : ∀ p ∈ frames, 1 ≤ p.2)
    (hfit : (frames.map Prod.snd).sum + frames.length * cfg.usz ≤ (s.msg msg).limit)
    (hcap : List.Forall₂ (fun (p d : Nat × Nat) => p.2 ≤ d.2) frames dsts) :
    (give_all cfg msg frames s).2 = frames.map Prod.snd ∧
    (take_all cfg msg dsts (give_all cfg msg frames s).1).2 =
      frames.map (fun p => (p.2, load s.mem p.1 p.2)) ∧
    msg_count (take_all cfg msg dsts (give_all cfg msg frames s).1).1 msg = 0 ∧
    ((take_all cfg msg dsts (give_all cfg msg frames s).1).1.msg msg).count = 0 := by
  have hfr0 : framed cfg (s.msg msg) [] := ⟨by simp [ring, hcount, stream], hsize⟩
  obtain ⟨g1, g2, g3, _, g5, _⟩ := give_all_spec cfg msg frames s [] hwf hq hfr0
    (fun f hf => by cases hf) hpos (by rw [sum_sizes]; simpa [stream] using hfit)
  simp only [List.nil_append] at g5
  have hne : ∀ g, g ∈ frames.map (fun p => load s.mem p.1 p.2) →
      1 ≤ g.length ∧ g.length < UMOD cfg := by
    intro g hg
    obtain ⟨p, hp, rfl⟩ := List.mem_map.mp hg
    rw [load_length]
    have := size_le_sum frames p hp
    have hU := hwf.1
    exact ⟨hpos p hp, by omega⟩
  have hcap' : List.Forall₂ (fun (f : List Nat) (d : Nat × Nat) => f.length ≤ d.2)
      (frames.map (fun p => load s.mem p.1 p.2)) dsts := by
    rw [List.forall₂_map_left_iff]
    exact List.Forall₂.imp (fun p d h => by rw [load_length]; exact h) hcap
  obtain ⟨t1, t2⟩ := take_all_spec cfg msg _ dsts (give_all cfg msg frames s).1 g2 g3 g5 hne hcap'
  refine ⟨g1, ?_, ?_, ?_⟩
  · rw [t1, List.map_map]
    apply List.map_congr_left
    intro p _
    simp [load_length]
  · exact t2.2
  · rw [← ring_length, t2.1]; rfl

/-- Witness of C1: two frames of 3 and 2 bytes through a queue of 16 bytes. -/
theorem msg_round_trip_witness :
    (take_all cfg32 100 [(2000, 3), (3000, 8)]
      (give_all cfg32 100 [(1000, 3), (1010, 2)]
        (msg_init { boot cfg32 1 with mem := fun a => a % 7 } 100 16 (fun _ => 0))).1).2 =
      [(3, [6, 0, 1]), (2, [2, 3])] :=
  (msg_round_trip cfg32 (msg_init { boot cfg32 1 with mem := fun a => a % 7 } 100 16 (fun _ => 0))
    100 [(1000, 3), (1010, 2)] [(2000, 3), (3000, 8)] (by unfold msg_wf; decide) (by decide)
    (by decide) (by decide) (by decide) (by decide)
    (List.Forall₂.cons (by decide) (List.Forall₂.cons (by decide) List.Forall₂.nil))).2.1


/-! ### C4: priority inheritance -/

theorem highest_prio_sorted (s : Kernel) (que : Nat)
    (h : (s.queue que).Pairwise (fun a b => (s.tsk b).prio ≤ (s.tsk a).prio)) :
    highest_prio s que = match (s.queue que).head? with
      | some w => (s.tsk w).prio
      | none => 0 := by
  unfold highest_prio
  cases hq : s.queue que with
  | nil => rfl
  | cons w ws =>
    rw [hq] at h
    have hw := (List.pairwise_cons.mp h).1
    simp only [List.foldr_cons, List.head?_cons]
    have : List.foldr (fun w a => max (s.tsk w).prio a) 0 ws ≤ (s.tsk w).prio := by
      clear hq h
      induction ws with
      | nil => simp
      | cons x xs ih =>
        simp only [List.foldr_cons]
        have h1 := hw x (List.mem_cons_self _ _)
        have h2 := ih (fun a ha => hw a (List.mem_cons_of_mem _ ha))
        exact max_le h1 h2
    exact max_eq_left this

theorem inherited_fold (s : Kernel) (l : List Nat) (p0 : Nat)
    (h : ∀ m, m ∈ l → (s.queue m).Pairwise (fun a b => (s.tsk b).prio ≤ (s.tsk a).prio)) :
    l.foldl
      (fun p mtx =>
        match (s.queue mtx).head? with
        | some w => if p < (s.tsk w).prio then (s.tsk w).prio else p
        | none => p) p0
    = max p0 (l.foldr (fun mtx a => max (highest_prio s mtx) a) 0) := by
  induction l generalizing p0 with
  | nil => simp
  | cons m ms ih =>
    simp only [List.foldl_cons, List.foldr_cons]
    rw [ih _ (fun x hx => h x (List.mem_cons_of_mem _ hx))]
    rw [highest_prio_sorted s m (h m (List.mem_cons_self _ _))]
    cases (s.queue m).head? with
    | none => simp
    | some w =>
      simp only []
      split <;> omega

theorem inherited_eq_effective (s : Kernel) (tsk prio : Nat)
    (h : ∀ m, m ∈ (s.tsk tsk).mtx_list →
      (s.queue m).Pairwise (fun a b => (s.tsk b).prio ≤ (s.tsk a).prio)) :
    inherited_prio s tsk prio = effective_prio s tsk prio := by
  have key := inherited_fold s (s.tsk tsk).mtx_list
    (if prio < (s.tsk tsk).basic then (s.tsk tsk).basic else prio) h
  unfold effective_prio highest_waiter
  refine Eq.trans key ?_
  split <;> omega


theorem core_tsk_transfer_tsk (s : Kernel) (x que t : Nat) :
    (t ≠ x → (core_tsk_transfer s x que).tsk t = s.tsk t) ∧
    ((core_tsk_transfer s x que).tsk x).prio = (s.tsk x).prio ∧
    ((core_tsk_transfer s x que).tsk t).mtx_tree = (s.tsk t).mtx_tree := by
  unfold core_tsk_transfer core_tsk_append core_tsk_unlink
  refine ⟨?_, ?_, ?_⟩
  · intro h
    simp [Kernel.setTsk, upd_other _ _ _ _ h]
  · simp [Kernel.setTsk]
  · by_cases h : t = x
    · subst h; simp [Kernel.setTsk]
    · simp [Kernel.setTsk, upd_other _ _ _ _ h]

theorem core_tsk_insert_tsk (cfg : Config) (s : Kernel) (x t : Nat) :
    (t ≠ x → (core_tsk_insert cfg s x).tsk t = s.tsk t) ∧
    ((core_tsk_insert cfg s x).tsk t).mtx_tree = (s.tsk t).mtx_tree := by
  rw [core_tsk_insert_eq]
  simp only [priv_tsk_insert]
  refine ⟨?_, ?_⟩
  · intro h
    split <;> simp [Kernel.setTsk, upd_other _ _ _ _ h]
  · by_cases h : t = x
    · subst h; split <;> simp [Kernel.setTsk]
    · split <;> simp [Kernel.setTsk, upd_other _ _ _ _ h]


theorem core_tsk_transfer_queue (s : Kernel) (x que m : Nat)
    (hx : x ∉ s.queue m) (hm : m ≠ que) :
    (core_tsk_transfer s x que).queue m = s.queue m := by
  unfold core_tsk_transfer core_tsk_append core_tsk_unlink
  simp only [Kernel.setTsk]
  rw [upd_other _ _ _ _ hm]
  exact List.filter_eq_self.mpr (fun a ha => by
    have : a ≠ x := fun h => hx (h ▸ ha)
    simpa using this)

theorem core_tsk_transfer_guard (s : Kernel) (x que t : Nat)
    (hg : (s.tsk x).guard = some que) :
    ((core_tsk_transfer s x que).tsk t).guard = (s.tsk t).guard := by
  unfold core_tsk_transfer core_tsk_append core_tsk_unlink
  by_cases h : t = x
  · subst h; simp [Kernel.setTsk, hg]
  · simp [Kernel.setTsk, upd_other _ _ _ _ h]

theorem core_tsk_insert_queue (cfg : Config) (s : Kernel) (x : Nat) :
    (core_tsk_insert cfg s x).queue = s.queue ∧
    ∀ t, ((core_tsk_insert cfg s x).tsk t).guard = (s.tsk t).guard := by
  rw [core_tsk_insert_eq]
  simp only [priv_tsk_insert]
  refine ⟨by split <;> rfl, ?_⟩
  intro t
  by_cases h : t = x
  · subst h; split <;> simp [Kernel.setTsk]
  · split <;> simp [Kernel.setTsk, upd_other _ _ _ _ h]

theorem core_tsk_transfer_static (s : Kernel) (x que t : Nat) :
    ((core_tsk_transfer s x que).tsk t).mtx_list = (s.tsk t).mtx_list ∧
    ((core_tsk_transfer s x que).tsk t).basic = (s.tsk t).basic := by
  unfold core_tsk_transfer core_tsk_append core_tsk_unlink
  by_cases h : t = x
  · subst h; simp [Kernel.setTsk]
  · simp [Kernel.setTsk, upd_other _ _ _ _ h]

theorem core_tsk_insert_static (cfg : Config) (s : Kernel) (x t : Nat) :
    ((core_tsk_insert cfg s x).tsk t).mtx_list = (s.tsk t).mtx_list ∧
    ((core_tsk_insert cfg s x).tsk t).basic = (s.tsk t).basic := by
  rw [core_tsk_insert_eq]
  simp only [priv_tsk_insert]
  by_cases h : t = x
  · subst h; split <;> simp [Kernel.setTsk]
  · split <;> simp [Kernel.setTsk, upd_other _ _ _ _ h]

theorem prio_unfold (cfg : Config) (s : Kernel) (x q : Nat) :
    ∃ s2 : Kernel,
      (∀ t, t ≠ x → s2.tsk t = s.tsk t) ∧
      (s2.tsk x).prio = inherited_prio s x q ∧
      (∀ t, (s2.tsk t).mtx_tree = (s.tsk t).mtx_tree ∧ (s2.tsk t).guard = (s.tsk t).guard ∧
        (s2.tsk t).mtx_list = (s.tsk t).mtx_list ∧ (s2.tsk t).basic = (s.tsk t).basic) ∧
      (∀ m, x ∉ s.queue m → (s.tsk x).guard ≠ some m → s2.queue m = s.queue m) ∧
      (((s.tsk x).id ≠ tid_t.ID_DELAYED ∨ x = s.cur) →
        (∀ fuel, core_tsk_prio cfg (fuel + 1) s x q = s2) ∧ s2.queue = s.queue) ∧
      ((∀ fuel, core_tsk_prio cfg (fuel + 1) s x q = s2) ∨
        (∃ o, (s.tsk x).mtx_tree = some o ∧
          ∀ fuel, core_tsk_prio cfg (fuel + 1) s x q =
            core_tsk_prio cfg fuel s2 o (inherited_prio s x q))) := by
  obtain ⟨p, hp⟩ : ∃ p, p = inherited_prio s x q := ⟨_, rfl⟩
  obtain ⟨s1, hs1⟩ : ∃ s1 : Kernel, s1 = s.setTsk x { s.tsk x with prio := p } := ⟨_, rfl⟩
  have h1o : ∀ t, t ≠ x → s1.tsk t = s.tsk t := by
    intro t h; rw [hs1]; simp [Kernel.setTsk, upd_other _ _ _ _ h]
  have h1p : (s1.tsk x).prio = p := by rw [hs1]; simp [Kernel.setTsk]
  have h1t : ∀ t, (s1.tsk t).mtx_tree = (s.tsk t).mtx_tree ∧ (s1.tsk t).guard = (s.tsk t).guard ∧
      (s1.tsk t).mtx_list = (s.tsk t).mtx_list ∧ (s1.tsk t).basic = (s.tsk t).basic := by
    intro t
    by_cases h : t = x
    · subst h; rw [hs1]; simp [Kernel.setTsk]
    · rw [h1o t h]; exact ⟨rfl, rfl, rfl, rfl⟩
  have h1q : s1.queue = s.queue := by rw [hs1]; rfl
  have hstep : ∀ fuel, core_tsk_prio cfg (fuel + 1) s x q =
      if (s.tsk x).prio ≠ p then
        if x = s1.cur then
          if (s1.tsk (sub_next s1 x)).prio > p then port_ctx_switch s1 else s1
        else if (s1.tsk x).id = tid_t.ID_READY then
          core_tsk_insert cfg (priv_tsk_remove s1 x) x
        else if (s1.tsk x).id = tid_t.ID_DELAYED then
          match ((match (s1.tsk x).guard with
              | some que => core_tsk_transfer s1 x que
              | none => s1).tsk x).mtx_tree with
          | some owner => core_tsk_prio cfg fuel
              (match (s1.tsk x).guard with
                | some que => core_tsk_transfer s1 x que
                | none => s1) owner p
          | none => (match (s1.tsk x).guard with
              | some que => core_tsk_transfer s1 x que
              | none => s1)
        else s1
      else s := by
    intro fuel
    rw [hs1, hp]; rfl
  rw [← hp]
  by_cases hch : (s.tsk x).prio ≠ p
  · by_cases hcur : x = s1.cur
    · have hq : (if (s1.tsk (sub_next s1 x)).prio > p then port_ctx_switch s1 else s1).queue
          = s.queue := by split <;> exact h1q
      refine ⟨if (s1.tsk (sub_next s1 x)).prio > p then port_ctx_switch s1 else s1, ?_, ?_, ?_,
        fun m _ _ => by rw [hq],
        fun _ => ⟨fun fuel => by rw [hstep, if_pos hch, if_pos hcur], hq⟩,
        Or.inl (fun fuel => by rw [hstep, if_pos hch, if_pos hcur])⟩
      · intro t h; split <;> exact h1o t h
      · split <;> exact h1p
      · intro t; split <;> exact h1t t
    · by_cases hrdy : (s1.tsk x).id = tid_t.ID_READY
      · have hq : (core_tsk_insert cfg (priv_tsk_remove s1 x) x).queue = s.queue := by
          rw [(core_tsk_insert_queue cfg _ x).1, ← h1q]; rfl
        refine ⟨core_tsk_insert cfg (priv_tsk_remove s1 x) x, ?_, ?_, ?_,
          fun m _ _ => by rw [hq],
          fun _ => ⟨fun fuel => by rw [hstep, if_pos hch, if_neg hcur, if_pos hrdy], hq⟩,
          Or.inl (fun fuel => by rw [hstep, if_pos hch, if_neg hcur, if_pos hrdy])⟩
        · intro t h
          rw [(core_tsk_insert_tsk cfg _ x t).1 h]; exact h1o t h
        · rw [core_tsk_insert_prio]; exact h1p
        · intro t
          rw [(core_tsk_insert_tsk cfg _ x t).2, (core_tsk_insert_queue cfg _ x).2 t,
            (core_tsk_insert_static cfg _ x t).1, (core_tsk_insert_static cfg _ x t).2]
          exact h1t t
      · by_cases hdel : (s1.tsk x).id = tid_t.ID_DELAYED
        · obtain ⟨s2, hs2⟩ : ∃ s2 : Kernel, s2 = (match (s1.tsk x).guard with
              | some que => core_tsk_transfer s1 x que
              | none => s1) := ⟨_, rfl⟩
          have h2 : (∀ t, t ≠ x → s2.tsk t = s.tsk t) ∧ (s2.tsk x).prio = p ∧
              (∀ t, (s2.tsk t).mtx_tree = (s.tsk t).mtx_tree ∧
                (s2.tsk t).guard = (s.tsk t).guard ∧
                (s2.tsk t).mtx_list = (s.tsk t).mtx_list ∧ (s2.tsk t).basic = (s.tsk t).basic) ∧
              (∀ m, x ∉ s.queue m → (s.tsk x).guard ≠ some m → s2.queue m = s.queue m) := by
            rw [hs2]
            cases hg : (s1.tsk x).guard with
            | some que =>
              simp only []
              refine ⟨?_, ?_, ?_, ?_⟩
              · intro t h
                rw [(core_tsk_transfer_tsk s1 x que t).1 h]; exact h1o t h
              · rw [(core_tsk_transfer_tsk s1 x que x).2.1]; exact h1p
              · intro t
                rw [(core_tsk_transfer_tsk s1 x que t).2.2, core_tsk_transfer_guard s1 x que t hg,
                  (core_tsk_transfer_static s1 x que t).1, (core_tsk_transfer_static s1 x que t).2]
                exact h1t t
              · intro m hx hm
                rw [core_tsk_transfer_queue s1 x que m (by rw [h1q]; exact hx)
                  (by rw [(h1t x).2.1] at hg; intro e; exact hm (by rw [hg, e])), h1q]
            | none => exact ⟨h1o, h1p, h1t, fun m _ _ => by rw [h1q]⟩
          have hstep2 : ∀ fuel, core_tsk_prio cfg (fuel + 1) s x q =
              match (s2.tsk x).mtx_tree with
              | some owner => core_tsk_prio cfg fuel s2 owner p
              | none => s2 := by
            intro fuel
            rw [hstep, if_pos hch, if_neg hcur, if_neg hrdy, if_pos hdel, hs2]
          have hidx : (s.tsk x).id = tid_t.ID_DELAYED := by
            rw [hs1] at hdel; simpa [Kernel.setTsk] using hdel
          have hcurx : x ≠ s.cur := by rw [hs1] at hcur; exact hcur
          refine ⟨s2, h2.1, h2.2.1, h2.2.2.1, h2.2.2.2,
            fun h => (h.elim (fun h1 => absurd hidx h1) (fun h1 => absurd h1 hcurx)), ?_⟩
          cases htree : (s2.tsk x).mtx_tree with
          | none =>
            left; intro fuel; rw [hstep2, htree]
          | some o =>
            right
            refine ⟨o, by rw [← (h2.2.2.1 x).1]; exact htree, ?_⟩
            intro fuel; rw [hstep2, htree]
        · exact ⟨s1, h1o, h1p, h1t, fun m _ _ => by rw [h1q],
            fun _ => ⟨fun fuel => by
              rw [hstep, if_pos hch, if_neg hcur, if_neg hrdy, if_neg hdel], h1q⟩,
            Or.inl (fun fuel => by
              rw [hstep, if_pos hch, if_neg hcur, if_neg hrdy, if_neg hdel])⟩
  · exact ⟨s, fun _ _ => rfl, by simpa using hch, fun _ => ⟨rfl, rfl, rfl, rfl⟩,
      fun _ _ _ => rfl, fun _ => ⟨fun fuel => by rw [hstep, if_neg hch], rfl⟩,
      Or.inl (fun fuel => by rw [hstep, if_neg hch])⟩

theorem owner_n_congr (f g : Nat → tsk_t) (h : ∀ t, (f t).mtx_tree = (g t).mtx_tree) (n x : Nat) :
    owner_n f n x = owner_n g n x := by
  induction n with
  | zero => rfl
  | succ n ih =>
    simp only [owner_n, ih]
    cases owner_n g n x with
    | none => rfl
    | some y => simp [h y]

theorem owner_n_shift (f : Nat → tsk_t) (n x : Nat) :
    owner_n f (n + 1) x = ((f x).mtx_tree).bind (owner_n f n) := by
  induction n with
  | zero => simp [owner_n]
  | succ n ih =>
    rw [owner_n, ih]
    cases (f x).mtx_tree with
    | none => rfl
    | some o => simp [owner_n]

theorem owner_n_add (f : Nat → tsk_t) (a b x : Nat) :
    owner_n f (a + b) x = (owner_n f a x).bind (owner_n f b) := by
  induction b with
  | zero => simp [owner_n]
  | succ b ih =>
    rw [← Nat.add_assoc, owner_n, ih]
    cases owner_n f a x with
    | none => rfl
    | some y => simp [owner_n]

theorem owner_n_none_mono (f : Nat → tsk_t) (n d x : Nat) (h : owner_n f n x = none) :
    owner_n f (n + d) x = none := by
  rw [owner_n_add, h]; rfl

theorem owner_n_cycle (f : Nat → tsk_t) (k t : Nat) (h : owner_n f k t = some t) (i : Nat) :
    owner_n f (k * i) t = some t := by
  induction i with
  | zero => rfl
  | succ i ih =>
    rw [Nat.mul_succ, owner_n_add, ih]
    exact h

theorem owner_no_return (f : Nat → tsk_t) (n t : Nat) (h : owner_n f (n + 1) t = none)
    (k : Nat) (hk : 1 ≤ k) : owner_n f k t ≠ some t := by
  intro hc
  have h1 := owner_n_cycle f k t hc (n + 1)
  have h2 : n + 1 ≤ k * (n + 1) := Nat.le_mul_of_pos_left _ hk
  have h3 := owner_n_none_mono f (n + 1) (k * (n + 1) - (n + 1)) t h
  rw [Nat.add_sub_cancel' h2] at h3
  rw [h3] at h1
  cases h1

theorem prio_untouched (cfg : Config) (t : Nat) (fuel : Nat) (s : Kernel) (x q : Nat)
    (h : ∀ k, owner_n s.tsk k x ≠ some t) :
    (core_tsk_prio cfg fuel s x q).tsk t = s.tsk t := by
  induction fuel generalizing s x q with
  | zero => rfl
  | succ n ih =>
    have hx : t ≠ x := fun e => h 0 (by rw [e]; rfl)
    obtain ⟨s2, u1, _, u3, _, _, u4⟩ := prio_unfold cfg s x q
    rcases u4 with u | ⟨o, ho, u⟩
    · rw [u n]; exact u1 t hx
    · rw [u n, ih]
      · exact u1 t hx
      · intro k hk
        rw [owner_n_congr _ _ (fun t => (u3 t).1)] at hk
        apply h (k + 1)
        rw [owner_n_shift, ho]
        exact hk

theorem prio_result (cfg : Config) (s : Kernel) (tsk p n : Nat)
    (hchain : owner_n s.tsk (n + 1) tsk = none) (fuel : Nat) :
    ((core_tsk_prio cfg (fuel + 1) s tsk p).tsk tsk).prio = inherited_prio s tsk p := by
  obtain ⟨s2, _, u2, u3, _, _, u4⟩ := prio_unfold cfg s tsk p
  rcases u4 with u | ⟨o, ho, u⟩
  · rw [u fuel]; exact u2
  · rw [u fuel, prio_untouched]
    · exact u2
    · intro k hk
      rw [owner_n_congr _ _ (fun t => (u3 t).1)] at hk
      apply owner_no_return s.tsk n tsk hchain (k + 1) (by omega)
      rw [owner_n_shift, ho]
      exact hk

theorem prio_fuel (cfg : Config) (n : Nat) (s : Kernel) (x q : Nat)
    (hchain : owner_n s.tsk (n + 1) x = none) (fuel : Nat) (hf : n + 1 ≤ fuel) :
    core_tsk_prio cfg fuel s x q = core_tsk_prio cfg (n + 1) s x q := by
  induction n generalizing s x q fuel with
  | zero =>
    obtain ⟨f', rfl⟩ : ∃ f', fuel = f' + 1 := ⟨fuel - 1, by omega⟩
    obtain ⟨s2, _, _, _, _, _, u4⟩ := prio_unfold cfg s x q
    rcases u4 with u | ⟨o, ho, u⟩
    · rw [u f', u 0]
    · rw [owner_n_shift, ho] at hchain
      cases hchain
  | succ n ih =>
    obtain ⟨f', rfl⟩ : ∃ f', fuel = f' + 1 := ⟨fuel - 1, by omega⟩
    obtain ⟨s2, _, _, u3, _, _, u4⟩ := prio_unfold cfg s x q
    rcases u4 with u | ⟨o, ho, u⟩
    · rw [u f', u (n + 1)]
    · rw [u f', u (n + 1)]
      apply ih
      · rw [owner_n_congr _ _ (fun t => (u3 t).1)]
        rw [owner_n_shift, ho] at hchain
        exact hchain
      · omega

theorem core_cur_prio_result (s : Kernel) (p : Nat) :
    ((core_cur_prio s p).tsk s.cur).prio = inherited_prio s s.cur p := by
  unfold core_cur_prio
  simp only []
  split
  · split <;> simp [port_ctx_switch, Kernel.setTsk]
  · rename_i h; simpa using h

theorem foldr_max_le (g : Nat → Nat) (l : List Nat) (b : Nat) (h : ∀ w, w ∈ l → g w ≤ b) :
    l.foldr (fun w a => max (g w) a) 0 ≤ b := by
  induction l with
  | nil => simp
  | cons w ws ih =>
    simp only [List.foldr_cons]
    exact max_le (h w (List.mem_cons_self _ _)) (ih (fun a ha => h a (List.mem_cons_of_mem _ ha)))

theorem le_foldr_max (g : Nat → Nat) (l : List Nat) (w : Nat) (h : w ∈ l) :
    g w ≤ l.foldr (fun w a => max (g w) a) 0 := by
  induction l with
  | nil => cases h
  | cons a as ih =>
    simp only [List.foldr_cons]
    rcases List.mem_cons.mp h with h1 | h1
    · rw [h1]; exact le_max_left _ _
    · exact le_trans (ih h1) (le_max_right _ _)

theorem highest_waiter_le (s : Kernel) (tsk b : Nat)
    (h : ∀ m, m ∈ (s.tsk tsk).mtx_list → ∀ w, w ∈ s.queue m → (s.tsk w).prio ≤ b) :
    highest_waiter s tsk ≤ b :=
  foldr_max_le (fun m => highest_prio s m) _ b
    (fun m hm => foldr_max_le (fun w => (s.tsk w).prio) _ b (h m hm))

theorem le_highest_waiter (s : Kernel) (tsk m w : Nat) (hm : m ∈ (s.tsk tsk).mtx_list)
    (hw : w ∈ s.queue m) : (s.tsk w).prio ≤ highest_waiter s tsk :=
  le_trans (le_foldr_max (fun w => (s.tsk w).prio) (s.queue m) w hw)
    (le_foldr_max (fun m => highest_prio s m) _ m hm)

theorem prio_unblocked (cfg : Config) (s : Kernel) (tsk p : Nat)
    (h : (s.tsk tsk).id ≠ tid_t.ID_DELAYED ∨ tsk = s.cur) (fuel : Nat) :
    ((core_tsk_prio cfg (fuel + 1) s tsk p).tsk tsk).prio = inherited_prio s tsk p ∧
    core_tsk_prio cfg (fuel + 1) s tsk p = core_tsk_prio cfg 1 s tsk p := by
  obtain ⟨s2, _, u2, _, _, u5, _⟩ := prio_unfold cfg s tsk p
  rw [(u5 h).1 fuel, (u5 h).1 0]
  exact ⟨u2, rfl⟩

theorem prio_static (cfg : Config) (t : Nat) (fuel : Nat) (s : Kernel) (x q : Nat) :
    ((core_tsk_prio cfg fuel s x q).tsk t).mtx_tree = (s.tsk t).mtx_tree ∧
    ((core_tsk_prio cfg fuel s x q).tsk t).guard = (s.tsk t).guard ∧
    ((core_tsk_prio cfg fuel s x q).tsk t).mtx_list = (s.tsk t).mtx_list ∧
    ((core_tsk_prio cfg fuel s x q).tsk t).basic = (s.tsk t).basic := by
  induction fuel generalizing s x q with
  | zero => exact ⟨rfl, rfl, rfl, rfl⟩
  | succ n ih =>
    obtain ⟨s2, _, _, u3, _, _, u4⟩ := prio_unfold cfg s x q
    rcases u4 with u | ⟨o, _, u⟩
    · rw [u n]; exact u3 t
    · rw [u n]
      obtain ⟨i1, i2, i3, i4⟩ := ih s2 o (inherited_prio s x q)
      obtain ⟨v1, v2, v3, v4⟩ := u3 t
      exact ⟨by rw [i1, v1], by rw [i2, v2], by rw [i3, v3], by rw [i4, v4]⟩

theorem prio_queue_frame (cfg : Config) (m : Nat) (fuel : Nat) (s : Kernel) (x q : Nat)
    (h : ∀ k y, owner_n s.tsk k x = some y → y ∉ s.queue m ∧ (s.tsk y).guard ≠ some m) :
    (core_tsk_prio cfg fuel s x q).queue m = s.queue m := by
  induction fuel generalizing s x q with
  | zero => rfl
  | succ n ih =>
    obtain ⟨hx1, hx2⟩ := h 0 x rfl
    obtain ⟨s2, _, _, u3, u4, _, u5⟩ := prio_unfold cfg s x q
    have hq2 := u4 m hx1 hx2
    rcases u5 with u | ⟨o, ho, u⟩
    · rw [u n]; exact hq2
    · rw [u n, ih, hq2]
      intro k y hk
      rw [owner_n_congr _ _ (fun t => (u3 t).1)] at hk
      have := h (k + 1) y (by rw [owner_n_shift, ho]; exact hk)
      rw [hq2, (u3 y).2.1]
      exact this

theorem foldr_max_congr (g g' : Nat → Nat) (l : List Nat) (h : ∀ w, w ∈ l → g w = g' w) :
    l.foldr (fun w a => max (g w) a) 0 = l.foldr (fun w a => max (g' w) a) 0 := by
  induction l with
  | nil => rfl
  | cons w ws ih =>
    simp only [List.foldr_cons]
    rw [h w (List.mem_cons_self _ _), ih (fun a ha => h a (List.mem_cons_of_mem _ ha))]

theorem effective_prio_congr (s s' : Kernel) (tsk p : Nat)
    (hl : (s'.tsk tsk).mtx_list = (s.tsk tsk).mtx_list)
    (hb : (s'.tsk tsk).basic = (s.tsk tsk).basic)
    (hq : ∀ m, m ∈ (s.tsk tsk).mtx_list → s'.queue m = s.queue m)
    (hp : ∀ m, m ∈ (s.tsk tsk).mtx_list → ∀ w, w ∈ s.queue m →
      (s'.tsk w).prio = (s.tsk w).prio) :
    effective_prio s' tsk p = effective_prio s tsk p := by
  unfold effective_prio highest_waiter
  rw [hl, hb]
  congr 2
  apply foldr_max_congr (fun m => highest_prio s' m) (fun m => highest_prio s m)
  intro m hm
  unfold highest_prio
  rw [hq m hm]
  exact foldr_max_congr (fun w => (s'.tsk w).prio) (fun w => (s.tsk w).prio) _ (hp m hm)

theorem prio_effective_after (cfg : Config) (s : Kernel) (tsk p fuel : Nat)
    (hsep : ∀ k y, owner_n s.tsk k tsk = some y →
      ∀ m, m ∈ (s.tsk tsk).mtx_list → y ∉ s.queue m ∧ (s.tsk y).guard ≠ some m) :
    effective_prio (core_tsk_prio cfg fuel s tsk p) tsk p = effective_prio s tsk p := by
  obtain ⟨_, _, c3, c4⟩ := prio_static cfg tsk fuel s tsk p
  apply effective_prio_congr s _ tsk p c3 c4
  · intro m hm
    exact prio_queue_frame cfg m fuel s tsk p (fun k y hk => hsep k y hk m hm)
  · intro m hm w hw
    rw [prio_untouched cfg w fuel s tsk p]
    intro k hk
    exact (hsep k w hk m hm).1 hw

theorem cur_effective_after (s : Kernel) (p : Nat)
    (hsep : ∀ m, m ∈ (s.tsk s.cur).mtx_list → s.cur ∉ s.queue m) :
    effective_prio (core_cur_prio s p) s.cur p = effective_prio s s.cur p := by
  have hq : (core_cur_prio s p).queue = s.queue := by
    unfold core_cur_prio; simp only []
    split
    · split <;> rfl
    · rfl
  have ht : ∀ t, ((core_cur_prio s p).tsk t).mtx_list = (s.tsk t).mtx_list ∧
      ((core_cur_prio s p).tsk t).basic = (s.tsk t).basic ∧
      (t ≠ s.cur → (core_cur_prio s p).tsk t = s.tsk t) := by
    intro t
    unfold core_cur_prio; simp only []
    by_cases h : t = s.cur
    · subst h
      split
      · split <;> simp [port_ctx_switch, Kernel.setTsk]
      · simp
    · split
      · split <;> simp [port_ctx_switch, Kernel.setTsk, upd_other _ _ _ _ h]
      · simp
  apply effective_prio_congr s _ s.cur p (ht _).1 (ht _).2.1
  · intro m _; rw [hq]
  · intro m hm w hw
    have hw' : w ≠ s.cur := fun e => hsep m hm (e ▸ hw)
    rw [(ht w).2.2 hw']


/-- C4, priority inheritance.  The wait list of every lock held by the task is sorted by
priority and, when the task is blocked, the chain of lock owners above it ends after at
most `n` owners.  Then `core_tsk_prio(tsk, p)` returns, the same state for every bound
above `n` on the nesting of its calls, and leaves `tsk.prio` equal to the maximum of `p`,
`tsk.basic` and the highest priority of any task waiting on any held lock: with the
priorities as they are when the call is made, and also as they are after the call when
neither the task nor an owner above it is queued on a lock the task holds.
`core_cur_prio(p)` does the same for the current task.  In particular, for the requested
priority `tsk.basic`, this maximum is the priority of the highest waiter `H` when that is
at least `tsk.basic`, and it is `tsk.basic` when no held lock has a waiter. -/
theorem priority_inheritance (cfg : Config) (s : Kernel) (tsk p n : Nat)
    (hsorted : ∀ m, m ∈ (s.tsk tsk).mtx_list →
      (s.queue m).Pairwise (fun a b => (s.tsk b).prio ≤ (s.tsk a).prio))
    (hchain : (s.tsk tsk).id = tid_t.ID_DELAYED → tsk ≠ s.cur →
      owner_n s.tsk (n + 1) tsk = none) :
    (∀ fuel, n < fuel →
      ((core_tsk_prio cfg fuel s tsk p).tsk tsk).prio = effective_prio s tsk p ∧
      core_tsk_prio cfg fuel s tsk p = core_tsk_prio cfg (n + 1) s tsk p ∧
      ((∀ k y, owner_n s.tsk k tsk = some y →
          ∀ m, m ∈ (s.tsk tsk).mtx_list → y ∉ s.queue m ∧ (s.tsk y).guard ≠ some m) →
        ((core_tsk_prio cfg fuel s tsk p).tsk tsk).prio =
          effective_prio (core_tsk_prio cfg fuel s tsk p) tsk p)) ∧
    (tsk = s.cur →
      ((core_cur_prio s p).tsk tsk).prio = effective_prio s tsk p ∧
      ((∀ m, m ∈ (s.tsk tsk).mtx_list → tsk ∉ s.queue m) →
        ((core_cur_prio s p).tsk tsk).prio = effective_prio (core_cur_prio s p) tsk p)) ∧
    (∀ H m, m ∈ (s.tsk tsk).mtx_list → H ∈ s.queue m →
      (∀ m', m' ∈ (s.tsk tsk).mtx_list → ∀ w, w ∈ s.queue m' → (s.tsk w).prio ≤ (s.tsk H).prio) →
      (s.tsk tsk).basic ≤ (s.tsk H).prio →
      effective_prio s tsk (s.tsk tsk).basic = (s.tsk H).prio) ∧
    ((∀ m, m ∈ (s.tsk tsk).mtx_list → s.queue m = []) →
      effective_prio s tsk (s.tsk tsk).basic = (s.tsk tsk).basic) := by
  have heq := inherited_eq_effective s tsk p hsorted
  refine ⟨?_, ?_, ?_, ?_⟩
  · intro fuel hf
    obtain ⟨f', rfl⟩ : ∃ f', fuel = f' + 1 := ⟨fuel - 1, by omega⟩
    have key : ((core_tsk_prio cfg (f' + 1) s tsk p).tsk tsk).prio = effective_prio s tsk p ∧
        core_tsk_prio cfg (f' + 1) s tsk p = core_tsk_prio cfg (n + 1) s tsk p := by
      by_cases hb : (s.tsk tsk).id = tid_t.ID_DELAYED ∧ tsk ≠ s.cur
      · have hc := hchain hb.1 hb.2
        exact ⟨by rw [prio_result cfg s tsk p n hc f', heq],
          prio_fuel cfg n s tsk p hc (f' + 1) (by omega)⟩
      · have hu : (s.tsk tsk).id ≠ tid_t.ID_DELAYED ∨ tsk = s.cur := by
          by_cases h1 : (s.tsk tsk).id = tid_t.ID_DELAYED
          · right
            by_contra h2
            exact hb ⟨h1, h2⟩
          · left; exact h1
        obtain ⟨a1, a2⟩ := prio_unblocked cfg s tsk p hu f'
        obtain ⟨_, b2⟩ := prio_unblocked cfg s tsk p hu n
        exact ⟨by rw [a1, heq], by rw [a2, b2]⟩
    exact ⟨key.1, key.2, fun hsep => by
      rw [key.1, prio_effective_after cfg s tsk p (f' + 1) hsep]⟩
  · intro hcur
    subst hcur
    refine ⟨by rw [core_cur_prio_result, heq], fun hsep => ?_⟩
    rw [core_cur_prio_result, heq, cur_effective_after s p hsep]
  · intro H m hm hH hmax hb
    have h1 := highest_waiter_le s tsk (s.tsk H).prio hmax
    have h2 := le_highest_waiter s tsk m H hm hH
    unfold effective_prio
    omega
  · intro hnone
    have h1 := highest_waiter_le s tsk 0 (fun m hm w hw => by rw [hnone m hm] at hw; cases hw)
    unfold effective_prio
    omega

/-- Witness of C4: the ready task 7 of priority 1 holds a lock on which the task 8 of
priority 5 waits; it gets the priority 5 and moves to the front of the ready list. -/
theorem priority_inheritance_witness :
    ((core_tsk_prio cfg32 1 ex_inherit 7 (ex_inherit.tsk 7).basic).tsk 7).prio = 5 ∧
    (core_tsk_prio cfg32 1 ex_inherit 7 (ex_inherit.tsk 7).basic).ready = [7, MAIN] :=
  ⟨((priority_inheritance cfg32 ex_inherit 7 (ex_inherit.tsk 7).basic 0 (by decide)
      (by decide)).1 1 (by decide)).1.trans (by decide),
   by decide⟩
/-! ### Insertion by priority into a sorted list -/

theorem tsk_walk_some (f : Nat → tsk_t) (p : Nat) (l : List Nat) (n : Nat)
    (h : tsk_walk f p l = some n) : ¬ p ≤ (f n).prio ∧ n ∈ l := by
  induction l with
  | nil => simp [tsk_walk] at h
  | cons a l ih =>
    unfold tsk_walk at h
    split at h
    · obtain ⟨h1, h2⟩ := ih h
      exact ⟨h1, List.mem_cons_of_mem _ h2⟩
    · rename_i hc
      simp only [Option.some.injEq] at h
      subst h
      exact ⟨hc, List.mem_cons_self _ _⟩

theorem insert_none (t : Nat) (l : List Nat) : priv_rdy_insert t none l = l ++ [t] := by
  cases l <;> rfl

theorem insert_walk (f : Nat → tsk_t) (p t : Nat) (l : List Nat) :
    priv_rdy_insert t (tsk_walk f p l) l =
      l.takeWhile (fun n => decide (p ≤ (f n).prio)) ++
        t :: l.dropWhile (fun n => decide (p ≤ (f n).prio)) := by
  induction l with
  | nil => rfl
  | cons a l ih =>
    by_cases hc : p ≤ (f a).prio
    · have hw : tsk_walk f p (a :: l) = tsk_walk f p l := by simp [tsk_walk, hc]
      rw [hw, List.takeWhile_cons_of_pos (by simpa using hc),
        List.dropWhile_cons_of_pos (by simpa using hc), List.cons_append, ← ih]
      cases hn : tsk_walk f p l with
      | none => rw [insert_none, insert_none]; rfl
      | some n =>
        have hne : a ≠ n := by
          intro e; subst e
          exact (tsk_walk_some f p l a hn).1 hc
        simp [priv_rdy_insert, hne]
    · have hw : tsk_walk f p (a :: l) = some a := by simp [tsk_walk, hc]
      rw [hw, List.takeWhile_cons_of_neg (by simpa using hc),
        List.dropWhile_cons_of_neg (by simpa using hc)]
      simp [priv_rdy_insert]

theorem sorted_split (g : Nat → Nat) (p : Nat) (l : List Nat)
    (hs : l.Pairwise (fun a b => g b ≤ g a)) :
    (∀ x, x ∈ l.takeWhile (fun n => decide (p ≤ g n)) → p ≤ g x) ∧
    (∀ x, x ∈ l.dropWhile (fun n => decide (p ≤ g n)) → g x < p) := by
  induction l with
  | nil => simp
  | cons a l ih =>
    obtain ⟨h1, h2⟩ := List.pairwise_cons.mp hs
    obtain ⟨i1, i2⟩ := ih h2
    by_cases hc : p ≤ g a
    · rw [List.takeWhile_cons_of_pos (by simpa using hc),
        List.dropWhile_cons_of_pos (by simpa using hc)]
      refine ⟨?_, i2⟩
      intro x hx
      rcases List.mem_cons.mp hx with e | e
      · rw [e]; exact hc
      · exact i1 x e
    · rw [List.takeWhile_cons_of_neg (by simpa using hc),
        List.dropWhile_cons_of_neg (by simpa using hc)]
      refine ⟨by simp, ?_⟩
      intro x hx
      rcases List.mem_cons.mp hx with e | e
      · rw [e]; omega
      · have := h1 x e; omega

theorem sorted_insert (g : Nat → Nat) (t : Nat) (l : List Nat)
    (hs : l.Pairwise (fun a b => g b ≤ g a)) :
    (l.takeWhile (fun n => decide (g t ≤ g n)) ++
      t :: l.dropWhile (fun n => decide (g t ≤ g n))).Pairwise (fun a b => g b ≤ g a) := by
  obtain ⟨h1, h2⟩ := sorted_split g (g t) l hs
  rw [List.pairwise_append]
  refine ⟨hs.sublist (List.takeWhile_sublist _), ?_, ?_⟩
  · rw [List.pairwise_cons]
    exact ⟨fun x hx => le_of_lt (h2 x hx), hs.sublist (List.dropWhile_sublist _)⟩
  · intro a ha b hb
    rcases List.mem_cons.mp hb with e | e
    · rw [e]; exact h1 a ha
    · exact le_trans (le_of_lt (h2 b e)) (h1 a ha)

theorem sorted_filter (g : Nat → Nat) (q : Nat → Bool) (l : List Nat)
    (hs : l.Pairwise (fun a b => g b ≤ g a)) :
    (l.filter q).Pairwise (fun a b => g b ≤ g a) :=
  hs.sublist (List.filter_sublist _)

theorem sorted_congr (g g' : Nat → Nat) (l : List Nat) (h : ∀ x, x ∈ l → g x = g' x)
    (hs : l.Pairwise (fun a b => g b ≤ g a)) : l.Pairwise (fun a b => g' b ≤ g' a) := by
  induction l with
  | nil => exact List.Pairwise.nil
  | cons a l ih =>
    obtain ⟨h1, h2⟩ := List.pairwise_cons.mp hs
    rw [List.pairwise_cons]
    refine ⟨?_, ih (fun x hx => h x (List.mem_cons_of_mem _ hx)) h2⟩
    intro b hb
    rw [← h a (List.mem_cons_self _ _), ← h b (List.mem_cons_of_mem _ hb)]
    exact h1 b hb

theorem filter_ne_of_not_mem (t : Nat) (l : List Nat) (h : t ∉ l) :
    l.filter (fun n => decide (n ≠ t)) = l :=
  List.filter_eq_self.mpr (fun a ha => by
    have : a ≠ t := fun e => h (e ▸ ha)
    simpa using this)

theorem filter_ne_split (t : Nat) (a b : List Nat) (h : (a ++ t :: b).Nodup) :
    (a ++ t :: b).filter (fun n => decide (n ≠ t)) = a ++ b := by
  have hnd := List.nodup_append.mp h
  have hb := List.nodup_cons.mp hnd.2.1
  have ha : t ∉ a := fun hm => hnd.2.2 hm (List.mem_cons_self _ _)
  rw [List.filter_append, List.filter_cons_of_neg (by simp), filter_ne_of_not_mem t a ha,
    filter_ne_of_not_mem t b hb.1]

/-! ### Writing one frame to the buffer -/

theorem framed_count (cfg : Config) (m : msg_t) (fs : List (List Nat)) (h : framed cfg m fs) :
    m.count = (stream cfg fs).length := by
  rw [← h.1, ring_length]

theorem framed_empty (cfg : Config) (m : msg_t) (fs : List (List Nat)) (h : framed cfg m fs)
    (hne : ∀ f, f ∈ fs → 1 ≤ f.length) : (m.count = 0 ↔ fs = []) ∧ (m.size = 0 ↔ fs = []) := by
  have hc := framed_count cfg m fs h
  cases fs with
  | nil => exact ⟨by simp [hc, stream], by simp [h.2]⟩
  | cons f gs =>
    have hf := hne f (List.mem_cons_self _ _)
    refine ⟨⟨fun h0 => ?_, fun h0 => by cases h0⟩, ⟨fun h0 => ?_, fun h0 => by cases h0⟩⟩
    · rw [hc] at h0; simp only [stream, List.length_append] at h0; omega
    · have := h.2; simp only [] at this; omega

theorem put_frame (cfg : Config) (s : Kernel) (msg data size : Nat) (fs : List (List Nat))
    (hwf : msg_wf cfg (s.msg msg)) (hfr : framed cfg (s.msg msg) fs)
    (hne : ∀ f, f ∈ fs → 1 ≤ f.length) (hs : 1 ≤ size)
    (hfit : (fs = [] ∧ size ≤ (s.msg msg).limit) ∨
      (stream cfg fs).length + size + cfg.usz ≤ (s.msg msg).limit) :
    ∃ m' : msg_t,
      priv_msg_put cfg (priv_msg_putSize cfg s msg size) msg data size = s.setMsg msg m' ∧
      msg_wf cfg m' ∧ framed cfg m' (fs ++ [load s.mem data size]) ∧
      m'.limit = (s.msg msg).limit := by
  have hcount := framed_count cfg _ fs hfr
  have hlen : (load s.mem data size).length = size := load_length _ _ _
  cases fs with
  | nil =>
    have hc0 : (s.msg msg).count = 0 := by rw [hcount]; rfl
    have hsl : size ≤ (s.msg msg).limit := by
      rcases hfit with h | h
      · exact h.2
      · omega
    obtain ⟨m1, hm1⟩ : ∃ m1 : msg_t, m1 = { s.msg msg with size := size } := ⟨_, rfl⟩
    have hm1c : m1.count = 0 := by rw [hm1]; exact hc0
    have hm1l : m1.limit = (s.msg msg).limit := by rw [hm1]
    have hm1s : m1.size = size := by rw [hm1]
    have hwf1 : msg_wf cfg m1 := by rw [hm1]; exact hwf
    have hring1 : ring m1 = [] := by simp [ring, hm1c]
    obtain ⟨w2, r2, c2, s2, l2⟩ := putn_wf cfg (load s.mem data size) m1 hwf1
      (by rw [hm1c, hm1l, hlen]; omega)
    refine ⟨msg_putn cfg (load s.mem data size) m1, ?_, w2, ⟨?_, ?_⟩, by rw [l2, hm1l]⟩
    · rw [hm1]
      simp [priv_msg_put, priv_msg_putSize, hc0, Kernel.setMsg]
    · rw [r2, hring1]; simp [stream, tail_stream]
    · rw [s2, hm1s]; simp [hlen]
  | cons f rest =>
    have hfl : 1 ≤ f.length := hne f (List.mem_cons_self _ _)
    have hcpos : 0 < (s.msg msg).count := by
      rw [hcount]; simp only [stream, List.length_append]; omega
    have hc0 : (s.msg msg).count ≠ 0 := by omega
    have hfit' : (stream cfg (f :: rest)).length + size + cfg.usz ≤ (s.msg msg).limit := by
      rcases hfit with h | h
      · cases h.1
      · exact h
    have hel : (enc_unsigned cfg.usz size).length = cfg.usz := enc_unsigned_length _ _
    obtain ⟨w1, r1, c1, s1, l1⟩ := putn_wf cfg (enc_unsigned cfg.usz size) (s.msg msg) hwf
      (by rw [hel]; omega)
    obtain ⟨w2, r2, c2, s2, l2⟩ := putn_wf cfg (load s.mem data size)
      (msg_putn cfg (enc_unsigned cfg.usz size) (s.msg msg)) w1
      (by rw [c1, l1, hel, hlen]; omega)
    refine ⟨msg_putn cfg (load s.mem data size)
      (msg_putn cfg (enc_unsigned cfg.usz size) (s.msg msg)), ?_, w2, ⟨?_, ?_⟩, by rw [l2, l1]⟩
    · have hs0 : size > 0 := hs
      simp [priv_msg_put, priv_msg_putSize, hc0, hs0, Kernel.setMsg]
    · rw [r2, r1, hfr.1, stream_snoc, hlen]
    · rw [s2, s1, hfr.2]; rfl

theorem getUpdate_loop_body (cfg : Config) (msg n : Nat) (s : Kernel) (t : Nat) (rest : List Nat)
    (hq : s.queue msg = t :: rest) :
    priv_msg_getUpdate_loop cfg msg (n + 1) s =
      if (s.msg msg).count = 0 ∨
         ((s.msg msg).count + (s.tsk t).evt_size + cfg.usz) % UMOD cfg ≤ (s.msg msg).limit then
        priv_msg_getUpdate_loop cfg msg n (priv_msg_getUpdate_body cfg s msg t)
      else s := by
  rw [getUpdate_loop_cons cfg msg n s t rest hq]; rfl

theorem pull_step (cfg : Config) (s : Kernel) (msg t : Nat) (ws : List Nat)
    (fs : List (List Nat))
    (hq : s.queue msg = t :: ws) (hnd : (t :: ws).Nodup)
    (hwf : msg_wf cfg (s.msg msg)) (hfr : framed cfg (s.msg msg) fs)
    (hne : ∀ f, f ∈ fs → 1 ≤ f.length) (he : 1 ≤ (s.tsk t).evt_size)
    (hfit : (fs = [] ∧ (s.tsk t).evt_size ≤ (s.msg msg).limit) ∨
      (stream cfg fs).length + (s.tsk t).evt_size + cfg.usz ≤ (s.msg msg).limit) :
    (priv_msg_getUpdate_body cfg s msg t).queue msg = ws ∧
    msg_wf cfg ((priv_msg_getUpdate_body cfg s msg t).msg msg) ∧
    framed cfg ((priv_msg_getUpdate_body cfg s msg t).msg msg) (fs ++ [sender_frame s t]) ∧
    ((priv_msg_getUpdate_body cfg s msg t).msg msg).limit = (s.msg msg).limit ∧
    (priv_msg_getUpdate_body cfg s msg t).mem = s.mem ∧
    (∀ x, x ≠ t → (priv_msg_getUpdate_body cfg s msg t).tsk x = s.tsk x) ∧
    ((priv_msg_getUpdate_body cfg s msg t).tsk t).evt_size = 0 ∧
    woken event_t.E_SUCCESS t (priv_msg_getUpdate_body cfg s msg t) ∧
    (∀ x e, x ≠ t → woken e x s → woken e x (priv_msg_getUpdate_body cfg s msg t)) := by
  obtain ⟨m', hm, w, fr, l⟩ := put_frame cfg s msg (s.tsk t).odata (s.tsk t).evt_size fs hwf hfr
    hne he hfit
  have ht1 : (priv_msg_putSize cfg s msg (s.tsk t).evt_size).tsk = s.tsk := by
    unfold priv_msg_putSize; simp only []
    split
    · rfl
    · split <;> rfl
  obtain ⟨s3, hs3⟩ : ∃ s3 : Kernel, s3 = (s.setMsg msg m').setTsk t
      { (s.setMsg msg m').tsk t with evt_size := 0 } := ⟨_, rfl⟩
  have hb : priv_msg_getUpdate_body cfg s msg t =
      (core_tsk_wakeup cfg s3 (some t) event_t.E_SUCCESS).1 := by
    unfold priv_msg_getUpdate_body
    simp only [ht1, hm, hs3]
  have h3q : s3.queue msg = t :: ws := by rw [hs3]; exact hq
  have h3m : s3.msg msg = m' := by rw [hs3]; simp [Kernel.setTsk, Kernel.setMsg]
  have h3mem : s3.mem = s.mem := by rw [hs3]; rfl
  have h3o : ∀ x, x ≠ t → s3.tsk x = s.tsk x := by
    intro x hx; rw [hs3]; simp [Kernel.setTsk, Kernel.setMsg, upd_other _ _ _ _ hx]
  have h3t : (s3.tsk t).evt_size = 0 := by rw [hs3]; simp [Kernel.setTsk]
  have h3r : s3.ready = s.ready := by rw [hs3]; rfl
  have h3tm : s3.timers = s.timers := by rw [hs3]; rfl
  have hnd' := List.nodup_cons.mp hnd
  rw [hb]
  refine ⟨?_, ?_, ?_, ?_, ?_, ?_, ?_, woken_wakeup_self cfg s3 t _, ?_⟩
  · rw [wakeup_queue, h3q, List.filter_cons_of_neg (by simp)]
    exact filter_ne_of_not_mem t ws hnd'.1
  · rw [wakeup_msg, h3m]; exact w
  · rw [wakeup_msg, h3m]; exact fr
  · rw [wakeup_msg, h3m]; exact l
  · rw [wakeup_mem, h3mem]
  · intro x hx
    rw [wakeup_tsk_other cfg s3 t _ x hx]; exact h3o x hx
  · rw [wakeup_tsk_self]; exact h3t
  · intro x e hx hw
    apply woken_wakeup_other cfg s3 t x e _ hx
    obtain ⟨a1, a2, a3, a4⟩ := hw
    exact ⟨by rw [h3r]; exact a1, by rw [h3o x hx]; exact a2, by rw [h3o x hx]; exact a3,
      by rw [h3tm]; exact a4⟩

theorem fits_test (cfg : Config) (limit count e : Nat) (hc : count ≤ limit) (he : e ≤ limit)
    (hw : 2 * limit + cfg.usz < UMOD cfg) :
    (count = 0 ∨ (count + e + cfg.usz) % UMOD cfg ≤ limit) ↔ frame_fits cfg limit count e := by
  unfold frame_fits
  rw [Nat.mod_eq_of_lt (by omega)]

theorem getUpdate_loop_spec (cfg : Config) (msg : Nat) (ws : List Nat) :
    ∀ (fuel : Nat) (s : Kernel) (fs : List (List Nat)),
      s.queue msg = ws → ws.Nodup → ws.length ≤ fuel →
      msg_wf cfg (s.msg msg) → framed cfg (s.msg msg) fs → (∀ f, f ∈ fs → 1 ≤ f.length) →
      (∀ t, t ∈ ws → 1 ≤ (s.tsk t).evt_size ∧ (s.tsk t).evt_size ≤ (s.msg msg).limit) →
      2 * (s.msg msg).limit + cfg.usz < UMOD cfg →
      ∃ k, k ≤ ws.length ∧
        (priv_msg_getUpdate_loop cfg msg fuel s).queue msg = ws.drop k ∧
        msg_wf cfg ((priv_msg_getUpdate_loop cfg msg fuel s).msg msg) ∧
        framed cfg ((priv_msg_getUpdate_loop cfg msg fuel s).msg msg)
          (fs ++ (ws.take k).map (sender_frame s)) ∧
        ((priv_msg_getUpdate_loop cfg msg fuel s).msg msg).limit = (s.msg msg).limit ∧
        (priv_msg_getUpdate_loop cfg msg fuel s).mem = s.mem ∧
        (∀ a t b, ws.take k = a ++ t :: b →
          frame_fits cfg (s.msg msg).limit (stream cfg (fs ++ a.map (sender_frame s))).length
            (s.tsk t).evt_size) ∧
        (∀ q, (ws.drop k).head? = some q →
          ¬ frame_fits cfg (s.msg msg).limit
            ((priv_msg_getUpdate_loop cfg msg fuel s).msg msg).count (s.tsk q).evt_size) ∧
        (∀ t, t ∈ ws.take k →
          woken event_t.E_SUCCESS t (priv_msg_getUpdate_loop cfg msg fuel s) ∧
          ((priv_msg_getUpdate_loop cfg msg fuel s).tsk t).evt_size = 0) ∧
        (∀ t, t ∉ ws.take k → (priv_msg_getUpdate_loop cfg msg fuel s).tsk t = s.tsk t) ∧
        (∀ x e, x ∉ ws → woken e x s → woken e x (priv_msg_getUpdate_loop cfg msg fuel s)) := by
  induction ws with
  | nil =>
    intro fuel s fs hq _ _ hwf hfr _ _ _
    have e : priv_msg_getUpdate_loop cfg msg fuel s = s := by
      cases fuel with
      | zero => rfl
      | succ n => simp [priv_msg_getUpdate_loop, hq]
    rw [e]
    exact ⟨0, le_refl _, by simpa using hq, hwf, by simpa using hfr, rfl, rfl,
      by intro a t b h; simp at h, by intro q h; simp at h, by intro t h; simp at h,
      fun _ _ => rfl, fun _ _ _ h => h⟩
  | cons t ws ih =>
    intro fuel s fs hq hnd hfuel hwf hfr hne hsz hw
    obtain ⟨n, rfl⟩ : ∃ n, fuel = n + 1 := ⟨fuel - 1, by simp at hfuel; omega⟩
    have hnd' := List.nodup_cons.mp hnd
    obtain ⟨he1, he2⟩ := hsz t (List.mem_cons_self _ _)
    have hcount := framed_count cfg _ fs hfr
    have hcl : (s.msg msg).count ≤ (s.msg msg).limit := hwf.2.2.1
    have htest := fits_test cfg (s.msg msg).limit (s.msg msg).count (s.tsk t).evt_size hcl he2 hw
    rw [getUpdate_loop_body cfg msg n s t ws hq]
    by_cases hc : (s.msg msg).count = 0 ∨
        ((s.msg msg).count + (s.tsk t).evt_size + cfg.usz) % UMOD cfg ≤ (s.msg msg).limit
    · rw [if_pos hc]
      have hfit0 := htest.mp hc
      have hfit : (fs = [] ∧ (s.tsk t).evt_size ≤ (s.msg msg).limit) ∨
          (stream cfg fs).length + (s.tsk t).evt_size + cfg.usz ≤ (s.msg msg).limit := by
        rcases hfit0 with h | h
        · left; exact ⟨((framed_empty cfg _ fs hfr hne).1).mp h, he2⟩
        · right; rw [← hcount]; exact h
      obtain ⟨p1, p2, p3, p4, p5, p6, p7, p8, p9⟩ :=
        pull_step cfg s msg t ws fs hq hnd hwf hfr hne he1 hfit
      obtain ⟨s1, hs1⟩ : ∃ s1 : Kernel, s1 = priv_msg_getUpdate_body cfg s msg t := ⟨_, rfl⟩
      rw [← hs1] at p1 p2 p3 p4 p5 p6 p7 p8 p9 ⊢
      have hfrm : ∀ x, x ∈ ws → sender_frame s1 x = sender_frame s x := by
        intro x hx
        have hxt : x ≠ t := fun e => hnd'.1 (e ▸ hx)
        unfold sender_frame
        rw [p5, p6 x hxt]
      have hne1 : ∀ f, f ∈ fs ++ [sender_frame s t] → 1 ≤ f.length := by
        intro f hf
        rcases List.mem_append.mp hf with h | h
        · exact hne f h
        · simp only [List.mem_singleton] at h
          rw [h]; unfold sender_frame; rw [load_length]; exact he1
      obtain ⟨k, k1, k2, k3, k4, k5, k6, k7, k8, k9, k10, k11⟩ :=
        ih n s1 (fs ++ [sender_frame s t]) p1 hnd'.2 (by simp at hfuel; omega) p2 p3 hne1
          (fun x hx => by
            have hxt : x ≠ t := fun e => hnd'.1 (e ▸ hx)
            rw [p6 x hxt, p4]; exact hsz x (List.mem_cons_of_mem _ hx))
          (by rw [p4]; exact hw)
      have hmap : (ws.take k).map (sender_frame s1) = (ws.take k).map (sender_frame s) :=
        List.map_congr_left (fun x hx => hfrm x (List.mem_of_mem_take hx))
      refine ⟨k + 1, by simp; exact k1, ?_, k3, ?_, by rw [k5, p4], by rw [k6, p5], ?_, ?_, ?_, ?_, ?_⟩
      · rw [k2]; rfl
      · rw [hmap] at k4
        simpa [List.take_succ_cons] using k4
      · intro a x b hab
        rw [List.take_succ_cons] at hab
        cases a with
        | nil =>
          simp only [List.nil_append, List.cons.injEq] at hab
          rw [← hab.1]
          simp only [List.map_nil, List.append_nil]
          rw [← hcount]; exact hfit0
        | cons a0 a' =>
          simp only [List.cons_append, List.cons.injEq] at hab
          obtain ⟨ha0, hab'⟩ := hab
          have hx : x ∈ ws := List.mem_of_mem_take (by rw [hab']; simp)
          have hxt : x ≠ t := fun e => hnd'.1 (e ▸ hx)
          have := k7 a' x b hab'
          rw [p4, p6 x hxt] at this
          have hmap2 : a'.map (sender_frame s1) = a'.map (sender_frame s) :=
            List.map_congr_left (fun y hy => hfrm y
              (List.mem_of_mem_take (by rw [hab']; simp [hy])))
          rw [hmap2] at this
          rw [← ha0]
          simpa using this
      · intro q hqh
        rw [List.drop_succ_cons] at hqh
        have hq' : q ∈ ws := List.mem_of_mem_drop (List.mem_of_mem_head? hqh)
        have hqt : q ≠ t := fun e => hnd'.1 (e ▸ hq')
        have := k8 q hqh
        rw [p4, p6 q hqt] at this
        exact this
      · intro x hx
        rw [List.take_succ_cons] at hx
        rcases List.mem_cons.mp hx with e | e
        · subst e
          have hnot : x ∉ ws.take k := fun h => hnd'.1 (List.mem_of_mem_take h)
          exact ⟨k11 x _ hnd'.1 p8, by rw [k10 x hnot]; exact p7⟩
        · exact k9 x e
      · intro x hx
        rw [List.take_succ_cons] at hx
        have hxt : x ≠ t := fun e => hx (by rw [e]; exact List.mem_cons_self _ _)
        have hx' : x ∉ ws.take k := fun h => hx (List.mem_cons_of_mem _ h)
        rw [k10 x hx', p6 x hxt]
      · intro x e hx hwk
        have hxt : x ≠ t := fun h => hx (by rw [h]; exact List.mem_cons_self _ _)
        exact k11 x e (fun h => hx (List.mem_cons_of_mem _ h)) (p9 x e hxt hwk)
    · rw [if_neg hc]
      refine ⟨0, Nat.zero_le _, by simpa using hq, hwf, by simpa using hfr, rfl, rfl,
        by intro a x b h; simp at h, ?_, by intro x h; simp at h, fun _ _ => rfl,
        fun _ _ _ h => h⟩
      intro q hqh
      simp only [List.drop_zero, List.head?_cons, Option.some.injEq] at hqh
      rw [← hqh]
      exact fun h => hc (htest.mpr h)

theorem frame_le_tail (cfg : Config) (fs : List (List Nat)) (g : List Nat) (h : g ∈ fs) :
    g.length ≤ (tail_stream cfg fs).length := by
  induction fs with
  | nil => cases h
  | cons a l ih =>
    simp only [tail_stream, List.length_append]
    rcases List.mem_cons.mp h with e | e
    · rw [e]; omega
    · have := ih e; omega

theorem frame_le_stream (cfg : Config) (fs : List (List Nat)) (g : List Nat) (h : g ∈ fs) :
    g.length ≤ (stream cfg fs).length := by
  cases fs with
  | nil => cases h
  | cons a l =>
    simp only [stream, List.length_append]
    rcases List.mem_cons.mp h with e | e
    · rw [e]; omega
    · have := frame_le_tail cfg l g e; omega

theorem receive_head (cfg : Config) (s : Kernel) (msg data size : Nat) (f : List Nat)
    (rest : List (List Nat))
    (hwf : msg_wf cfg (s.msg msg))
    (hfr : framed cfg (s.msg msg) (f :: rest))
    (hne : ∀ g, g ∈ f :: rest → 1 ≤ g.length)
    (hcap : f.length ≤ size) :
    msg_take cfg s msg data size =
      (priv_msg_getUpdate cfg
        (priv_msg_getSize cfg (priv_msg_get cfg s msg data f.length) msg) msg, f.length) ∧
    ∃ m2 : msg_t,
      priv_msg_getSize cfg (priv_msg_get cfg s msg data f.length) msg =
        { s with msg := upd s.msg msg m2, mem := store s.mem data f } ∧
      msg_wf cfg m2 ∧ framed cfg m2 rest ∧ m2.limit = (s.msg msg).limit := by
  have hfl := hne f (List.mem_cons_self _ _)
  have hsz : (s.msg msg).size = f.length := hfr.2
  have hcount : (s.msg msg).count = (stream cfg (f :: rest)).length := by
    rw [← hfr.1, ring_length]
  have hs0 : size > 0 := by omega
  have hm0 : (s.msg msg).size > 0 := by omega
  have hge : size ≥ priv_msg_count s msg := by unfold priv_msg_count; omega
  obtain ⟨w1, t1, r1, c1, s1, l1⟩ := getn_wf cfg f.length (s.msg msg) hwf
    (by rw [hcount]; simp [stream])
  rw [hfr.1] at t1 r1
  have ht1 : (msg_getn cfg f.length (s.msg msg)).1 = f := by
    rw [t1]; simp [stream]
  have hr1 : ring (msg_getn cfg f.length (s.msg msg)).2 = tail_stream cfg rest := by
    rw [r1]; simp [stream]
  have hc1 : (msg_getn cfg f.length (s.msg msg)).2.count = (tail_stream cfg rest).length := by
    rw [← hr1, ring_length]
  obtain ⟨m1, hm1⟩ : ∃ m1 : msg_t, m1 = (msg_getn cfg f.length (s.msg msg)).2 := ⟨_, rfl⟩
  rw [← hm1] at w1 hr1 hc1 s1 l1
  have eg : priv_msg_get cfg s msg data f.length =
      { s.setMsg msg m1 with mem := store s.mem data f } := by
    unfold priv_msg_get
    simp only [ht1, ← hm1]
  have e0 : msg_take cfg s msg data size =
      (priv_msg_getUpdate cfg
        (priv_msg_getSize cfg (priv_msg_get cfg s msg data f.length) msg) msg, f.length) := by
    unfold msg_take
    simp only [hs0, hm0, if_true]
    unfold msg_receive
    simp only [hge, if_true, hsz]
  refine ⟨e0, ?_⟩
  rw [eg]
  cases rest with
  | nil =>
    have hc0 : m1.count = 0 := by rw [hc1]; rfl
    refine ⟨{ m1 with size := 0 }, ?_, w1, ⟨?_, rfl⟩, l1⟩
    · simp [priv_msg_getSize, Kernel.setMsg, hc0]
    · show ring { m1 with size := 0 } = _
      have : ring { m1 with size := 0 } = ring m1 := rfl
      rw [this, hr1]; rfl
  | cons g gs =>
    have hg := hne g (by simp)
    have hgU : g.length < UMOD cfg := by
      have h1 := frame_le_stream cfg (f :: g :: gs) g (by simp)
      have h2 := hwf.2.2.1
      have h3 := hwf.1
      omega
    have hel : (enc_unsigned cfg.usz g.length).length = cfg.usz := enc_unsigned_length _ _
    have hcpos : m1.count ≠ 0 := by
      rw [hc1]; simp only [tail_stream, List.length_append]; omega
    obtain ⟨w2, t2, r2, c2, s2, l2⟩ := getn_wf cfg cfg.usz m1 w1
      (by rw [hc1]; simp only [tail_stream, List.length_append, hel]; omega)
    rw [hr1] at t2 r2
    have ht2 : (msg_getn cfg cfg.usz m1).1 = enc_unsigned cfg.usz g.length := by
      rw [t2]; simp only [tail_stream, List.append_assoc]
      rw [List.take_append_of_le_length (by rw [hel])]
      exact List.take_of_length_le (by rw [hel])
    have hr2 : ring (msg_getn cfg cfg.usz m1).2 = stream cfg (g :: gs) := by
      rw [r2]; simp only [tail_stream, List.append_assoc, stream]
      rw [List.drop_append_of_le_length (by rw [hel])]
      rw [List.drop_of_length_le (by rw [hel])]
      rfl
    have hdec : dec_unsigned (enc_unsigned cfg.usz g.length) = g.length :=
      dec_enc_unsigned _ _ (by rw [← UMOD_eq]; exact hgU)
    refine ⟨{ (msg_getn cfg cfg.usz m1).2 with size := g.length }, ?_, w2, ⟨hr2, rfl⟩,
      by rw [← l1]; exact l2⟩
    simp [priv_msg_getSize, Kernel.setMsg, hcpos, ht2, hdec]

/-! ### C11: receive of a buffered frame -/

/-- C11 (amended).  The buffer of the queue holds the frames `f :: rest`, none of them
empty, `f` of `n >= 1` bytes at the head, and `msg_take` is called with a buffer of at least
`n` bytes; the tasks on the wait list are distinct and are senders blocked with sizes from
1 to `limit`, and `2 * limit + sizeof(unsigned)` is in the range of `unsigned`.  Then
`msg_take` returns `n`, the `n` bytes at the caller's buffer are the bytes of `f` and no
other byte of the user memory changes, and afterwards the buffer holds the frames `rest`
followed by the frames of the first `k` blocked senders, which have left the wait list:
`size` is the length of the first of these frames, whose length is not in front of it in the
buffer.  In particular `size` is the length of the frame that followed `f` when there is
one; `size = 0` and `count = 0` when no frame followed and no task is on the wait list;
and `size` is the size of the first blocked sender, with `count >= size`, when no frame
followed and a sender is blocked. -/
theorem msg_take_frame (cfg : Config) (s : Kernel) (msg data size : Nat) (f : List Nat)
    (rest : List (List Nat))
    (hwf : msg_wf cfg (s.msg msg))
    (hfr : framed cfg (s.msg msg) (f :: rest))
    (hne : ∀ g, g ∈ f :: rest → 1 ≤ g.length)
    (hcap : f.length ≤ size)
    (hnd : (s.queue msg).Nodup)
    (hsnd : ∀ t, t ∈ s.queue msg →
      1 ≤ (s.tsk t).evt_size ∧ (s.tsk t).evt_size ≤ (s.msg msg).limit)
    (hw : 2 * (s.msg msg).limit + cfg.usz < UMOD cfg) :
    (msg_take cfg s msg data size).2 = f.length ∧
    load (msg_take cfg s msg data size).1.mem data f.length = f ∧
    (∀ a, a < data ∨ data + f.length ≤ a → (msg_take cfg s msg data size).1.mem a = s.mem a) ∧
    msg_wf cfg ((msg_take cfg s msg data size).1.msg msg) ∧
    (∃ k, k ≤ (s.queue msg).length ∧
      (msg_take cfg s msg data size).1.queue msg = (s.queue msg).drop k ∧
      framed cfg ((msg_take cfg s msg data size).1.msg msg)
        (rest ++ ((s.queue msg).take k).map
          (fun t => load (msg_take cfg s msg data size).1.mem (s.tsk t).odata
            (s.tsk t).evt_size))) ∧
    (∀ g gs, rest = g :: gs → ((msg_take cfg s msg data size).1.msg msg).size = g.length) ∧
    (rest = [] → s.queue msg = [] →
      ((msg_take cfg s msg data size).1.msg msg).size = 0 ∧
      ((msg_take cfg s msg data size).1.msg msg).count = 0) ∧
    (rest = [] → ∀ q qs, s.queue msg = q :: qs →
      ((msg_take cfg s msg data size).1.msg msg).size = (s.tsk q).evt_size ∧
      ((msg_take cfg s msg data size).1.msg msg).size ≤
        ((msg_take cfg s msg data size).1.msg msg).count) := by
  obtain ⟨e0, m2, hs2, w2, fr2, l2⟩ := receive_head cfg s msg data size f rest hwf hfr hne hcap
  obtain ⟨s2, hs2d⟩ : ∃ s2 : Kernel,
    s2 = priv_msg_getSize cfg (priv_msg_get cfg s msg data f.length) msg := ⟨_, rfl⟩
  rw [← hs2d] at hs2 e0
  have h2q : s2.queue msg = s.queue msg := by rw [hs2]
  have h2m : s2.msg msg = m2 := by rw [hs2]; simp
  have h2t : s2.tsk = s.tsk := by rw [hs2]
  have h2mem : s2.mem = store s.mem data f := by rw [hs2]
  have hne2 : ∀ g, g ∈ rest → 1 ≤ g.length := fun g hg => hne g (List.mem_cons_of_mem _ hg)
  obtain ⟨k, k1, k2, k3, k4, k5, k6, k7, k8, k9, k10, k11⟩ :=
    getUpdate_loop_spec cfg msg (s.queue msg) (s.queue msg).length s2 rest h2q hnd (le_refl _)
      (by rw [h2m]; exact w2) (by rw [h2m]; exact fr2) hne2
      (by intro t ht; rw [h2t, h2m, l2]; exact hsnd t ht)
      (by rw [h2m, l2]; exact hw)
  have eU : priv_msg_getUpdate cfg s2 msg =
      priv_msg_getUpdate_loop cfg msg (s.queue msg).length s2 := by
    unfold priv_msg_getUpdate; rw [h2q]
  rw [e0, eU]
  simp only []
  have hframes : ((s.queue msg).take k).map (sender_frame s2) =
      ((s.queue msg).take k).map
        (fun t => load (priv_msg_getUpdate_loop cfg msg (s.queue msg).length s2).mem
          (s.tsk t).odata (s.tsk t).evt_size) := by
    apply List.map_congr_left
    intro t _
    unfold sender_frame
    rw [k6, h2t]
  rw [hframes] at k4
  obtain ⟨sf, hsf⟩ : ∃ sf : Kernel,
    sf = priv_msg_getUpdate_loop cfg msg (s.queue msg).length s2 := ⟨_, rfl⟩
  rw [← hsf] at k2 k3 k4 k5 k6 k8 ⊢
  have hcnt := framed_count cfg _ _ k4
  refine ⟨trivial, ?_, ?_, k3, ⟨k, k1, k2, k4⟩, ?_, ?_, ?_⟩
  · rw [k6, h2mem]; exact load_store f s.mem data
  · intro a ha
    rw [k6, h2mem]; exact store_other f s.mem data a ha
  · intro g gs hr
    rw [k4.2, hr]; rfl
  · intro hr hq
    rw [hq, hr] at k4 hcnt
    simp only [List.take_nil, List.map_nil, List.append_nil] at k4 hcnt
    exact ⟨k4.2, hcnt⟩
  · intro hr q qs hq
    have hk : k ≠ 0 := by
      intro h0
      apply k8 q (by rw [h0, hq]; rfl)
      left
      rw [hcnt, h0, hr]; rfl
    obtain ⟨k', rfl⟩ : ∃ k', k = k' + 1 := ⟨k - 1, by omega⟩
    rw [hq, List.take_succ_cons, hr] at k4 hcnt
    simp only [List.nil_append, List.map_cons] at k4 hcnt
    have hsz := k4.2
    simp only [load_length] at hsz
    refine ⟨hsz, ?_⟩
    rw [hsz, hcnt]
    simp only [stream, List.length_append, load_length]
    omega

/-- Witness of C11: the frame of 8 bytes of `ex_pull` is taken; the frame of the blocked
main task is pulled forward and is the head afterwards. -/
theorem msg_take_frame_witness :
    (msg_take cfg32 ex_pull 100 3000 8).2 = 8 ∧
    load (msg_take cfg32 ex_pull 100 3000 8).1.mem 3000 8 = [6, 0, 1, 2, 3, 4, 5, 6] :=
  ⟨(msg_take_frame cfg32 ex_pull 100 3000 8 [6, 0, 1, 2, 3, 4, 5, 6] []
      (by unfold msg_wf; decide) (by unfold framed; decide) (by decide) (by decide) (by decide)
      (by decide) (by decide)).1,
   (msg_take_frame cfg32 ex_pull 100 3000 8 [6, 0, 1, 2, 3, 4, 5, 6] []
      (by unfold msg_wf; decide) (by unfold framed; decide) (by decide) (by decide) (by decide)
      (by decide) (by decide)).2.1⟩

/-- Counterexample to C11 as stated: in `ex_pull` the buffer holds one frame of 8 bytes and
nothing else, so no frame follows it; `msg_take` with a buffer of 8 bytes returns 8, and
afterwards `size` and `count` are 8, not 0: the frame of the sender blocked on the queue
has been pulled into the buffer. -/
theorem msg_take_frame_counterexample :
    framed cfg32 (ex_pull.msg 100) [[6, 0, 1, 2, 3, 4, 5, 6]] ∧
    (ex_pull.msg 100).count = 8 ∧
    ex_pull.queue 100 = [MAIN] ∧
    (msg_take cfg32 ex_pull 100 3000 8).2 = 8 ∧
    ((msg_take cfg32 ex_pull 100 3000 8).1.msg 100).size = 8 ∧
    ((msg_take cfg32 ex_pull 100 3000 8).1.msg 100).count = 8 ∧
    ¬ (((msg_take cfg32 ex_pull 100 3000 8).1.msg 100).size = 0 ∧
       ((msg_take cfg32 ex_pull 100 3000 8).1.msg 100).count = 0) := by
  refine ⟨by unfold framed; decide, by decide, by decide, by decide, by decide, by decide,
    by decide⟩

/-! ### C12: failed non-blocking receive -/

/-- C12.  `msg_take` returns 0 and leaves the whole machine state as it is, the queue
(`count`, `first`, `next`, `size`, the bytes of the buffer, the wait list) and the caller's
buffer included, whenever the requested size is 0, or the queue is empty, or the requested
size is smaller than the length `size` of the frame at the head.  The queue is empty when
its field `size`, which `msg_count` reports, is 0; this is so when `count = 0` in a buffer
that holds frames none of which is empty. -/
theorem msg_take_failed (cfg : Config) (s : Kernel) (msg data size : Nat)
    (h : size = 0 ∨ msg_count s msg = 0 ∨
      ((s.msg msg).count = 0 ∧
        ∃ fs, framed cfg (s.msg msg) fs ∧ ∀ f, f ∈ fs → 1 ≤ f.length) ∨
      size < msg_count s msg) :
    msg_take cfg s msg data size = (s, 0) := by
  unfold msg_count priv_msg_count at h
  have key : size = 0 ∨ (s.msg msg).size = 0 ∨ size < (s.msg msg).size := by
    rcases h with h | h | ⟨h, fs, hfr, hne⟩ | h
    · exact Or.inl h
    · exact Or.inr (Or.inl h)
    · right; left
      have e := (framed_empty cfg _ fs hfr hne).1.mp h
      exact (framed_empty cfg _ fs hfr hne).2.mpr e
    · exact Or.inr (Or.inr h)
  unfold msg_take
  rcases key with h | h | h
  · simp [h]
  · simp [h]
  · split
    · split
      · unfold msg_receive priv_msg_count
        rw [if_neg (by omega)]
      · rfl
    · rfl

/-- Witness of C12: a request of 3 bytes on the queue of `ex_pull`, whose head frame has 8
bytes. -/
theorem msg_take_failed_witness :
    msg_take cfg32 ex_pull 100 3000 3 = (ex_pull, 0) :=
  msg_take_failed cfg32 ex_pull 100 3000 3 (Or.inr (Or.inr (Or.inr (by decide))))

/-! ### C13: pull forward -/

/-- C13.  The buffer of the queue holds the frames `fs`, none of them empty; the tasks on
the wait list are distinct and are senders blocked with sizes from 1 to `limit`, and
`2 * limit + sizeof(unsigned)` is in the range of `unsigned`.  Then `priv_msg_getUpdate`
takes the first `k` senders off the wait list, where `k` is such that every one of them
fitted when it was taken (the buffer was empty, or `count + size + sizeof(unsigned)` was at
most `limit`, `count` being the bytes of `fs` and of the frames written before), and the
sender now at the head of the wait list, if there is one, does not fit.  Afterwards the
buffer holds `fs` followed by the frames of these senders in the order of the wait list,
each with its length in front of it (but for a frame written to an empty buffer, whose
length is held by `size`); each of these senders is in the ready list with the event
`E_SUCCESS` and its send returns its full size; the other tasks are left as they were. -/
theorem pull_forward (cfg : Config) (s : Kernel) (msg : Nat) (fs : List (List Nat))
    (hwf : msg_wf cfg (s.msg msg))
    (hfr : framed cfg (s.msg msg) fs)
    (hne : ∀ f, f ∈ fs → 1 ≤ f.length)
    (hnd : (s.queue msg).Nodup)
    (hsnd : ∀ t, t ∈ s.queue msg →
      1 ≤ (s.tsk t).evt_size ∧ (s.tsk t).evt_size ≤ (s.msg msg).limit)
    (hw : 2 * (s.msg msg).limit + cfg.usz < UMOD cfg) :
    ∃ k, k ≤ (s.queue msg).length ∧
      (priv_msg_getUpdate cfg s msg).queue msg = (s.queue msg).drop k ∧
      (∀ a t b, (s.queue msg).take k = a ++ t :: b →
        frame_fits cfg (s.msg msg).limit (stream cfg (fs ++ a.map (sender_frame s))).length
          (s.tsk t).evt_size) ∧
      (∀ q, ((priv_msg_getUpdate cfg s msg).queue msg).head? = some q →
        ¬ frame_fits cfg ((priv_msg_getUpdate cfg s msg).msg msg).limit
          ((priv_msg_getUpdate cfg s msg).msg msg).count
          ((priv_msg_getUpdate cfg s msg).tsk q).evt_size) ∧
      msg_wf cfg ((priv_msg_getUpdate cfg s msg).msg msg) ∧
      framed cfg ((priv_msg_getUpdate cfg s msg).msg msg)
        (fs ++ ((s.queue msg).take k).map (sender_frame s)) ∧
      (∀ t, t ∈ (s.queue msg).take k →
        woken event_t.E_SUCCESS t (priv_msg_getUpdate cfg s msg) ∧
        msg_resume cfg (priv_msg_getUpdate cfg s msg) t (s.tsk t).evt_size =
          (s.tsk t).evt_size) ∧
      (∀ t, t ∉ (s.queue msg).take k → (priv_msg_getUpdate cfg s msg).tsk t = s.tsk t) := by
  obtain ⟨k, k1, k2, k3, k4, k5, k6, k7, k8, k9, k10, k11⟩ :=
    getUpdate_loop_spec cfg msg (s.queue msg) (s.queue msg).length s fs rfl hnd (le_refl _)
      hwf hfr hne hsnd hw
  have eU : priv_msg_getUpdate cfg s msg =
      priv_msg_getUpdate_loop cfg msg (s.queue msg).length s := rfl
  rw [eU]
  refine ⟨k, k1, k2, k7, ?_, k3, k4, ?_, k10⟩
  · intro q hq
    rw [k2] at hq
    have hqm : q ∈ (s.queue msg).drop k := List.mem_of_mem_head? hq
    have hqn : q ∉ (s.queue msg).take k := by
      intro hm
      have := List.take_append_drop k (s.queue msg)
      rw [← this] at hnd
      exact (List.nodup_append.mp hnd).2.2 hm hqm
    rw [k5, k10 q hqn]
    exact k8 q hq
  · intro t ht
    obtain ⟨a1, a2⟩ := k9 t ht
    refine ⟨a1, ?_⟩
    unfold msg_resume
    rw [a2]
    have h1 := (hsnd t (List.mem_of_mem_take ht)).2
    have h2 := hwf.1
    simp only [Nat.zero_mod, Nat.sub_zero, Nat.add_mod_right]
    exact Nat.mod_eq_of_lt (by omega)

/-- Witness of C13: in `ex_senders` the buffer holds the frame `[1, 2, 3, 4]`, and the
main task and the task 7 are blocked with frames of 13 and of 20 bytes, in this order.
The frame of the main task fits (4 + 13 + 4 is at most 32) and is pulled into the buffer,
which then holds 21 bytes; the frame of the task 7 does not fit (21 + 20 + 4 is more than
32), and the task 7 stays at the head of the wait list. -/
theorem pull_forward_witness :
    ex_senders.queue 100 = [MAIN, 7] ∧
    (ex_senders.msg 100).count = 4 ∧
    (ex_senders.tsk MAIN).evt_size = 13 ∧ (ex_senders.tsk 7).evt_size = 20 ∧
    (priv_msg_getUpdate cfg32 ex_senders 100).queue 100 = [7] ∧
    ((priv_msg_getUpdate cfg32 ex_senders 100).msg 100).count = 21 ∧
    ∃ k, k ≤ 2 ∧
      (priv_msg_getUpdate cfg32 ex_senders 100).queue 100 = List.drop k [MAIN, 7] ∧
      (∀ a t b, List.take k [MAIN, 7] = a ++ t :: b →
        frame_fits cfg32 32
          (stream cfg32 ([[1, 2, 3, 4]] ++ a.map (sender_frame ex_senders))).length
          (ex_senders.tsk t).evt_size) ∧
      (∀ q, ((priv_msg_getUpdate cfg32 ex_senders 100).queue 100).head? = some q →
        ¬ frame_fits cfg32 ((priv_msg_getUpdate cfg32 ex_senders 100).msg 100).limit
          ((priv_msg_getUpdate cfg32 ex_senders 100).msg 100).count
          ((priv_msg_getUpdate cfg32 ex_senders 100).tsk q).evt_size) ∧
      framed cfg32 ((priv_msg_getUpdate cfg32 ex_senders 100).msg 100)
        ([[1, 2, 3, 4]] ++ List.map (sender_frame ex_senders) (List.take k [MAIN, 7])) :=
  ⟨by decide, by decide, by decide, by decide, by decide, by decide,
   (pull_forward cfg32 ex_senders 100 [[1, 2, 3, 4]] (by unfold msg_wf; decide)
      (by unfold framed; decide) (by decide) (by decide) (by decide) (by decide)).imp
    (fun _ h => ⟨h.1, h.2.1, h.2.2.1, h.2.2.2.1, h.2.2.2.2.2.1⟩)⟩

/-! ### C14: push forward -/

theorem takeWhile_congr_mem (p q : Nat → Bool) (l : List Nat) (h : ∀ x, x ∈ l → p x = q x) :
    l.takeWhile p = l.takeWhile q ∧ l.dropWhile p = l.dropWhile q := by
  induction l with
  | nil => exact ⟨rfl, rfl⟩
  | cons a l ih =>
    obtain ⟨i1, i2⟩ := ih (fun x hx => h x (List.mem_cons_of_mem _ hx))
    have ha := h a (List.mem_cons_self _ _)
    simp only [List.takeWhile, List.dropWhile, ha]
    cases q a
    · exact ⟨rfl, rfl⟩
    · exact ⟨by simp [i1], i2⟩

theorem putUpdate_loop_spec (cfg : Config) (msg : Nat) (ws : List Nat) :
    ∀ (fuel : Nat) (s : Kernel),
      s.queue msg = ws → ws.Nodup → ws.length ≤ fuel →
      (priv_msg_putUpdate_loop cfg msg fuel s).queue msg =
        ws.dropWhile (fun t => decide ((s.tsk t).evt_size < (s.msg msg).size)) ∧
      (priv_msg_putUpdate_loop cfg msg fuel s).msg = s.msg ∧
      (priv_msg_putUpdate_loop cfg msg fuel s).mem = s.mem ∧
      (∀ t, t ∈ ws.takeWhile (fun t => decide ((s.tsk t).evt_size < (s.msg msg).size)) →
        woken event_t.E_TIMEOUT t (priv_msg_putUpdate_loop cfg msg fuel s)) ∧
      (∀ t, ((priv_msg_putUpdate_loop cfg msg fuel s).tsk t).evt_size = (s.tsk t).evt_size ∧
        ((priv_msg_putUpdate_loop cfg msg fuel s).tsk t).idata = (s.tsk t).idata) ∧
      (∀ t, t ∉ ws.takeWhile (fun t => decide ((s.tsk t).evt_size < (s.msg msg).size)) →
        (priv_msg_putUpdate_loop cfg msg fuel s).tsk t = s.tsk t) ∧
      (∀ x e, x ∉ ws → woken e x s → woken e x (priv_msg_putUpdate_loop cfg msg fuel s)) ∧
      (priv_msg_putUpdate_loop cfg msg fuel s).timers.Sublist s.timers := by
  induction ws with
  | nil =>
    intro fuel s hq _ _
    have e : priv_msg_putUpdate_loop cfg msg fuel s = s := by
      cases fuel with
      | zero => rfl
      | succ n => simp [priv_msg_putUpdate_loop, hq]
    rw [e]
    exact ⟨by simpa using hq, rfl, rfl, by intro t h; simp at h, fun _ => ⟨rfl, rfl⟩,
      fun _ _ => rfl, fun _ _ _ h => h, List.Sublist.refl _⟩
  | cons t ws ih =>
    intro fuel s hq hnd hfuel
    obtain ⟨n, rfl⟩ : ∃ n, fuel = n + 1 := ⟨fuel - 1, by simp at hfuel; omega⟩
    have hnd' := List.nodup_cons.mp hnd
    rw [putUpdate_loop_cons cfg msg n s t ws hq]
    by_cases hc : (s.msg msg).size > (s.tsk t).evt_size
    · rw [if_pos hc]
      obtain ⟨s1, hs1⟩ : ∃ s1 : Kernel,
        s1 = (core_tsk_wakeup cfg s (some t) event_t.E_TIMEOUT).1 := ⟨_, rfl⟩
      rw [← hs1]
      have h1q : s1.queue msg = ws := by
        rw [hs1, wakeup_queue, hq, List.filter_cons_of_neg (by simp)]
        exact filter_ne_of_not_mem t ws hnd'.1
      have h1m : s1.msg = s.msg := by rw [hs1, wakeup_msg]
      have h1mem : s1.mem = s.mem := by rw [hs1, wakeup_mem]
      have h1o : ∀ x, x ≠ t → s1.tsk x = s.tsk x := by
        intro x hx; rw [hs1]; exact wakeup_tsk_other cfg s t _ x hx
      have h1t : (s1.tsk t).evt_size = (s.tsk t).evt_size ∧ (s1.tsk t).idata = (s.tsk t).idata := by
        rw [hs1, wakeup_tsk_self]; exact ⟨rfl, rfl⟩
      have h1w : woken event_t.E_TIMEOUT t s1 := by rw [hs1]; exact woken_wakeup_self cfg s t _
      obtain ⟨i1, i2, i3, i4, i5, i6, i7, i8⟩ := ih n s1 h1q hnd'.2 (by simp at hfuel; omega)
      have hcg := takeWhile_congr_mem
        (fun x => decide ((s1.tsk x).evt_size < (s1.msg msg).size))
        (fun x => decide ((s.tsk x).evt_size < (s.msg msg).size)) ws
        (fun x hx => by
          have hxt : x ≠ t := fun e => hnd'.1 (e ▸ hx)
          simp only [h1m, h1o x hxt])
      rw [hcg.1] at i4 i6
      rw [hcg.2] at i1
      have htw : (t :: ws).takeWhile (fun x => decide ((s.tsk x).evt_size < (s.msg msg).size)) =
          t :: ws.takeWhile (fun x => decide ((s.tsk x).evt_size < (s.msg msg).size)) :=
        List.takeWhile_cons_of_pos (by simpa using hc)
      have hdw : (t :: ws).dropWhile (fun x => decide ((s.tsk x).evt_size < (s.msg msg).size)) =
          ws.dropWhile (fun x => decide ((s.tsk x).evt_size < (s.msg msg).size)) :=
        List.dropWhile_cons_of_pos (by simpa using hc)
      rw [htw, hdw]
      refine ⟨i1, by rw [i2, h1m], by rw [i3, h1mem], ?_, ?_, ?_, ?_, ?_⟩
      · intro x hx
        rcases List.mem_cons.mp hx with e | e
        · subst e
          exact i7 x _ hnd'.1 h1w
        · exact i4 x e
      · intro x
        obtain ⟨a1, a2⟩ := i5 x
        by_cases hxt : x = t
        · subst hxt; exact ⟨by rw [a1, h1t.1], by rw [a2, h1t.2]⟩
        · exact ⟨by rw [a1, h1o x hxt], by rw [a2, h1o x hxt]⟩
      · intro x hx
        have hxt : x ≠ t := fun e => hx (by rw [e]; exact List.mem_cons_self _ _)
        rw [i6 x (fun h => hx (List.mem_cons_of_mem _ h)), h1o x hxt]
      · intro x e hx hwk
        have hxt : x ≠ t := fun h => hx (by rw [h]; exact List.mem_cons_self _ _)
        apply i7 x e (fun h => hx (List.mem_cons_of_mem _ h))
        rw [hs1]; exact woken_wakeup_other cfg s t x e _ hxt hwk
      · refine i8.trans ?_
        rw [hs1, wakeup_timers]
        exact List.filter_sublist _
    · rw [if_neg hc]
      have htw : (t :: ws).takeWhile (fun x => decide ((s.tsk x).evt_size < (s.msg msg).size)) =
          [] := List.takeWhile_cons_of_neg (by simpa using hc)
      have hdw : (t :: ws).dropWhile (fun x => decide ((s.tsk x).evt_size < (s.msg msg).size)) =
          t :: ws := List.dropWhile_cons_of_neg (by simpa using hc)
      rw [htw, hdw]
      exact ⟨hq, rfl, rfl, by intro x h; simp at h, fun _ => ⟨rfl, rfl⟩, fun _ _ => rfl,
        fun _ _ _ h => h, List.Sublist.refl _⟩

theorem putUpdate_unfold (cfg : Config) (s : Kernel) (msg : Nat) :
    priv_msg_putUpdate cfg s msg =
      match ((priv_msg_putUpdate_loop cfg msg (s.queue msg).length s).queue msg).head? with
      | some q => priv_msg_putUpdate_body cfg
          (priv_msg_putUpdate_loop cfg msg (s.queue msg).length s) msg q
      | none => priv_msg_putUpdate_loop cfg msg (s.queue msg).length s := rfl

theorem sub_wrap (cfg : Config) (e S : Nat) (h1 : S ≤ e) (h2 : e < UMOD cfg) :
    (e + UMOD cfg - S % UMOD cfg) % UMOD cfg = e - S := by
  have hS : S % UMOD cfg = S := Nat.mod_eq_of_lt (by omega)
  have : e + UMOD cfg - S = (e - S) + UMOD cfg := by omega
  rw [hS, this, Nat.add_mod_right]
  exact Nat.mod_eq_of_lt (by omega)

theorem push_body (cfg : Config) (s1 : Kernel) (msg q S : Nat) (qs : List Nat)
    (frame : List Nat)
    (hq : s1.queue msg = q :: qs) (hnd : (q :: qs).Nodup)
    (hwf : msg_wf cfg (s1.msg msg)) (hring : ring (s1.msg msg) = frame)
    (hsize : (s1.msg msg).size = S) (hlen : frame.length = S) :
    (priv_msg_putUpdate_body cfg s1 msg q).queue msg = qs ∧
    (priv_msg_putUpdate_body cfg s1 msg q).mem = store s1.mem (s1.tsk q).idata frame ∧
    ((priv_msg_putUpdate_body cfg s1 msg q).tsk q).evt_size =
      ((s1.tsk q).evt_size + UMOD cfg - S % UMOD cfg) % UMOD cfg ∧
    ((priv_msg_putUpdate_body cfg s1 msg q).msg msg).size = 0 ∧
    ((priv_msg_putUpdate_body cfg s1 msg q).msg msg).count = 0 ∧
    woken event_t.E_SUCCESS q (priv_msg_putUpdate_body cfg s1 msg q) ∧
    (∀ x, x ≠ q → (priv_msg_putUpdate_body cfg s1 msg q).tsk x = s1.tsk x) ∧
    (∀ x e, x ≠ q → woken e x s1 → woken e x (priv_msg_putUpdate_body cfg s1 msg q)) := by
  have hcount : (s1.msg msg).count = S := by rw [← ring_length, hring, hlen]
  obtain ⟨w3, t3, r3, c3, z3, l3⟩ := getn_wf cfg S (s1.msg msg) hwf (by rw [hcount])
  obtain ⟨m3, hm3⟩ : ∃ m3 : msg_t, m3 = (msg_getn cfg S (s1.msg msg)).2 := ⟨_, rfl⟩
  rw [← hm3] at w3 r3 c3 z3 l3
  rw [hring, List.take_of_length_le (by omega)] at t3
  rw [hcount, Nat.sub_self] at c3
  obtain ⟨s4, hs4⟩ : ∃ s4 : Kernel, s4 =
      { s1 with
        msg := upd s1.msg msg { m3 with size := 0 },
        mem := store s1.mem (s1.tsk q).idata frame,
        tsk := upd s1.tsk q { s1.tsk q with
          evt_size := ((s1.tsk q).evt_size + UMOD cfg - S % UMOD cfg) % UMOD cfg } } :=
    ⟨_, rfl⟩
  have hb : priv_msg_putUpdate_body cfg s1 msg q =
      (core_tsk_wakeup cfg s4 (some q) event_t.E_SUCCESS).1 := by
    unfold priv_msg_putUpdate_body
    simp only [priv_msg_getSize, priv_msg_get, Kernel.setTsk, Kernel.setMsg, upd_same, hsize,
      ← hm3, t3, c3, z3, if_true, hs4, upd_upd]
  have h4q : s4.queue msg = q :: qs := by rw [hs4]; exact hq
  have h4o : ∀ x, x ≠ q → s4.tsk x = s1.tsk x := by
    intro x hx; rw [hs4]; simp [upd_other _ _ _ _ hx]
  have hnd' := List.nodup_cons.mp hnd
  rw [hb]
  refine ⟨?_, ?_, ?_, ?_, ?_, woken_wakeup_self cfg s4 q _, ?_, ?_⟩
  · rw [wakeup_queue, h4q, List.filter_cons_of_neg (by simp)]
    exact filter_ne_of_not_mem q qs hnd'.1
  · rw [wakeup_mem, hs4]
  · rw [wakeup_tsk_self, hs4]; simp
  · rw [wakeup_msg, hs4]; simp
  · rw [wakeup_msg, hs4]; simp [c3]
  · intro x hx
    rw [wakeup_tsk_other cfg s4 q _ x hx]; exact h4o x hx
  · intro x e hx hw
    apply woken_wakeup_other cfg s4 q x e _ hx
    obtain ⟨a1, a2, a3, a4⟩ := hw
    refine ⟨by rw [hs4]; exact a1, by rw [h4o x hx]; exact a2, by rw [h4o x hx]; exact a3,
      by rw [hs4]; exact a4⟩

theorem dropWhile_head (p : Nat → Bool) (l : List Nat) (q : Nat) (qs : List Nat)
    (h : l.dropWhile p = q :: qs) : p q = false := by
  induction l with
  | nil => cases h
  | cons a l ih =>
    by_cases ha : p a = true
    · rw [List.dropWhile_cons_of_pos ha] at h; exact ih h
    · rw [List.dropWhile_cons_of_neg ha] at h
      simp only [List.cons.injEq] at h
      rw [← h.1]; simpa using ha

/-- C14 (amended).  A frame of `S` bytes is given to an empty queue on whose wait list
distinct receivers are blocked.  Every receiver in front of the first one whose requested
size is at least `S` is woken with `E_TIMEOUT`: its `evt.size` is as it was, so its call
returns 0, and no byte is copied for it.  If there is no receiver with a requested size of
at least `S`, the frame stays whole in the buffer (`size = count = S`), the user memory is
as before and the wait list is empty.  Otherwise the first such receiver is given the
whole frame: the `S` bytes are at its destination and no other byte of the user memory
has changed, its `evt.size` is decremented by `S`, its call returns `S`, it is woken with
`E_SUCCESS`, the buffer is empty again and the receivers behind it stay blocked as they
were. -/
theorem push_forward (cfg : Config) (s : Kernel) (msg src S : Nat)
    (hwf : msg_wf cfg (s.msg msg)) (hempty : (s.msg msg).count = 0)
    (hS : 1 ≤ S) (hSl : S ≤ (s.msg msg).limit)
    (hnd : (s.queue msg).Nodup)
    (hrcv : ∀ t, t ∈ s.queue msg → (s.tsk t).evt_size < UMOD cfg) :
    (msg_give cfg s msg src S).2 = S ∧
    (∀ t, t ∈ (s.queue msg).takeWhile (fun t => decide ((s.tsk t).evt_size < S)) →
      woken event_t.E_TIMEOUT t (msg_give cfg s msg src S).1 ∧
      ((msg_give cfg s msg src S).1.tsk t).evt_size = (s.tsk t).evt_size ∧
      msg_resume cfg (msg_give cfg s msg src S).1 t (s.tsk t).evt_size = 0) ∧
    ((s.queue msg).dropWhile (fun t => decide ((s.tsk t).evt_size < S)) = [] →
      (msg_give cfg s msg src S).1.queue msg = [] ∧
      (msg_give cfg s msg src S).1.mem = s.mem ∧
      ((msg_give cfg s msg src S).1.msg msg).size = S ∧
      ((msg_give cfg s msg src S).1.msg msg).count = S ∧
      ring ((msg_give cfg s msg src S).1.msg msg) = load s.mem src S) ∧
    (∀ q qs, (s.queue msg).dropWhile (fun t => decide ((s.tsk t).evt_size < S)) = q :: qs →
      (msg_give cfg s msg src S).1.queue msg = qs ∧
      woken event_t.E_SUCCESS q (msg_give cfg s msg src S).1 ∧
      load (msg_give cfg s msg src S).1.mem (s.tsk q).idata S = load s.mem src S ∧
      (∀ a, a < (s.tsk q).idata ∨ (s.tsk q).idata + S ≤ a →
        (msg_give cfg s msg src S).1.mem a = s.mem a) ∧
      ((msg_give cfg s msg src S).1.tsk q).evt_size = (s.tsk q).evt_size - S ∧
      msg_resume cfg (msg_give cfg s msg src S).1 q (s.tsk q).evt_size = S ∧
      ((msg_give cfg s msg src S).1.msg msg).size = 0 ∧
      ((msg_give cfg s msg src S).1.msg msg).count = 0 ∧
      (∀ t, t ∈ qs → (msg_give cfg s msg src S).1.tsk t = s.tsk t)) := by
  have hU : S < UMOD cfg := lt_of_le_of_lt hSl hwf.1
  have hg : msg_give cfg s msg src S = (msg_transmit cfg s msg src S, S) := by
    have h1 : S > 0 ∧ S ≤ (s.msg msg).limit := ⟨hS, hSl⟩
    simp [msg_give, h1, priv_msg_space, hempty, hSl]
  rw [hg]
  simp only []
  -- the frame is written to the buffer
  obtain ⟨m1, hm1⟩ : ∃ m1 : msg_t, m1 = { s.msg msg with size := S } := ⟨_, rfl⟩
  have hm1c : m1.count = 0 := by rw [hm1]; exact hempty
  have hm1l : m1.limit = (s.msg msg).limit := by rw [hm1]
  have hm1s : m1.size = S := by rw [hm1]
  have hwf1 : msg_wf cfg m1 := by rw [hm1]; exact hwf
  have hring1 : ring m1 = [] := by simp [ring, hm1c]
  obtain ⟨m2, hm2⟩ : ∃ m2 : msg_t, m2 = msg_putn cfg (load s.mem src S) m1 := ⟨_, rfl⟩
  obtain ⟨w2, r2, c2, s2, l2⟩ := putn_wf cfg (load s.mem src S) m1 hwf1
    (by simp [load_length, hm1c, hm1l, hSl])
  rw [← hm2] at w2 r2 c2 s2 l2
  simp only [hring1, List.nil_append, hm1c, load_length, Nat.zero_add, hm1s] at r2 c2 s2
  have hlen : (load s.mem src S).length = S := load_length _ _ _
  have e1 : priv_msg_put cfg (priv_msg_putSize cfg s msg S) msg src S = s.setMsg msg m2 := by
    rw [hm2, hm1]
    simp [priv_msg_put, priv_msg_putSize, hempty, Kernel.setMsg]
  obtain ⟨sP, hsP⟩ : ∃ sP : Kernel, sP = s.setMsg msg m2 := ⟨_, rfl⟩
  have hPq : sP.queue msg = s.queue msg := by rw [hsP]; rfl
  have hPt : sP.tsk = s.tsk := by rw [hsP]; rfl
  have hPm : sP.msg msg = m2 := by rw [hsP]; simp [Kernel.setMsg]
  have hPmem : sP.mem = s.mem := by rw [hsP]; rfl
  have et : msg_transmit cfg s msg src S = priv_msg_putUpdate cfg sP msg := by
    unfold msg_transmit; simp only []; rw [e1, hsP]
  rw [et, putUpdate_unfold]
  obtain ⟨i1, i2, i3, i4, i5, i6, i7, i8⟩ :=
    putUpdate_loop_spec cfg msg (s.queue msg) (sP.queue msg).length sP hPq hnd (by rw [hPq])
  simp only [hPt, hPm, s2] at i1 i4 i5 i6
  obtain ⟨s1, hs1⟩ : ∃ s1 : Kernel,
    s1 = priv_msg_putUpdate_loop cfg msg (sP.queue msg).length sP := ⟨_, rfl⟩
  rw [← hs1] at i1 i2 i3 i4 i5 i6 i7 i8 ⊢
  have h1m : s1.msg msg = m2 := by rw [i2, hPm]
  have hsplit := List.takeWhile_append_dropWhile
    (fun t => decide ((s.tsk t).evt_size < S)) (s.queue msg)
  have hnd2 : ((s.queue msg).takeWhile (fun t => decide ((s.tsk t).evt_size < S)) ++
      (s.queue msg).dropWhile (fun t => decide ((s.tsk t).evt_size < S))).Nodup := by
    rw [hsplit]; exact hnd
  have hsmall : ∀ t, t ∈ (s.queue msg).takeWhile (fun t => decide ((s.tsk t).evt_size < S)) →
      msg_resume cfg s1 t (s.tsk t).evt_size = 0 := by
    intro t ht
    unfold msg_resume
    rw [(i5 t).1]
    exact sub_self_wrap cfg _ (hrcv t ((List.takeWhile_sublist _).subset ht))
  cases hd : (s.queue msg).dropWhile (fun t => decide ((s.tsk t).evt_size < S)) with
  | nil =>
    rw [hd] at i1
    rw [i1]
    simp only [List.head?_nil]
    refine ⟨trivial, ?_, ?_, ?_⟩
    · intro t ht
      exact ⟨i4 t ht, (i5 t).1, hsmall t ht⟩
    · intro _
      exact ⟨i1, by rw [i3, hPmem], by rw [h1m, s2], by rw [h1m, c2], by rw [h1m, r2]⟩
    · intro q qs h; cases h
  | cons q qs =>
    rw [hd] at i1 hnd2
    rw [i1]
    simp only [List.head?_cons]
    have hndq : (q :: qs).Nodup := (List.nodup_append.mp hnd2).2.1
    have hqmem : q ∈ s.queue msg := by
      have : q ∈ (s.queue msg).dropWhile (fun t => decide ((s.tsk t).evt_size < S)) := by
        rw [hd]; exact List.mem_cons_self _ _
      exact (List.dropWhile_sublist _).subset this
    have hqge : S ≤ (s.tsk q).evt_size := by
      have := dropWhile_head (fun t => decide ((s.tsk t).evt_size < S)) (s.queue msg) q qs hd
      simp only [decide_eq_false_iff_not] at this
      omega
    have hqnot : q ∉ (s.queue msg).takeWhile (fun t => decide ((s.tsk t).evt_size < S)) :=
      fun hm => (List.nodup_append.mp hnd2).2.2 hm (List.mem_cons_self _ _)
    obtain ⟨b1, b2, b3, b4, b5, b6, b7, b8⟩ := push_body cfg s1 msg q S qs (load s.mem src S)
      i1 hndq (by rw [h1m]; exact w2) (by rw [h1m]; exact r2) (by rw [h1m]; exact s2) hlen
    obtain ⟨sf, hsf⟩ : ∃ sf : Kernel, sf = priv_msg_putUpdate_body cfg s1 msg q := ⟨_, rfl⟩
    rw [← hsf] at b1 b2 b3 b4 b5 b6 b7 b8 ⊢
    have h1q : s1.tsk q = s.tsk q := i6 q hqnot
    rw [h1q] at b2 b3
    rw [i3, hPmem] at b2
    have hev : (sf.tsk q).evt_size = (s.tsk q).evt_size - S := by
      rw [b3]; exact sub_wrap cfg _ _ hqge (hrcv q hqmem)
    refine ⟨trivial, ?_, ?_, ?_⟩
    · intro t ht
      have htq : t ≠ q := fun e => hqnot (e ▸ ht)
      refine ⟨b8 t _ htq (i4 t ht), by rw [b7 t htq]; exact (i5 t).1, ?_⟩
      have := hsmall t ht
      unfold msg_resume at this ⊢
      rw [b7 t htq]; exact this
    · intro h; cases h
    · intro q' qs' h
      simp only [List.cons.injEq] at h
      obtain ⟨h1, h2⟩ := h
      subst h1 h2
      refine ⟨b1, b6, ?_, ?_, hev, ?_, b4, b5, ?_⟩
      · rw [b2]
        have := load_store (load s.mem src S) s.mem (s.tsk q).idata
        rw [hlen] at this
        exact this
      · intro a ha
        rw [b2]
        exact store_other _ _ _ _ (by rw [hlen]; exact ha)
      · unfold msg_resume
        rw [hev]
        have h3 := hrcv q hqmem
        have hm : ((s.tsk q).evt_size - S) % UMOD cfg = (s.tsk q).evt_size - S :=
          Nat.mod_eq_of_lt (by omega)
        have : (s.tsk q).evt_size + UMOD cfg - ((s.tsk q).evt_size - S) = S + UMOD cfg := by
          omega
        rw [hm, this, Nat.add_mod_right]
        exact Nat.mod_eq_of_lt hU
      · intro t ht
        have htq : t ≠ q := fun e => (List.nodup_cons.mp hndq).1 (e ▸ ht)
        have htn : t ∉ (s.queue msg).takeWhile (fun t => decide ((s.tsk t).evt_size < S)) :=
          fun hm => (List.nodup_append.mp hnd2).2.2 hm (List.mem_cons_of_mem _ ht)
        rw [b7 t htq, i6 t htn]

/-- Witness of C14: 2 bytes are given to the queue of `ex_push`, on which the main task
waits for 3 bytes to the address 2000. -/
theorem push_forward_witness :
    (msg_give cfg32 ex_push 100 1000 2).2 = 2 ∧
    load (msg_give cfg32 ex_push 100 1000 2).1.mem 2000 2 = [6, 0] :=
  ⟨(push_forward cfg32 ex_push 100 1000 2 (by unfold msg_wf; decide) (by decide) (by decide)
      (by decide) (by decide) (by decide)).1,
   ((push_forward cfg32 ex_push 100 1000 2 (by unfold msg_wf; decide) (by decide) (by decide)
      (by decide) (by decide) (by decide)).2.2.2 MAIN [] (by decide)).2.2.1⟩

/-- Counterexample to C14 as stated: the main task is blocked on the queue of `ex_push` with
a requested size of 3 and the destination 2000, and a frame of 5 bytes is given.  The main
task is woken with `E_TIMEOUT`, the 3 bytes at its destination are as before and are not
the first 3 bytes of the frame, its call returns 0, and the frame is whole in the buffer:
`size` is 5, not 5 - 3. -/
theorem push_forward_counterexample :
    ex_push.queue 100 = [MAIN] ∧ (ex_push.tsk MAIN).evt_size = 3 ∧
    (ex_push.tsk MAIN).idata = 2000 ∧
    (msg_give cfg32 ex_push 100 1000 5).2 = 5 ∧
    ((msg_give cfg32 ex_push 100 1000 5).1.tsk MAIN).event = event_t.E_TIMEOUT ∧
    MAIN ∈ (msg_give cfg32 ex_push 100 1000 5).1.ready ∧
    load (msg_give cfg32 ex_push 100 1000 5).1.mem 2000 3 = load ex_push.mem 2000 3 ∧
    load (msg_give cfg32 ex_push 100 1000 5).1.mem 2000 3 ≠ load ex_push.mem 1000 3 ∧
    msg_resume cfg32 (msg_give cfg32 ex_push 100 1000 5).1 MAIN 3 = 0 ∧
    ((msg_give cfg32 ex_push 100 1000 5).1.msg 100).size = 5 ∧
    ((msg_give cfg32 ex_push 100 1000 5).1.msg 100).count = 5 := by
  refine ⟨by decide, by decide, by decide, by decide, by decide, by decide, by decide,
    by decide, by decide, by decide, by decide⟩

/-! ### The wait primitive -/

theorem tmr_walk_congr (cfg : Config) (f g : Nat → tsk_t) (st d : Nat) (l : List Nat)
    (h : ∀ n, (f n).delay = (g n).delay ∧ (f n).start = (g n).start) :
    tmr_walk cfg f st d l = tmr_walk cfg g st d l := by
  induction l with
  | nil => rfl
  | cons a l ih => simp only [tmr_walk, (h a).1, (h a).2, ih]

theorem priv_tsk_wait_spec (cfg : Config) (s : Kernel) (tsk que : Nat) (y : Bool) :
    (priv_tsk_wait cfg s tsk que y).ready = s.ready.filter (fun n => decide (n ≠ tsk)) ∧
    (priv_tsk_wait cfg s tsk que y).queue que =
      priv_rdy_insert tsk (tsk_walk s.tsk (s.tsk tsk).prio (s.queue que)) (s.queue que) ∧
    (∀ q, q ≠ que → (priv_tsk_wait cfg s tsk que y).queue q = s.queue q) ∧
    (priv_tsk_wait cfg s tsk que y).timers =
      priv_rdy_insert tsk
        (if (s.tsk tsk).delay ≠ INFINITE cfg then
          tmr_walk cfg s.tsk (s.tsk tsk).start (s.tsk tsk).delay
            (s.timers.filter (fun n => decide (n ≠ tsk)))
         else none)
        (s.timers.filter (fun n => decide (n ≠ tsk))) ∧
    (priv_tsk_wait cfg s tsk que y).tsk tsk =
      { s.tsk tsk with guard := some que, id := tid_t.ID_DELAYED } ∧
    (∀ x, x ≠ tsk → (priv_tsk_wait cfg s tsk que y).tsk x = s.tsk x) ∧
    (priv_tsk_wait cfg s tsk que y).cur = s.cur ∧
    (priv_tsk_wait cfg s tsk que y).ctx_switch = (s.ctx_switch || y) := by
  have hq := core_tsk_append_queue s tsk que
  have hw : ∀ (v : tsk_t) (a b : Nat) (l : List Nat), v.delay = (s.tsk tsk).delay →
      v.start = (s.tsk tsk).start →
      tmr_walk cfg (upd s.tsk tsk v) a b l = tmr_walk cfg s.tsk a b l := by
    intro v a b l h1 h2
    apply tmr_walk_congr
    intro n
    by_cases h : n = tsk
    · subst h; simp [h1, h2]
    · simp [upd_other _ _ _ _ h]
  unfold priv_tsk_wait
  refine ⟨?_, ?_, ?_, ?_, ?_, ?_, ?_, ?_⟩
  · cases y <;> rfl
  · cases y <;> exact hq
  · intro q hne
    cases y <;>
      simp [core_tsk_append, priv_tsk_remove, priv_rdy_remove, core_tmr_insert, priv_tmr_insert,
        port_ctx_switch, Kernel.setTsk, upd_other _ _ _ _ hne]
  · cases y <;>
      simp [core_tsk_append, priv_tsk_remove, priv_rdy_remove, core_tmr_insert, priv_tmr_insert,
        port_ctx_switch, Kernel.setTsk] <;>
      rw [hw _ _ _ _ (by rfl) (by rfl)]
  · cases y <;>
      simp [core_tsk_append, priv_tsk_remove, priv_rdy_remove, core_tmr_insert, priv_tmr_insert,
        port_ctx_switch, Kernel.setTsk]
  · intro x hx
    cases y <;>
      simp [core_tsk_append, priv_tsk_remove, priv_rdy_remove, core_tmr_insert, priv_tmr_insert,
        port_ctx_switch, Kernel.setTsk, upd_other _ _ _ _ hx]
  · cases y <;> rfl
  · cases y <;>
      simp [core_tsk_append, priv_tsk_remove, priv_rdy_remove, core_tmr_insert, priv_tmr_insert,
        port_ctx_switch, Kernel.setTsk]

theorem core_sys_time_fields (cfg : Config) (s : Kernel) :
    (core_sys_time cfg s).2.tsk = s.tsk ∧ (core_sys_time cfg s).2.queue = s.queue ∧
    (core_sys_time cfg s).2.ready = s.ready ∧ (core_sys_time cfg s).2.timers = s.timers ∧
    (core_sys_time cfg s).2.cur = s.cur ∧ (core_sys_time cfg s).2.msg = s.msg ∧
    (core_sys_time cfg s).2.mem = s.mem ∧
    (core_sys_time cfg s).2.ctx_switch = s.ctx_switch := by
  unfold core_sys_time
  split <;> exact ⟨rfl, rfl, rfl, rfl, rfl, rfl, rfl, rfl⟩

theorem not_mem_filter_ne (t : Nat) (l : List Nat) : t ∉ l.filter (fun n => decide (n ≠ t)) := by
  intro h
  have := (List.mem_filter.mp h).2
  simp at this

theorem waitFor_spec (cfg : Config) (s : Kernel) (que delay : Nat) :
    ((core_tsk_waitFor cfg s que delay).2 = none ↔ delay ≠ IMMEDIATE) ∧
    ((core_tsk_waitFor cfg s que delay).2 ≠ none →
      (core_tsk_waitFor cfg s que delay).2 = some event_t.E_TIMEOUT) ∧
    ((core_tsk_waitFor cfg s que delay).1.tsk s.cur).odata = (s.tsk s.cur).odata ∧
    ((core_tsk_waitFor cfg s que delay).1.tsk s.cur).idata = (s.tsk s.cur).idata ∧
    ((core_tsk_waitFor cfg s que delay).1.tsk s.cur).evt_size = (s.tsk s.cur).evt_size ∧
    ((core_tsk_waitFor cfg s que delay).2 = none →
      s.cur ∈ (core_tsk_waitFor cfg s que delay).1.queue que ∧
      s.cur ∉ (core_tsk_waitFor cfg s que delay).1.ready ∧
      ((core_tsk_waitFor cfg s que delay).1.tsk s.cur).id = tid_t.ID_DELAYED ∧
      ((core_tsk_waitFor cfg s que delay).1.tsk s.cur).guard = some que) := by
  obtain ⟨c1, c2, c3, c4, c5, c6, c7, c8⟩ := core_sys_time_fields cfg s
  obtain ⟨s1, hs1⟩ : ∃ s1 : Kernel, s1 = (core_sys_time cfg s).2.setTsk s.cur
      { (core_sys_time cfg s).2.tsk s.cur with
        start := (core_sys_time cfg s).1, delay := delay } := ⟨_, rfl⟩
  have e : core_tsk_waitFor cfg s que delay =
      if delay = IMMEDIATE then (s1, some event_t.E_TIMEOUT)
      else (priv_tsk_wait cfg s1 s.cur que true, none) := by
    rw [hs1]; rfl
  have h1t : (s1.tsk s.cur).odata = (s.tsk s.cur).odata ∧
      (s1.tsk s.cur).idata = (s.tsk s.cur).idata ∧
      (s1.tsk s.cur).evt_size = (s.tsk s.cur).evt_size := by
    rw [hs1]; simp [Kernel.setTsk, c1]
  rw [e]
  by_cases hd : delay = IMMEDIATE
  · rw [if_pos hd]
    exact ⟨⟨fun h => (by cases h), fun h => absurd hd h⟩, fun _ => rfl, h1t.1, h1t.2.1, h1t.2.2,
      by intro h; cases h⟩
  · rw [if_neg hd]
    obtain ⟨p1, p2, p3, p4, p5, p6, p7, p8⟩ := priv_tsk_wait_spec cfg s1 s.cur que true
    refine ⟨⟨fun _ => hd, fun _ => rfl⟩, by intro h; exact absurd rfl h, ?_, ?_, ?_, ?_⟩
    · rw [p5]; exact h1t.1
    · rw [p5]; exact h1t.2.1
    · rw [p5]; exact h1t.2.2
    · intro _
      refine ⟨?_, ?_, by rw [p5], by rw [p5]⟩
      · rw [p2]; exact (mem_priv_rdy_insert _ _ _ _).mpr (Or.inl rfl)
      · rw [p1]; exact not_mem_filter_ne _ _

theorem waitUntil_spec (cfg : Config) (s : Kernel) (que time : Nat) :
    ((core_tsk_waitUntil cfg s que time).2 = none ↔
      (time + CMOD cfg - (core_sys_time cfg s).1 % CMOD cfg) % CMOD cfg ≤ CNT_MAX cfg / 2) ∧
    ((core_tsk_waitUntil cfg s que time).2 ≠ none →
      (core_tsk_waitUntil cfg s que time).2 = some event_t.E_TIMEOUT) ∧
    ((core_tsk_waitUntil cfg s que time).1.tsk s.cur).odata = (s.tsk s.cur).odata ∧
    ((core_tsk_waitUntil cfg s que time).1.tsk s.cur).idata = (s.tsk s.cur).idata ∧
    ((core_tsk_waitUntil cfg s que time).1.tsk s.cur).evt_size = (s.tsk s.cur).evt_size ∧
    ((core_tsk_waitUntil cfg s que time).2 = none →
      s.cur ∈ (core_tsk_waitUntil cfg s que time).1.queue que ∧
      s.cur ∉ (core_tsk_waitUntil cfg s que time).1.ready ∧
      ((core_tsk_waitUntil cfg s que time).1.tsk s.cur).id = tid_t.ID_DELAYED ∧
      ((core_tsk_waitUntil cfg s que time).1.tsk s.cur).guard = some que) := by
  obtain ⟨c1, c2, c3, c4, c5, c6, c7, c8⟩ := core_sys_time_fields cfg s
  obtain ⟨d, hd0⟩ : ∃ d, d = (time + CMOD cfg - (core_sys_time cfg s).1 % CMOD cfg) % CMOD cfg :=
    ⟨_, rfl⟩
  obtain ⟨s1, hs1⟩ : ∃ s1 : Kernel, s1 = (core_sys_time cfg s).2.setTsk s.cur
      { (core_sys_time cfg s).2.tsk s.cur with
        start := (core_sys_time cfg s).1, delay := d } := ⟨_, rfl⟩
  have e : core_tsk_waitUntil cfg s que time =
      if d > CNT_MAX cfg / 2 then (s1, some event_t.E_TIMEOUT)
      else (priv_tsk_wait cfg s1 s.cur que true, none) := by
    rw [hs1, hd0]; rfl
  have h1t : (s1.tsk s.cur).odata = (s.tsk s.cur).odata ∧
      (s1.tsk s.cur).idata = (s.tsk s.cur).idata ∧
      (s1.tsk s.cur).evt_size = (s.tsk s.cur).evt_size := by
    rw [hs1]; simp [Kernel.setTsk, c1]
  rw [e, ← hd0]
  by_cases hd : d > CNT_MAX cfg / 2
  · rw [if_pos hd]
    exact ⟨⟨fun h => (by cases h), fun h => (by omega)⟩, fun _ => rfl, h1t.1, h1t.2.1, h1t.2.2,
      by intro h; cases h⟩
  · rw [if_neg hd]
    obtain ⟨p1, p2, p3, p4, p5, p6, p7, p8⟩ := priv_tsk_wait_spec cfg s1 s.cur que true
    refine ⟨⟨fun _ => (by omega), fun _ => rfl⟩, by intro h; exact absurd rfl h, ?_, ?_, ?_, ?_⟩
    · rw [p5]; exact h1t.1
    · rw [p5]; exact h1t.2.1
    · rw [p5]; exact h1t.2.2
    · intro _
      refine ⟨?_, ?_, by rw [p5], by rw [p5]⟩
      · rw [p2]; exact (mem_priv_rdy_insert _ _ _ _).mpr (Or.inl rfl)
      · rw [p1]; exact not_mem_filter_ne _ _

/-! ### C15: blocking send -/

/-- C15 (amended).  A frame of `n >= 1` bytes does not fit in the free space of the queue
(`n > msg_space`), and `wait` is the wait primitive of `msg_sendFor` or of `msg_sendUntil`.
If `n <= limit`, the call records the source pointer and `n` in `tmp.odata` and `evt.size`
of the current task and calls the wait primitive; the caller is blocked unless the
timeout is immediate (a delay `IMMEDIATE` for `msg_sendFor`, a time point that is not
within `CNT_MAX / 2` ticks ahead of the clock for `msg_sendUntil`), in which case the call
returns 0; a blocked caller is on the wait list of the queue, no longer in the ready list
and tagged `ID_DELAYED`, and its call returns `n` minus the `evt.size` found on
resumption.  If `n > limit`, the call returns 0 at once and changes nothing: nothing is
recorded and the caller is not blocked. -/
theorem msg_send_blocks (cfg : Config) (s : Kernel) (msg data n time : Nat)
    (wait : Kernel → Nat → Nat → Kernel × Option event_t)
    (hwait : wait = core_tsk_waitFor cfg ∨ wait = core_tsk_waitUntil cfg)
    (hn : 1 ≤ n) (hfit : msg_space cfg s msg < n) (hU : (s.msg msg).limit < UMOD cfg) :
    (n ≤ (s.msg msg).limit →
      ((priv_msg_send cfg s msg data n time wait).1.tsk s.cur).odata = data ∧
      ((priv_msg_send cfg s msg data n time wait).1.tsk s.cur).evt_size = n ∧
      ((priv_msg_send cfg s msg data n time wait).2 = none →
        s.cur ∈ (priv_msg_send cfg s msg data n time wait).1.queue msg ∧
        s.cur ∉ (priv_msg_send cfg s msg data n time wait).1.ready ∧
        ((priv_msg_send cfg s msg data n time wait).1.tsk s.cur).id = tid_t.ID_DELAYED ∧
        ((priv_msg_send cfg s msg data n time wait).1.tsk s.cur).guard = some msg) ∧
      ((wait = core_tsk_waitFor cfg ∧
          ((priv_msg_send cfg s msg data n time wait).2 = none ↔ time ≠ IMMEDIATE)) ∨
        (wait = core_tsk_waitUntil cfg ∧
          ((priv_msg_send cfg s msg data n time wait).2 = none ↔
            (time + CMOD cfg - (core_sys_time cfg s).1 % CMOD cfg) % CMOD cfg ≤
              CNT_MAX cfg / 2))) ∧
      ((priv_msg_send cfg s msg data n time wait).2 ≠ none →
        (priv_msg_send cfg s msg data n time wait).2 = some 0) ∧
      (∀ s' : Kernel, (s'.tsk s.cur).evt_size ≤ n →
        msg_resume cfg s' s.cur n = n - (s'.tsk s.cur).evt_size)) ∧
    ((s.msg msg).limit < n → priv_msg_send cfg s msg data n time wait = (s, some 0)) := by
  unfold msg_space at hfit
  refine ⟨?_, ?_⟩
  · intro hnl
    obtain ⟨s1, hs1⟩ : ∃ s1 : Kernel,
      s1 = s.setTsk s.cur { s.tsk s.cur with odata := data, evt_size := n } := ⟨_, rfl⟩
    have h1c : s1.cur = s.cur := by rw [hs1]; rfl
    have h1o : (s1.tsk s.cur).odata = data := by rw [hs1]; simp [Kernel.setTsk]
    have h1e : (s1.tsk s.cur).evt_size = n := by rw [hs1]; simp [Kernel.setTsk]
    have e : priv_msg_send cfg s msg data n time wait =
        match (wait s1 msg time).2 with
        | some _ => ((wait s1 msg time).1, some (msg_resume cfg (wait s1 msg time).1 s.cur n))
        | none => ((wait s1 msg time).1, none) := by
      unfold priv_msg_send
      rw [if_pos ⟨hn, hnl⟩, if_neg (by omega), hs1]
    have hclock : (core_sys_time cfg s1).1 = (core_sys_time cfg s).1 := by
      rw [hs1]; unfold core_sys_time; split <;> rfl
    have key : ((wait s1 msg time).1.tsk s.cur).odata = data ∧
        ((wait s1 msg time).1.tsk s.cur).evt_size = n ∧
        ((wait s1 msg time).2 = none →
          s.cur ∈ (wait s1 msg time).1.queue msg ∧ s.cur ∉ (wait s1 msg time).1.ready ∧
          ((wait s1 msg time).1.tsk s.cur).id = tid_t.ID_DELAYED ∧
          ((wait s1 msg time).1.tsk s.cur).guard = some msg) ∧
        ((wait = core_tsk_waitFor cfg ∧ ((wait s1 msg time).2 = none ↔ time ≠ IMMEDIATE)) ∨
         (wait = core_tsk_waitUntil cfg ∧ ((wait s1 msg time).2 = none ↔
          (time + CMOD cfg - (core_sys_time cfg s).1 % CMOD cfg) % CMOD cfg ≤
            CNT_MAX cfg / 2))) := by
      rcases hwait with rfl | rfl
      · obtain ⟨a1, a2, a3, a4, a5, a6⟩ := waitFor_spec cfg s1 msg time
        rw [h1c] at a3 a5 a6
        exact ⟨by rw [a3, h1o], by rw [a5, h1e], a6, Or.inl ⟨rfl, a1⟩⟩
      · obtain ⟨a1, a2, a3, a4, a5, a6⟩ := waitUntil_spec cfg s1 msg time
        rw [h1c] at a3 a5 a6
        rw [hclock] at a1
        exact ⟨by rw [a3, h1o], by rw [a5, h1e], a6, Or.inr ⟨rfl, a1⟩⟩
    obtain ⟨k1, k2, k3, k4⟩ := key
    have hres : ∀ s' : Kernel, (s'.tsk s.cur).evt_size ≤ n →
        msg_resume cfg s' s.cur n = n - (s'.tsk s.cur).evt_size := by
      intro s' h
      unfold msg_resume
      exact sub_wrap cfg n _ h (by omega)
    rw [e]
    cases hw : (wait s1 msg time).2 with
    | none =>
      rw [hw] at k3 k4
      show (((wait s1 msg time).1, (none : Option Nat)).1.tsk s.cur).odata = data ∧ _
      refine ⟨k1, k2, fun _ => k3 rfl, ?_, fun h => absurd rfl h, hres⟩
      rcases k4 with ⟨h1, h2⟩ | ⟨h1, h2⟩
      · exact Or.inl ⟨h1, ⟨fun _ => h2.mp rfl, fun _ => rfl⟩⟩
      · exact Or.inr ⟨h1, ⟨fun _ => h2.mp rfl, fun _ => rfl⟩⟩
    | some ev =>
      rw [hw] at k4
      show (((wait s1 msg time).1,
        some (msg_resume cfg (wait s1 msg time).1 s.cur n)).1.tsk s.cur).odata = data ∧ _
      refine ⟨k1, k2, fun h => (by cases h), ?_, fun _ => ?_, hres⟩
      · rcases k4 with ⟨h1, h2⟩ | ⟨h1, h2⟩
        · exact Or.inl ⟨h1, ⟨fun h => (by cases h), fun h => (by cases h2.mpr h)⟩⟩
        · exact Or.inr ⟨h1, ⟨fun h => (by cases h), fun h => (by cases h2.mpr h)⟩⟩
      · show some (msg_resume cfg (wait s1 msg time).1 s.cur n) = some 0
        rw [hres _ (by rw [k2]), k2, Nat.sub_self]
  · intro hl
    unfold priv_msg_send
    rw [if_neg (by omega)]

/-- Witness of C15: the main task sends 3 bytes to the queue of `ex_space`, which has no
free space, with a delay of 5 ticks. -/
theorem msg_send_blocks_witness :
    ((priv_msg_send cfg32 ex_space 100 2000 3 5 (core_tsk_waitFor cfg32)).1.tsk
      ex_space.cur).odata = 2000 ∧
    ((priv_msg_send cfg32 ex_space 100 2000 3 5 (core_tsk_waitFor cfg32)).1.tsk
      ex_space.cur).evt_size = 3 :=
  ⟨((msg_send_blocks cfg32 ex_space 100 2000 3 5 (core_tsk_waitFor cfg32) (Or.inl rfl)
      (by decide) (by decide) (by decide)).1 (by decide)).1,
   ((msg_send_blocks cfg32 ex_space 100 2000 3 5 (core_tsk_waitFor cfg32) (Or.inl rfl)
      (by decide) (by decide) (by decide)).1 (by decide)).2.1⟩

/-- Counterexample to C15 as stated: a frame of 9 bytes does not fit in the free space of
an empty queue of 8 bytes (`msg_space` is 8), and `msg_sendFor` with a delay of 5 ticks
returns 0 at once: the size 9 and the source 1000 are not recorded, the wait list stays
empty and the caller stays in the ready list. -/
theorem msg_send_blocks_counterexample :
    msg_space cfg32 (msg_init (boot cfg32 1) 100 8 (fun _ => 0)) 100 = 8 ∧
    (msg_sendFor cfg32 (msg_init (boot cfg32 1) 100 8 (fun _ => 0)) 100 1000 9 5).2 = some 0 ∧
    ((msg_sendFor cfg32 (msg_init (boot cfg32 1) 100 8 (fun _ => 0)) 100 1000 9 5).1.tsk
      MAIN).evt_size ≠ 9 ∧
    ((msg_sendFor cfg32 (msg_init (boot cfg32 1) 100 8 (fun _ => 0)) 100 1000 9 5).1.tsk
      MAIN).odata ≠ 1000 ∧
    (msg_sendFor cfg32 (msg_init (boot cfg32 1) 100 8 (fun _ => 0)) 100 1000 9 5).1.queue 100
      = [] ∧
    MAIN ∈ (msg_sendFor cfg32 (msg_init (boot cfg32 1) 100 8 (fun _ => 0)) 100 1000 9 5).1.ready
    := by
  refine ⟨by decide, by decide, by decide, by decide, by decide, by decide⟩


/-! ### C16: insertion into the ready list -/

theorem priv_tsk_insert_split (cfg : Config) (s : Kernel) (tsk : Nat) :
    (priv_tsk_insert cfg s tsk).ready =
      s.ready.takeWhile (fun n => decide ((s.tsk tsk).prio ≤ (s.tsk n).prio)) ++
        tsk :: s.ready.dropWhile (fun n => decide ((s.tsk tsk).prio ≤ (s.tsk n).prio)) := by
  rw [priv_tsk_insert_ready]
  by_cases h0 : (s.tsk tsk).prio = 0
  · rw [if_neg (by simpa using h0), insert_none, h0]
    have ht : ∀ l : List Nat, l.takeWhile (fun n => decide (0 ≤ (s.tsk n).prio)) = l ∧
        l.dropWhile (fun n => decide (0 ≤ (s.tsk n).prio)) = [] := by
      intro l
      induction l with
      | nil => exact ⟨rfl, rfl⟩
      | cons x l ih =>
        rw [List.takeWhile_cons_of_pos (by simp), List.dropWhile_cons_of_pos (by simp), ih.1, ih.2]
        exact ⟨rfl, rfl⟩
    rw [(ht s.ready).1, (ht s.ready).2]
  · rw [if_pos h0, insert_walk]

theorem priv_tsk_insert_sorted (cfg : Config) (s : Kernel) (tsk : Nat)
    (hsorted : s.ready.Pairwise (fun a b => (s.tsk b).prio ≤ (s.tsk a).prio)) :
    (∃ a b, s.ready = a ++ b ∧ (priv_tsk_insert cfg s tsk).ready = a ++ tsk :: b ∧
      (∀ x, x ∈ a → (s.tsk tsk).prio ≤ (s.tsk x).prio) ∧
      (∀ x, x ∈ b → (s.tsk x).prio < (s.tsk tsk).prio)) ∧
    (priv_tsk_insert cfg s tsk).ready.Pairwise
      (fun a b => ((priv_tsk_insert cfg s tsk).tsk b).prio ≤
        ((priv_tsk_insert cfg s tsk).tsk a).prio) := by
  obtain ⟨h1, h2⟩ := sorted_split (fun n => (s.tsk n).prio) (s.tsk tsk).prio s.ready hsorted
  refine ⟨⟨_, _, (List.takeWhile_append_dropWhile _ _).symm, priv_tsk_insert_split cfg s tsk,
    h1, h2⟩, ?_⟩
  have hp : ∀ n, ((priv_tsk_insert cfg s tsk).tsk n).prio = (s.tsk n).prio :=
    priv_tsk_insert_prio cfg s tsk
  simp only [hp]
  rw [priv_tsk_insert_split]
  exact sorted_insert (fun n => (s.tsk n).prio) tsk s.ready hsorted

/-- C16.  The ready list, from `IDLE.sub.next` round to `IDLE`, is sorted by non-increasing
priority and the task is not in it.  Then `priv_tsk_insert` links the task behind the
tasks `a` of the list whose priority is greater than or equal to its own and in front of
the tasks `b` whose priority is lower, which is the end of the list, in front of `IDLE`,
when its priority is 0; the other tasks keep their order and their priorities, and the
list is sorted again.  So a task inserted after another one of the same priority comes
behind it in the list: among tasks of equal priority the order is the order of
insertion. -/
theorem ready_insert (cfg : Config) (s : Kernel) (tsk : Nat)
    (hsorted : s.ready.Pairwise (fun a b => (s.tsk b).prio ≤ (s.tsk a).prio))
    (hnot : tsk ∉ s.ready) :
    (∃ a b, s.ready = a ++ b ∧ (priv_tsk_insert cfg s tsk).ready = a ++ tsk :: b ∧
      (∀ x, x ∈ a → (s.tsk tsk).prio ≤ (s.tsk x).prio) ∧
      (∀ x, x ∈ b → (s.tsk x).prio < (s.tsk tsk).prio)) ∧
    ((s.tsk tsk).prio = 0 → (priv_tsk_insert cfg s tsk).ready = s.ready ++ [tsk]) ∧
    (priv_tsk_insert cfg s tsk).ready.filter (fun n => decide (n ≠ tsk)) = s.ready ∧
    (∀ n, ((priv_tsk_insert cfg s tsk).tsk n).prio = (s.tsk n).prio) ∧
    (priv_tsk_insert cfg s tsk).ready.Pairwise
      (fun a b => ((priv_tsk_insert cfg s tsk).tsk b).prio ≤
        ((priv_tsk_insert cfg s tsk).tsk a).prio) ∧
    (∀ t2, t2 ∉ (priv_tsk_insert cfg s tsk).ready → (s.tsk t2).prio = (s.tsk tsk).prio →
      ∃ a b c, (priv_tsk_insert cfg (priv_tsk_insert cfg s tsk) t2).ready =
        a ++ tsk :: b ++ t2 :: c) := by
  obtain ⟨⟨a, b, hab, hr, ha, hb⟩, hs'⟩ := priv_tsk_insert_sorted cfg s tsk hsorted
  have hp : ∀ n, ((priv_tsk_insert cfg s tsk).tsk n).prio = (s.tsk n).prio :=
    priv_tsk_insert_prio cfg s tsk
  refine ⟨⟨a, b, hab, hr, ha, hb⟩, ?_, ?_, hp, hs', ?_⟩
  · intro h0
    have hbn : b = [] := by
      cases b with
      | nil => rfl
      | cons x l => have := hb x (List.mem_cons_self _ _); omega
    rw [hr, hab, hbn]; simp
  · rw [hr, hab, List.filter_append, List.filter_cons_of_neg (by simp), ← List.filter_append]
    rw [← hab]
    exact filter_ne_of_not_mem tsk s.ready hnot
  · intro t2 ht2 hpe
    obtain ⟨⟨a2, b2, hab2, hr2, ha2, hb2⟩, _⟩ :=
      priv_tsk_insert_sorted cfg (priv_tsk_insert cfg s tsk) t2 hs'
    have hmem : tsk ∈ (priv_tsk_insert cfg s tsk).ready := by rw [hr]; simp
    rw [hab2] at hmem
    have hin : tsk ∈ a2 := by
      rcases List.mem_append.mp hmem with h | h
      · exact h
      · have := hb2 tsk h
        rw [hp, hp, hpe] at this
        omega
    obtain ⟨u, v, huv⟩ := List.append_of_mem hin
    refine ⟨u, v, b2, ?_⟩
    rw [hr2, huv]

/-- Witness of C16: the task 7 of priority 1 is inserted into the ready list of the boot
state, which holds the main task of priority 1. -/
theorem ready_insert_witness :
    (priv_tsk_insert cfg32 ex_second 7).ready = ex_second.ready ++ [7] ∧
    (priv_tsk_insert cfg32 ex_second 7).ready.Pairwise
      (fun a b => ((priv_tsk_insert cfg32 ex_second 7).tsk b).prio ≤
        ((priv_tsk_insert cfg32 ex_second 7).tsk a).prio) :=
  ⟨by decide, (ready_insert cfg32 ex_second 7 (by decide) (by decide)).2.2.2.2.1⟩

/-! ### C19: the order of a wait list -/

theorem is_chain_congr (L L' : Links) (l : List Nat) :
    ∀ que, (∀ x, x ∈ que :: l → L'.cell x = L.cell x) → (∀ x, x ∈ l → L'.back x = L.back x) →
      is_chain L que l → is_chain L' que l := by
  induction l with
  | nil =>
    intro que hc _ h
    unfold is_chain at h ⊢
    rw [hc que (List.mem_cons_self _ _)]; exact h
  | cons a l ih =>
    intro que hc hb h
    unfold is_chain at h ⊢
    obtain ⟨h1, h2, h3⟩ := h
    refine ⟨by rw [hc que (List.mem_cons_self _ _)]; exact h1,
      by rw [hb a (List.mem_cons_self _ _)]; exact h2, ?_⟩
    exact ih a (fun x hx => hc x (List.mem_cons_of_mem _ hx))
      (fun x hx => hb x (List.mem_cons_of_mem _ hx)) h3

theorem link_before_chain (f : Nat → tsk_t) (L : Links) (t p : Nat) (l : List Nat) :
    ∀ (fuel que : Nat), is_chain L que l → (que :: l).Nodup → t ∉ l → t ≠ que →
      l.length < fuel →
      is_chain (link_before L t (append_walk f L p fuel que)) que
        (l.takeWhile (fun n => decide (p ≤ (f n).prio)) ++
          t :: l.dropWhile (fun n => decide (p ≤ (f n).prio))) ∧
      (∀ x, x ∉ que :: l → x ≠ t →
        (link_before L t (append_walk f L p fuel que)).cell x = L.cell x) ∧
      (∀ x, x ∉ l → x ≠ t →
        (link_before L t (append_walk f L p fuel que)).back x = L.back x) := by
  induction l with
  | nil =>
    intro fuel que hch _ _ htq hf
    obtain ⟨n, rfl⟩ : ∃ n, fuel = n + 1 := ⟨fuel - 1, by simp at hf; omega⟩
    unfold is_chain at hch
    have hw : append_walk f L p (n + 1) que = que := by simp [append_walk, hch]
    rw [hw]
    refine ⟨?_, ?_, ?_⟩
    · simp only [List.takeWhile_nil, List.dropWhile_nil, List.nil_append]
      unfold is_chain
      refine ⟨by simp [link_before], by simp [link_before, hch], ?_⟩
      unfold is_chain
      simp [link_before, hch, upd_other _ _ _ _ htq]
    · intro x hx hxt
      have hxq : x ≠ que := fun e => hx (by rw [e]; exact List.mem_cons_self _ _)
      simp [link_before, upd_other _ _ _ _ hxq, upd_other _ _ _ _ hxt]
    · intro x _ hxt
      simp [link_before, hch, upd_other _ _ _ _ hxt]
  | cons a l ih =>
    intro fuel que hch hnd htl htq hf
    obtain ⟨n, rfl⟩ : ∃ n, fuel = n + 1 := ⟨fuel - 1, by simp at hf; omega⟩
    unfold is_chain at hch
    obtain ⟨h1, h2, h3⟩ := hch
    have hnd' := List.nodup_cons.mp hnd
    have hnda := List.nodup_cons.mp hnd'.2
    have hta : t ≠ a := fun e => htl (by rw [e]; exact List.mem_cons_self _ _)
    have htl' : t ∉ l := fun h => htl (List.mem_cons_of_mem _ h)
    have hqa : que ≠ a := fun e => hnd'.1 (by rw [e]; exact List.mem_cons_self _ _)
    by_cases hc : p ≤ (f a).prio
    · have hw : append_walk f L p (n + 1) que = append_walk f L p n a := by
        simp [append_walk, h1, hc]
      rw [hw, List.takeWhile_cons_of_pos (by simpa using hc),
        List.dropWhile_cons_of_pos (by simpa using hc)]
      obtain ⟨i1, i2, i3⟩ := ih n a h3 hnd'.2 htl' hta (by simp at hf; omega)
      refine ⟨?_, ?_, ?_⟩
      · rw [List.cons_append]
        unfold is_chain
        refine ⟨?_, ?_, i1⟩
        · rw [i2 que hnd'.1 (Ne.symm htq)]; exact h1
        · rw [i3 a hnda.1 (Ne.symm hta)]; exact h2
      · intro x hx hxt
        exact i2 x (fun h => hx (List.mem_cons_of_mem _ h)) hxt
      · intro x hx hxt
        exact i3 x (fun h => hx (List.mem_cons_of_mem _ h)) hxt
    · have hw : append_walk f L p (n + 1) que = que := by
        simp [append_walk, h1, hc]
      rw [hw, List.takeWhile_cons_of_neg (by simpa using hc),
        List.dropWhile_cons_of_neg (by simpa using hc)]
      refine ⟨?_, ?_, ?_⟩
      · simp only [List.nil_append]
        unfold is_chain
        refine ⟨by simp [link_before], by simp [link_before], ?_⟩
        unfold is_chain
        refine ⟨by simp [link_before, h1, upd_other _ _ _ _ htq],
          by simp [link_before, h1, upd_other _ _ _ _ (Ne.symm hta)], ?_⟩
        apply is_chain_congr L _ l a _ _ h3
        · intro x hx
          have hxq : x ≠ que := fun e => hnd'.1 (e ▸ hx)
          have hxt : x ≠ t := fun e => htl (e ▸ hx)
          simp [link_before, upd_other _ _ _ _ hxq, upd_other _ _ _ _ hxt]
        · intro x hx
          have hxa : x ≠ a := fun e => hnda.1 (e ▸ hx)
          have hxt : x ≠ t := fun e => htl' (e ▸ hx)
          simp [link_before, h1, upd_other _ _ _ _ hxa, upd_other _ _ _ _ hxt]
      · intro x hx hxt
        have hxq : x ≠ que := fun e => hx (by rw [e]; exact List.mem_cons_self _ _)
        simp [link_before, upd_other _ _ _ _ hxq, upd_other _ _ _ _ hxt]
      · intro x hx hxt
        have hxa : x ≠ a := fun e => hx (by rw [e]; exact List.mem_cons_self _ _)
        simp [link_before, h1, upd_other _ _ _ _ hxa, upd_other _ _ _ _ hxt]

theorem link_out_chain (L : Links) (t : Nat) (l : List Nat) :
    ∀ (que : Nat), is_chain L que l → (que :: l).Nodup → t ∈ l →
      is_chain (link_out L t) que (l.filter (fun n => decide (n ≠ t))) ∧
      (link_out L t).cell t = none ∧
      (∀ x, x ∉ que :: l → (link_out L t).cell x = L.cell x) ∧
      (∀ x, x ∉ l → (link_out L t).back x = L.back x) := by
  induction l with
  | nil => intro que _ _ h; cases h
  | cons a l ih =>
    intro que hch hnd htl
    unfold is_chain at hch
    obtain ⟨h1, h2, h3⟩ := hch
    have hnd' := List.nodup_cons.mp hnd
    have hnda := List.nodup_cons.mp hnd'.2
    have hqa : que ≠ a := fun e => hnd'.1 (by rw [e]; exact List.mem_cons_self _ _)
    by_cases hat : a = t
    · subst hat
      rw [List.filter_cons_of_neg (by simp), filter_ne_of_not_mem a l hnda.1]
      cases l with
      | nil =>
        unfold is_chain at h3
        refine ⟨?_, by simp [link_out], ?_, ?_⟩
        · unfold is_chain
          simp [link_out, h2, h3, upd_other _ _ _ _ hqa]
        · intro x hx
          have hxq : x ≠ que := fun e => hx (by rw [e]; exact List.mem_cons_self _ _)
          have hxa : x ≠ a := fun e => hx (by rw [e]; simp)
          simp [link_out, h2, upd_other _ _ _ _ hxq, upd_other _ _ _ _ hxa]
        · intro x _
          simp [link_out, h3]
      | cons b l' =>
        unfold is_chain at h3
        obtain ⟨g1, g2, g3⟩ := h3
        have hndb := List.nodup_cons.mp hnda.2
        refine ⟨?_, by simp [link_out], ?_, ?_⟩
        · unfold is_chain
          refine ⟨by simp [link_out, h2, g1, upd_other _ _ _ _ hqa], by simp [link_out, h2, g1], ?_⟩
          apply is_chain_congr L _ l' b _ _ g3
          · intro x hx
            have hxq : x ≠ que := fun e => hnd'.1 (by rw [← e]; exact List.mem_cons_of_mem _ hx)
            have hxa : x ≠ a := fun e => hnda.1 (e ▸ hx)
            simp [link_out, h2, upd_other _ _ _ _ hxq, upd_other _ _ _ _ hxa]
          · intro x hx
            have hxb : x ≠ b := fun e => hndb.1 (e ▸ hx)
            simp [link_out, g1, upd_other _ _ _ _ hxb]
        · intro x hx
          have hxq : x ≠ que := fun e => hx (by rw [e]; exact List.mem_cons_self _ _)
          have hxa : x ≠ a := fun e => hx (by rw [e]; simp)
          simp [link_out, h2, upd_other _ _ _ _ hxq, upd_other _ _ _ _ hxa]
        · intro x hx
          have hxb : x ≠ b := fun e => hx (by rw [e]; simp)
          simp [link_out, g1, upd_other _ _ _ _ hxb]
    · have htl' : t ∈ l := by
        rcases List.mem_cons.mp htl with e | e
        · exact absurd e.symm hat
        · exact e
      obtain ⟨i1, i2, i3, i4⟩ := ih a h3 hnd'.2 htl'
      rw [List.filter_cons_of_pos (by simpa using hat)]
      refine ⟨?_, i2, ?_, ?_⟩
      · unfold is_chain
        exact ⟨by rw [i3 que hnd'.1]; exact h1, by rw [i4 a hnda.1]; exact h2, i1⟩
      · intro x hx
        exact i3 x (fun h => hx (List.mem_cons_of_mem _ h))
      · intro x hx
        exact i4 x (fun h => hx (List.mem_cons_of_mem _ h))

theorem sorted_head (g : Nat → Nat) (l : List Nat) (hs : l.Pairwise (fun a b => g b ≤ g a))
    (h : Nat) (hh : l.head? = some h) : ∀ x, x ∈ l → g x ≤ g h := by
  cases l with
  | nil => cases hh
  | cons a l =>
    simp only [List.head?_cons, Option.some.injEq] at hh
    subst hh
    intro x hx
    rcases List.mem_cons.mp hx with e | e
    · rw [e]
    · exact (List.pairwise_cons.mp hs).1 x e

/-- C19.  The wait list at `que` is the chain of pointers `L` from the cell at `que`, with
the back pointer of every task on the cell that points to it, and it is sorted by
non-increasing priority.  For a task that is not in the list, `core_tsk_append` links the
task behind the tasks `a` of priority greater than or equal to its own and in front of the
tasks `b` of lower priority, sets its guard, keeps the list a well-formed chain and
sorted, so that no task of the list has a higher priority than the one at its head, and
leaves every other chain as it is.  For a task of the list, at its head, in the middle or
at its end, `core_tsk_unlink` takes exactly this task out of the chain, keeps the order of
the other tasks, clears the link `sub.obj.queue` and the guard of the task, stores the
event, and leaves every other chain as it is.  The lists of the embedding on sequences are
those of the chains. -/
theorem wait_list_order (s : Kernel) (L : Links) (tsk que : Nat) (event : event_t) (fuel : Nat)
    (hchain : is_chain L que (s.queue que))
    (hnd : (que :: s.queue que).Nodup)
    (hsorted : (s.queue que).Pairwise (fun a b => (s.tsk b).prio ≤ (s.tsk a).prio)) :
    (tsk ∉ s.queue que → tsk ≠ que → (s.queue que).length < fuel →
      (core_tsk_append_links fuel s.tsk L tsk que).1 = (core_tsk_append s tsk que).tsk ∧
      is_chain (core_tsk_append_links fuel s.tsk L tsk que).2 que
        ((core_tsk_append s tsk que).queue que) ∧
      (∃ a b, s.queue que = a ++ b ∧ (core_tsk_append s tsk que).queue que = a ++ tsk :: b ∧
        (∀ x, x ∈ a → (s.tsk tsk).prio ≤ (s.tsk x).prio) ∧
        (∀ x, x ∈ b → (s.tsk x).prio < (s.tsk tsk).prio)) ∧
      ((core_tsk_append s tsk que).queue que).Pairwise
        (fun a b => ((core_tsk_append s tsk que).tsk b).prio ≤
          ((core_tsk_append s tsk que).tsk a).prio) ∧
      (∀ h, ((core_tsk_append s tsk que).queue que).head? = some h →
        ∀ x, x ∈ (core_tsk_append s tsk que).queue que →
          ((core_tsk_append s tsk que).tsk x).prio ≤ ((core_tsk_append s tsk que).tsk h).prio) ∧
      ((core_tsk_append s tsk que).tsk tsk).guard = some que ∧
      (∀ que2 l2, is_chain L que2 l2 →
        (∀ x, x ∈ que2 :: l2 → x ∉ que :: s.queue que ∧ x ≠ tsk) →
        is_chain (core_tsk_append_links fuel s.tsk L tsk que).2 que2 l2)) ∧
    (tsk ∈ s.queue que →
      (core_tsk_unlink_links s.tsk L tsk event).1 = (core_tsk_unlink s tsk event).tsk ∧
      is_chain (core_tsk_unlink_links s.tsk L tsk event).2 que
        ((core_tsk_unlink s tsk event).queue que) ∧
      (∀ a b, s.queue que = a ++ tsk :: b → (core_tsk_unlink s tsk event).queue que = a ++ b) ∧
      (core_tsk_unlink_links s.tsk L tsk event).2.cell tsk = none ∧
      ((core_tsk_unlink s tsk event).tsk tsk).guard = none ∧
      ((core_tsk_unlink s tsk event).tsk tsk).event = event ∧
      ((core_tsk_unlink s tsk event).queue que).Pairwise
        (fun a b => ((core_tsk_unlink s tsk event).tsk b).prio ≤
          ((core_tsk_unlink s tsk event).tsk a).prio) ∧
      (∀ que2 l2, is_chain L que2 l2 → (∀ x, x ∈ que2 :: l2 → x ∉ que :: s.queue que) →
        is_chain (core_tsk_unlink_links s.tsk L tsk event).2 que2 l2)) := by
  refine ⟨?_, ?_⟩
  · intro hnot hne hfuel
    have hp : ∀ n, ((core_tsk_append s tsk que).tsk n).prio = (s.tsk n).prio :=
      core_tsk_append_prio s tsk que
    have hq : (core_tsk_append s tsk que).queue que =
        (s.queue que).takeWhile (fun n => decide ((s.tsk tsk).prio ≤ (s.tsk n).prio)) ++
          tsk :: (s.queue que).dropWhile
            (fun n => decide ((s.tsk tsk).prio ≤ (s.tsk n).prio)) := by
      rw [core_tsk_append_queue, insert_walk]
    obtain ⟨h1, h2⟩ := sorted_split (fun n => (s.tsk n).prio) (s.tsk tsk).prio (s.queue que)
      hsorted
    have hs' : ((core_tsk_append s tsk que).queue que).Pairwise
        (fun a b => ((core_tsk_append s tsk que).tsk b).prio ≤
          ((core_tsk_append s tsk que).tsk a).prio) := by
      simp only [hp]
      rw [hq]
      exact sorted_insert (fun n => (s.tsk n).prio) tsk (s.queue que) hsorted
    obtain ⟨f1, hf1⟩ : ∃ f1 : Nat → tsk_t,
      f1 = upd s.tsk tsk { s.tsk tsk with guard := some que } := ⟨_, rfl⟩
    have hf1p : ∀ n, (f1 n).prio = (s.tsk n).prio := by
      intro n
      rw [hf1]
      by_cases h : n = tsk
      · subst h; simp
      · simp [upd_other _ _ _ _ h]
    have eL : (core_tsk_append_links fuel s.tsk L tsk que).2 =
        link_before L tsk (append_walk f1 L (f1 tsk).prio fuel que) := by
      rw [hf1]; rfl
    obtain ⟨c1, c2, c3⟩ := link_before_chain f1 L tsk (f1 tsk).prio (s.queue que) fuel que
      hchain hnd hnot hne hfuel
    rw [← eL] at c1 c2 c3
    simp only [hf1p] at c1
    refine ⟨rfl, by rw [hq]; exact c1,
      ⟨_, _, (List.takeWhile_append_dropWhile _ _).symm, hq, h1, h2⟩, hs', ?_, ?_, ?_⟩
    · intro h hh x hx
      exact sorted_head (fun n => ((core_tsk_append s tsk que).tsk n).prio) _ hs' h hh x hx
    · simp [core_tsk_append, Kernel.setTsk]
    · intro que2 l2 hc2 hdis
      apply is_chain_congr L _ l2 que2 _ _ hc2
      · intro x hx
        exact c2 x (hdis x hx).1 (hdis x hx).2
      · intro x hx
        have := hdis x (List.mem_cons_of_mem _ hx)
        exact c3 x (fun h => this.1 (List.mem_cons_of_mem _ h)) this.2
  · intro hin
    have hq : (core_tsk_unlink s tsk event).queue que =
        (s.queue que).filter (fun n => decide (n ≠ tsk)) := rfl
    have hp : ∀ n, ((core_tsk_unlink s tsk event).tsk n).prio = (s.tsk n).prio := by
      intro n
      by_cases h : n = tsk
      · subst h; simp [core_tsk_unlink, Kernel.setTsk]
      · simp [core_tsk_unlink, Kernel.setTsk, upd_other _ _ _ _ h]
    obtain ⟨c1, c2, c3, c4⟩ := link_out_chain L tsk (s.queue que) que hchain hnd hin
    have eL : (core_tsk_unlink_links s.tsk L tsk event).2 = link_out L tsk := rfl
    rw [← eL] at c1 c2 c3 c4
    refine ⟨rfl, by rw [hq]; exact c1, ?_, c2, by simp [core_tsk_unlink, Kernel.setTsk],
      by simp [core_tsk_unlink, Kernel.setTsk], ?_, ?_⟩
    · intro a b hab
      rw [hq, hab]
      exact filter_ne_split tsk a b (by rw [← hab]; exact (List.nodup_cons.mp hnd).2)
    · simp only [hp]
      rw [hq]
      exact sorted_filter (fun n => (s.tsk n).prio) _ _ hsorted
    · intro que2 l2 hc2 hdis
      apply is_chain_congr L _ l2 que2 _ _ hc2
      · intro x hx
        exact c3 x (hdis x hx)
      · intro x hx
        exact c4 x (fun h => hdis x (List.mem_cons_of_mem _ hx) (List.mem_cons_of_mem _ h))

/-- Witness of C19: the task 7 of priority 1 is appended to the wait list at address 60 of
`ex_inherit`, which holds the task 8 of priority 5, and the task 8 is unlinked from it. -/
theorem wait_list_order_witness :
    is_chain (core_tsk_append_links 2 ex_inherit.tsk ex_links 7 60).2 60 [8, 7] ∧
    is_chain (core_tsk_unlink_links ex_inherit.tsk ex_links 8 event_t.E_SUCCESS).2 60 [] :=
  ⟨((wait_list_order ex_inherit ex_links 7 60 event_t.E_SUCCESS 2 (by decide) (by decide)
      (by decide)).1 (by decide) (by decide) (by decide)).2.1,
   ((wait_list_order ex_inherit ex_links 8 60 event_t.E_SUCCESS 2 (by decide) (by decide)
      (by decide)).2 (by decide)).2.1⟩


/-! ### C5: the wait list is served first in, first out -/

theorem append_all_lists (que : Nat) (ts : List Nat) (s : Kernel) :
    (append_all s que ts).ready = s.ready ∧ (append_all s que ts).timers = s.timers := by
  induction ts generalizing s with
  | nil => exact ⟨rfl, rfl⟩
  | cons t ts ih =>
    simp only [append_all]
    exact ih (core_tsk_append s t que)

theorem wakeup_n_linked (cfg : Config) (que : Nat) (e : event_t) (n : Nat) :
    ∀ (ts : List Nat) (s : Kernel), s.queue que = ts → ts.Nodup →
      (∀ t, t ∈ ts → t ∈ s.ready ∨ t ∈ s.timers) → n ≤ ts.length →
      ∀ t, t ∈ ts.drop n →
        t ∈ (wakeup_n cfg que e n s).1.ready ∨ t ∈ (wakeup_n cfg que e n s).1.timers := by
  induction n with
  | zero =>
    intro ts s _ _ hl _ t ht
    exact hl t (by simpa using ht)
  | succ n ih =>
    intro ts s hq hnd hl hn t ht
    cases ts with
    | nil => simp at hn
    | cons t0 rest =>
      have hnd' := List.nodup_cons.mp hnd
      have hq1 : (core_tsk_wakeup cfg s (some t0) e).1.queue que = rest := by
        rw [wakeup_queue, hq, List.filter_cons_of_neg (by simp)]
        exact List.filter_eq_self.mpr (fun a ha => by
          have : a ≠ t0 := fun h => hnd'.1 (h ▸ ha)
          simpa using this)
      have hl1 : ∀ x, x ∈ rest → x ∈ (core_tsk_wakeup cfg s (some t0) e).1.ready ∨
          x ∈ (core_tsk_wakeup cfg s (some t0) e).1.timers := by
        intro x hx
        have hne : x ≠ t0 := fun h => hnd'.1 (h ▸ hx)
        rcases hl x (List.mem_cons_of_mem _ hx) with h | h
        · exact Or.inl ((wakeup_mem_ready cfg s t0 e x).mpr (Or.inr h))
        · right
          rw [wakeup_timers]
          exact List.mem_filter.mpr ⟨h, by simpa using hne⟩
      have e1 : (wakeup_n cfg que e (n + 1) s).1 =
          (wakeup_n cfg que e n (core_tsk_wakeup cfg s (some t0) e).1).1 := by
        simp only [wakeup_n, hq, List.head?_cons]
      rw [e1]
      exact ih rest _ hq1 hnd'.2 hl1 (by simpa using hn) t (by simpa using ht)

theorem append_all_chain (fuel que p : Nat) (ts : List Nat) :
    ∀ (s : Kernel) (L : Links), is_chain L que (s.queue que) →
      (que :: (s.queue que ++ ts)).Nodup →
      (∀ n, n ∈ s.queue que ++ ts → (s.tsk n).prio = p) →
      (s.queue que ++ ts).length ≤ fuel →
      (append_all_links fuel que ts (s.tsk, L)).1 = (append_all s que ts).tsk ∧
      is_chain (append_all_links fuel que ts (s.tsk, L)).2 que
        ((append_all s que ts).queue que) := by
  induction ts with
  | nil =>
    intro s L hch _ _ _
    exact ⟨rfl, hch⟩
  | cons t ts ih =>
    intro s L hch hnd hp hf
    have hq : (core_tsk_append s t que).queue que = s.queue que ++ [t] := by
      rw [core_tsk_append_queue, tsk_walk_none]
      · cases s.queue que <;> rfl
      · intro n hn
        rw [hp n (by simp [hn]), hp t (by simp)]
    have hnd0 := List.nodup_cons.mp hnd
    have hnd1 := List.nodup_append.mp hnd0.2
    have htl : t ∉ s.queue que := fun h =>
      hnd1.2.2 h (List.mem_cons_self _ _)
    have htq : t ≠ que := fun h => hnd0.1 (by rw [← h]; simp)
    have hqnd : (que :: s.queue que).Nodup :=
      List.nodup_cons.mpr ⟨fun h => hnd0.1 (List.mem_append_left _ h), hnd1.1⟩
    have hlen : (s.queue que).length < fuel := by
      simp only [List.length_append, List.length_cons] at hf
      omega
    have e1 : (core_tsk_append_links fuel s.tsk L t que).1 = (core_tsk_append s t que).tsk :=
      rfl
    have hc1 : is_chain (core_tsk_append_links fuel s.tsk L t que).2 que
        ((core_tsk_append s t que).queue que) := by
      have h := (link_before_chain (upd s.tsk t { s.tsk t with guard := some que }) L t
        ((upd s.tsk t { s.tsk t with guard := some que }) t).prio (s.queue que) fuel que hch
        hqnd htl htq hlen).1
      have hall : ∀ n, n ∈ s.queue que →
          decide (((upd s.tsk t { s.tsk t with guard := some que }) t).prio ≤
            ((upd s.tsk t { s.tsk t with guard := some que }) n).prio) = true := by
        intro n hn
        have hnt : n ≠ t := fun h => htl (h ▸ hn)
        rw [upd_same, upd_other _ _ _ _ hnt]
        simp only [decide_eq_true_eq]
        show (s.tsk t).prio ≤ (s.tsk n).prio
        rw [hp n (by simp [hn]), hp t (by simp)]
      rw [List.takeWhile_eq_self_iff.mpr hall, List.dropWhile_eq_nil_iff.mpr hall] at h
      rw [hq]
      exact h
    have := ih (core_tsk_append s t que) (core_tsk_append_links fuel s.tsk L t que).2 hc1
      (by rw [hq]; simpa using hnd)
      (by
        intro n hn
        rw [core_tsk_append_prio]
        apply hp
        rw [hq] at hn
        simpa using hn)
      (by rw [hq]; simpa using hf)
    have e2 : core_tsk_append_links fuel s.tsk L t que =
        ((core_tsk_append s t que).tsk, (core_tsk_append_links fuel s.tsk L t que).2) := rfl
    simp only [append_all, append_all_links]
    rw [e2]
    exact this

theorem unlink_heads_chain (e : event_t) (que : Nat) (n : Nat) :
    ∀ (ts : List Nat) (r : (Nat → tsk_t) × Links), is_chain r.2 que ts →
      (que :: ts).Nodup → n ≤ ts.length →
      is_chain (unlink_heads_links e que n r).2 que (ts.drop n) := by
  induction n with
  | zero =>
    intro ts r hch _ _
    exact hch
  | succ n ih =>
    intro ts r hch hnd hn
    cases ts with
    | nil => simp at hn
    | cons t rest =>
      have hcell : r.2.cell que = some t := by
        unfold is_chain at hch
        exact hch.1
      have hnd0 := List.nodup_cons.mp hnd
      have hnd1 := List.nodup_cons.mp hnd0.2
      obtain ⟨c1, _⟩ := link_out_chain r.2 t (t :: rest) que hch hnd (List.mem_cons_self _ _)
      have hf : (t :: rest).filter (fun n => decide (n ≠ t)) = rest := by
        rw [List.filter_cons_of_neg (by simp)]
        exact List.filter_eq_self.mpr (fun a ha => by
          have : a ≠ t := fun h => hnd1.1 (h ▸ ha)
          simpa using this)
      rw [hf] at c1
      have e1 : unlink_heads_links e que (n + 1) r =
          unlink_heads_links e que n (core_tsk_unlink_links r.1 r.2 t e) := by
        simp only [unlink_heads_links, hcell]
      rw [e1]
      exact ih rest _ c1
        (List.nodup_cons.mpr ⟨fun h => hnd0.1 (List.mem_cons_of_mem _ h), hnd1.2⟩)
        (by simpa using hn)

/-- C5, first in, first out.  Distinct tasks of equal priority, each linked in the ready
list or in the timer list, are appended by `core_tsk_append` to an empty wait list in the
order of the list `ts`; the head pointer of the wait list is not the link of one of the
tasks.  Then the wait list is `ts`; as many calls `core_tsk_wakeup(*que, event)` as there
are tasks return the tasks in exactly that order and leave the wait list empty, and every
task is in the ready list with the event code of the calls.  At every call the tasks still
waiting are linked in the ready list or in the timer list, so that `priv_rdy_remove` finds
the links of the node it takes out.  On the pointers, from a head pointer that is null,
the calls of `core_tsk_append` build the chain of `ts` and set the control blocks as on
the sequences, and every call of `core_tsk_unlink` for the head `*que` leaves the chain of
the tasks that have not been woken. -/
theorem wait_list_fifo (cfg : Config) (s : Kernel) (que : Nat) (e : event_t) (ts : List Nat)
    (hempty : s.queue que = []) (hnd : ts.Nodup)
    (hprio : ∀ a ∈ ts, ∀ b ∈ ts, (s.tsk a).prio = (s.tsk b).prio)
    (hque : que ∉ ts)
    (hlinked : ∀ t, t ∈ ts → t ∈ s.ready ∨ t ∈ s.timers) :
    (append_all s que ts).queue que = ts ∧
    (wakeup_n cfg que e ts.length (append_all s que ts)).2 = ts.map some ∧
    (wakeup_n cfg que e ts.length (append_all s que ts)).1.queue que = [] ∧
    (∀ t, t ∈ ts →
      ((wakeup_n cfg que e ts.length (append_all s que ts)).1.tsk t).event = e ∧
      t ∈ (wakeup_n cfg que e ts.length (append_all s que ts)).1.ready) ∧
    (∀ n, n ≤ ts.length → ∀ t, t ∈ ts.drop n →
      t ∈ (wakeup_n cfg que e n (append_all s que ts)).1.ready ∨
      t ∈ (wakeup_n cfg que e n (append_all s que ts)).1.timers) ∧
    (∀ (L : Links) (fuel : Nat), L.cell que = none → ts.length ≤ fuel →
      (append_all_links fuel que ts (s.tsk, L)).1 = (append_all s que ts).tsk ∧
      is_chain (append_all_links fuel que ts (s.tsk, L)).2 que ts ∧
      ∀ n, n ≤ ts.length →
        is_chain (unlink_heads_links e que n (append_all_links fuel que ts (s.tsk, L))).2 que
          (ts.drop n)) := by
  have h1 : (append_all s que ts).queue que = ts := by
    cases ts with
    | nil => simp [append_all, hempty]
    | cons t0 ts0 =>
      rw [append_all_queue que (s.tsk t0).prio (t0 :: ts0) s, hempty]
      · rfl
      · intro n hn
        rw [hempty] at hn
        exact hprio n (by simpa using hn) t0 (List.mem_cons_self _ _)
  obtain ⟨w1, w2, w3, _⟩ := wakeup_n_fifo cfg que e ts (append_all s que ts) h1 hnd
  have hl : ∀ t, t ∈ ts → t ∈ (append_all s que ts).ready ∨ t ∈ (append_all s que ts).timers := by
    intro t ht
    rw [(append_all_lists que ts s).1, (append_all_lists que ts s).2]
    exact hlinked t ht
  refine ⟨h1, w1, w2, fun t ht => ⟨(w3 t ht).2.1, (w3 t ht).1⟩,
    fun n hn t ht => wakeup_n_linked cfg que e n ts _ h1 hnd hl hn t ht, fun L fuel hL hf => ?_⟩
  have hp : ∀ n, n ∈ s.queue que ++ ts → (s.tsk n).prio = (s.tsk (ts.headD 0)).prio := by
    intro n hn
    rw [hempty] at hn
    cases ts with
    | nil => simp at hn
    | cons t0 ts0 => exact hprio n (by simpa using hn) t0 (List.mem_cons_self _ _)
  obtain ⟨a1, a2⟩ := append_all_chain fuel que (s.tsk (ts.headD 0)).prio ts s L
    (by rw [hempty]; exact hL)
    (by rw [hempty]; exact List.nodup_cons.mpr ⟨hque, hnd⟩) hp
    (by rw [hempty]; exact hf)
  rw [h1] at a2
  exact ⟨a1, a2, fun n hn =>
    unlink_heads_chain e que n ts _ a2 (List.nodup_cons.mpr ⟨hque, hnd⟩) hn⟩

/-- Witness of C5: the ready tasks 7, 5 and 9 of priority 3 of `ex_trio` and the wait list
at the address 50. -/
theorem wait_list_fifo_witness :
    (∀ t, t ∈ [7, 5, 9] → t ∈ ex_trio.ready) ∧
    (wakeup_n cfg32 50 event_t.E_SUCCESS 3 (append_all ex_trio 50 [7, 5, 9])).2
      = [some 7, some 5, some 9] ∧
    (wakeup_n cfg32 50 event_t.E_SUCCESS 3 (append_all ex_trio 50 [7, 5, 9])).1.queue 50 = [] ∧
    is_chain (append_all_links 3 50 [7, 5, 9] (ex_trio.tsk, ex_nolinks)).2 50 [7, 5, 9] :=
  ⟨by decide,
   (wait_list_fifo cfg32 ex_trio 50 event_t.E_SUCCESS [7, 5, 9] (by decide) (by decide)
    (by decide) (by decide) (by decide)).2.1,
   (wait_list_fifo cfg32 ex_trio 50 event_t.E_SUCCESS [7, 5, 9] (by decide) (by decide)
    (by decide) (by decide) (by decide)).2.2.1,
   ((wait_list_fifo cfg32 ex_trio 50 event_t.E_SUCCESS [7, 5, 9] (by decide) (by decide)
    (by decide) (by decide) (by decide)).2.2.2.2.2 ex_nolinks 3 rfl (by decide)).2.1⟩

/-! ### C20: the blocking wait -/

theorem tmr_walk_some (cfg : Config) (f : Nat → tsk_t) (st d : Nat) (l : List Nat) (n : Nat)
    (h : tmr_walk cfg f st d l = some n) :
    ¬ (f n).delay < (st + d + CMOD cfg - (f n).start % CMOD cfg) % CMOD cfg ∧ n ∈ l := by
  induction l with
  | nil => simp [tmr_walk] at h
  | cons a l ih =>
    unfold tmr_walk at h
    split at h
    · obtain ⟨h1, h2⟩ := ih h
      exact ⟨h1, List.mem_cons_of_mem _ h2⟩
    · rename_i hc
      simp only [Option.some.injEq] at h
      subst h
      exact ⟨hc, List.mem_cons_self _ _⟩

theorem insert_tmr_walk (cfg : Config) (f : Nat → tsk_t) (st d t : Nat) (l : List Nat) :
    priv_rdy_insert t (tmr_walk cfg f st d l) l =
      l.takeWhile
        (fun n => decide ((f n).delay < (st + d + CMOD cfg - (f n).start % CMOD cfg) % CMOD cfg))
      ++ t :: l.dropWhile
        (fun n => decide ((f n).delay < (st + d + CMOD cfg - (f n).start % CMOD cfg) % CMOD cfg))
    := by
  induction l with
  | nil => rfl
  | cons a l ih =>
    by_cases hc : (f a).delay < (st + d + CMOD cfg - (f a).start % CMOD cfg) % CMOD cfg
    · have hw : tmr_walk cfg f st d (a :: l) = tmr_walk cfg f st d l := by simp [tmr_walk, hc]
      rw [hw, List.takeWhile_cons_of_pos (by simpa using hc),
        List.dropWhile_cons_of_pos (by simpa using hc), List.cons_append, ← ih]
      cases hn : tmr_walk cfg f st d l with
      | none => rw [insert_none, insert_none]; rfl
      | some n =>
        have hne : a ≠ n := by
          intro e; subst e
          exact (tmr_walk_some cfg f st d l a hn).1 hc
        simp [priv_rdy_insert, hne]
    · have hw : tmr_walk cfg f st d (a :: l) = some a := by simp [tmr_walk, hc]
      rw [hw, List.takeWhile_cons_of_neg (by simpa using hc),
        List.dropWhile_cons_of_neg (by simpa using hc)]
      simp [priv_rdy_insert]

/-- C20 (amended).  The task, a task of the ready list or any other, is in neither the
wait list at `que`, which is sorted by non-increasing priority, nor the timer list.  After
`priv_tsk_wait` the task is in the wait list behind the tasks `a` of priority greater than
or equal to its own and in front of the tasks `b` of lower priority, the other tasks of the
wait list are in the order they were, the task is not in the ready list, carries
the tag `ID_DELAYED` and the guard `que`, and is in the timer list whatever its delay is:
with the delay `INFINITE` it is the last timer of the list, in front of `WAIT`; with
another delay it is behind the timers `a` for which the test of the walk of
`priv_tmr_insert` holds and in front of the first one for which it fails.
`core_tsk_waitFor` and `core_tsk_waitNext` with a delay other than `IMMEDIATE`,
`core_tsk_waitUntil` with a time point within `CNT_MAX / 2` ticks ahead of the clock, and
`core_tsk_suspend` call `priv_tsk_wait` in a state with the same lists and priorities, in
which the delay of the task is the one requested (`INFINITE` for `core_tsk_suspend`). -/
theorem blocking_wait (cfg : Config) (s : Kernel) (tsk que : Nat) (yield : Bool)
    (hnq : tsk ∉ s.queue que) (hnt : tsk ∉ s.timers)
    (hsorted : (s.queue que).Pairwise (fun a b => (s.tsk b).prio ≤ (s.tsk a).prio)) :
    (∃ a b, s.queue que = a ++ b ∧ (priv_tsk_wait cfg s tsk que yield).queue que = a ++ tsk :: b ∧
      (∀ x, x ∈ a → (s.tsk tsk).prio ≤ (s.tsk x).prio) ∧
      (∀ x, x ∈ b → (s.tsk x).prio < (s.tsk tsk).prio)) ∧
    ((priv_tsk_wait cfg s tsk que yield).queue que).filter (fun n => decide (n ≠ tsk)) =
      s.queue que ∧
    (priv_tsk_wait cfg s tsk que yield).ready = s.ready.filter (fun n => decide (n ≠ tsk)) ∧
    tsk ∉ (priv_tsk_wait cfg s tsk que yield).ready ∧
    ((priv_tsk_wait cfg s tsk que yield).tsk tsk).id = tid_t.ID_DELAYED ∧
    ((priv_tsk_wait cfg s tsk que yield).tsk tsk).guard = some que ∧
    tsk ∈ (priv_tsk_wait cfg s tsk que yield).timers ∧
    ((s.tsk tsk).delay = INFINITE cfg →
      (priv_tsk_wait cfg s tsk que yield).timers = s.timers ++ [tsk]) ∧
    ((s.tsk tsk).delay ≠ INFINITE cfg →
      ∃ a b, s.timers = a ++ b ∧ (priv_tsk_wait cfg s tsk que yield).timers = a ++ tsk :: b ∧
        (∀ x, x ∈ a → (s.tsk x).delay <
          ((s.tsk tsk).start + (s.tsk tsk).delay + CMOD cfg - (s.tsk x).start % CMOD cfg) %
            CMOD cfg) ∧
        (∀ h, b.head? = some h → ¬ (s.tsk h).delay <
          ((s.tsk tsk).start + (s.tsk tsk).delay + CMOD cfg - (s.tsk h).start % CMOD cfg) %
            CMOD cfg)) ∧
    (∀ (s0 : Kernel) (delay : Nat), ∃ s1 : Kernel,
      s1.ready = s0.ready ∧ s1.queue = s0.queue ∧ s1.timers = s0.timers ∧
      (∀ n, (s1.tsk n).prio = (s0.tsk n).prio) ∧
      (delay ≠ IMMEDIATE → (s1.tsk s0.cur).delay = delay ∧
        core_tsk_waitFor cfg s0 que delay = (priv_tsk_wait cfg s1 s0.cur que true, none))) ∧
    (∀ (s0 : Kernel) (delay : Nat), ∃ s1 : Kernel,
      s1.ready = s0.ready ∧ s1.queue = s0.queue ∧ s1.timers = s0.timers ∧
      (∀ n, (s1.tsk n).prio = (s0.tsk n).prio) ∧
      (delay ≠ IMMEDIATE → (s1.tsk s0.cur).delay = delay ∧
        core_tsk_waitNext cfg s0 que delay = (priv_tsk_wait cfg s1 s0.cur que true, none))) ∧
    (∀ (s0 : Kernel) (time : Nat), ∃ s1 : Kernel,
      s1.ready = s0.ready ∧ s1.queue = s0.queue ∧ s1.timers = s0.timers ∧
      (∀ n, (s1.tsk n).prio = (s0.tsk n).prio) ∧
      ((time + CMOD cfg - (core_sys_time cfg s0).1 % CMOD cfg) % CMOD cfg ≤ CNT_MAX cfg / 2 →
        (s1.tsk s0.cur).delay =
          (time + CMOD cfg - (core_sys_time cfg s0).1 % CMOD cfg) % CMOD cfg ∧
        core_tsk_waitUntil cfg s0 que time = (priv_tsk_wait cfg s1 s0.cur que true, none))) ∧
    (∀ (s0 : Kernel) (t : Nat), ∃ s1 : Kernel,
      s1.ready = s0.ready ∧ s1.queue = s0.queue ∧ s1.timers = s0.timers ∧
      (∀ n, (s1.tsk n).prio = (s0.tsk n).prio) ∧
      (s1.tsk t).delay = INFINITE cfg ∧
      core_tsk_suspend cfg s0 t = priv_tsk_wait cfg s1 t WAIT (decide (t = s0.cur))) := by
  obtain ⟨p1, p2, p3, p4, p5, p6, p7, p8⟩ := priv_tsk_wait_spec cfg s tsk que yield
  obtain ⟨h1, h2⟩ := sorted_split (fun n => (s.tsk n).prio) (s.tsk tsk).prio (s.queue que)
    hsorted
  have hT : s.timers.filter (fun n => decide (n ≠ tsk)) = s.timers :=
    filter_ne_of_not_mem tsk s.timers hnt
  rw [hT] at p4
  have hsetp : ∀ (s0 : Kernel) (t : Nat) (v : tsk_t), v.prio = (s0.tsk t).prio →
      ∀ n, ((s0.setTsk t v).tsk n).prio = (s0.tsk n).prio := by
    intro s0 t v hv n
    by_cases h : n = t
    · subst h; simp [Kernel.setTsk, hv]
    · simp [Kernel.setTsk, upd_other _ _ _ _ h]
  refine ⟨⟨_, _, (List.takeWhile_append_dropWhile _ _).symm, by rw [p2, insert_walk], h1, h2⟩,
    ?_, p1, by rw [p1]; exact not_mem_filter_ne _ _, by rw [p5], by rw [p5], ?_, ?_, ?_,
    ?_, ?_, ?_, ?_⟩
  · rw [p2, insert_walk, List.filter_append, List.filter_cons_of_neg (by simp),
      ← List.filter_append, List.takeWhile_append_dropWhile]
    exact filter_ne_of_not_mem tsk _ hnq
  · rw [p4]; exact (mem_priv_rdy_insert _ _ _ _).mpr (Or.inl rfl)
  · intro hd
    rw [p4, if_neg (by simpa using hd), insert_none]
  · intro hd
    rw [p4, if_pos hd, insert_tmr_walk]
    refine ⟨_, _, (List.takeWhile_append_dropWhile _ _).symm, rfl, ?_, ?_⟩
    · intro x hx
      have := List.mem_takeWhile_imp hx
      simpa using this
    · intro h hh
      cases hdw : s.timers.dropWhile (fun n => decide ((s.tsk n).delay <
          ((s.tsk tsk).start + (s.tsk tsk).delay + CMOD cfg - (s.tsk n).start % CMOD cfg) %
            CMOD cfg)) with
      | nil => rw [hdw] at hh; cases hh
      | cons b bs =>
        rw [hdw] at hh
        simp only [List.head?_cons, Option.some.injEq] at hh
        subst hh
        have := dropWhile_head _ _ _ _ hdw
        simpa using this
  · intro s0 delay
    obtain ⟨c1, c2, c3, c4, c5, c6, c7, c8⟩ := core_sys_time_fields cfg s0
    refine ⟨(core_sys_time cfg s0).2.setTsk s0.cur
      { (core_sys_time cfg s0).2.tsk s0.cur with
        start := (core_sys_time cfg s0).1, delay := delay }, c3, c2, c4, ?_, ?_⟩
    · intro n; rw [hsetp _ _ _ (by rfl), c1]
    · intro hd
      refine ⟨by simp [Kernel.setTsk], ?_⟩
      unfold core_tsk_waitFor
      simp only [hd, if_false]
  · intro s0 delay
    refine ⟨s0.setTsk s0.cur { s0.tsk s0.cur with delay := delay }, rfl, rfl, rfl, ?_, ?_⟩
    · intro n; rw [hsetp _ _ _ (by rfl)]
    · intro hd
      refine ⟨by simp [Kernel.setTsk], ?_⟩
      unfold core_tsk_waitNext
      simp only [hd, if_false]
  · intro s0 time
    obtain ⟨c1, c2, c3, c4, c5, c6, c7, c8⟩ := core_sys_time_fields cfg s0
    refine ⟨(core_sys_time cfg s0).2.setTsk s0.cur
      { (core_sys_time cfg s0).2.tsk s0.cur with
        start := (core_sys_time cfg s0).1,
        delay := (time + CMOD cfg - (core_sys_time cfg s0).1 % CMOD cfg) % CMOD cfg },
      c3, c2, c4, ?_, ?_⟩
    · intro n; rw [hsetp _ _ _ (by rfl), c1]
    · intro hd
      refine ⟨by simp [Kernel.setTsk], ?_⟩
      unfold core_tsk_waitUntil
      simp only []
      rw [if_neg (by omega)]
  · intro s0 t
    refine ⟨s0.setTsk t { s0.tsk t with delay := INFINITE cfg }, rfl, rfl, rfl, ?_,
      by simp [Kernel.setTsk], rfl⟩
    intro n; rw [hsetp _ _ _ (by rfl)]

/-- Witness of C20: the main task waits on the wait list at address 50 with a delay of 5
ticks. -/
theorem blocking_wait_witness :
    MAIN ∉ (priv_tsk_wait cfg32 (boot cfg32 1) MAIN 50 true).ready ∧
    MAIN ∈ (priv_tsk_wait cfg32 (boot cfg32 1) MAIN 50 true).timers :=
  ⟨(blocking_wait cfg32 (boot cfg32 1) MAIN 50 true (by decide) (by decide)
      (by decide)).2.2.2.1,
   (blocking_wait cfg32 (boot cfg32 1) MAIN 50 true (by decide) (by decide)
      (by decide)).2.2.2.2.2.2.1⟩

/-- Counterexample to C20 as stated: the main task calls `core_tsk_waitFor` with the delay
`INFINITE` and is blocked; its timeout is infinite, and it has been inserted into the timer
list, of which it is the only timer.  The same holds after `core_tsk_suspend`. -/
theorem blocking_wait_counterexample :
    (core_tsk_waitFor cfg32 (boot cfg32 1) 50 (INFINITE cfg32)).2 = none ∧
    ((core_tsk_waitFor cfg32 (boot cfg32 1) 50 (INFINITE cfg32)).1.tsk MAIN).delay =
      INFINITE cfg32 ∧
    (boot cfg32 1).timers = [] ∧
    (core_tsk_waitFor cfg32 (boot cfg32 1) 50 (INFINITE cfg32)).1.timers = [MAIN] ∧
    (core_tsk_suspend cfg32 (boot cfg32 1) MAIN).timers = [MAIN] := by
  refine ⟨by decide, by decide, by decide, by decide, by decide⟩

/-! ### C17: the ready list after a change of priority -/

theorem prio_ready_step (cfg : Config) (s : Kernel) (tsk prio fuel : Nat)
    (hchg : (s.tsk tsk).prio ≠ inherited_prio s tsk prio)
    (hcur : tsk ≠ s.cur) (hid : (s.tsk tsk).id = tid_t.ID_READY) :
    core_tsk_prio cfg (fuel + 1) s tsk prio =
      core_tsk_insert cfg
        (priv_tsk_remove (s.setTsk tsk { s.tsk tsk with prio := inherited_prio s tsk prio }) tsk)
        tsk := by
  obtain ⟨s1, hs1⟩ : ∃ s1 : Kernel,
    s1 = s.setTsk tsk { s.tsk tsk with prio := inherited_prio s tsk prio } := ⟨_, rfl⟩
  have hstep : core_tsk_prio cfg (fuel + 1) s tsk prio =
      if (s.tsk tsk).prio ≠ inherited_prio s tsk prio then
        if tsk = s1.cur then
          if (s1.tsk (sub_next s1 tsk)).prio > inherited_prio s tsk prio then port_ctx_switch s1
          else s1
        else if (s1.tsk tsk).id = tid_t.ID_READY then
          core_tsk_insert cfg (priv_tsk_remove s1 tsk) tsk
        else if (s1.tsk tsk).id = tid_t.ID_DELAYED then
          match ((match (s1.tsk tsk).guard with
              | some que => core_tsk_transfer s1 tsk que
              | none => s1).tsk tsk).mtx_tree with
          | some owner => core_tsk_prio cfg fuel
              (match (s1.tsk tsk).guard with
                | some que => core_tsk_transfer s1 tsk que
                | none => s1) owner (inherited_prio s tsk prio)
          | none => (match (s1.tsk tsk).guard with
              | some que => core_tsk_transfer s1 tsk que
              | none => s1)
        else s1
      else s := by
    rw [hs1]; rfl
  have h1c : s1.cur = s.cur := by rw [hs1]; rfl
  have h1i : (s1.tsk tsk).id = tid_t.ID_READY := by rw [hs1]; simpa [Kernel.setTsk] using hid
  rw [hstep, if_pos hchg, if_neg (by rw [h1c]; exact hcur), if_pos h1i, hs1]

theorem prio_cur_step (cfg : Config) (s : Kernel) (prio fuel : Nat) :
    core_tsk_prio cfg (fuel + 1) s s.cur prio = core_cur_prio s prio := by
  obtain ⟨s1, hs1⟩ : ∃ s1 : Kernel,
    s1 = s.setTsk s.cur { s.tsk s.cur with prio := inherited_prio s s.cur prio } := ⟨_, rfl⟩
  have hstep : core_tsk_prio cfg (fuel + 1) s s.cur prio =
      if (s.tsk s.cur).prio ≠ inherited_prio s s.cur prio then
        if s.cur = s1.cur then
          if (s1.tsk (sub_next s1 s.cur)).prio > inherited_prio s s.cur prio then
            port_ctx_switch s1
          else s1
        else if (s1.tsk s.cur).id = tid_t.ID_READY then
          core_tsk_insert cfg (priv_tsk_remove s1 s.cur) s.cur
        else if (s1.tsk s.cur).id = tid_t.ID_DELAYED then
          match ((match (s1.tsk s.cur).guard with
              | some que => core_tsk_transfer s1 s.cur que
              | none => s1).tsk s.cur).mtx_tree with
          | some owner => core_tsk_prio cfg fuel
              (match (s1.tsk s.cur).guard with
                | some que => core_tsk_transfer s1 s.cur que
                | none => s1) owner (inherited_prio s s.cur prio)
          | none => (match (s1.tsk s.cur).guard with
              | some que => core_tsk_transfer s1 s.cur que
              | none => s1)
        else s1
      else s := by
    rw [hs1]; rfl
  have hcp : core_cur_prio s prio =
      if (s.tsk s.cur).prio ≠ inherited_prio s s.cur prio then
        if (s1.tsk (sub_next s1 s.cur)).prio > inherited_prio s s.cur prio then
          port_ctx_switch s1
        else s1
      else s := by
    rw [hs1]; rfl
  have h1c : s.cur = s1.cur := by rw [hs1]; rfl
  rw [hstep, hcp]
  by_cases hc : (s.tsk s.cur).prio ≠ inherited_prio s s.cur prio
  · rw [if_pos hc, if_pos hc, if_pos h1c]
  · rw [if_neg hc, if_neg hc]

theorem insert_after_remove (cfg : Config) (s1 : Kernel) (tsk : Nat)
    (hs : (s1.ready.filter (fun n => decide (n ≠ tsk))).Pairwise
      (fun a b => (s1.tsk b).prio ≤ (s1.tsk a).prio)) :
    (∃ a b, s1.ready.filter (fun n => decide (n ≠ tsk)) = a ++ b ∧
      (priv_tsk_insert cfg (priv_tsk_remove s1 tsk) tsk).ready = a ++ tsk :: b ∧
      (∀ x, x ∈ a → (s1.tsk tsk).prio ≤ (s1.tsk x).prio) ∧
      (∀ x, x ∈ b → (s1.tsk x).prio < (s1.tsk tsk).prio)) ∧
    (priv_tsk_insert cfg (priv_tsk_remove s1 tsk) tsk).ready.Pairwise
      (fun a b => ((priv_tsk_insert cfg (priv_tsk_remove s1 tsk) tsk).tsk b).prio ≤
        ((priv_tsk_insert cfg (priv_tsk_remove s1 tsk) tsk).tsk a).prio) ∧
    (∀ n, ((priv_tsk_insert cfg (priv_tsk_remove s1 tsk) tsk).tsk n).prio = (s1.tsk n).prio) :=
  ⟨(priv_tsk_insert_sorted cfg (priv_tsk_remove s1 tsk) tsk hs).1,
   (priv_tsk_insert_sorted cfg (priv_tsk_remove s1 tsk) tsk hs).2,
   fun n => priv_tsk_insert_prio cfg (priv_tsk_remove s1 tsk) tsk n⟩

theorem core_tsk_insert_sorted (cfg : Config) (R : Kernel) (tsk : Nat)
    (hs : R.ready.Pairwise (fun a b => (R.tsk b).prio ≤ (R.tsk a).prio)) :
    (∃ a b, R.ready = a ++ b ∧ (core_tsk_insert cfg R tsk).ready = a ++ tsk :: b ∧
      (∀ x, x ∈ a → (R.tsk tsk).prio ≤ (R.tsk x).prio) ∧
      (∀ x, x ∈ b → (R.tsk x).prio < (R.tsk tsk).prio)) ∧
    (core_tsk_insert cfg R tsk).ready.Pairwise
      (fun a b => ((core_tsk_insert cfg R tsk).tsk b).prio ≤
        ((core_tsk_insert cfg R tsk).tsk a).prio) := by
  obtain ⟨X, hX⟩ : ∃ X : Kernel, X = R.setTsk tsk { R.tsk tsk with id := tid_t.ID_READY } :=
    ⟨_, rfl⟩
  have hXp : ∀ n, (X.tsk n).prio = (R.tsk n).prio := by
    intro n
    rw [hX]
    by_cases h : n = tsk
    · subst h; simp [Kernel.setTsk]
    · simp [Kernel.setTsk, upd_other _ _ _ _ h]
  have hXr : X.ready = R.ready := by rw [hX]; rfl
  have hr : (core_tsk_insert cfg R tsk).ready = (priv_tsk_insert cfg X tsk).ready := by
    rw [core_tsk_insert_eq, hX]
  have hsX : X.ready.Pairwise (fun a b => (X.tsk b).prio ≤ (X.tsk a).prio) := by
    simp only [hXp]; rw [hXr]; exact hs
  obtain ⟨⟨a, b, q1, q2, q3, q4⟩, q5⟩ := priv_tsk_insert_sorted cfg X tsk hsX
  simp only [hXp] at q3 q4
  rw [hXr] at q1
  refine ⟨⟨a, b, q1, by rw [hr]; exact q2, q3, q4⟩, ?_⟩
  simp only [core_tsk_insert_prio]
  simp only [priv_tsk_insert_prio, hXp] at q5
  rw [hr]; exact q5

/-- C17 (amended).  The ready list is sorted by non-increasing priority, holds no task
twice and holds the task, and the priority computed by `core_tsk_prio` differs from the
one the task has.  If the task is not the current one (and is tagged `ID_READY`),
`core_tsk_prio` stores the new priority, unlinks the task and links it again behind the
tasks `a` of priority greater than or equal to the new one and in front of the tasks `b` of
lower priority: the ready list is sorted again.  If the task is the current one,
`core_tsk_prio` does what `core_cur_prio` does: the new priority is stored and the ready
list is left as it is, sorted or not; a context switch is requested when the task behind
the current one has a higher priority than the new one; when the current task is at the
head of the ready list, the list is sorted again, with the task at the place of its new
priority, after `core_tsk_handler` has run, and the task at its head is the current
one. -/
theorem resort_on_prio_change (cfg : Config) (s : Kernel) (tsk prio : Nat)
    (hsorted : s.ready.Pairwise (fun a b => (s.tsk b).prio ≤ (s.tsk a).prio))
    (hnd : s.ready.Nodup) (hin : tsk ∈ s.ready)
    (hchg : (s.tsk tsk).prio ≠ inherited_prio s tsk prio) :
    (tsk ≠ s.cur → (s.tsk tsk).id = tid_t.ID_READY → ∀ fuel,
      ((core_tsk_prio cfg (fuel + 1) s tsk prio).tsk tsk).prio = inherited_prio s tsk prio ∧
      (∀ n, n ≠ tsk → ((core_tsk_prio cfg (fuel + 1) s tsk prio).tsk n).prio = (s.tsk n).prio) ∧
      (∃ a b, s.ready.filter (fun n => decide (n ≠ tsk)) = a ++ b ∧
        (core_tsk_prio cfg (fuel + 1) s tsk prio).ready = a ++ tsk :: b ∧
        (∀ x, x ∈ a → inherited_prio s tsk prio ≤ (s.tsk x).prio) ∧
        (∀ x, x ∈ b → (s.tsk x).prio < inherited_prio s tsk prio)) ∧
      (core_tsk_prio cfg (fuel + 1) s tsk prio).ready.Pairwise
        (fun a b => ((core_tsk_prio cfg (fuel + 1) s tsk prio).tsk b).prio ≤
          ((core_tsk_prio cfg (fuel + 1) s tsk prio).tsk a).prio)) ∧
    (tsk = s.cur →
      (∀ fuel, core_tsk_prio cfg (fuel + 1) s tsk prio = core_cur_prio s prio) ∧
      (core_cur_prio s prio).ready = s.ready ∧
      ((core_cur_prio s prio).tsk tsk).prio = inherited_prio s tsk prio ∧
      (∀ n, n ≠ tsk → ((core_cur_prio s prio).tsk n).prio = (s.tsk n).prio) ∧
      (∀ nxt, sub_next s tsk = nxt → nxt ≠ tsk →
        (core_cur_prio s prio).ctx_switch =
          (s.ctx_switch || decide ((s.tsk nxt).prio > inherited_prio s tsk prio))) ∧
      (∀ rest, s.ready = tsk :: rest → tsk ≠ IDLE →
        (∃ a b, rest = a ++ b ∧
          (core_tsk_handler cfg (core_cur_prio s prio)).ready = a ++ tsk :: b ∧
          (∀ x, x ∈ a → inherited_prio s tsk prio ≤ (s.tsk x).prio) ∧
          (∀ x, x ∈ b → (s.tsk x).prio < inherited_prio s tsk prio)) ∧
        (core_tsk_handler cfg (core_cur_prio s prio)).ready.Pairwise
          (fun a b => ((core_tsk_handler cfg (core_cur_prio s prio)).tsk b).prio ≤
            ((core_tsk_handler cfg (core_cur_prio s prio)).tsk a).prio) ∧
        (core_tsk_handler cfg (core_cur_prio s prio)).ready.head? =
          some (core_tsk_handler cfg (core_cur_prio s prio)).cur)) := by
  obtain ⟨p, hp⟩ : ∃ p, p = inherited_prio s tsk prio := ⟨_, rfl⟩
  rw [← hp] at hchg ⊢
  obtain ⟨s1, hs1⟩ : ∃ s1 : Kernel, s1 = s.setTsk tsk { s.tsk tsk with prio := p } := ⟨_, rfl⟩
  have h1o : ∀ n, n ≠ tsk → (s1.tsk n).prio = (s.tsk n).prio := by
    intro n h; rw [hs1]; simp [Kernel.setTsk, upd_other _ _ _ _ h]
  have h1p : (s1.tsk tsk).prio = p := by rw [hs1]; simp [Kernel.setTsk]
  have h1r : s1.ready = s.ready := by rw [hs1]; rfl
  have hfs : (s.ready.filter (fun n => decide (n ≠ tsk))).Pairwise
      (fun a b => (s1.tsk b).prio ≤ (s1.tsk a).prio) := by
    apply sorted_congr (fun n => (s.tsk n).prio) (fun n => (s1.tsk n).prio)
    · intro x hx
      have hxt : x ≠ tsk := by
        have := (List.mem_filter.mp hx).2
        simpa using this
      exact (h1o x hxt).symm
    · exact sorted_filter (fun n => (s.tsk n).prio) _ _ hsorted
  have hmemf : ∀ x, x ∈ s.ready.filter (fun n => decide (n ≠ tsk)) → x ≠ tsk := by
    intro x hx
    have := (List.mem_filter.mp hx).2
    simpa using this
  refine ⟨?_, ?_⟩
  · intro hcur hid fuel
    rw [prio_ready_step cfg s tsk prio fuel (by rw [← hp]; exact hchg) hcur hid, ← hp, ← hs1]
    obtain ⟨R, hR⟩ : ∃ R : Kernel, R = priv_tsk_remove s1 tsk := ⟨_, rfl⟩
    have hRt : R.tsk = s1.tsk := by rw [hR]; rfl
    have hRr : R.ready = s.ready.filter (fun n => decide (n ≠ tsk)) := by
      rw [hR, ← h1r]; rfl
    rw [← hR]
    obtain ⟨⟨a, b, q1, q2, q3, q4⟩, q5⟩ := core_tsk_insert_sorted cfg R tsk
      (by rw [hRt, hRr]; exact hfs)
    rw [hRt, h1p] at q3 q4
    rw [hRr] at q1
    have hma : ∀ x, x ∈ a → x ≠ tsk := fun x hx => hmemf x (by rw [q1]; simp [hx])
    have hmb : ∀ x, x ∈ b → x ≠ tsk := fun x hx => hmemf x (by rw [q1]; simp [hx])
    refine ⟨by rw [core_tsk_insert_prio, hRt]; exact h1p,
      fun n hn => by rw [core_tsk_insert_prio, hRt]; exact h1o n hn,
      ⟨a, b, q1, q2, fun x hx => by rw [← h1o x (hma x hx)]; exact q3 x hx,
        fun x hx => by rw [← h1o x (hmb x hx)]; exact q4 x hx⟩, q5⟩
  · intro hcur
    subst hcur
    have hcp : core_cur_prio s prio =
        if (s1.tsk (sub_next s1 s.cur)).prio > p then port_ctx_switch s1 else s1 := by
      have : core_cur_prio s prio =
          if (s.tsk s.cur).prio ≠ inherited_prio s s.cur prio then
            if (s1.tsk (sub_next s1 s.cur)).prio > inherited_prio s s.cur prio then
              port_ctx_switch s1
            else s1
          else s := by
        rw [hs1, hp]; rfl
      rw [this, ← hp, if_pos hchg]
    have hsn : sub_next s1 s.cur = sub_next s s.cur := by rw [hs1]; rfl
    obtain ⟨s', hs'⟩ : ∃ s' : Kernel, s' = core_cur_prio s prio := ⟨_, rfl⟩
    have h'r : s'.ready = s.ready := by rw [hs', hcp]; split <;> exact h1r
    have h't : s'.tsk = s1.tsk := by rw [hs', hcp]; split <;> rfl
    have h'c : s'.cur = s.cur := by rw [hs', hcp, hs1]; split <;> rfl
    rw [← hs']
    refine ⟨fun fuel => by rw [hs']; exact prio_cur_step cfg s prio fuel, h'r,
      by rw [h't]; exact h1p, fun n hn => by rw [h't]; exact h1o n hn, ?_, ?_⟩
    · intro nxt hnx hne
      rw [hs', hcp, hsn, hnx, h1o nxt hne]
      by_cases hc : (s.tsk nxt).prio > p
      · rw [if_pos hc]; simp [port_ctx_switch, hc]
      · rw [if_neg hc, hs1]; simp [Kernel.setTsk, hc]
    · intro rest hr hidle
      have hnd' := List.nodup_cons.mp (by rw [hr] at hnd; exact hnd)
      have hfilt : s.ready.filter (fun n => decide (n ≠ s.cur)) = rest := by
        rw [hr, List.filter_cons_of_neg (by simp)]
        exact filter_ne_of_not_mem _ _ hnd'.1
      obtain ⟨s0, hs0⟩ : ∃ s0 : Kernel, s0 = { s' with ctx_switch := false } := ⟨_, rfl⟩
      have h0r : s0.ready = s.ready := by rw [hs0]; exact h'r
      have h0t : s0.tsk = s1.tsk := by rw [hs0]; exact h't
      have h0c : s0.cur = s.cur := by rw [hs0]; exact h'c
      have hnx : IDLE_next s0 = s.cur := by simp [IDLE_next, h0r, hr]
      have e : core_tsk_handler cfg s' =
          if s0.cur = IDLE_next s0 then tsk_rotate cfg s0 (IDLE_next s0)
          else if (cfg.robin && !cfg.hw_timer) &&
              decide ((s0.tsk (IDLE_next s0)).slice ≥ cfg.slice_max) then
            tsk_rotate cfg (s0.setTsk (IDLE_next s0) { s0.tsk (IDLE_next s0) with slice := 0 })
              (IDLE_next s0)
          else { s0 with cur := IDLE_next s0 } := by
        rw [hs0]; rfl
      rw [e, hnx, if_pos h0c]
      obtain ⟨q1, q2, q3⟩ := insert_after_remove cfg s0 s.cur
        (by rw [h0r, h0t]; exact hfs)
      obtain ⟨a, b, r1, r2, r3, r4⟩ := q1
      rw [h0r, hfilt] at r1
      rw [h0t, h1p] at r3 r4
      have hma : ∀ x, x ∈ a → x ≠ s.cur := fun x hx e =>
        hnd'.1 (by rw [r1, ← e]; simp [hx])
      have hmb : ∀ x, x ∈ b → x ≠ s.cur := fun x hx e =>
        hnd'.1 (by rw [r1, ← e]; simp [hx])
      have hrot : tsk_rotate cfg s0 s.cur =
          { priv_tsk_insert cfg (priv_tsk_remove s0 s.cur) s.cur with
            cur := IDLE_next (priv_tsk_insert cfg (priv_tsk_remove s0 s.cur) s.cur) } := by
        unfold tsk_rotate
        rw [if_neg hidle]
      rw [hrot]
      refine ⟨⟨a, b, r1, r2, fun x hx => by rw [← h1o x (hma x hx)]; exact r3 x hx,
        fun x hx => by rw [← h1o x (hmb x hx)]; exact r4 x hx⟩, q2, ?_⟩
      show (priv_tsk_insert cfg (priv_tsk_remove s0 s.cur) s.cur).ready.head? =
        some (IDLE_next (priv_tsk_insert cfg (priv_tsk_remove s0 s.cur) s.cur))
      rw [IDLE_next, r2]
      cases a <;> rfl

/-- Witness of C17: in `ex_inherit` the ready task 7 of priority 1, which is not the
current task, gets the priority 5 of the task that waits for the lock it holds, and moves
in front of the main task. -/
theorem resort_on_prio_change_witness :
    (core_tsk_prio cfg32 1 ex_inherit 7 1).ready = [7, MAIN] ∧
    (core_tsk_prio cfg32 1 ex_inherit 7 1).ready.Pairwise
      (fun a b => ((core_tsk_prio cfg32 1 ex_inherit 7 1).tsk b).prio ≤
        ((core_tsk_prio cfg32 1 ex_inherit 7 1).tsk a).prio) :=
  ⟨by decide,
   ((resort_on_prio_change cfg32 ex_inherit 7 1 (by decide) (by decide) (by decide)
      (by decide)).1 (by decide) (by decide) 0).2.2.2⟩

/-- Counterexample to C17 as stated: in `ex_lower` the ready list is sorted and the current
task, the main task, is in it; `core_cur_prio(1)`, and likewise `core_tsk_prio` on the main
task, changes its priority from 5 to 1 and leaves it in front of the task 7 of priority 3:
the ready list is not sorted after the call. -/
theorem resort_on_prio_change_counterexample :
    ex_lower.ready.Pairwise (fun a b => (ex_lower.tsk b).prio ≤ (ex_lower.tsk a).prio) ∧
    ex_lower.cur = MAIN ∧ MAIN ∈ ex_lower.ready ∧
    ((core_cur_prio ex_lower 1).tsk MAIN).prio = 1 ∧
    ((core_cur_prio ex_lower 1).tsk 7).prio = 3 ∧
    (core_cur_prio ex_lower 1).ready = [MAIN, 7] ∧
    ¬ (core_cur_prio ex_lower 1).ready.Pairwise
      (fun a b => ((core_cur_prio ex_lower 1).tsk b).prio ≤
        ((core_cur_prio ex_lower 1).tsk a).prio) ∧
    (core_tsk_prio cfg32 1 ex_lower MAIN 1).ready = [MAIN, 7] ∧
    ¬ (core_tsk_prio cfg32 1 ex_lower MAIN 1).ready.Pairwise
      (fun a b => ((core_tsk_prio cfg32 1 ex_lower MAIN 1).tsk b).prio ≤
        ((core_tsk_prio cfg32 1 ex_lower MAIN 1).tsk a).prio) := by
  refine ⟨by decide, by decide, by decide, by decide, by decide, by decide, by decide,
    by decide, by decide⟩

/-! ### C18: the boost along the chain of owners -/

theorem prio_step (cfg : Config) (s : Kernel) (x q : Nat) :
    ((s.tsk x).prio = inherited_prio s x q → ∀ fuel, core_tsk_prio cfg (fuel + 1) s x q = s) ∧
    ((s.tsk x).prio ≠ inherited_prio s x q → ¬ blocked s x →
      ∃ s2 : Kernel, (∀ fuel, core_tsk_prio cfg (fuel + 1) s x q = s2) ∧
        s2.queue = s.queue ∧ s2.cur = s.cur ∧ (∀ t, t ≠ x → s2.tsk t = s.tsk t) ∧
        (s2.tsk x).prio = inherited_prio s x q ∧ (s2.tsk x).guard = (s.tsk x).guard ∧
        ((s2.tsk x).id = tid_t.ID_DELAYED ↔ (s.tsk x).id = tid_t.ID_DELAYED)) ∧
    ((s.tsk x).prio ≠ inherited_prio s x q → blocked s x →
      ∀ fuel, core_tsk_prio cfg (fuel + 1) s x q =
        match (s.tsk x).mtx_tree with
        | some o => core_tsk_prio cfg fuel
            (match (s.tsk x).guard with
              | some g => core_tsk_transfer
                  (s.setTsk x { s.tsk x with prio := inherited_prio s x q }) x g
              | none => s.setTsk x { s.tsk x with prio := inherited_prio s x q })
            o (inherited_prio s x q)
        | none =>
            (match (s.tsk x).guard with
              | some g => core_tsk_transfer
                  (s.setTsk x { s.tsk x with prio := inherited_prio s x q }) x g
              | none => s.setTsk x { s.tsk x with prio := inherited_prio s x q })) := by
  obtain ⟨p, hp⟩ : ∃ p, p = inherited_prio s x q := ⟨_, rfl⟩
  rw [← hp]
  obtain ⟨s1, hs1⟩ : ∃ s1 : Kernel, s1 = s.setTsk x { s.tsk x with prio := p } := ⟨_, rfl⟩
  rw [← hs1]
  have hstep : ∀ fuel, core_tsk_prio cfg (fuel + 1) s x q =
      if (s.tsk x).prio ≠ p then
        if x = s1.cur then
          if (s1.tsk (sub_next s1 x)).prio > p then port_ctx_switch s1 else s1
        else if (s1.tsk x).id = tid_t.ID_READY then
          core_tsk_insert cfg (priv_tsk_remove s1 x) x
        else if (s1.tsk x).id = tid_t.ID_DELAYED then
          match ((match (s1.tsk x).guard with
              | some que => core_tsk_transfer s1 x que
              | none => s1).tsk x).mtx_tree with
          | some owner => core_tsk_prio cfg fuel
              (match (s1.tsk x).guard with
                | some que => core_tsk_transfer s1 x que
                | none => s1) owner p
          | none => (match (s1.tsk x).guard with
              | some que => core_tsk_transfer s1 x que
              | none => s1)
        else s1
      else s := by
    intro fuel
    rw [hs1, hp]; rfl
  have h1c : s1.cur = s.cur := by rw [hs1]; rfl
  have h1q : s1.queue = s.queue := by rw [hs1]; rfl
  have h1o : ∀ t, t ≠ x → s1.tsk t = s.tsk t := by
    intro t h; rw [hs1]; simp [Kernel.setTsk, upd_other _ _ _ _ h]
  have h1x : (s1.tsk x).prio = p ∧ (s1.tsk x).guard = (s.tsk x).guard ∧
      (s1.tsk x).id = (s.tsk x).id ∧ (s1.tsk x).mtx_tree = (s.tsk x).mtx_tree := by
    rw [hs1]; simp [Kernel.setTsk]
  refine ⟨?_, ?_, ?_⟩
  · intro he fuel
    rw [hstep, if_neg (by simpa using he)]
  · intro hne hnb
    by_cases hcur : x = s1.cur
    · refine ⟨if (s1.tsk (sub_next s1 x)).prio > p then port_ctx_switch s1 else s1,
        fun fuel => by rw [hstep, if_pos hne, if_pos hcur], ?_, ?_, ?_, ?_, ?_, ?_⟩
      · split <;> exact h1q
      · split <;> exact h1c
      · intro t h; split <;> exact h1o t h
      · split <;> exact h1x.1
      · split <;> exact h1x.2.1
      · have hid : ∀ z : Kernel, z.tsk = s1.tsk →
            ((z.tsk x).id = tid_t.ID_DELAYED ↔ (s.tsk x).id = tid_t.ID_DELAYED) := by
          intro z hz; rw [hz, h1x.2.2.1]
        split
        · exact hid _ rfl
        · exact hid _ rfl
    · have hnd : (s.tsk x).id ≠ tid_t.ID_DELAYED := by
        intro h
        exact hnb ⟨h, by rw [← h1c]; exact hcur⟩
      by_cases hrdy : (s1.tsk x).id = tid_t.ID_READY
      · refine ⟨core_tsk_insert cfg (priv_tsk_remove s1 x) x,
          fun fuel => by rw [hstep, if_pos hne, if_neg hcur, if_pos hrdy], ?_, ?_, ?_, ?_, ?_, ?_⟩
        · rw [(core_tsk_insert_queue cfg _ x).1, ← h1q]; rfl
        · rw [core_tsk_insert_eq]; simp only [priv_tsk_insert]; split <;> exact h1c
        · intro t h
          rw [(core_tsk_insert_tsk cfg _ x t).1 h]; exact h1o t h
        · rw [core_tsk_insert_prio]; exact h1x.1
        · rw [(core_tsk_insert_queue cfg _ x).2 x]; exact h1x.2.1
        · constructor
          · intro h
            have : ((core_tsk_insert cfg (priv_tsk_remove s1 x) x).tsk x).id = tid_t.ID_READY := by
              rw [core_tsk_insert_eq]; simp only [priv_tsk_insert]
              split <;> simp [Kernel.setTsk]
            rw [this] at h; cases h
          · intro h; exact absurd h hnd
      · refine ⟨s1, fun fuel => by
          rw [hstep, if_pos hne, if_neg hcur, if_neg hrdy, if_neg (by rw [h1x.2.2.1]; exact hnd)],
          h1q, h1c, h1o, h1x.1, h1x.2.1, by rw [h1x.2.2.1]⟩
  · intro hne hb fuel
    have hcur : x ≠ s1.cur := by rw [h1c]; exact hb.2
    have hdel : (s1.tsk x).id = tid_t.ID_DELAYED := by rw [h1x.2.2.1]; exact hb.1
    have hrdy : ¬ (s1.tsk x).id = tid_t.ID_READY := by rw [hdel]; intro h; cases h
    rw [hstep, if_pos hne, if_neg hcur, if_neg hrdy, if_pos hdel, h1x.2.1]
    have ht : ((match (s.tsk x).guard with
        | some que => core_tsk_transfer s1 x que
        | none => s1).tsk x).mtx_tree = (s.tsk x).mtx_tree := by
      cases (s.tsk x).guard with
      | none => exact h1x.2.2.2
      | some g => rw [(core_tsk_transfer_tsk s1 x g x).2.2]; exact h1x.2.2.2
    rw [ht]

theorem transfer_facts (s : Kernel) (x p : Nat) (S2 : Kernel)
    (hS2 : S2 = (match (s.tsk x).guard with
      | some g => core_tsk_transfer (s.setTsk x { s.tsk x with prio := p }) x g
      | none => s.setTsk x { s.tsk x with prio := p })) :
    S2.cur = s.cur ∧ (∀ t, t ≠ x → S2.tsk t = s.tsk t) ∧ (S2.tsk x).prio = p ∧
    (S2.tsk x).id = (s.tsk x).id ∧ (S2.tsk x).guard = (s.tsk x).guard ∧
    (∀ t, (S2.tsk t).mtx_tree = (s.tsk t).mtx_tree) ∧
    (∀ m, (s.tsk x).guard = some m →
      S2.queue m =
        ((s.queue m).filter (fun n => decide (n ≠ x))).takeWhile
          (fun n => decide ((S2.tsk x).prio ≤ (S2.tsk n).prio)) ++
        x :: ((s.queue m).filter (fun n => decide (n ≠ x))).dropWhile
          (fun n => decide ((S2.tsk x).prio ≤ (S2.tsk n).prio))) ∧
    (∀ m, (s.tsk x).guard ≠ some m → (s.tsk x).guard ≠ none →
      S2.queue m = (s.queue m).filter (fun n => decide (n ≠ x))) ∧
    ((s.tsk x).guard = none → S2.queue = s.queue) := by
  obtain ⟨s1, hs1⟩ : ∃ s1 : Kernel, s1 = s.setTsk x { s.tsk x with prio := p } := ⟨_, rfl⟩
  rw [← hs1] at hS2
  have h1c : s1.cur = s.cur := by rw [hs1]; rfl
  have h1q : s1.queue = s.queue := by rw [hs1]; rfl
  have h1o : ∀ t, t ≠ x → s1.tsk t = s.tsk t := by
    intro t h; rw [hs1]; simp [Kernel.setTsk, upd_other _ _ _ _ h]
  have h1x : (s1.tsk x).prio = p ∧ (s1.tsk x).guard = (s.tsk x).guard ∧
      (s1.tsk x).id = (s.tsk x).id := by
    rw [hs1]; simp [Kernel.setTsk]
  have h1t : ∀ t, (s1.tsk t).mtx_tree = (s.tsk t).mtx_tree := by
    intro t
    by_cases h : t = x
    · subst h; rw [hs1]; simp [Kernel.setTsk]
    · rw [h1o t h]
  cases hg : (s.tsk x).guard with
  | none =>
    rw [hg] at hS2
    simp only [] at hS2
    rw [hS2]
    refine ⟨h1c, h1o, h1x.1, h1x.2.2, by rw [h1x.2.1, hg], h1t, ?_, ?_, fun _ => h1q⟩
    · intro m h; cases h
    · intro m _ h; exact absurd rfl h
  | some g =>
    rw [hg] at hS2
    simp only [] at hS2
    have hTp : ∀ n, (S2.tsk n).prio = (s1.tsk n).prio := by
      intro n
      rw [hS2]
      by_cases h : n = x
      · subst h; exact (core_tsk_transfer_tsk s1 n g n).2.1
      · rw [(core_tsk_transfer_tsk s1 x g n).1 h]
    have hqg : S2.queue g =
        ((s.queue g).filter (fun n => decide (n ≠ x))).takeWhile
          (fun n => decide ((S2.tsk x).prio ≤ (S2.tsk n).prio)) ++
        x :: ((s.queue g).filter (fun n => decide (n ≠ x))).dropWhile
          (fun n => decide ((S2.tsk x).prio ≤ (S2.tsk n).prio)) := by
      simp only [hTp]
      rw [hS2]
      unfold core_tsk_transfer
      rw [core_tsk_append_queue, insert_walk]
      have hu : (core_tsk_unlink s1 x (s1.tsk x).event).queue g =
          (s.queue g).filter (fun n => decide (n ≠ x)) := by
        rw [← h1q]; rfl
      have hup : ∀ n, ((core_tsk_unlink s1 x (s1.tsk x).event).tsk n).prio = (s1.tsk n).prio := by
        intro n
        by_cases h : n = x
        · subst h; simp [core_tsk_unlink, Kernel.setTsk]
        · simp [core_tsk_unlink, Kernel.setTsk, upd_other _ _ _ _ h]
      simp only [hup, hu]
    refine ⟨?_, ?_, ?_, ?_, ?_, ?_, ?_, ?_, ?_⟩
    · rw [hS2]; exact h1c
    · intro t h
      rw [hS2, (core_tsk_transfer_tsk s1 x g t).1 h]; exact h1o t h
    · rw [hTp]; exact h1x.1
    · rw [hS2]
      simp [core_tsk_transfer, core_tsk_append, core_tsk_unlink, Kernel.setTsk]
      exact h1x.2.2
    · rw [hS2, core_tsk_transfer_guard s1 x g x (by rw [h1x.2.1, hg]), h1x.2.1, hg]
    · intro t
      rw [hS2, (core_tsk_transfer_tsk s1 x g t).2.2]; exact h1t t
    · intro m hm
      simp only [Option.some.injEq] at hm
      subst hm
      exact hqg
    · intro m hm _
      have hmg : m ≠ g := fun e => hm (by rw [e])
      rw [hS2]
      unfold core_tsk_transfer core_tsk_append
      simp only [Kernel.setTsk]
      rw [upd_other _ _ _ _ hmg, ← h1q]
      rfl
    · intro h; cases h

theorem queue_inv_frame (s S : Kernel) (que x : Nat)
    (hq : S.queue que = s.queue que) (hc : S.cur = s.cur)
    (ho : ∀ t, t ≠ x → S.tsk t = s.tsk t) (hx : x ∉ s.queue que)
    (hinv : ∀ t, t ∈ s.queue que → blocked s t ∧ (s.tsk t).guard = some que)
    (hs : (s.queue que).Pairwise (fun a b => (s.tsk b).prio ≤ (s.tsk a).prio)) :
    (∀ t, t ∈ S.queue que → blocked S t ∧ (S.tsk t).guard = some que) ∧
    (S.queue que).Pairwise (fun a b => (S.tsk b).prio ≤ (S.tsk a).prio) ∧
    (∀ t, t ∈ s.queue que → t ∈ S.queue que) := by
  have hne : ∀ t, t ∈ s.queue que → t ≠ x := fun t ht e => hx (e ▸ ht)
  refine ⟨?_, ?_, fun t ht => by rw [hq]; exact ht⟩
  · intro t ht
    rw [hq] at ht
    unfold blocked
    rw [ho t (hne t ht), hc]
    exact hinv t ht
  · rw [hq]
    exact sorted_congr (fun n => (s.tsk n).prio) (fun n => (S.tsk n).prio) _
      (fun t ht => by simp only [ho t (hne t ht)]) hs

theorem prio_queue_inv (cfg : Config) (que : Nat) (fuel : Nat) :
    ∀ (s : Kernel) (x q : Nat),
      (∀ t, t ∈ s.queue que → blocked s t ∧ (s.tsk t).guard = some que) →
      (s.queue que).Pairwise (fun a b => (s.tsk b).prio ≤ (s.tsk a).prio) →
      (∀ t, t ∈ (core_tsk_prio cfg fuel s x q).queue que →
        blocked (core_tsk_prio cfg fuel s x q) t ∧
        ((core_tsk_prio cfg fuel s x q).tsk t).guard = some que) ∧
      ((core_tsk_prio cfg fuel s x q).queue que).Pairwise
        (fun a b => ((core_tsk_prio cfg fuel s x q).tsk b).prio ≤
          ((core_tsk_prio cfg fuel s x q).tsk a).prio) ∧
      (∀ t, t ∈ s.queue que → t ∈ (core_tsk_prio cfg fuel s x q).queue que) := by
  induction fuel with
  | zero => intro s x q hinv hs; exact ⟨hinv, hs, fun _ h => h⟩
  | succ n ih =>
    intro s x q hinv hs
    obtain ⟨st1, st2, st3⟩ := prio_step cfg s x q
    by_cases he : (s.tsk x).prio = inherited_prio s x q
    · rw [st1 he n]; exact ⟨hinv, hs, fun _ h => h⟩
    · by_cases hb : blocked s x
      · rw [st3 he hb n]
        obtain ⟨S2, hS2⟩ : ∃ S2 : Kernel, S2 = (match (s.tsk x).guard with
            | some g => core_tsk_transfer
                (s.setTsk x { s.tsk x with prio := inherited_prio s x q }) x g
            | none => s.setTsk x { s.tsk x with prio := inherited_prio s x q }) := ⟨_, rfl⟩
        rw [← hS2]
        obtain ⟨t1, t2, t3, t4, t5, t6, t7, t8, t9⟩ :=
          transfer_facts s x (inherited_prio s x q) S2 hS2
        have key : (∀ t, t ∈ S2.queue que → blocked S2 t ∧ (S2.tsk t).guard = some que) ∧
            (S2.queue que).Pairwise (fun a b => (S2.tsk b).prio ≤ (S2.tsk a).prio) ∧
            (∀ t, t ∈ s.queue que → t ∈ S2.queue que) := by
          by_cases hg : (s.tsk x).guard = some que
          · have hF : ((s.queue que).filter (fun n => decide (n ≠ x))).Pairwise
                (fun a b => (S2.tsk b).prio ≤ (S2.tsk a).prio) := by
              apply sorted_congr (fun n => (s.tsk n).prio) (fun n => (S2.tsk n).prio)
              · intro t ht
                have : t ≠ x := by simpa using (List.mem_filter.mp ht).2
                simp only [t2 t this]
              · exact sorted_filter (fun n => (s.tsk n).prio) _ _ hs
            have hq := t7 que hg
            refine ⟨?_, ?_, ?_⟩
            · intro t ht
              rw [hq] at ht
              have hcases : t = x ∨ t ∈ (s.queue que).filter (fun n => decide (n ≠ x)) := by
                rcases List.mem_append.mp ht with h | h
                · exact Or.inr ((List.takeWhile_sublist _).subset h)
                · rcases List.mem_cons.mp h with e | e
                  · exact Or.inl e
                  · exact Or.inr ((List.dropWhile_sublist _).subset e)
              rcases hcases with e | e
              · subst e
                exact ⟨⟨by rw [t4]; exact hb.1, by rw [t1]; exact hb.2⟩, by rw [t5]; exact hg⟩
              · have hm := List.mem_filter.mp e
                have hne : t ≠ x := by simpa using hm.2
                unfold blocked
                rw [t2 t hne, t1]
                exact hinv t hm.1
            · rw [hq]
              exact sorted_insert (fun n => (S2.tsk n).prio) x _ hF
            · intro t ht
              rw [hq]
              by_cases hx : t = x
              · simp [hx]
              · have hm : t ∈ (s.queue que).filter (fun n => decide (n ≠ x)) :=
                  List.mem_filter.mpr ⟨ht, by simpa using hx⟩
                have := List.takeWhile_append_dropWhile
                  (fun n => decide ((S2.tsk x).prio ≤ (S2.tsk n).prio))
                  ((s.queue que).filter (fun n => decide (n ≠ x)))
                rw [← this] at hm
                rcases List.mem_append.mp hm with h | h
                · exact List.mem_append.mpr (Or.inl h)
                · exact List.mem_append.mpr (Or.inr (List.mem_cons_of_mem _ h))
          · have hx : x ∉ s.queue que := fun h => hg (hinv x h).2
            have hq : S2.queue que = s.queue que := by
              by_cases hn : (s.tsk x).guard = none
              · rw [t9 hn]
              · rw [t8 que hg hn]; exact filter_ne_of_not_mem x _ hx
            exact queue_inv_frame s S2 que x hq t1 t2 hx hinv hs
        obtain ⟨k1, k2, k3⟩ := key
        cases (s.tsk x).mtx_tree with
        | none => exact ⟨k1, k2, k3⟩
        | some o =>
          obtain ⟨i1, i2, i3⟩ := ih S2 o (inherited_prio s x q) k1 k2
          exact ⟨i1, i2, fun t ht => i3 t (k3 t ht)⟩
      · obtain ⟨s2, u1, u2, u3, u4, u5, u6, u7⟩ := st2 he hb
        rw [u1 n]
        have hx : x ∉ s.queue que := fun h => hb (hinv x h).1
        exact queue_inv_frame s s2 que x (by rw [u2]) u3 u4 hx hinv hs

theorem le_inherited (s : Kernel) (x q : Nat) : q ≤ inherited_prio s x q := by
  unfold inherited_prio
  have hfold : ∀ (l : List Nat) (a : Nat), a ≤ l.foldl
      (fun p mtx =>
        match (s.queue mtx).head? with
        | some w => if p < (s.tsk w).prio then (s.tsk w).prio else p
        | none => p) a := by
    intro l
    induction l with
    | nil => intro a; exact le_refl _
    | cons m ms ih =>
      intro a
      simp only [List.foldl_cons]
      refine le_trans ?_ (ih _)
      cases (s.queue m).head? with
      | none => exact le_refl _
      | some w =>
        simp only []
        split <;> omega
  refine le_trans ?_ (hfold _ _)
  split <;> omega

theorem chain_prio (s : Kernel) (x : Nat)
    (hinv : ∀ i o o', owner_n s.tsk i x = some o → owner_n s.tsk (i + 1) x = some o' →
      blocked s o → (s.tsk o).prio ≤ (s.tsk o').prio) :
    ∀ i o, owner_n s.tsk i x = some o →
      (∀ j o2, j < i → owner_n s.tsk j x = some o2 → blocked s o2) →
      (s.tsk x).prio ≤ (s.tsk o).prio := by
  intro i
  induction i with
  | zero =>
    intro o ho _
    simp only [owner_n, Option.some.injEq] at ho
    rw [ho]
  | succ i ih =>
    intro o ho hb
    cases hi : owner_n s.tsk i x with
    | none => rw [owner_n, hi] at ho; cases ho
    | some o1 =>
      have h1 := ih o1 hi (fun j o2 hj => hb j o2 (by omega))
      have h2 := hinv i o1 o hi ho (hb i o1 (by omega) hi)
      omega

theorem boost_chain (cfg : Config) (fuel : Nat) :
    ∀ (n : Nat) (s : Kernel) (x q : Nat),
      owner_n s.tsk (n + 1) x = none → n < fuel →
      (∀ i o o', owner_n s.tsk i x = some o → owner_n s.tsk (i + 1) x = some o' →
        blocked s o → (s.tsk o).prio ≤ (s.tsk o').prio) →
      ∀ i o, owner_n s.tsk i x = some o →
        (∀ j o2, j < i → owner_n s.tsk j x = some o2 → blocked s o2) →
        q ≤ ((core_tsk_prio cfg fuel s x q).tsk o).prio := by
  induction fuel with
  | zero => intro n s x q _ hf; omega
  | succ f ih =>
    intro n s x q hchain hf hinv i o ho hbl
    have hq := le_inherited s x q
    obtain ⟨st1, st2, st3⟩ := prio_step cfg s x q
    by_cases he : (s.tsk x).prio = inherited_prio s x q
    · rw [st1 he f]
      have := chain_prio s x hinv i o ho hbl
      omega
    · by_cases hb : blocked s x
      · rw [st3 he hb f]
        obtain ⟨S2, hS2⟩ : ∃ S2 : Kernel, S2 = (match (s.tsk x).guard with
            | some g => core_tsk_transfer
                (s.setTsk x { s.tsk x with prio := inherited_prio s x q }) x g
            | none => s.setTsk x { s.tsk x with prio := inherited_prio s x q }) := ⟨_, rfl⟩
        rw [← hS2]
        obtain ⟨t1, t2, t3, t4, t5, t6, t7, t8, t9⟩ :=
          transfer_facts s x (inherited_prio s x q) S2 hS2
        have hcong : ∀ k y, owner_n S2.tsk k y = owner_n s.tsk k y :=
          fun k y => owner_n_congr _ _ t6 k y
        have hnoret : ∀ k, 1 ≤ k → owner_n s.tsk k x ≠ some x :=
          fun k hk => owner_no_return s.tsk n x hchain k hk
        cases htree : (s.tsk x).mtx_tree with
        | none =>
          simp only []
          cases i with
          | zero =>
            simp only [owner_n, Option.some.injEq] at ho
            rw [← ho, t3]; exact hq
          | succ i' =>
            rw [owner_n_shift, htree] at ho; cases ho
        | some o1 =>
          simp only []
          have hsh : ∀ k, owner_n s.tsk (k + 1) x = owner_n s.tsk k o1 := by
            intro k; rw [owner_n_shift, htree]; rfl
          cases i with
          | zero =>
            simp only [owner_n, Option.some.injEq] at ho
            rw [← ho, prio_untouched cfg x f S2 o1 (inherited_prio s x q), t3]
            · exact hq
            · intro k hk
              rw [hcong, ← hsh] at hk
              exact hnoret (k + 1) (by omega) hk
          | succ i' =>
            obtain ⟨n', rfl⟩ : ∃ n', n = n' + 1 := by
              cases n with
              | zero =>
                have := hsh 0
                rw [hchain] at this
                cases this
              | succ n' => exact ⟨n', rfl⟩
            have hne : ∀ k y, owner_n s.tsk k o1 = some y → y ≠ x := by
              intro k y hk e
              rw [← hsh, e] at hk
              exact hnoret (k + 1) (by omega) hk
            have hblk : ∀ y, y ≠ x → (blocked S2 y ↔ blocked s y) := by
              intro y hy
              unfold blocked
              rw [t2 y hy, t1]
            refine le_trans hq (ih n' S2 o1 (inherited_prio s x q) ?_ (by omega) ?_ i' o ?_ ?_)
            · rw [hcong, ← hsh]; exact hchain
            · intro k a b ha hb' hba
              rw [hcong] at ha hb'
              have hax := hne k a ha
              have hbx := hne (k + 1) b hb'
              rw [t2 a hax, t2 b hbx]
              exact hinv (k + 1) a b (by rw [hsh]; exact ha) (by rw [hsh]; exact hb')
                ((hblk a hax).mp hba)
            · rw [hcong, ← hsh]; exact ho
            · intro j o2 hj ho2
              rw [hcong] at ho2
              exact (hblk o2 (hne j o2 ho2)).mpr
                (hbl (j + 1) o2 (by omega) (by rw [hsh]; exact ho2))
      · obtain ⟨s2, u1, u2, u3, u4, u5, u6, u7⟩ := st2 he hb
        rw [u1 f]
        cases i with
        | zero =>
          simp only [owner_n, Option.some.injEq] at ho
          rw [← ho, u5]; exact hq
        | succ i' =>
          exact absurd (hbl 0 x (by omega) rfl) hb

/-- C18.  The task is blocked on the wait list at `que`, which is sorted by non-increasing
priority and holds blocked tasks that have `que` as their guard; the chain of owners
`tsk.mtx.tree = O1`, `O1.mtx.tree = O2`, ... ends after at most `n` owners, so that it
does not come back to a task it has passed; `core_tsk_prio(tsk, p0)` raises the priority
of the task to `p`; and before the call no blocked owner of the chain has a higher priority
than the owner it waits for.  Then, with the nesting of the calls bounded by more than
`n`: the task has the priority `p`; it is in its wait list, behind tasks `a` of priority at
least `p` and in front of tasks `b` of priority at most `p`, and the wait list is sorted;
and every owner `O_i` of the chain such that the owners before it are blocked, which are
the blocked owners and the first owner that is not blocked, has a priority of at least
`p`. -/
theorem transitive_boost (cfg : Config) (s : Kernel) (tsk p0 que n fuel : Nat)
    (hin : tsk ∈ s.queue que)
    (hqinv : ∀ t, t ∈ s.queue que → blocked s t ∧ (s.tsk t).guard = some que)
    (hsorted : (s.queue que).Pairwise (fun a b => (s.tsk b).prio ≤ (s.tsk a).prio))
    (hchain : owner_n s.tsk (n + 1) tsk = none)
    (hraise : (s.tsk tsk).prio < inherited_prio s tsk p0)
    (hinv : ∀ i o o', 1 ≤ i → owner_n s.tsk i tsk = some o →
      owner_n s.tsk (i + 1) tsk = some o' → blocked s o → (s.tsk o).prio ≤ (s.tsk o').prio)
    (hfuel : n < fuel) :
    ((core_tsk_prio cfg fuel s tsk p0).tsk tsk).prio = inherited_prio s tsk p0 ∧
    (∃ a b, (core_tsk_prio cfg fuel s tsk p0).queue que = a ++ tsk :: b ∧
      (∀ x, x ∈ a →
        inherited_prio s tsk p0 ≤ ((core_tsk_prio cfg fuel s tsk p0).tsk x).prio) ∧
      (∀ x, x ∈ b →
        ((core_tsk_prio cfg fuel s tsk p0).tsk x).prio ≤ inherited_prio s tsk p0)) ∧
    ((core_tsk_prio cfg fuel s tsk p0).queue que).Pairwise
      (fun a b => ((core_tsk_prio cfg fuel s tsk p0).tsk b).prio ≤
        ((core_tsk_prio cfg fuel s tsk p0).tsk a).prio) ∧
    (∀ i o, 1 ≤ i → owner_n s.tsk i tsk = some o →
      (∀ j o2, 1 ≤ j → j < i → owner_n s.tsk j tsk = some o2 → blocked s o2) →
      inherited_prio s tsk p0 ≤ ((core_tsk_prio cfg fuel s tsk p0).tsk o).prio) := by
  obtain ⟨f, rfl⟩ : ∃ f, fuel = f + 1 := ⟨fuel - 1, by omega⟩
  have hprio := prio_result cfg s tsk p0 n hchain f
  obtain ⟨k1, k2, k3⟩ := prio_queue_inv cfg que (f + 1) s tsk p0 hqinv hsorted
  have hb : blocked s tsk := (hqinv tsk hin).1
  refine ⟨hprio, ?_, k2, ?_⟩
  · obtain ⟨a, b, hab⟩ := List.append_of_mem (k3 tsk hin)
    refine ⟨a, b, hab, ?_, ?_⟩
    · intro x hx
      rw [hab] at k2
      have := (List.pairwise_append.mp k2).2.2 x hx tsk (List.mem_cons_self _ _)
      rw [hprio] at this; exact this
    · intro x hx
      rw [hab] at k2
      have := (List.pairwise_cons.mp (List.pairwise_append.mp k2).2.1).1 x hx
      rw [hprio] at this; exact this
  · intro i o hi ho hbl
    obtain ⟨i', rfl⟩ : ∃ i', i = i' + 1 := ⟨i - 1, by omega⟩
    obtain ⟨_, _, st3⟩ := prio_step cfg s tsk p0
    rw [st3 (by omega) hb f]
    obtain ⟨S2, hS2⟩ : ∃ S2 : Kernel, S2 = (match (s.tsk tsk).guard with
        | some g => core_tsk_transfer
            (s.setTsk tsk { s.tsk tsk with prio := inherited_prio s tsk p0 }) tsk g
        | none => s.setTsk tsk { s.tsk tsk with prio := inherited_prio s tsk p0 }) := ⟨_, rfl⟩
    rw [← hS2]
    obtain ⟨t1, t2, t3, t4, t5, t6, t7, t8, t9⟩ :=
      transfer_facts s tsk (inherited_prio s tsk p0) S2 hS2
    have hcong : ∀ k y, owner_n S2.tsk k y = owner_n s.tsk k y :=
      fun k y => owner_n_congr _ _ t6 k y
    have hnoret : ∀ k, 1 ≤ k → owner_n s.tsk k tsk ≠ some tsk :=
      fun k hk => owner_no_return s.tsk n tsk hchain k hk
    cases htree : (s.tsk tsk).mtx_tree with
    | none => rw [owner_n_shift, htree] at ho; cases ho
    | some o1 =>
      simp only []
      have hsh : ∀ k, owner_n s.tsk (k + 1) tsk = owner_n s.tsk k o1 := by
        intro k; rw [owner_n_shift, htree]; rfl
      obtain ⟨n', rfl⟩ : ∃ n', n = n' + 1 := by
        cases n with
        | zero =>
          have := hsh 0
          rw [hchain] at this
          cases this
        | succ n' => exact ⟨n', rfl⟩
      have hne : ∀ k y, owner_n s.tsk k o1 = some y → y ≠ tsk := by
        intro k y hk e
        rw [← hsh, e] at hk
        exact hnoret (k + 1) (by omega) hk
      have hblk : ∀ y, y ≠ tsk → (blocked S2 y ↔ blocked s y) := by
        intro y hy
        unfold blocked
        rw [t2 y hy, t1]
      refine boost_chain cfg f n' S2 o1 (inherited_prio s tsk p0) ?_ (by omega) ?_ i' o ?_ ?_
      · rw [hcong, ← hsh]; exact hchain
      · intro k a b ha hb' hba
        rw [hcong] at ha hb'
        have hax := hne k a ha
        have hbx := hne (k + 1) b hb'
        rw [t2 a hax, t2 b hbx]
        exact hinv (k + 1) a b (by omega) (by rw [hsh]; exact ha) (by rw [hsh]; exact hb')
          ((hblk a hax).mp hba)
      · rw [hcong, ← hsh]; exact ho
      · intro j o2 hj ho2
        rw [hcong] at ho2
        exact (hblk o2 (hne j o2 ho2)).mpr
          (hbl (j + 1) o2 (by omega) (by omega) (by rw [hsh]; exact ho2))

theorem ex_chain_consistent :
    ∀ i o o', 1 ≤ i → owner_n ex_chain.tsk i 8 = some o →
      owner_n ex_chain.tsk (i + 1) 8 = some o' → blocked ex_chain o →
      (ex_chain.tsk o).prio ≤ (ex_chain.tsk o').prio := by
  intro i o o' hi h1 h2 _
  have h3 : owner_n ex_chain.tsk 3 8 = none := by decide
  have hi3 : i < 2 := by
    by_contra h
    have := owner_n_none_mono ex_chain.tsk 3 (i + 1 - 3) 8 h3
    rw [show 3 + (i + 1 - 3) = i + 1 by omega, h2] at this
    cases this
  have hi1 : i = 1 := by omega
  subst hi1
  have e1 : owner_n ex_chain.tsk 1 8 = some 7 := by decide
  have e2 : owner_n ex_chain.tsk 2 8 = some 6 := by decide
  rw [e1] at h1
  rw [e2] at h2
  cases h1
  cases h2
  decide

/-- Witness of C18: in `ex_chain` the task 8 is raised from the priority 5 to the priority
9 of the task that waits for its lock, and the boost reaches the owners 7 and 6. -/
theorem transitive_boost_witness :
    ((core_tsk_prio cfg32 3 ex_chain 8 5).tsk 8).prio = 9 ∧
    9 ≤ ((core_tsk_prio cfg32 3 ex_chain 8 5).tsk 6).prio :=
  ⟨(transitive_boost cfg32 ex_chain 8 5 60 2 3 (by decide) (by decide) (by decide) (by decide)
      (by decide) ex_chain_consistent (by decide)).1,
   (transitive_boost cfg32 ex_chain 8 5 60 2 3 (by decide) (by decide) (by decide) (by decide)
      (by decide) ex_chain_consistent (by decide)).2.2.2 2 6 (by decide) (by decide)
      (by
        intro j o2 h1 h2 h3
        have hj : j = 1 := by omega
        subst hj
        have e1 : owner_n ex_chain.tsk 1 8 = some 7 := by decide
        rw [e1] at h3
        cases h3
        decide)⟩

/-- C22.  For every kernel state and every wait list, `core_tsk_waitFor(que, IMMEDIATE)` and
`core_tsk_waitNext(que, IMMEDIATE)` return `E_TIMEOUT` at once; the ready list, every wait
list and the timer list are left as they were, the current task stays the current one with
its tag and its guard, no context switch is requested and no other control block is
written: the calling task stays ready and is not queued. -/
theorem immediate_timeout (cfg : Config) (s : Kernel) (que : Nat) :
    ((core_tsk_waitFor cfg s que IMMEDIATE).2 = some event_t.E_TIMEOUT ∧
      (core_tsk_waitFor cfg s que IMMEDIATE).1.ready = s.ready ∧
      (core_tsk_waitFor cfg s que IMMEDIATE).1.queue = s.queue ∧
      (core_tsk_waitFor cfg s que IMMEDIATE).1.timers = s.timers ∧
      (core_tsk_waitFor cfg s que IMMEDIATE).1.cur = s.cur ∧
      (core_tsk_waitFor cfg s que IMMEDIATE).1.ctx_switch = s.ctx_switch ∧
      ((core_tsk_waitFor cfg s que IMMEDIATE).1.tsk s.cur).id = (s.tsk s.cur).id ∧
      ((core_tsk_waitFor cfg s que IMMEDIATE).1.tsk s.cur).guard = (s.tsk s.cur).guard ∧
      (∀ t, t ≠ s.cur → (core_tsk_waitFor cfg s que IMMEDIATE).1.tsk t = s.tsk t)) ∧
    ((core_tsk_waitNext cfg s que IMMEDIATE).2 = some event_t.E_TIMEOUT ∧
      (core_tsk_waitNext cfg s que IMMEDIATE).1.ready = s.ready ∧
      (core_tsk_waitNext cfg s que IMMEDIATE).1.queue = s.queue ∧
      (core_tsk_waitNext cfg s que IMMEDIATE).1.timers = s.timers ∧
      (core_tsk_waitNext cfg s que IMMEDIATE).1.cur = s.cur ∧
      (core_tsk_waitNext cfg s que IMMEDIATE).1.ctx_switch = s.ctx_switch ∧
      ((core_tsk_waitNext cfg s que IMMEDIATE).1.tsk s.cur).id = (s.tsk s.cur).id ∧
      ((core_tsk_waitNext cfg s que IMMEDIATE).1.tsk s.cur).guard = (s.tsk s.cur).guard ∧
      (∀ t, t ≠ s.cur → (core_tsk_waitNext cfg s que IMMEDIATE).1.tsk t = s.tsk t)) := by
  obtain ⟨t1, t2, t3, t4, t5, _, _, t8⟩ := core_sys_time_fields cfg s
  constructor
  · have e : core_tsk_waitFor cfg s que IMMEDIATE =
        ((core_sys_time cfg s).2.setTsk s.cur
          { (core_sys_time cfg s).2.tsk s.cur with
            start := (core_sys_time cfg s).1, delay := IMMEDIATE }, some event_t.E_TIMEOUT) := by
      unfold core_tsk_waitFor
      simp
    rw [e]
    refine ⟨rfl, t3, t2, t4, t5, t8, ?_, ?_, ?_⟩
    · simp [Kernel.setTsk, upd, t1]
    · simp [Kernel.setTsk, upd, t1]
    · intro t ht
      simp [Kernel.setTsk, upd_other _ _ _ _ ht, t1]
  · have e : core_tsk_waitNext cfg s que IMMEDIATE =
        (s.setTsk s.cur { s.tsk s.cur with delay := IMMEDIATE }, some event_t.E_TIMEOUT) := by
      unfold core_tsk_waitNext
      simp
    rw [e]
    refine ⟨rfl, rfl, rfl, rfl, rfl, rfl, ?_, ?_, ?_⟩
    · simp [Kernel.setTsk, upd]
    · simp [Kernel.setTsk, upd]
    · intro t ht
      simp [Kernel.setTsk, upd_other _ _ _ _ ht]

theorem core_all_wakeup_loop_sub (cfg : Config) (que : Nat) (e : event_t) (fuel : Nat)
    (s : Kernel) :
    ∀ q x, x ∈ (core_all_wakeup_loop cfg que e fuel s).queue q → x ∈ s.queue q := by
  induction fuel generalizing s with
  | zero => intro q x hx; exact hx
  | succ n ih =>
    unfold core_all_wakeup_loop
    cases hq : s.queue que with
    | nil => intro q x hx; exact hx
    | cons h rest =>
      simp only [List.head?_cons]
      intro q x hx
      have := ih (core_tsk_wakeup cfg s (some h) e).1 q x hx
      rw [wakeup_queue] at this
      exact (List.mem_filter.mp this).1

theorem handler_body_queue (cfg : Config) (s : Kernel) (tmr : Nat) :
    (∀ q x, x ∈ (core_tmr_handler_body cfg s tmr).queue q → x ∈ s.queue q) ∧
    (∀ t, t ≠ tmr → t ∉ s.queue tmr → (core_tmr_handler_body cfg s tmr).tsk t = s.tsk t) := by
  unfold core_tmr_handler_body
  simp only []
  split
  · obtain ⟨s2, hs2⟩ : ∃ s2 : Kernel,
      s2 = (s.setTsk tmr { s.tsk tmr with
          start := ((s.tsk tmr).start + (s.tsk tmr).delay) % CMOD cfg }).setTsk tmr
        { (s.setTsk tmr { s.tsk tmr with
            start := ((s.tsk tmr).start + (s.tsk tmr).delay) % CMOD cfg }).tsk tmr with
          delay := (s.tsk tmr).period } := ⟨_, rfl⟩
    rw [← hs2]
    have h2a : s2.queue = s.queue ∧ ∀ t, t ≠ tmr → s2.tsk t = s.tsk t := by
      rw [hs2]
      refine ⟨rfl, fun t ht => ?_⟩
      simp [Kernel.setTsk, upd_other _ _ _ _ ht]
    obtain ⟨s3, hs3⟩ : ∃ s3 : Kernel,
      s3 = core_tmr_remove
        (if (s2.tsk tmr).state then { s2 with fired := tmr :: s2.fired } else s2) tmr := ⟨_, rfl⟩
    have h3a : s3.queue = s.queue ∧ ∀ t, t ≠ tmr → s3.tsk t = s.tsk t := by
      rw [hs3]
      obtain ⟨a1, a2⟩ := h2a
      split <;>
      · refine ⟨a1, fun t ht => ?_⟩
        simp [core_tmr_remove, priv_tmr_remove, priv_rdy_remove, Kernel.setTsk,
          upd_other _ _ _ _ ht, a2 t ht]
    obtain ⟨_, _, _, _, t5, _, t7, _⟩ := core_sys_time_reading cfg s3
    obtain ⟨s5, hs5⟩ : ∃ s5 : Kernel,
      s5 = (if ((core_sys_time cfg s3).2.tsk tmr).delay ≥
              ((core_sys_time cfg s3).1 + CMOD cfg -
                ((core_sys_time cfg s3).2.tsk tmr).start % CMOD cfg + 1) % CMOD cfg
            then priv_tmr_insert cfg (core_sys_time cfg s3).2 tmr tid_t.ID_TIMER
            else (core_sys_time cfg s3).2) := ⟨_, rfl⟩
    have h5a : s5.queue = s.queue ∧ ∀ t, t ≠ tmr → s5.tsk t = s.tsk t := by
      obtain ⟨a1, a2⟩ := h3a
      rw [hs5]
      split
      · obtain ⟨_, _, _, p4, _, p6⟩ := priv_tmr_insert_frame cfg (core_sys_time cfg s3).2 tmr
          tid_t.ID_TIMER
        exact ⟨by rw [p4, t7, a1], fun t ht => by rw [p6 t ht, t5, a2 t ht]⟩
      · exact ⟨by rw [t7, a1], fun t ht => by rw [t5, a2 t ht]⟩
    have e : priv_tmr_wakeup cfg s2 tmr event_t.E_SUCCESS =
        core_all_wakeup_loop cfg tmr event_t.E_SUCCESS (s5.queue tmr).length s5 := by
      rw [hs5, hs3]; rfl
    rw [e]
    obtain ⟨a1, a2⟩ := h5a
    refine ⟨fun q x hx => ?_, fun t ht hq => ?_⟩
    · have := core_all_wakeup_loop_sub cfg tmr event_t.E_SUCCESS _ s5 q x hx
      rw [a1] at this; exact this
    · have := (core_all_wakeup_loop_frame cfg tmr event_t.E_SUCCESS (s5.queue tmr).length s5).2.2.2.2
        t (by rw [a1]; exact hq)
      rw [this, a2 t ht]
  · refine ⟨fun q x hx => ?_, fun t ht _ => ?_⟩
    · rw [wakeup_queue] at hx
      exact (List.mem_filter.mp hx).1
    · rw [wakeup_tsk_other _ _ _ _ _ ht]
      simp [Kernel.setTsk, upd_other _ _ _ _ ht]

theorem handler_forever (cfg : Config) (t : Nat) (fuel : Nat) (s : Kernel)
    (hd : (s.tsk t).delay = INFINITE cfg) :
    (core_tmr_handler cfg fuel s).tsk t = s.tsk t ∨
    ((core_tmr_handler cfg fuel s).tsk t).event = event_t.E_SUCCESS := by
  induction fuel generalizing s with
  | zero => left; rfl
  | succ n ih =>
    rw [handler_step]
    cases hh : s.timers.head? with
    | none => left; simp only []; rw [priv_tmr_expired_none]
    | some tmr =>
      simp only []
      obtain ⟨e1, e2, e3, e4, e5, e6, e7⟩ := priv_tmr_expired_spec cfg s tmr
      split
      · rename_i hx
        have hne : t ≠ tmr := by
          intro h; subst h
          exact (e7 hx).1 hd
        obtain ⟨b1, b2, b3, b4, b5⟩ := handler_body_frame cfg (priv_tmr_expired cfg s (some tmr)).2
          tmr t hne
        rcases b5 with b | b
        · rw [e4] at b
          rcases ih _ (by rw [b]; exact hd) with i | i
          · left; rw [i, b]
          · right; exact i
        · rcases handler_outside cfg t n _ b.2 with o | o
          · right; rw [o]; exact b.1
          · right; exact o
      · left; rw [e4]

theorem handler_untouched (cfg : Config) (t : Nat) (fuel : Nat) (s : Kernel)
    (hd : (s.tsk t).delay = INFINITE cfg) (hq : ∀ x, x ∈ s.timers → t ∉ s.queue x) :
    (core_tmr_handler cfg fuel s).tsk t = s.tsk t := by
  induction fuel generalizing s with
  | zero => rfl
  | succ n ih =>
    rw [handler_step]
    cases hh : s.timers.head? with
    | none => simp only []; rw [priv_tmr_expired_none]
    | some tmr =>
      simp only []
      obtain ⟨e1, e2, e3, e4, e5, e6, e7⟩ := priv_tmr_expired_spec cfg s tmr
      have hmem : tmr ∈ s.timers := List.mem_of_mem_head? hh
      split
      · rename_i hx
        have hne : t ≠ tmr := by
          intro h; subst h
          exact (e7 hx).1 hd
        obtain ⟨q1, q2⟩ := handler_body_queue cfg (priv_tmr_expired cfg s (some tmr)).2 tmr
        have hb : (core_tmr_handler_body cfg (priv_tmr_expired cfg s (some tmr)).2 tmr).tsk t =
            s.tsk t := by
          rw [q2 t hne (by rw [e6]; exact hq tmr hmem), e4]
        rw [ih _ (by rw [hb]; exact hd) ?_, hb]
        intro x hx' hm
        have hm' := q1 x t hm
        rw [e6] at hm'
        by_cases hxt : x = tmr
        · exact hq tmr hmem (hxt ▸ hm')
        · have := (handler_body_frame cfg (priv_tmr_expired cfg s (some tmr)).2 tmr x hxt).2.2.2.1
          by_cases hxs : x ∈ s.timers
          · exact hq x hxs hm'
          · exact this (by rw [e5]; exact hxs) hx'
      · rw [e4]

/-- C25 (amended).  For every clock value and every start, `priv_tmr_expired` returns false
for a timer whose delay is `INFINITE`, in the periodic-tick variant and in the
hardware-compare variant.  Hence `core_tmr_handler` never wakes a task that waits with an
`INFINITE` delay by a timeout: after the handler, run for any number of rounds, the control
block of such a task is as it was, or the task has been woken with `E_SUCCESS`, which
happens to the tasks on the wait list of a timer that has expired; the control block is as
it was when the task is on the wait list of no timer of the timer list. -/
theorem wait_forever (cfg : Config) :
    (∀ now start, priv_tmr_expired_tick cfg now start (INFINITE cfg) = false) ∧
    (∀ now1 now2 start, priv_tmr_expired_hw cfg now1 now2 start (INFINITE cfg) = false) ∧
    (∀ (s : Kernel) (t : Nat), (s.tsk t).delay = INFINITE cfg →
      (priv_tmr_expired cfg s (some t)).1 = false) ∧
    (∀ (fuel : Nat) (s : Kernel) (t : Nat), (s.tsk t).delay = INFINITE cfg →
      ((core_tmr_handler cfg fuel s).tsk t = s.tsk t ∨
        ((core_tmr_handler cfg fuel s).tsk t).event = event_t.E_SUCCESS) ∧
      ((∀ x, x ∈ s.timers → t ∉ s.queue x) → (core_tmr_handler cfg fuel s).tsk t = s.tsk t)) := by
  have h1 : ∀ now start, priv_tmr_expired_tick cfg now start (INFINITE cfg) = false := by
    intro now start
    cases h : priv_tmr_expired_tick cfg now start (INFINITE cfg) with
    | false => rfl
    | true => exact absurd rfl (expired_tick_elapsed cfg now start _ h).1
  have h2 : ∀ now1 now2 start, priv_tmr_expired_hw cfg now1 now2 start (INFINITE cfg) = false := by
    intro now1 now2 start
    simp [priv_tmr_expired_hw]
  refine ⟨h1, h2, ?_, ?_⟩
  · intro s t hd
    cases h : (priv_tmr_expired cfg s (some t)).1 with
    | false => rfl
    | true => exact absurd hd ((priv_tmr_expired_spec cfg s t).2.2.2.2.2.2 h).1
  · intro fuel s t hd
    exact ⟨handler_forever cfg t fuel s hd, handler_untouched cfg t fuel s hd⟩

/-- Witness of C25: in `ex_forever` the main task waits with the delay `INFINITE` on the wait
list of the timer 7, the first timer of the timer list; the control block of the task 9,
which has the delay `INFINITE` and waits on no timer, is left as it is by the handler. -/
theorem wait_forever_witness :
    (core_tmr_handler cfg32 2
      (ex_forever.setTsk 9 { tsk_zero with delay := INFINITE cfg32 })).tsk 9 =
      (ex_forever.setTsk 9 { tsk_zero with delay := INFINITE cfg32 }).tsk 9 :=
  ((wait_forever cfg32).2.2.2 2 (ex_forever.setTsk 9 { tsk_zero with delay := INFINITE cfg32 }) 9
    (by decide)).2 (by decide)

/-- Counterexample to C25 as stated: in `ex_forever` the main task waits with the delay
`INFINITE` on the wait list of the timer 7; the timer expires at tick 5 and
`core_tmr_handler` wakes the main task with `E_SUCCESS`: it is in the ready list again,
with the tag `ID_READY`, and in no wait list. -/
theorem wait_forever_counterexample :
    (ex_forever.tsk MAIN).delay = INFINITE cfg32 ∧
    (ex_forever.tsk MAIN).id = tid_t.ID_DELAYED ∧
    ex_forever.queue 7 = [MAIN] ∧ ex_forever.ready = [] ∧
    ex_forever.timers = [7, MAIN] ∧
    (core_tmr_handler cfg32 2 ex_forever).ready = [MAIN] ∧
    ((core_tmr_handler cfg32 2 ex_forever).tsk MAIN).id = tid_t.ID_READY ∧
    ((core_tmr_handler cfg32 2 ex_forever).tsk MAIN).event = event_t.E_SUCCESS ∧
    (core_tmr_handler cfg32 2 ex_forever).queue 7 = [] ∧
    (core_tmr_handler cfg32 2 ex_forever).timers = [7] := by
  refine ⟨by decide, by decide, by decide, by decide, by decide, by decide, by decide,
    by decide, by decide, by decide⟩

/-- C21.  The task is not in the ready list, which is sorted by non-increasing priority (as
for every task blocked by the wait primitive: `priv_tsk_wait` takes the task out of the
ready list and keeps the list sorted).  After `core_tsk_wakeup(tsk, e)`, which returns the
task, the task is in no wait list, and every wait list holds the other waiters in the order
they had (on the pointers: the chain of the wait list is the chain of the other waiters and
the link of the task is null); the task is not in the timer list, which holds the other
timers in the order they had; the task is in the ready list behind the tasks `a` of
priority greater than or equal to its own and in front of the tasks `b` of lower priority,
the ready list is sorted, the task has the tag `ID_READY`, the event code `e` and no guard;
no priority and no other control block is changed.  `core_tsk_wakeup(0, e)` returns 0 and
changes nothing. -/
theorem wakeup_blocked (cfg : Config) (s : Kernel) (tsk : Nat) (e : event_t)
    (hr : tsk ∉ s.ready)
    (hsorted : s.ready.Pairwise (fun a b => (s.tsk b).prio ≤ (s.tsk a).prio)) :
    (core_tsk_wakeup cfg s (some tsk) e).2 = some tsk ∧
    (∀ q, tsk ∉ (core_tsk_wakeup cfg s (some tsk) e).1.queue q) ∧
    (∀ q, (core_tsk_wakeup cfg s (some tsk) e).1.queue q =
      (s.queue q).filter (fun n => decide (n ≠ tsk))) ∧
    (∀ (L : Links) (que : Nat), is_chain L que (s.queue que) → (que :: s.queue que).Nodup →
      tsk ∈ s.queue que →
      is_chain (core_tsk_unlink_links s.tsk L tsk e).2 que
        ((core_tsk_wakeup cfg s (some tsk) e).1.queue que) ∧
      (core_tsk_unlink_links s.tsk L tsk e).2.cell tsk = none) ∧
    tsk ∉ (core_tsk_wakeup cfg s (some tsk) e).1.timers ∧
    (core_tsk_wakeup cfg s (some tsk) e).1.timers =
      s.timers.filter (fun n => decide (n ≠ tsk)) ∧
    (∃ a b, s.ready = a ++ b ∧
      (core_tsk_wakeup cfg s (some tsk) e).1.ready = a ++ tsk :: b ∧
      (∀ x, x ∈ a → (s.tsk tsk).prio ≤ (s.tsk x).prio) ∧
      (∀ x, x ∈ b → (s.tsk x).prio < (s.tsk tsk).prio)) ∧
    (core_tsk_wakeup cfg s (some tsk) e).1.ready.Pairwise
      (fun a b => ((core_tsk_wakeup cfg s (some tsk) e).1.tsk b).prio ≤
        ((core_tsk_wakeup cfg s (some tsk) e).1.tsk a).prio) ∧
    (∀ n, ((core_tsk_wakeup cfg s (some tsk) e).1.tsk n).prio = (s.tsk n).prio) ∧
    ((core_tsk_wakeup cfg s (some tsk) e).1.tsk tsk).id = tid_t.ID_READY ∧
    ((core_tsk_wakeup cfg s (some tsk) e).1.tsk tsk).event = e ∧
    ((core_tsk_wakeup cfg s (some tsk) e).1.tsk tsk).guard = none ∧
    (∀ n, n ≠ tsk → (core_tsk_wakeup cfg s (some tsk) e).1.tsk n = s.tsk n) ∧
    core_tsk_wakeup cfg s none e = (s, none) ∧
    (∀ (s0 : Kernel) (que : Nat) (y : Bool),
      tsk ∉ (priv_tsk_wait cfg s0 tsk que y).ready ∧
      (s0.ready.Pairwise (fun a b => (s0.tsk b).prio ≤ (s0.tsk a).prio) →
        (priv_tsk_wait cfg s0 tsk que y).ready.Pairwise
          (fun a b => ((priv_tsk_wait cfg s0 tsk que y).tsk b).prio ≤
            ((priv_tsk_wait cfg s0 tsk que y).tsk a).prio))) := by
  have hself := wakeup_tsk_self cfg s tsk e
  obtain ⟨R, hR⟩ : ∃ R : Kernel, R = core_tmr_remove (core_tsk_unlink s tsk e) tsk := ⟨_, rfl⟩
  have hW : (core_tsk_wakeup cfg s (some tsk) e).1 = core_tsk_insert cfg R tsk := by
    rw [hR]; rfl
  have hRr : R.ready = s.ready := by
    rw [hR]
    show s.ready.filter (fun n => decide (n ≠ tsk)) = s.ready
    exact filter_ne_of_not_mem _ _ hr
  have hRp : ∀ n, (R.tsk n).prio = (s.tsk n).prio := by
    intro n
    rw [hR]
    by_cases h : n = tsk
    · subst h; simp [core_tmr_remove, priv_tmr_remove, priv_rdy_remove, core_tsk_unlink, Kernel.setTsk,
        upd]
    · simp [core_tmr_remove, priv_tmr_remove, priv_rdy_remove, core_tsk_unlink, Kernel.setTsk,
        upd_other _ _ _ _ h]
  have hprio : ∀ n, ((core_tsk_wakeup cfg s (some tsk) e).1.tsk n).prio = (s.tsk n).prio := by
    intro n; rw [hW, core_tsk_insert_prio, hRp]
  obtain ⟨⟨a, b, q1, q2, q3, q4⟩, q5⟩ := core_tsk_insert_sorted cfg R tsk
    (by rw [hRr]; exact sorted_congr _ _ _ (fun x _ => (hRp x).symm) hsorted)
  refine ⟨rfl, ?_, fun q => wakeup_queue cfg s tsk e q, ?_, ?_, wakeup_timers cfg s tsk e,
    ⟨a, b, by rw [← hRr]; exact q1, by rw [hW]; exact q2,
      fun x hx => by rw [← hRp x, ← hRp tsk]; exact q3 x hx,
      fun x hx => by rw [← hRp x, ← hRp tsk]; exact q4 x hx⟩,
    by rw [hW]; exact q5, hprio, by rw [hself], by rw [hself], by rw [hself],
    fun n hn => wakeup_tsk_other cfg s tsk e n hn, rfl, ?_⟩
  · intro q
    rw [wakeup_queue]
    exact not_mem_filter_ne tsk _
  · intro L que hc hnd hin
    rw [wakeup_queue]
    obtain ⟨c1, c2, _, _⟩ := link_out_chain L tsk (s.queue que) que hc hnd hin
    exact ⟨c1, c2⟩
  · rw [wakeup_timers]
    exact not_mem_filter_ne tsk _
  · intro s0 que y
    obtain ⟨w1, _, _, _, w5, w6, _, _⟩ := priv_tsk_wait_spec cfg s0 tsk que y
    refine ⟨by rw [w1]; exact not_mem_filter_ne tsk _, fun hs => ?_⟩
    rw [w1]
    apply sorted_congr (fun n => (s0.tsk n).prio)
    · intro x _
      by_cases h : x = tsk
      · subst h; rw [w5]
      · rw [w6 x h]
    · exact sorted_filter _ _ _ hs

/-- Witness of C21: in `ex_delayed` the main task is blocked by `core_tsk_waitFor`; the
wake-up puts it back in the ready list. -/
theorem wakeup_blocked_witness :
    (core_tsk_wakeup cfg32 ex_delayed (some MAIN) event_t.E_SUCCESS).1.ready = [MAIN] ∧
    MAIN ∉ (core_tsk_wakeup cfg32 ex_delayed (some MAIN) event_t.E_SUCCESS).1.timers :=
  ⟨by decide,
   (wakeup_blocked cfg32 ex_delayed MAIN event_t.E_SUCCESS (by decide) (by decide)).2.2.2.2.1⟩

theorem priv_tmr_insert_split (cfg : Config) (s : Kernel) (tmr : Nat) (id : tid_t)
    (hfin : (s.tsk tmr).delay ≠ INFINITE cfg) :
    (priv_tmr_insert cfg s tmr id).timers =
      s.timers.takeWhile (fun n => decide ((s.tsk n).delay <
        ((s.tsk tmr).start + (s.tsk tmr).delay + CMOD cfg - (s.tsk n).start % CMOD cfg) %
          CMOD cfg)) ++
      tmr :: s.timers.dropWhile (fun n => decide ((s.tsk n).delay <
        ((s.tsk tmr).start + (s.tsk tmr).delay + CMOD cfg - (s.tsk n).start % CMOD cfg) %
          CMOD cfg)) := by
  have e : (priv_tmr_insert cfg s tmr id).timers =
      priv_rdy_insert tmr
        (tmr_walk cfg (upd s.tsk tmr { s.tsk tmr with id := id }) (s.tsk tmr).start
          (s.tsk tmr).delay s.timers) s.timers := by
    simp [priv_tmr_insert, Kernel.setTsk, upd, hfin]
  rw [e, tmr_walk_congr cfg _ s.tsk _ _ _ ?_, insert_tmr_walk]
  intro n
  by_cases h : n = tmr
  · subst h; simp [upd]
  · simp [upd_other _ _ _ _ h]

theorem priv_tmr_insert_last (cfg : Config) (s : Kernel) (tmr : Nat) (id : tid_t)
    (hinf : (s.tsk tmr).delay = INFINITE cfg) :
    (priv_tmr_insert cfg s tmr id).timers = s.timers ++ [tmr] := by
  have e : (priv_tmr_insert cfg s tmr id).timers = priv_rdy_insert tmr none s.timers := by
    simp [priv_tmr_insert, Kernel.setTsk, upd, hinf]
  rw [e, insert_none]

theorem priv_tmr_insert_tsk (cfg : Config) (s : Kernel) (tmr : Nat) (id : tid_t) (n : Nat) :
    ((priv_tmr_insert cfg s tmr id).tsk n).delay = (s.tsk n).delay ∧
    ((priv_tmr_insert cfg s tmr id).tsk n).start = (s.tsk n).start ∧
    ((priv_tmr_insert cfg s tmr id).tsk n).period = (s.tsk n).period ∧
    ((priv_tmr_insert cfg s tmr id).tsk tmr).id = id := by
  by_cases h : n = tmr
  · subst h; simp [priv_tmr_insert, Kernel.setTsk, upd]
  · simp [priv_tmr_insert, Kernel.setTsk, upd, h]

theorem same_expiry (M E hs hd : Nat) (h1 : hs < M) (h2 : hd < M)
    (h : (hs + hd) % M = E % M) : (E + M - hs % M) % M = hd := by
  rw [Nat.mod_eq_of_lt h1]
  have e1 : (E + M - hs + hs) % M = (hd + hs) % M := by
    have : E + M - hs + hs = E + M := by omega
    rw [this, Nat.add_mod_right, ← h, Nat.add_comm]
  have e2 : (E + M - hs) % M = hd % M := Nat.ModEq.add_right_cancel' hs e1
  rw [e2, Nat.mod_eq_of_lt h2]

/-- C23 (amended).  For every timer list and every timer with a finite delay,
`priv_tmr_insert` places the timer behind the leading timers `a`, each of which satisfies
the test of the walk, `nxt->delay < (cnt_t)(tmr->start + tmr->delay - nxt->start)`, and
immediately before the first listed timer that fails it, that is whose remaining time, taken
from its own start, is greater than or equal to that of the new timer; the order of the
listed timers is kept.  So a timer inserted with the same expiry as a timer already listed
is placed before it. -/
theorem timer_insertion_point (cfg : Config) (s : Kernel) (tmr : Nat) (id : tid_t)
    (hfin : (s.tsk tmr).delay ≠ INFINITE cfg) :
    ∃ a b, s.timers = a ++ b ∧ (priv_tmr_insert cfg s tmr id).timers = a ++ tmr :: b ∧
      (∀ x, x ∈ a → (s.tsk x).delay <
        ((s.tsk tmr).start + (s.tsk tmr).delay + CMOD cfg - (s.tsk x).start % CMOD cfg) %
          CMOD cfg) ∧
      (∀ h, b.head? = some h →
        ((s.tsk tmr).start + (s.tsk tmr).delay + CMOD cfg - (s.tsk h).start % CMOD cfg) %
          CMOD cfg ≤ (s.tsk h).delay) ∧
      (∀ h, h ∈ s.timers → (s.tsk h).start < CMOD cfg → (s.tsk h).delay < CMOD cfg →
        ((s.tsk h).start + (s.tsk h).delay) % CMOD cfg =
          ((s.tsk tmr).start + (s.tsk tmr).delay) % CMOD cfg → h ∈ b) := by
  refine ⟨_, _, (List.takeWhile_append_dropWhile _ _).symm,
    priv_tmr_insert_split cfg s tmr id hfin, ?_, ?_, ?_⟩
  · intro x hx
    simpa using List.mem_takeWhile_imp hx
  · intro h hh
    cases hd : s.timers.dropWhile (fun n => decide ((s.tsk n).delay <
        ((s.tsk tmr).start + (s.tsk tmr).delay + CMOD cfg - (s.tsk n).start % CMOD cfg) %
          CMOD cfg)) with
    | nil => rw [hd] at hh; cases hh
    | cons q qs =>
      rw [hd] at hh
      simp only [List.head?_cons, Option.some.injEq] at hh
      subst hh
      have := dropWhile_head _ _ _ _ hd
      simpa using this
  · intro h hm h1 h2 he
    have hc := same_expiry (CMOD cfg) _ _ _ h1 h2 he
    have hsplit := List.takeWhile_append_dropWhile
      (fun n => decide ((s.tsk n).delay <
        ((s.tsk tmr).start + (s.tsk tmr).delay + CMOD cfg - (s.tsk n).start % CMOD cfg) %
          CMOD cfg)) s.timers
    rw [← hsplit] at hm
    rcases List.mem_append.mp hm with hm | hm
    · have := List.mem_takeWhile_imp hm
      simp only [decide_eq_true_eq] at this
      omega
    · exact hm

/-- Witness of C23: the timer 8 of `ex_equal` has a finite delay and is put in the timer
list. -/
theorem timer_insertion_point_witness :
    ∃ a b, ex_equal.timers = a ++ b ∧
      (priv_tmr_insert cfg32 ex_equal 8 tid_t.ID_TIMER).timers = a ++ 8 :: b :=
  (timer_insertion_point cfg32 ex_equal 8 tid_t.ID_TIMER (by decide)).imp
    (fun _ h => h.imp (fun _ h2 => ⟨h2.1, h2.2.1⟩))

/-- Counterexample to C23 as stated: in `ex_equal` the listed timer 7 and the new timer 8
have the same start 0 and the same delay 5, so the remaining time of the timer 7 is not
strictly greater than that of the timer 8; `priv_tmr_insert` places the timer 8 before
the timer 7, not after it. -/
theorem timer_insertion_point_counterexample :
    ex_equal.timers = [7] ∧
    (ex_equal.tsk 7).start + (ex_equal.tsk 7).delay =
      (ex_equal.tsk 8).start + (ex_equal.tsk 8).delay ∧
    (ex_equal.tsk 8).delay ≠ INFINITE cfg32 ∧
    (priv_tmr_insert cfg32 ex_equal 8 tid_t.ID_TIMER).timers = [8, 7] ∧
    (priv_tmr_insert cfg32 ex_equal 8 tid_t.ID_TIMER).timers ≠ [7, 8] := by
  refine ⟨by decide, by decide, by decide, by decide, by decide⟩

theorem CMOD_pos (cfg : Config) : 0 < CMOD cfg := by
  unfold CMOD; positivity

theorem walk_test_finite (M E sx dx : Nat) (hx : sx + dx < M) (hE : E < M) (hle : sx ≤ E) :
    dx < (E + M - sx % M) % M ↔ sx + dx < E := by
  have h1 : sx % M = sx := Nat.mod_eq_of_lt (by omega)
  have h2 : (E + M - sx) % M = E - sx := by
    have : E + M - sx = (E - sx) + M := by omega
    rw [this, Nat.add_mod_right, Nat.mod_eq_of_lt (by omega)]
  rw [h1, h2]; omega

theorem walk_test_infinite (cfg : Config) (x : Nat) : ¬ INFINITE cfg < x % CMOD cfg := by
  have := Nat.mod_lt x (CMOD_pos cfg)
  unfold INFINITE CNT_MAX
  omega

theorem insert_count (t : Nat) (a b : List Nat) (h : t ∉ a ++ b) :
    (a ++ t :: b).count t = 1 ∧ (a ++ t :: b).filter (fun n => decide (n ≠ t)) = a ++ b := by
  have ha : t ∉ a := fun h1 => h (List.mem_append.mpr (Or.inl h1))
  have hb : t ∉ b := fun h1 => h (List.mem_append.mpr (Or.inr h1))
  constructor
  · rw [List.count_append, List.count_cons_self, List.count_eq_zero_of_not_mem ha,
      List.count_eq_zero_of_not_mem hb]
  · rw [List.filter_append, List.filter_cons_of_neg (by simp), filter_ne_of_not_mem _ _ ha,
      filter_ne_of_not_mem _ _ hb]

/-- C24.  The timer list is sorted by non-decreasing expiry `start + delay` with all timers
of delay `INFINITE` after all finite ones, the timer is not in the list and, when its delay
is finite, no `start + delay` of a finite timer overflows the counter and the start of
every listed finite timer is at most the expiry of the new timer.  Then `priv_tmr_insert`
leaves the list sorted in the same sense, with the timer linked at exactly one position and
the listed timers in the order they had: a finite timer is linked behind the finite timers
that expire earlier and in front of the timers that expire at the same time or later or
have the delay `INFINITE`; a timer with the delay `INFINITE` is linked last, just before
the `WAIT` sentinel. -/
theorem timer_list_order (cfg : Config) (s : Kernel) (tmr : Nat) (id : tid_t)
    (hsorted : tmr_sorted cfg s.tsk s.timers)
    (hnot : tmr ∉ s.timers)
    (hov : (s.tsk tmr).delay ≠ INFINITE cfg →
      (s.tsk tmr).start + (s.tsk tmr).delay < CMOD cfg ∧
      ∀ x, x ∈ s.timers → (s.tsk x).delay ≠ INFINITE cfg →
        (s.tsk x).start + (s.tsk x).delay < CMOD cfg)
    (hstart : (s.tsk tmr).delay ≠ INFINITE cfg →
      ∀ x, x ∈ s.timers → (s.tsk x).delay ≠ INFINITE cfg →
        (s.tsk x).start ≤ (s.tsk tmr).start + (s.tsk tmr).delay) :
    tmr_sorted cfg (priv_tmr_insert cfg s tmr id).tsk (priv_tmr_insert cfg s tmr id).timers ∧
    (priv_tmr_insert cfg s tmr id).timers.count tmr = 1 ∧
    (priv_tmr_insert cfg s tmr id).timers.filter (fun n => decide (n ≠ tmr)) = s.timers ∧
    ((s.tsk tmr).delay = INFINITE cfg →
      (priv_tmr_insert cfg s tmr id).timers = s.timers ++ [tmr]) ∧
    ((s.tsk tmr).delay ≠ INFINITE cfg →
      ∃ a b, s.timers = a ++ b ∧ (priv_tmr_insert cfg s tmr id).timers = a ++ tmr :: b ∧
        (∀ x, x ∈ a → (s.tsk x).delay ≠ INFINITE cfg ∧
          (s.tsk x).start + (s.tsk x).delay < (s.tsk tmr).start + (s.tsk tmr).delay) ∧
        (∀ x, x ∈ b → (s.tsk x).delay = INFINITE cfg ∨
          (s.tsk tmr).start + (s.tsk tmr).delay ≤ (s.tsk x).start + (s.tsk x).delay)) := by
  have hcongr : ∀ l : List Nat, tmr_sorted cfg s.tsk l →
      tmr_sorted cfg (priv_tmr_insert cfg s tmr id).tsk l := by
    intro l hl
    refine List.Pairwise.imp ?_ hl
    intro a b hab
    rw [(priv_tmr_insert_tsk cfg s tmr id a).1, (priv_tmr_insert_tsk cfg s tmr id b).1,
      (priv_tmr_insert_tsk cfg s tmr id a).2.1, (priv_tmr_insert_tsk cfg s tmr id b).2.1]
    exact hab
  by_cases hinf : (s.tsk tmr).delay = INFINITE cfg
  · have hl := priv_tmr_insert_last cfg s tmr id hinf
    have hc := insert_count tmr s.timers [] (by simpa using hnot)
    rw [List.append_nil] at hc
    refine ⟨?_, by rw [hl]; exact hc.1, by rw [hl]; exact hc.2, fun _ => hl,
      fun h => absurd hinf h⟩
    apply hcongr
    rw [hl]
    unfold tmr_sorted
    rw [List.pairwise_append]
    refine ⟨hsorted, List.pairwise_singleton _ _, ?_⟩
    intro a _ b hb
    rw [List.mem_singleton] at hb
    subst hb
    exact ⟨fun _ => hinf, fun h => absurd hinf h⟩
  · obtain ⟨hE, hovl⟩ := hov hinf
    have hst := hstart hinf
    obtain ⟨c, hc⟩ : ∃ c : Nat → Bool, c = (fun n => decide ((s.tsk n).delay <
        ((s.tsk tmr).start + (s.tsk tmr).delay + CMOD cfg - (s.tsk n).start % CMOD cfg) %
          CMOD cfg)) := ⟨_, rfl⟩
    have hl : (priv_tmr_insert cfg s tmr id).timers =
        s.timers.takeWhile c ++ tmr :: s.timers.dropWhile c := by
      rw [hc]; exact priv_tmr_insert_split cfg s tmr id hinf
    have hsplit : s.timers.takeWhile c ++ s.timers.dropWhile c = s.timers :=
      List.takeWhile_append_dropWhile _ _
    have hct : ∀ x, x ∈ s.timers → c x = true →
        (s.tsk x).delay ≠ INFINITE cfg ∧
        (s.tsk x).start + (s.tsk x).delay < (s.tsk tmr).start + (s.tsk tmr).delay := by
      intro x hx hcx
      rw [hc] at hcx
      simp only [decide_eq_true_eq] at hcx
      have hfx : (s.tsk x).delay ≠ INFINITE cfg := by
        intro h
        rw [h] at hcx
        exact walk_test_infinite cfg _ hcx
      exact ⟨hfx, (walk_test_finite _ _ _ _ (hovl x hx hfx) hE (hst x hx hfx)).mp hcx⟩
    have hcf : ∀ x, x ∈ s.timers → c x = false →
        (s.tsk x).delay = INFINITE cfg ∨
        (s.tsk tmr).start + (s.tsk tmr).delay ≤ (s.tsk x).start + (s.tsk x).delay := by
      intro x hx hcx
      by_cases hfx : (s.tsk x).delay = INFINITE cfg
      · exact Or.inl hfx
      · right
        rw [hc] at hcx
        simp only [decide_eq_false_iff_not] at hcx
        have := (walk_test_finite _ _ _ _ (hovl x hx hfx) hE (hst x hx hfx)).not.mp hcx
        omega
    have hsorted' := hsorted
    unfold tmr_sorted at hsorted'
    rw [← hsplit, List.pairwise_append] at hsorted'
    obtain ⟨pa, pb, pab⟩ := hsorted'
    have hma : ∀ x, x ∈ s.timers.takeWhile c → x ∈ s.timers := fun x hx =>
      (List.takeWhile_sublist _).subset hx
    have hmb : ∀ x, x ∈ s.timers.dropWhile c → x ∈ s.timers := fun x hx =>
      (List.dropWhile_sublist _).subset hx
    have ha : ∀ x, x ∈ s.timers.takeWhile c → (s.tsk x).delay ≠ INFINITE cfg ∧
        (s.tsk x).start + (s.tsk x).delay < (s.tsk tmr).start + (s.tsk tmr).delay :=
      fun x hx => hct x (hma x hx) (List.mem_takeWhile_imp hx)
    have hb : ∀ x, x ∈ s.timers.dropWhile c → (s.tsk x).delay = INFINITE cfg ∨
        (s.tsk tmr).start + (s.tsk tmr).delay ≤ (s.tsk x).start + (s.tsk x).delay := by
      intro x hx
      cases hd : s.timers.dropWhile c with
      | nil => rw [hd] at hx; cases hx
      | cons q qs =>
        have hq := hcf q (hmb q (by rw [hd]; exact List.mem_cons_self _ _))
          (dropWhile_head _ _ _ _ hd)
        rw [hd] at hx pb
        rcases List.mem_cons.mp hx with hx | hx
        · rw [hx]; exact hq
        · have hr := (List.pairwise_cons.mp pb).1 x hx
          rcases hq with hq | hq
          · exact Or.inl (hr.1 hq)
          · by_cases hfx : (s.tsk x).delay = INFINITE cfg
            · exact Or.inl hfx
            · right
              have := hr.2 hfx
              omega
    have hcnt := insert_count tmr (s.timers.takeWhile c) (s.timers.dropWhile c)
      (by rw [hsplit]; exact hnot)
    rw [hsplit] at hcnt
    refine ⟨?_, by rw [hl]; exact hcnt.1, by rw [hl]; exact hcnt.2, fun h => absurd h hinf,
      fun _ => ⟨_, _, hsplit.symm, hl, ha, hb⟩⟩
    apply hcongr
    rw [hl]
    unfold tmr_sorted
    rw [List.pairwise_append]
    refine ⟨pa, List.pairwise_cons.mpr ⟨?_, pb⟩, ?_⟩
    · intro y hy
      refine ⟨fun h => absurd h hinf, fun hfy => ?_⟩
      rcases hb y hy with h | h
      · exact absurd h hfy
      · exact h
    · intro x hx y hy
      rcases List.mem_cons.mp hy with hy | hy
      · rw [hy]
        exact ⟨fun h => absurd h (ha x hx).1, fun _ => Nat.le_of_lt (ha x hx).2⟩
      · exact pab x hx y hy

/-- Witness of C24: the timer 8 of `ex_equal` is put in the sorted timer list that holds
the timer 7, which stays sorted. -/
theorem timer_list_order_witness :
    tmr_sorted cfg32 (priv_tmr_insert cfg32 ex_equal 8 tid_t.ID_TIMER).tsk
      (priv_tmr_insert cfg32 ex_equal 8 tid_t.ID_TIMER).timers ∧
    (priv_tmr_insert cfg32 ex_equal 8 tid_t.ID_TIMER).timers.count 8 = 1 :=
  ⟨(timer_list_order cfg32 ex_equal 8 tid_t.ID_TIMER
      (by unfold tmr_sorted; decide) (by decide)
      (fun _ => ⟨by decide, by decide⟩) (fun _ => by decide)).1,
   (timer_list_order cfg32 ex_equal 8 tid_t.ID_TIMER
      (by unfold tmr_sorted; decide) (by decide)
      (fun _ => ⟨by decide, by decide⟩) (fun _ => by decide)).2.1⟩

theorem core_sys_time_state (cfg : Config) (s : Kernel) :
    ∃ k, s.hw_reads ≤ k ∧ (core_sys_time cfg s).2 = { s with hw_reads := k } := by
  unfold core_sys_time
  split
  · exact ⟨s.hw_reads + 1, by omega, rfl⟩
  · exact ⟨s.hw_reads, le_refl _, rfl⟩

theorem priv_tmr_expired_state (cfg : Config) (s : Kernel) (x : Option Nat) :
    ∃ k, s.hw_reads ≤ k ∧ (priv_tmr_expired cfg s x).2 = { s with hw_reads := k } := by
  obtain ⟨k1, hk1, e1⟩ := core_sys_time_state cfg s
  obtain ⟨k2, hk2, e2⟩ := core_sys_time_state cfg (core_sys_time cfg s).2
  unfold priv_tmr_expired
  simp only []
  split
  · split
    · exact ⟨s.hw_reads, le_refl _, rfl⟩
    · split
      · exact ⟨k1, hk1, e1⟩
      · refine ⟨k2, ?_, ?_⟩
        · rw [e1] at hk2; exact le_trans hk1 hk2
        · rw [e2, e1]
  · exact ⟨k1, hk1, e1⟩

theorem core_all_wakeup_loop_timers (cfg : Config) (que : Nat) (e : event_t) (fuel : Nat)
    (s : Kernel) (hf : (s.queue que).length ≤ fuel) :
    (core_all_wakeup_loop cfg que e fuel s).timers =
      s.timers.filter (fun n => decide (n ∉ s.queue que)) ∧
    (core_all_wakeup_loop cfg que e fuel s).fired = s.fired := by
  induction fuel generalizing s with
  | zero =>
    have : s.queue que = [] := List.length_eq_zero.mp (Nat.le_zero.mp hf)
    simp [core_all_wakeup_loop, this]
  | succ n ih =>
    unfold core_all_wakeup_loop
    cases hq : s.queue que with
    | nil => simp
    | cons h rest =>
      simp only [List.head?_cons]
      have hq' : (core_tsk_wakeup cfg s (some h) e).1.queue que =
          rest.filter (fun n => decide (n ≠ h)) := by
        rw [wakeup_queue, hq, List.filter_cons_of_neg (by simp)]
      have hlen : ((core_tsk_wakeup cfg s (some h) e).1.queue que).length ≤ n := by
        rw [hq']
        have := List.length_filter_le (fun n => decide (n ≠ h)) rest
        rw [hq] at hf
        simp only [List.length_cons] at hf
        omega
      obtain ⟨i1, i2⟩ := ih (core_tsk_wakeup cfg s (some h) e).1 hlen
      refine ⟨?_, ?_⟩
      · rw [i1, wakeup_timers, hq', List.filter_filter]
        apply List.filter_congr
        intro x _
        by_cases hx : x = h
        · subst hx; simp
        · simp [hx, List.mem_filter]
      · rw [i2]
        simp only [core_tsk_wakeup, core_tsk_insert_eq, priv_tsk_insert]
        split <;> rfl

theorem priv_tmr_insert_place (cfg : Config) (X : Kernel) (tmr : Nat) (id : tid_t) :
    ∃ a b, X.timers = a ++ b ∧ (priv_tmr_insert cfg X tmr id).timers = a ++ tmr :: b ∧
      ((X.tsk tmr).delay ≠ INFINITE cfg →
        (∀ x, x ∈ a → (X.tsk x).delay <
          ((X.tsk tmr).start + (X.tsk tmr).delay + CMOD cfg - (X.tsk x).start % CMOD cfg) %
            CMOD cfg) ∧
        (∀ h, b.head? = some h → ¬ (X.tsk h).delay <
          ((X.tsk tmr).start + (X.tsk tmr).delay + CMOD cfg - (X.tsk h).start % CMOD cfg) %
            CMOD cfg)) ∧
      ((X.tsk tmr).delay = INFINITE cfg → b = []) := by
  by_cases hinf : (X.tsk tmr).delay = INFINITE cfg
  · exact ⟨X.timers, [], by simp, priv_tmr_insert_last cfg X tmr id hinf,
      fun h => absurd hinf h, fun _ => rfl⟩
  · refine ⟨_, _, (List.takeWhile_append_dropWhile _ _).symm,
      priv_tmr_insert_split cfg X tmr id hinf, fun _ => ⟨?_, ?_⟩, fun h => absurd h hinf⟩
    · intro x hx
      simpa using List.mem_takeWhile_imp hx
    · intro h hh
      cases hd : X.timers.dropWhile (fun n => decide ((X.tsk n).delay <
          ((X.tsk tmr).start + (X.tsk tmr).delay + CMOD cfg - (X.tsk n).start % CMOD cfg) %
            CMOD cfg)) with
      | nil => rw [hd] at hh; cases hh
      | cons q qs =>
        rw [hd] at hh
        simp only [List.head?_cons, Option.some.injEq] at hh
        subst hh
        have := dropWhile_head _ _ _ _ hd
        simpa using this

theorem rearm_state (cfg : Config) (S : Kernel) (tmr : Nat) (rest : List Nat)
    (hhead : S.timers = tmr :: rest) (hnd : tmr ∉ rest)
    (hid : (S.tsk tmr).id = tid_t.ID_TIMER) :
    ∃ (w3 : Kernel) (now : Nat),
      core_tmr_handler_body cfg S tmr =
        core_all_wakeup_loop cfg tmr event_t.E_SUCCESS (w3.queue tmr).length w3 ∧
      clock_reading cfg S now ∧
      w3.queue = S.queue ∧
      w3.fired = (if (S.tsk tmr).state then tmr :: S.fired else S.fired) ∧
      (∀ x, x ≠ tmr → w3.tsk x = S.tsk x) ∧
      (w3.tsk tmr).start = ((S.tsk tmr).start + (S.tsk tmr).delay) % CMOD cfg ∧
      (w3.tsk tmr).delay = (S.tsk tmr).period ∧
      ((S.tsk tmr).period ≥
          (now + CMOD cfg - (((S.tsk tmr).start + (S.tsk tmr).delay) % CMOD cfg) % CMOD cfg + 1)
            % CMOD cfg →
        (w3.tsk tmr).id = tid_t.ID_TIMER ∧
        ∃ a b, rest = a ++ b ∧ w3.timers = a ++ tmr :: b ∧
          ((S.tsk tmr).period ≠ INFINITE cfg →
            (∀ x, x ∈ a → (S.tsk x).delay <
              (((S.tsk tmr).start + (S.tsk tmr).delay) % CMOD cfg + (S.tsk tmr).period +
                CMOD cfg - (S.tsk x).start % CMOD cfg) % CMOD cfg) ∧
            (∀ h, b.head? = some h → ¬ (S.tsk h).delay <
              (((S.tsk tmr).start + (S.tsk tmr).delay) % CMOD cfg + (S.tsk tmr).period +
                CMOD cfg - (S.tsk h).start % CMOD cfg) % CMOD cfg)) ∧
          ((S.tsk tmr).period = INFINITE cfg → b = [])) ∧
      (¬ (S.tsk tmr).period ≥
          (now + CMOD cfg - (((S.tsk tmr).start + (S.tsk tmr).delay) % CMOD cfg) % CMOD cfg + 1)
            % CMOD cfg →
        (w3.tsk tmr).id = tid_t.ID_STOPPED ∧ w3.timers = rest) := by
  obtain ⟨s2, hs2⟩ : ∃ s2 : Kernel,
    s2 = (S.setTsk tmr { S.tsk tmr with
        start := ((S.tsk tmr).start + (S.tsk tmr).delay) % CMOD cfg }).setTsk tmr
      { (S.setTsk tmr { S.tsk tmr with
          start := ((S.tsk tmr).start + (S.tsk tmr).delay) % CMOD cfg }).tsk tmr with
        delay := (S.tsk tmr).period } := ⟨_, rfl⟩
  have hb : core_tmr_handler_body cfg S tmr = priv_tmr_wakeup cfg s2 tmr event_t.E_SUCCESS := by
    unfold core_tmr_handler_body
    simp only []
    rw [if_pos hid, hs2]
  have h2 : s2.queue = S.queue ∧ s2.fired = S.fired ∧ s2.timers = S.timers ∧
      s2.cnt = S.cnt ∧ s2.hw_time = S.hw_time ∧ s2.hw_reads = S.hw_reads ∧
      (∀ x, x ≠ tmr → s2.tsk x = S.tsk x) ∧
      (s2.tsk tmr).start = ((S.tsk tmr).start + (S.tsk tmr).delay) % CMOD cfg ∧
      (s2.tsk tmr).delay = (S.tsk tmr).period ∧ (s2.tsk tmr).state = (S.tsk tmr).state := by
    rw [hs2]
    refine ⟨rfl, rfl, rfl, rfl, rfl, rfl, fun x hx => ?_, ?_, ?_, ?_⟩
    · simp [Kernel.setTsk, upd_other _ _ _ _ hx]
    · simp [Kernel.setTsk, upd]
    · simp [Kernel.setTsk, upd]
    · simp [Kernel.setTsk, upd]
  obtain ⟨a1, a2, a3, a4, a5, a6, a7, a8, a9, a10⟩ := h2
  obtain ⟨s3, hs3⟩ : ∃ s3 : Kernel,
    s3 = core_tmr_remove
      (if (s2.tsk tmr).state then { s2 with fired := tmr :: s2.fired } else s2) tmr := ⟨_, rfl⟩
  have h3 : s3.queue = S.queue ∧
      s3.fired = (if (S.tsk tmr).state then tmr :: S.fired else S.fired) ∧
      s3.timers = rest ∧ s3.cnt = S.cnt ∧ s3.hw_time = S.hw_time ∧ s3.hw_reads = S.hw_reads ∧
      (∀ x, x ≠ tmr → s3.tsk x = S.tsk x) ∧
      (s3.tsk tmr).start = ((S.tsk tmr).start + (S.tsk tmr).delay) % CMOD cfg ∧
      (s3.tsk tmr).delay = (S.tsk tmr).period ∧ (s3.tsk tmr).id = tid_t.ID_STOPPED := by
    have ht : (tmr :: rest).filter (fun n => decide (n ≠ tmr)) = rest := by
      rw [List.filter_cons_of_neg (by simp)]
      exact filter_ne_of_not_mem _ _ hnd
    rw [hs3, a10]
    split <;>
    · refine ⟨a1, ?_, ?_, a4, a5, a6, fun x hx => ?_, ?_, ?_, ?_⟩
      · simp [core_tmr_remove, priv_tmr_remove, priv_rdy_remove, Kernel.setTsk, a2]
      · simp only [core_tmr_remove, priv_tmr_remove, priv_rdy_remove, Kernel.setTsk]
        rw [a3, hhead]; exact ht
      · simp [core_tmr_remove, priv_tmr_remove, priv_rdy_remove, Kernel.setTsk,
          upd_other _ _ _ _ hx, a7 x hx]
      · simp [core_tmr_remove, priv_tmr_remove, priv_rdy_remove, Kernel.setTsk, upd, a8]
      · simp [core_tmr_remove, priv_tmr_remove, priv_rdy_remove, Kernel.setTsk, upd, a9]
      · simp [core_tmr_remove, priv_tmr_remove, priv_rdy_remove, Kernel.setTsk, upd]
  obtain ⟨b1, b2, b3, b4, b5, b6, b7, b8, b9, b10⟩ := h3
  obtain ⟨t1, t2, t3, t4, t5, t6, t7, _⟩ := core_sys_time_reading cfg s3
  obtain ⟨k, _, hk⟩ := core_sys_time_state cfg s3
  have hfired : (core_sys_time cfg s3).2.fired = s3.fired := by rw [hk]
  obtain ⟨X, hX⟩ : ∃ X : Kernel, X = (core_sys_time cfg s3).2 := ⟨_, rfl⟩
  obtain ⟨now, hnow⟩ : ∃ now : Nat, now = (core_sys_time cfg s3).1 := ⟨_, rfl⟩
  have hXt : X.tsk = s3.tsk := by rw [hX]; exact t5
  have e : priv_tmr_wakeup cfg s2 tmr event_t.E_SUCCESS =
      core_all_wakeup_loop cfg tmr event_t.E_SUCCESS
        ((if (X.tsk tmr).delay ≥ (now + CMOD cfg - (X.tsk tmr).start % CMOD cfg + 1) % CMOD cfg
          then priv_tmr_insert cfg X tmr tid_t.ID_TIMER else X).queue tmr).length
        (if (X.tsk tmr).delay ≥ (now + CMOD cfg - (X.tsk tmr).start % CMOD cfg + 1) % CMOD cfg
          then priv_tmr_insert cfg X tmr tid_t.ID_TIMER else X) := by
    rw [hX, hnow, hs3]; rfl
  have hclock : clock_reading cfg S now := by
    rw [hnow]
    exact clock_reading_mono cfg S s3 _ b4 b5 (by omega) t1
  rw [hXt, b8, b9] at e
  by_cases hc : (S.tsk tmr).period ≥
      (now + CMOD cfg - (((S.tsk tmr).start + (S.tsk tmr).delay) % CMOD cfg) % CMOD cfg + 1)
        % CMOD cfg
  · rw [if_pos hc] at e
    obtain ⟨p1, p2, p3, p4, p5, p6⟩ := priv_tmr_insert_frame cfg X tmr tid_t.ID_TIMER
    obtain ⟨a, b, q1, q2, q3, q4⟩ := priv_tmr_insert_place cfg X tmr tid_t.ID_TIMER
    have hXo : ∀ x, x ≠ tmr → X.tsk x = S.tsk x := fun x hx => by rw [hXt, b7 x hx]
    have hXtimers : X.timers = rest := by rw [hX, t6, b3]
    have hma : ∀ x, x ∈ a → x ≠ tmr := fun x hx h =>
      hnd (by rw [← hXtimers, q1, ← h]; exact List.mem_append.mpr (Or.inl hx))
    have hmb : ∀ x, x ∈ b → x ≠ tmr := fun x hx h =>
      hnd (by rw [← hXtimers, q1, ← h]; exact List.mem_append.mpr (Or.inr hx))
    refine ⟨_, now, by rw [hb, e], hclock, by rw [p4, hX, t7, b1],
      by simp only [priv_tmr_insert, Kernel.setTsk]; rw [hX, hfired, b2],
      fun x hx => by rw [p6 x hx, hXo x hx],
      by rw [(priv_tmr_insert_tsk cfg X tmr tid_t.ID_TIMER tmr).2.1, hXt, b8],
      by rw [(priv_tmr_insert_tsk cfg X tmr tid_t.ID_TIMER tmr).1, hXt, b9],
      fun _ => ⟨(priv_tmr_insert_tsk cfg X tmr tid_t.ID_TIMER tmr).2.2.2,
        a, b, by rw [← hXtimers]; exact q1, q2, ?_, ?_⟩,
      fun h => absurd hc h⟩
    · intro hp
      rw [hXt, b9, b8] at q3
      obtain ⟨r1, r2⟩ := q3 hp
      refine ⟨fun x hx => ?_, fun h hh => ?_⟩
      · have := r1 x hx
        rw [← hXt, hXo x (hma x hx)] at this
        exact this
      · have := r2 h hh
        have hm : h ∈ b := List.mem_of_mem_head? hh
        rw [← hXt, hXo h (hmb h hm)] at this
        exact this
    · intro hp
      exact q4 (by rw [hXt, b9]; exact hp)
  · rw [if_neg hc] at e
    refine ⟨_, now, by rw [hb, e], hclock, by rw [hX, t7, b1], by rw [hX, hfired, b2],
      fun x hx => by rw [hXt, b7 x hx], by rw [hXt, b8], by rw [hXt, b9],
      fun h => absurd h hc, fun _ => ⟨by rw [hXt, b10], by rw [hX, t6, b3]⟩⟩

/-- C26 (amended).  A timer with the tag `ID_TIMER` is at the head of the timer list, in
which it is linked once, it has expired and it is not on its own wait list.  The round of
the loop of `core_tmr_handler` that processes it advances its start by its old delay, sets
its delay to its period, invokes its callback, if any, once, and wakes every task that was
blocked on the wait list of the timer with `E_SUCCESS`.  The timer is linked in the timer
list again, with the tag `ID_TIMER`, at the place `priv_tmr_insert` finds for its new
expiry among the other timers, when its period is greater than or equal to the time elapsed
since its new start plus 1, at a reading `now` of the clock; otherwise it stays out of the
timer list, with the tag `ID_STOPPED`.  The first is the case when a timer with a period of
at least 1 is processed at the tick of its expiry. -/
theorem periodic_rearm (cfg : Config) (s : Kernel) (tmr : Nat) (rest : List Nat)
    (hhead : s.timers = tmr :: rest) (hnd : tmr ∉ rest)
    (hid : (s.tsk tmr).id = tid_t.ID_TIMER)
    (hexp : (priv_tmr_expired cfg s (some tmr)).1 = true)
    (hself : tmr ∉ s.queue tmr) :
    (∀ fuel, core_tmr_handler cfg (fuel + 1) s =
      core_tmr_handler cfg fuel
        (core_tmr_handler_body cfg (priv_tmr_expired cfg s (some tmr)).2 tmr)) ∧
    ((core_tmr_handler_body cfg (priv_tmr_expired cfg s (some tmr)).2 tmr).tsk tmr).start =
      ((s.tsk tmr).start + (s.tsk tmr).delay) % CMOD cfg ∧
    ((core_tmr_handler_body cfg (priv_tmr_expired cfg s (some tmr)).2 tmr).tsk tmr).delay =
      (s.tsk tmr).period ∧
    (core_tmr_handler_body cfg (priv_tmr_expired cfg s (some tmr)).2 tmr).fired =
      (if (s.tsk tmr).state then tmr :: s.fired else s.fired) ∧
    (core_tmr_handler_body cfg (priv_tmr_expired cfg s (some tmr)).2 tmr).queue tmr = [] ∧
    (∀ t, t ∈ s.queue tmr → woken event_t.E_SUCCESS t
      (core_tmr_handler_body cfg (priv_tmr_expired cfg s (some tmr)).2 tmr)) ∧
    (∃ now, clock_reading cfg s now ∧
      ((s.tsk tmr).period ≥
          (now + CMOD cfg - (((s.tsk tmr).start + (s.tsk tmr).delay) % CMOD cfg) % CMOD cfg + 1)
            % CMOD cfg →
        ((core_tmr_handler_body cfg (priv_tmr_expired cfg s (some tmr)).2 tmr).tsk tmr).id =
          tid_t.ID_TIMER ∧
        ∃ a b, rest = a ++ b ∧
          (core_tmr_handler_body cfg (priv_tmr_expired cfg s (some tmr)).2 tmr).timers =
            (a ++ tmr :: b).filter (fun n => decide (n ∉ s.queue tmr)) ∧
          ((s.tsk tmr).period ≠ INFINITE cfg →
            (∀ x, x ∈ a → (s.tsk x).delay <
              (((s.tsk tmr).start + (s.tsk tmr).delay) % CMOD cfg + (s.tsk tmr).period +
                CMOD cfg - (s.tsk x).start % CMOD cfg) % CMOD cfg) ∧
            (∀ h, b.head? = some h → ¬ (s.tsk h).delay <
              (((s.tsk tmr).start + (s.tsk tmr).delay) % CMOD cfg + (s.tsk tmr).period +
                CMOD cfg - (s.tsk h).start % CMOD cfg) % CMOD cfg)) ∧
          ((s.tsk tmr).period = INFINITE cfg → b = [])) ∧
      (¬ (s.tsk tmr).period ≥
          (now + CMOD cfg - (((s.tsk tmr).start + (s.tsk tmr).delay) % CMOD cfg) % CMOD cfg + 1)
            % CMOD cfg →
        ((core_tmr_handler_body cfg (priv_tmr_expired cfg s (some tmr)).2 tmr).tsk tmr).id =
          tid_t.ID_STOPPED ∧
        tmr ∉ (core_tmr_handler_body cfg (priv_tmr_expired cfg s (some tmr)).2 tmr).timers ∧
        (core_tmr_handler_body cfg (priv_tmr_expired cfg s (some tmr)).2 tmr).timers =
          rest.filter (fun n => decide (n ∉ s.queue tmr)))) ∧
    (cfg.hw_timer = false → s.cnt = ((s.tsk tmr).start + (s.tsk tmr).delay) % CMOD cfg →
      1 ≤ (s.tsk tmr).period → (s.tsk tmr).period < CMOD cfg →
      ((core_tmr_handler_body cfg (priv_tmr_expired cfg s (some tmr)).2 tmr).tsk tmr).id =
        tid_t.ID_TIMER ∧
      tmr ∈ (core_tmr_handler_body cfg (priv_tmr_expired cfg s (some tmr)).2 tmr).timers) := by
  obtain ⟨k, hk, hS⟩ := priv_tmr_expired_state cfg s (some tmr)
  obtain ⟨S, hSd⟩ : ∃ S : Kernel, S = (priv_tmr_expired cfg s (some tmr)).2 := ⟨_, rfl⟩
  have hSt : S.tsk = s.tsk := by rw [hSd, hS]
  have hSq : S.queue = s.queue := by rw [hSd, hS]
  have hSf : S.fired = s.fired := by rw [hSd, hS]
  have hSm : S.timers = s.timers := by rw [hSd, hS]
  have hSc : S.cnt = s.cnt := by rw [hSd, hS]
  have hSh : S.hw_time = s.hw_time := by rw [hSd, hS]
  have hSr : s.hw_reads ≤ S.hw_reads := by rw [hSd, hS]; exact hk
  rw [← hSd]
  obtain ⟨w3, now, r1, r2, r3, r4, r5, r6, r7, r8, r9⟩ := rearm_state cfg S tmr rest
    (by rw [hSm]; exact hhead) hnd (by rw [hSt]; exact hid)
  rw [hSt] at r4 r6 r7 r8 r9
  have hclock : clock_reading cfg s now := clock_reading_mono cfg s S now hSc hSh hSr r2
  have hq3 : w3.queue tmr = s.queue tmr := by rw [r3, hSq]
  obtain ⟨g1, g2, _, _, _, _⟩ := core_all_wakeup_loop_spec cfg tmr event_t.E_SUCCESS
    (w3.queue tmr).length w3 (le_refl _)
  obtain ⟨f0, f2⟩ := core_all_wakeup_loop_timers cfg tmr event_t.E_SUCCESS
    (w3.queue tmr).length w3 (le_refl _)
  have f1 : (core_all_wakeup_loop cfg tmr event_t.E_SUCCESS (w3.queue tmr).length w3).timers =
      w3.timers.filter (fun n => decide (n ∉ s.queue tmr)) := by rw [f0, hq3]
  have f5 := (core_all_wakeup_loop_frame cfg tmr event_t.E_SUCCESS (w3.queue tmr).length
    w3).2.2.2.2 tmr (by rw [hq3]; exact hself)
  have hrel : (s.tsk tmr).period ≥
        (now + CMOD cfg - (((s.tsk tmr).start + (s.tsk tmr).delay) % CMOD cfg) % CMOD cfg + 1)
          % CMOD cfg →
      ((core_tmr_handler_body cfg S tmr).tsk tmr).id = tid_t.ID_TIMER ∧
      ∃ a b, rest = a ++ b ∧
        (core_tmr_handler_body cfg S tmr).timers =
          (a ++ tmr :: b).filter (fun n => decide (n ∉ s.queue tmr)) ∧
        ((s.tsk tmr).period ≠ INFINITE cfg →
          (∀ x, x ∈ a → (s.tsk x).delay <
            (((s.tsk tmr).start + (s.tsk tmr).delay) % CMOD cfg + (s.tsk tmr).period +
              CMOD cfg - (s.tsk x).start % CMOD cfg) % CMOD cfg) ∧
          (∀ h, b.head? = some h → ¬ (s.tsk h).delay <
            (((s.tsk tmr).start + (s.tsk tmr).delay) % CMOD cfg + (s.tsk tmr).period +
              CMOD cfg - (s.tsk h).start % CMOD cfg) % CMOD cfg)) ∧
        ((s.tsk tmr).period = INFINITE cfg → b = []) := by
    intro hc
    obtain ⟨c1, a, b, c2, c3, c4, c5⟩ := r8 hc
    exact ⟨by rw [r1, f5]; exact c1, a, b, c2, by rw [r1, f1, c3], c4, c5⟩
  refine ⟨?_, by rw [r1, f5]; exact r6, by rw [r1, f5]; exact r7,
    by rw [r1, f2, r4, hSf], by rw [r1]; exact g1,
    fun t ht => by rw [r1]; exact g2 t (by rw [hq3]; exact ht),
    ⟨now, hclock, hrel, ?_⟩, ?_⟩
  · intro fuel
    rw [handler_step, hhead]
    simp only [List.head?_cons]
    rw [if_pos hexp, hSd]
  · intro hc
    obtain ⟨c1, c2⟩ := r9 hc
    refine ⟨by rw [r1, f5]; exact c1, ?_, by rw [r1, f1, c2]⟩
    rw [r1, f1, c2]
    intro hm
    exact hnd (List.mem_filter.mp hm).1
  · intro hw hcnt hp1 hpM
    have hnow : now = s.cnt := by
      have := hclock
      unfold clock_reading at this
      rw [hw] at this
      simpa using this
    have hc : (s.tsk tmr).period ≥
        (now + CMOD cfg - (((s.tsk tmr).start + (s.tsk tmr).delay) % CMOD cfg) % CMOD cfg + 1)
          % CMOD cfg := by
      rw [hnow, hcnt, Nat.mod_mod]
      have hlt : ((s.tsk tmr).start + (s.tsk tmr).delay) % CMOD cfg < CMOD cfg :=
        Nat.mod_lt _ (CMOD_pos cfg)
      have e1 : ((s.tsk tmr).start + (s.tsk tmr).delay) % CMOD cfg + CMOD cfg -
          ((s.tsk tmr).start + (s.tsk tmr).delay) % CMOD cfg + 1 = 1 + CMOD cfg := by omega
      rw [e1, Nat.add_mod_right, Nat.mod_eq_of_lt (by omega)]
      exact hp1
    obtain ⟨c1, a, b, c2, c3, _, _⟩ := hrel hc
    refine ⟨c1, ?_⟩
    rw [c3]
    exact List.mem_filter.mpr ⟨List.mem_append.mpr (Or.inr (List.mem_cons_self _ _)),
      by simpa using hself⟩

/-- Witness of C26: in `ex_forever` the periodic timer 7 is at the head of the timer list
and has expired; the round of the handler wakes the main task, which waits for the timer,
and links the timer again. -/
theorem periodic_rearm_witness :
    (core_tmr_handler_body cfg32 (priv_tmr_expired cfg32 ex_forever (some 7)).2 7).queue 7 = [] ∧
    ((core_tmr_handler_body cfg32 (priv_tmr_expired cfg32 ex_forever (some 7)).2 7).tsk 7).id =
      tid_t.ID_TIMER ∧
    7 ∈ (core_tmr_handler_body cfg32 (priv_tmr_expired cfg32 ex_forever (some 7)).2 7).timers :=
  ⟨(periodic_rearm cfg32 ex_forever 7 [MAIN] (by decide) (by decide) (by decide) (by decide)
      (by decide)).2.2.2.2.1,
   (periodic_rearm cfg32 ex_forever 7 [MAIN] (by decide) (by decide) (by decide) (by decide)
      (by decide)).2.2.2.2.2.2.2 (by decide) (by decide) (by decide) (by decide)⟩

/-- Counterexample to C26 as stated: in `ex_late` the periodic timer 7 (start 0, delay 5,
period 2) is at the head of the timer list and has expired at tick 10.  After
`core_tmr_handler` has processed it, its start is 5 and its delay is 2, but it is not linked
in the timer list again and its tag is `ID_STOPPED`: its period is less than the 5 ticks
elapsed since its new start plus 1. -/
theorem periodic_rearm_counterexample :
    ex_late.timers = [7] ∧ (ex_late.tsk 7).id = tid_t.ID_TIMER ∧
    1 ≤ (ex_late.tsk 7).period ∧
    (priv_tmr_expired cfg32 ex_late (some 7)).1 = true ∧
    ((core_tmr_handler cfg32 1 ex_late).tsk 7).start = 5 ∧
    ((core_tmr_handler cfg32 1 ex_late).tsk 7).delay = 2 ∧
    7 ∉ (core_tmr_handler cfg32 1 ex_late).timers ∧
    ((core_tmr_handler cfg32 1 ex_late).tsk 7).id = tid_t.ID_STOPPED ∧
    7 ∉ (core_tmr_handler cfg32 5 ex_late).timers ∧
    ((core_tmr_handler cfg32 5 ex_late).tsk 7).id = tid_t.ID_STOPPED := by
  refine ⟨by decide, by decide, by decide, by decide, by decide, by decide, by decide,
    by decide, by decide, by decide⟩

theorem seg_congr (R R' : Ring) (l : List Nat) (z : Nat) :
    ∀ a, is_seg R a l z → (∀ x, x ∈ a :: l → R'.next x = R.next x) →
      (∀ y, y ∈ l ++ [z] → R'.prev y = R.prev y) → is_seg R' a l z := by
  induction l with
  | nil =>
    intro a h hn hp
    exact ⟨by rw [hn a (List.mem_cons_self _ _)]; exact h.1,
      by rw [hp z (by simp)]; exact h.2⟩
  | cons b l ih =>
    intro a h hn hp
    refine ⟨by rw [hn a (List.mem_cons_self _ _)]; exact h.1,
      by rw [hp b (by simp)]; exact h.2.1, ?_⟩
    exact ih b h.2.2 (fun x hx => hn x (List.mem_cons_of_mem _ hx))
      (fun y hy => hp y (by simp only [List.cons_append, List.mem_cons]; exact Or.inr hy))

theorem seg_prev_mem (R : Ring) (l : List Nat) (z : Nat) :
    ∀ a, is_seg R a l z → ∀ b, b ∈ l ++ [z] → R.prev b ∈ a :: l := by
  induction l with
  | nil =>
    intro a h b hb
    simp only [List.nil_append, List.mem_singleton] at hb
    rw [hb, h.2]; exact List.mem_cons_self _ _
  | cons c l ih =>
    intro a h b hb
    simp only [List.cons_append, List.mem_cons] at hb
    rcases hb with hb | hb
    · rw [hb, h.2.1]; exact List.mem_cons_self _ _
    · exact List.mem_cons_of_mem _ (ih c h.2.2 b hb)

theorem seg_wf (R : Ring) (l : List Nat) (z : Nat) :
    ∀ a, is_seg R a l z →
      (∀ x, x ∈ l → R.prev (R.next x) = x ∧ R.next (R.prev x) = x) ∧
      R.prev (R.next a) = a ∧ R.next (R.prev z) = z := by
  induction l with
  | nil =>
    intro a h
    exact ⟨fun x hx => (by cases hx), by rw [h.1, h.2], by rw [h.2, h.1]⟩
  | cons b l ih =>
    intro a h
    obtain ⟨i1, i2, i3⟩ := ih b h.2.2
    refine ⟨fun x hx => ?_, by rw [h.1, h.2.1], i3⟩
    rcases List.mem_cons.mp hx with hx | hx
    · rw [hx]; exact ⟨i2, by rw [h.2.1, h.1]⟩
    · exact i1 x hx

theorem seg_insert (R : Ring) (node z : Nat) (nxt : Option Nat) (l : List Nat) :
    ∀ a, is_seg R a l z → (a :: l).Nodup → z ∉ l → node ∉ a :: l → node ≠ z →
      (nxt = none ∨ ∃ b, b ∈ l ∧ nxt = some b) →
      is_seg (priv_rdy_insert_links R node (nxt.getD z)) a (priv_rdy_insert node nxt l) z := by
  induction l with
  | nil =>
    intro a h _ _ hn hnz hx
    have hna : node ≠ a := fun e => hn (by rw [e]; exact List.mem_cons_self _ _)
    rcases hx with hx | ⟨b, hb, _⟩
    · subst hx
      show is_seg (priv_rdy_insert_links R node z) a [node] z
      simp only [is_seg, priv_rdy_insert_links, h.2]
      refine ⟨upd_same _ _ _, ?_, ?_, upd_same _ _ _⟩
      · rw [upd_other _ _ _ _ hnz, upd_same]
      · rw [upd_other _ _ _ _ hna, upd_same]
    · cases hb
  | cons c l ih =>
    intro a h hnd hz hn hnz hx
    have hna : node ≠ a := fun e => hn (by rw [e]; exact List.mem_cons_self _ _)
    have hnc : node ≠ c := fun e => hn (by rw [e]; simp)
    have hnl : node ∉ c :: l := fun e => hn (List.mem_cons_of_mem _ e)
    have hzc : z ≠ c := fun e => hz (by rw [e]; exact List.mem_cons_self _ _)
    have hzl : z ∉ l := fun e => hz (List.mem_cons_of_mem _ e)
    have hacl : a ∉ c :: l := (List.nodup_cons.mp hnd).1
    have hndc : (c :: l).Nodup := (List.nodup_cons.mp hnd).2
    have hcl : c ∉ l := (List.nodup_cons.mp hndc).1
    by_cases hfront : nxt = some c
    · subst hfront
      have e : priv_rdy_insert node (some c) (c :: l) = node :: c :: l := by
        simp [priv_rdy_insert]
      rw [e]
      show is_seg (priv_rdy_insert_links R node c) a (node :: c :: l) z
      have hac : a ≠ c := fun e => hacl (by rw [e]; exact List.mem_cons_self _ _)
      refine ⟨?_, ?_, ?_, ?_, ?_⟩
      · simp only [priv_rdy_insert_links, h.2.1]; exact upd_same _ _ _
      · simp only [priv_rdy_insert_links, h.2.1]
        rw [upd_other _ _ _ _ hnc, upd_same]
      · simp only [priv_rdy_insert_links, h.2.1]
        rw [upd_other _ _ _ _ hna, upd_same]
      · simp only [priv_rdy_insert_links]; exact upd_same _ _ _
      · apply seg_congr R _ l z c h.2.2
        · intro x hx
          have hxn : x ≠ node := fun e => hnl (e ▸ hx)
          have hxa : x ≠ a := fun e => hacl (e ▸ hx)
          simp only [priv_rdy_insert_links, h.2.1]
          rw [upd_other _ _ _ _ hxa, upd_other _ _ _ _ hxn]
        · intro y hy
          have hyn : y ≠ node := by
            intro e; subst e
            rcases List.mem_append.mp hy with h1 | h1
            · exact hnl (List.mem_cons_of_mem _ h1)
            · exact hnz (List.mem_singleton.mp h1)
          have hyc : y ≠ c := by
            intro e; subst e
            rcases List.mem_append.mp hy with h1 | h1
            · exact hcl h1
            · exact hzc (List.mem_singleton.mp h1).symm
          simp only [priv_rdy_insert_links]
          rw [upd_other _ _ _ _ hyc, upd_other _ _ _ _ hyn]
    · have hx' : nxt = none ∨ ∃ b, b ∈ l ∧ nxt = some b := by
        rcases hx with hx | ⟨b, hb, hx⟩
        · exact Or.inl hx
        · right
          refine ⟨b, ?_, hx⟩
          rcases List.mem_cons.mp hb with hb | hb
          · exact absurd (by rw [hx, hb]) hfront
          · exact hb
      have e : priv_rdy_insert node nxt (c :: l) = c :: priv_rdy_insert node nxt l := by
        rcases hx' with hx' | ⟨b, hb, hx'⟩
        · subst hx'; simp [priv_rdy_insert]
        · subst hx'
          have hcb : c ≠ b := fun e => hcl (e ▸ hb)
          simp [priv_rdy_insert, hcb]
      rw [e]
      have hbef : nxt.getD z ∈ l ++ [z] := by
        rcases hx' with hx' | ⟨b, hb, hx'⟩
        · subst hx'; simp
        · subst hx'; simp [hb]
      have hbc : c ≠ nxt.getD z := by
        intro e
        rcases List.mem_append.mp hbef with h1 | h1
        · exact hcl (e ▸ h1)
        · exact hzc ((List.mem_singleton.mp h1).symm.trans e.symm)
      have hprv : R.prev (nxt.getD z) ∈ c :: l := seg_prev_mem R l z c h.2.2 _ hbef
      have hap : a ≠ R.prev (nxt.getD z) := fun e => hacl (e ▸ hprv)
      refine ⟨?_, ?_, ih c h.2.2 hndc hzl hnl hnz hx'⟩
      · simp only [priv_rdy_insert_links]
        rw [upd_other _ _ _ _ hap, upd_other _ _ _ _ hna.symm]; exact h.1
      · simp only [priv_rdy_insert_links]
        rw [upd_other _ _ _ _ hbc, upd_other _ _ _ _ hnc.symm]; exact h.2.1

theorem insert_remove_links (R : Ring) (node before : Nat) (h1 : node ≠ before)
    (h2 : node ≠ R.prev before) (h3 : R.next (R.prev before) = before) :
    (priv_rdy_insert_links R node before).next node = before ∧
    (priv_rdy_insert_links R node before).prev before = node ∧
    (priv_rdy_insert_links R node before).prev node = R.prev before ∧
    (priv_rdy_insert_links R node before).next (R.prev before) = node ∧
    ∀ x, x ≠ node →
      (priv_rdy_remove_links (priv_rdy_insert_links R node before) node).next x = R.next x ∧
      (priv_rdy_remove_links (priv_rdy_insert_links R node before) node).prev x = R.prev x := by
  have a1 : (priv_rdy_insert_links R node before).next node = before := by
    simp only [priv_rdy_insert_links]
    rw [upd_other _ _ _ _ h2, upd_same]
  have a2 : (priv_rdy_insert_links R node before).prev node = R.prev before := by
    simp only [priv_rdy_insert_links]
    rw [upd_other _ _ _ _ h1, upd_same]
  refine ⟨a1, by simp only [priv_rdy_insert_links]; exact upd_same _ _ _, a2,
    by simp only [priv_rdy_insert_links]; exact upd_same _ _ _, fun x hx => ⟨?_, ?_⟩⟩
  · simp only [priv_rdy_remove_links, a1, a2]
    by_cases hp : x = R.prev before
    · rw [hp, upd_same, h3]
    · rw [upd_other _ _ _ _ hp]
      simp only [priv_rdy_insert_links]
      rw [upd_other _ _ _ _ hp, upd_other _ _ _ _ hx]
  · simp only [priv_rdy_remove_links, a1, a2]
    by_cases hp : x = before
    · rw [hp, upd_same]
    · rw [upd_other _ _ _ _ hp]
      simp only [priv_rdy_insert_links]
      rw [upd_other _ _ _ _ hp, upd_other _ _ _ _ hx]

theorem rdy_insert_split (node : Nat) (nxt : Option Nat) (l : List Nat)
    (hx : nxt = none ∨ ∃ b, b ∈ l ∧ nxt = some b) :
    ∃ a c, l = a ++ c ∧ priv_rdy_insert node nxt l = a ++ node :: c ∧
      (nxt = none → c = []) ∧ (∀ b, nxt = some b → c.head? = some b ∧ b ∉ a) := by
  induction l with
  | nil =>
    rcases hx with hx | ⟨b, hb, _⟩
    · subst hx
      exact ⟨[], [], rfl, rfl, fun _ => rfl, fun b hb => (by cases hb)⟩
    · cases hb
  | cons c l ih =>
    rcases hx with hx | ⟨b, hb, hx⟩
    · subst hx
      exact ⟨c :: l, [], by simp, by simp [priv_rdy_insert], fun _ => rfl,
        fun b hb => (by cases hb)⟩
    · subst hx
      by_cases hcb : c = b
      · subst hcb
        refine ⟨[], c :: l, rfl, by simp [priv_rdy_insert], fun h => (by cases h),
          fun b hb => ?_⟩
        simp only [Option.some.injEq] at hb
        subst hb
        exact ⟨rfl, List.not_mem_nil _⟩
      · have hbl : b ∈ l := by
          rcases List.mem_cons.mp hb with h | h
          · exact absurd h.symm hcb
          · exact h
        obtain ⟨a, d, e1, e2, _, e4⟩ := ih (Or.inr ⟨b, hbl, rfl⟩)
        refine ⟨c :: a, d, by rw [e1]; rfl, by simp [priv_rdy_insert, hcb, e2],
          fun h => (by cases h), fun b' hb' => ?_⟩
        obtain ⟨f1, f2⟩ := e4 b' hb'
        simp only [Option.some.injEq] at hb'
        subst hb'
        exact ⟨f1, fun hm => by
          rcases List.mem_cons.mp hm with h | h
          · exact hcb h.symm
          · exact f2 h⟩

/-- C28.  The nodes `h, l` are distinct and make up a well-formed circular doubly-linked
list, the node `before` is one of them and the node `node` is none of them.  Then, on the
pointers, `priv_rdy_insert(node, before)` yields a circular list that is well-formed
(`x.next.prev = x` and `x.prev.next = x` for every node) and in which `node` is immediately
before `before`: its sequence is the sequence `a, c` of the list with `node` between `a`
and `c`, where `c` starts with `before`, or is empty when `before` is the node `h` the
sequence is read from; it is the sequence that the list primitive computes on sequences,
and the order of all other nodes is unchanged.  `priv_rdy_remove(node)` applied next
yields the original list again, and every link of every other node is as it was. -/
theorem list_primitive (R : Ring) (h : Nat) (l : List Nat) (node before : Nat)
    (hring : is_ring R h l) (hnd : (h :: l).Nodup)
    (hb : before ∈ h :: l) (hn : node ∉ h :: l) :
    (∀ x, x ∈ h :: l → R.prev (R.next x) = x ∧ R.next (R.prev x) = x) ∧
    is_ring (priv_rdy_insert_links R node before) h
      (priv_rdy_insert node (if before = h then none else some before) l) ∧
    (∀ x, x ∈ node :: h :: l →
      (priv_rdy_insert_links R node before).prev ((priv_rdy_insert_links R node before).next x)
        = x ∧
      (priv_rdy_insert_links R node before).next ((priv_rdy_insert_links R node before).prev x)
        = x) ∧
    (priv_rdy_insert_links R node before).next node = before ∧
    (priv_rdy_insert_links R node before).prev before = node ∧
    (∃ a c, l = a ++ c ∧
      priv_rdy_insert node (if before = h then none else some before) l = a ++ node :: c ∧
      (before = h → c = []) ∧ (before ≠ h → c.head? = some before ∧ before ∉ a)) ∧
    (priv_rdy_insert node (if before = h then none else some before) l).filter
      (fun n => decide (n ≠ node)) = l ∧
    is_ring (priv_rdy_remove_links (priv_rdy_insert_links R node before) node) h l ∧
    (∀ x, x ≠ node →
      (priv_rdy_remove_links (priv_rdy_insert_links R node before) node).next x = R.next x ∧
      (priv_rdy_remove_links (priv_rdy_insert_links R node before) node).prev x = R.prev x) := by
  obtain ⟨w1, w2, w3⟩ := seg_wf R l h h hring
  have hwf : ∀ x, x ∈ h :: l → R.prev (R.next x) = x ∧ R.next (R.prev x) = x := by
    intro x hx
    rcases List.mem_cons.mp hx with hx | hx
    · rw [hx]; exact ⟨w2, w3⟩
    · exact w1 x hx
  have hhl : h ∉ l := (List.nodup_cons.mp hnd).1
  have hnh : node ≠ h := fun e => hn (by rw [e]; exact List.mem_cons_self _ _)
  have hnl : node ∉ l := fun e => hn (List.mem_cons_of_mem _ e)
  obtain ⟨nxt, hnxt⟩ : ∃ nxt : Option Nat, nxt = if before = h then none else some before :=
    ⟨_, rfl⟩
  have hx : nxt = none ∨ ∃ b, b ∈ l ∧ nxt = some b := by
    by_cases e : before = h
    · left; rw [hnxt, if_pos e]
    · right
      refine ⟨before, ?_, by rw [hnxt, if_neg e]⟩
      rcases List.mem_cons.mp hb with h1 | h1
      · exact absurd h1 e
      · exact h1
  have hget : nxt.getD h = before := by
    by_cases e : before = h
    · rw [hnxt, if_pos e, e]; rfl
    · rw [hnxt, if_neg e]; rfl
  have hins := seg_insert R node h nxt l h hring hnd hhl hn hnh hx
  rw [hget] at hins
  have hnb : node ≠ before := fun e => hn (e ▸ hb)
  have hprv : R.prev before ∈ h :: l := by
    apply seg_prev_mem R l h h hring
    rcases List.mem_cons.mp hb with h1 | h1
    · rw [h1]; simp
    · exact List.mem_append.mpr (Or.inl h1)
  have hnp : node ≠ R.prev before := fun e => hn (e ▸ hprv)
  obtain ⟨r1, r2, r3, r4, r5⟩ := insert_remove_links R node before hnb hnp (hwf before hb).2
  obtain ⟨v1, v2, v3⟩ := seg_wf _ _ h h hins
  obtain ⟨a, c, s1, s2, s3, s4⟩ := rdy_insert_split node nxt l hx
  have hmem : ∀ x, x ∈ priv_rdy_insert node nxt l ↔ x = node ∨ x ∈ l :=
    fun x => mem_priv_rdy_insert node nxt l x
  rw [← hnxt]
  refine ⟨hwf, hins, ?_, r1, r2, ⟨a, c, s1, s2, ?_, ?_⟩, ?_, ?_, r5⟩
  · intro x hx
    rcases List.mem_cons.mp hx with hx | hx
    · exact v1 x ((hmem x).mpr (Or.inl hx))
    · rcases List.mem_cons.mp hx with hx | hx
      · rw [hx]; exact ⟨v2, v3⟩
      · exact v1 x ((hmem x).mpr (Or.inr hx))
  · intro e
    exact s3 (by rw [hnxt, if_pos e])
  · intro e
    exact s4 before (by rw [hnxt, if_neg e])
  · rw [s2, s1]
    have hna : node ∉ a := fun e => hnl (by rw [s1]; exact List.mem_append.mpr (Or.inl e))
    have hnc : node ∉ c := fun e => hnl (by rw [s1]; exact List.mem_append.mpr (Or.inr e))
    rw [List.filter_append, List.filter_cons_of_neg (by simp), filter_ne_of_not_mem _ _ hna,
      filter_ne_of_not_mem _ _ hnc]
  · apply seg_congr R _ l h h hring
    · intro x hx
      exact (r5 x (fun e => hn (e ▸ hx))).1
    · intro y hy
      have hyn : y ≠ node := by
        intro e; subst e
        rcases List.mem_append.mp hy with h1 | h1
        · exact hnl h1
        · exact hnh (List.mem_singleton.mp h1)
      exact (r5 y hyn).2

/-- Witness of C28: the node 7 is linked before `IDLE` in the list of `MAIN` and `IDLE`,
which is the list `IDLE`, `MAIN`, 7 then, and unlinked again. -/
theorem list_primitive_witness :
    is_ring (priv_rdy_insert_links ex_ring 7 IDLE) IDLE [MAIN, 7] ∧
    is_ring (priv_rdy_remove_links (priv_rdy_insert_links ex_ring 7 IDLE) 7) IDLE [MAIN] :=
  ⟨(list_primitive ex_ring IDLE [MAIN] 7 IDLE (by decide) (by decide) (by decide)
      (by decide)).2.1,
   (list_primitive ex_ring IDLE [MAIN] 7 IDLE (by decide) (by decide) (by decide)
      (by decide)).2.2.2.2.2.2.2.1⟩

/-! ### C29: the ready list on the pointers -/

theorem seg_next_mem (R : Ring) (l : List Nat) (z : Nat) :
    ∀ a, is_seg R a l z → ∀ b, b ∈ a :: l → R.next b ∈ l ++ [z] := by
  induction l with
  | nil =>
    intro a h b hb
    simp only [List.mem_singleton] at hb
    rw [hb, h.1]; simp
  | cons c l ih =>
    intro a h b hb
    rcases List.mem_cons.mp hb with hb | hb
    · rw [hb, h.1]; simp
    · have := ih c h.2.2 b hb
      simp only [List.cons_append, List.mem_cons]
      exact Or.inr this

theorem seg_remove (R : Ring) (t z : Nat) (l : List Nat) :
    ∀ a, is_seg R a l z → (a :: l).Nodup → z ∉ l → t ∈ l →
      is_seg (priv_rdy_remove_links R t) a (l.filter (fun n => decide (n ≠ t))) z := by
  induction l with
  | nil => intro a _ _ _ ht; cases ht
  | cons c l ih =>
    intro a h hnd hz ht
    have hacl : a ∉ c :: l := (List.nodup_cons.mp hnd).1
    have hndc : (c :: l).Nodup := (List.nodup_cons.mp hnd).2
    have hcl : c ∉ l := (List.nodup_cons.mp hndc).1
    have hzc : z ≠ c := fun e => hz (by rw [e]; exact List.mem_cons_self _ _)
    have hzl : z ∉ l := fun e => hz (List.mem_cons_of_mem _ e)
    by_cases hct : c = t
    · subst hct
      rw [List.filter_cons_of_neg (by simp), filter_ne_of_not_mem _ _ hcl]
      have hprev : R.prev c = a := h.2.1
      cases l with
      | nil =>
        have hn : R.next c = z := h.2.2.1
        simp only [is_seg, priv_rdy_remove_links, hprev, hn]
        exact ⟨upd_same _ _ _, upd_same _ _ _⟩
      | cons d l2 =>
        have hn : R.next c = d := h.2.2.1
        have hdl : d ∉ l2 := (List.nodup_cons.mp (List.nodup_cons.mp hndc).2).1
        refine ⟨?_, ?_, ?_⟩
        · simp only [priv_rdy_remove_links, hprev, hn]; exact upd_same _ _ _
        · simp only [priv_rdy_remove_links, hprev, hn]; exact upd_same _ _ _
        · apply seg_congr R _ l2 z d h.2.2.2.2
          · intro x hx
            have hxa : x ≠ a := fun e => hacl (by rw [← e]; exact List.mem_cons_of_mem _ hx)
            simp only [priv_rdy_remove_links, hprev, hn]
            rw [upd_other _ _ _ _ hxa]
          · intro y hy
            have hyd : y ≠ d := by
              intro e; subst e
              rcases List.mem_append.mp hy with h1 | h1
              · exact hdl h1
              · exact hz (by rw [List.mem_singleton.mp h1]; simp)
            simp only [priv_rdy_remove_links, hprev, hn]
            rw [upd_other _ _ _ _ hyd]
    · have htl : t ∈ l := by
        rcases List.mem_cons.mp ht with h1 | h1
        · exact absurd h1.symm hct
        · exact h1
      rw [List.filter_cons_of_pos (by simpa using hct)]
      have hprv : R.prev t ∈ c :: l := seg_prev_mem R l z c h.2.2 t (List.mem_append.mpr (Or.inl htl))
      have hnxt : R.next t ∈ l ++ [z] := seg_next_mem R l z c h.2.2 t (List.mem_cons_of_mem _ htl)
      have hap : a ≠ R.prev t := fun e => hacl (e ▸ hprv)
      have hcn : c ≠ R.next t := by
        intro e
        rcases List.mem_append.mp hnxt with h1 | h1
        · exact hcl (e ▸ h1)
        · exact hzc ((List.mem_singleton.mp h1).symm.trans e.symm)
      refine ⟨?_, ?_, ih c h.2.2 hndc hzl htl⟩
      · simp only [priv_rdy_remove_links]
        rw [upd_other _ _ _ _ hap]; exact h.1
      · simp only [priv_rdy_remove_links]
        rw [upd_other _ _ _ _ hcn]; exact h.2.1

theorem rdy_walk_spec (tsk : Nat → tsk_t) (R : Ring) (p z : Nat) (l : List Nat)
    (hz : ¬ p ≤ (tsk z).prio) :
    ∀ (fuel a : Nat), is_seg R a l z →
      (∀ n, rdy_walk tsk R p fuel a = some n → n = (tsk_walk tsk p l).getD z) ∧
      (l.length < fuel → rdy_walk tsk R p fuel a = some ((tsk_walk tsk p l).getD z)) := by
  induction l with
  | nil =>
    intro fuel a h
    cases fuel with
    | zero => exact ⟨fun n hn => (by cases hn), fun hl => (by cases hl)⟩
    | succ f =>
      have e : rdy_walk tsk R p (f + 1) a = some z := by
        simp only [rdy_walk, h.1, if_neg hz]
      rw [e]
      exact ⟨fun n hn => (by cases hn; rfl), fun _ => rfl⟩
  | cons b l ih =>
    intro fuel a h
    cases fuel with
    | zero => exact ⟨fun n hn => (by cases hn), fun hl => (by cases hl)⟩
    | succ f =>
      by_cases hb : p ≤ (tsk b).prio
      · have e : rdy_walk tsk R p (f + 1) a = rdy_walk tsk R p f b := by
          simp only [rdy_walk, h.1, if_pos hb]
        have e2 : tsk_walk tsk p (b :: l) = tsk_walk tsk p l := by
          simp only [tsk_walk, if_pos hb]
        rw [e, e2]
        obtain ⟨i1, i2⟩ := ih f b h.2.2
        exact ⟨i1, fun hl => i2 (by simp only [List.length_cons] at hl; omega)⟩
      · have e : rdy_walk tsk R p (f + 1) a = some b := by
          simp only [rdy_walk, h.1, if_neg hb]
        have e2 : tsk_walk tsk p (b :: l) = some b := by
          simp only [tsk_walk, if_neg hb]
        rw [e, e2]
        exact ⟨fun n hn => (by cases hn; rfl), fun _ => rfl⟩

theorem insert_nodup (t : Nat) (nxt : Option Nat) (l : List Nat) (h : Nat)
    (hx : nxt = none ∨ ∃ b, b ∈ l ∧ nxt = some b)
    (hnd : (h :: l).Nodup) (ht : t ∉ h :: l) : (h :: priv_rdy_insert t nxt l).Nodup := by
  obtain ⟨a, c, s1, s2, _, _⟩ := rdy_insert_split t nxt l hx
  have hperm : (h :: priv_rdy_insert t nxt l).Perm (t :: h :: l) := by
    rw [s2, s1]
    have : (a ++ t :: c).Perm (t :: (a ++ c)) := List.perm_middle
    exact (List.Perm.cons h this).trans (List.Perm.swap t h (a ++ c))
  exact hperm.nodup_iff.mpr (List.nodup_cons.mpr ⟨ht, hnd⟩)

theorem ring_tsk_insert (tsk : Nat → tsk_t) (R : Ring) (t : Nat) (l : List Nat)
    (hring : is_ring R IDLE l) (hnd : (IDLE :: l).Nodup) (ht : t ∉ IDLE :: l)
    (hidle : (tsk IDLE).prio = 0) :
    (∀ w R', priv_tsk_insert_links w tsk R t = some R' →
      is_ring R' IDLE
        (priv_rdy_insert t (if (tsk t).prio ≠ 0 then tsk_walk tsk (tsk t).prio l else none) l)) ∧
    (∀ w, l.length < w → ∃ R', priv_tsk_insert_links w tsk R t = some R') ∧
    (IDLE :: priv_rdy_insert t
      (if (tsk t).prio ≠ 0 then tsk_walk tsk (tsk t).prio l else none) l).Nodup := by
  have hhl : IDLE ∉ l := (List.nodup_cons.mp hnd).1
  have htI : t ≠ IDLE := fun e => ht (by rw [e]; exact List.mem_cons_self _ _)
  by_cases hp : (tsk t).prio ≠ 0
  · have hz : ¬ (tsk t).prio ≤ (tsk IDLE).prio := by rw [hidle]; omega
    have hx : tsk_walk tsk (tsk t).prio l = none ∨
        ∃ b, b ∈ l ∧ tsk_walk tsk (tsk t).prio l = some b := by
      cases hw : tsk_walk tsk (tsk t).prio l with
      | none => exact Or.inl rfl
      | some b => exact Or.inr ⟨b, (tsk_walk_some tsk _ l b hw).2, rfl⟩
    rw [if_pos hp]
    refine ⟨fun w R' hR => ?_, fun w hw => ?_, insert_nodup t _ l IDLE hx hnd ht⟩
    · simp only [priv_tsk_insert_links, if_pos hp] at hR
      cases hwalk : rdy_walk tsk R (tsk t).prio w IDLE with
      | none => rw [hwalk] at hR; cases hR
      | some n =>
        rw [hwalk] at hR
        simp only [Option.map_some', Option.some.injEq] at hR
        have hn := (rdy_walk_spec tsk R (tsk t).prio IDLE l hz w IDLE hring).1 n hwalk
        rw [← hR, hn]
        exact seg_insert R t IDLE _ l IDLE hring hnd hhl ht htI hx
    · simp only [priv_tsk_insert_links, if_pos hp]
      rw [(rdy_walk_spec tsk R (tsk t).prio IDLE l hz w IDLE hring).2 hw]
      exact ⟨_, rfl⟩
  · rw [if_neg hp]
    refine ⟨fun w R' hR => ?_, fun w _ => ?_, insert_nodup t none l IDLE (Or.inl rfl) hnd ht⟩
    · simp only [priv_tsk_insert_links, if_neg hp, Option.some.injEq] at hR
      rw [← hR]
      exact seg_insert R t IDLE none l IDLE hring hnd hhl ht htI (Or.inl rfl)
    · simp only [priv_tsk_insert_links, if_neg hp]
      exact ⟨_, rfl⟩

theorem ring_remove (R : Ring) (t : Nat) (l : List Nat)
    (hring : is_ring R IDLE l) (hnd : (IDLE :: l).Nodup) (ht : t ∈ l) :
    is_ring (priv_rdy_remove_links R t) IDLE (l.filter (fun n => decide (n ≠ t))) ∧
    (IDLE :: l.filter (fun n => decide (n ≠ t))).Nodup ∧
    t ∉ IDLE :: l.filter (fun n => decide (n ≠ t)) := by
  have hhl : IDLE ∉ l := (List.nodup_cons.mp hnd).1
  refine ⟨seg_remove R t IDLE l IDLE hring hnd hhl ht, ?_, ?_⟩
  · exact List.nodup_cons.mpr ⟨fun h => hhl (List.mem_filter.mp h).1,
      (List.nodup_cons.mp hnd).2.filter _⟩
  · intro h
    rcases List.mem_cons.mp h with h | h
    · exact hhl (h ▸ ht)
    · exact not_mem_filter_ne t l h

theorem priv_tsk_insert_facts (cfg : Config) (s : Kernel) (t : Nat) :
    (priv_tsk_insert cfg s t).ready =
      priv_rdy_insert t
        (if (s.tsk t).prio ≠ 0 then tsk_walk s.tsk (s.tsk t).prio s.ready else none) s.ready ∧
    (∀ x, ((priv_tsk_insert cfg s t).tsk x).prio = (s.tsk x).prio ∧
      ((priv_tsk_insert cfg s t).tsk x).id = (s.tsk x).id ∧
      ((priv_tsk_insert cfg s t).tsk x).mtx_tree = (s.tsk x).mtx_tree) ∧
    (priv_tsk_insert cfg s t).cur = s.cur := by
  refine ⟨priv_tsk_insert_ready cfg s t, fun x => ?_, ?_⟩
  · simp only [priv_tsk_insert]
    split
    · by_cases h : x = t
      · subst h; simp [Kernel.setTsk, upd]
      · simp [Kernel.setTsk, upd, h]
    · exact ⟨rfl, rfl, rfl⟩
  · simp only [priv_tsk_insert]
    split <;> rfl

theorem core_tsk_insert_facts (cfg : Config) (s : Kernel) (t : Nat) :
    (core_tsk_insert cfg s t).ready =
      priv_rdy_insert t
        (if (s.tsk t).prio ≠ 0 then tsk_walk s.tsk (s.tsk t).prio s.ready else none) s.ready ∧
    (∀ x, ((core_tsk_insert cfg s t).tsk x).prio = (s.tsk x).prio ∧
      ((core_tsk_insert cfg s t).tsk x).mtx_tree = (s.tsk x).mtx_tree) ∧
    (∀ x, x ≠ t → ((core_tsk_insert cfg s t).tsk x).id = (s.tsk x).id) ∧
    ((core_tsk_insert cfg s t).tsk t).id = tid_t.ID_READY ∧
    (core_tsk_insert cfg s t).cur = s.cur := by
  obtain ⟨S, hS⟩ : ∃ S : Kernel, S = s.setTsk t { s.tsk t with id := tid_t.ID_READY } :=
    ⟨_, rfl⟩
  have hSp : ∀ x, (S.tsk x).prio = (s.tsk x).prio ∧ (S.tsk x).mtx_tree = (s.tsk x).mtx_tree := by
    intro x
    rw [hS]
    by_cases h : x = t
    · subst h; simp [Kernel.setTsk, upd]
    · simp [Kernel.setTsk, upd, h]
  have hSi : ∀ x, x ≠ t → (S.tsk x).id = (s.tsk x).id := by
    intro x h; rw [hS]; simp [Kernel.setTsk, upd, h]
  have hSt : (S.tsk t).id = tid_t.ID_READY := by rw [hS]; simp [Kernel.setTsk, upd]
  have hSr : S.ready = s.ready := by rw [hS]; rfl
  have hSc : S.cur = s.cur := by rw [hS]; rfl
  obtain ⟨f1, f2, f3⟩ := priv_tsk_insert_facts cfg S t
  have e : core_tsk_insert cfg s t =
      if t = IDLE_next (priv_tsk_insert cfg S t) then port_ctx_switch (priv_tsk_insert cfg S t)
      else priv_tsk_insert cfg S t := by
    rw [hS]; rfl
  have hr : (core_tsk_insert cfg s t).ready = (priv_tsk_insert cfg S t).ready := by
    rw [e]; split <;> rfl
  have ht : (core_tsk_insert cfg s t).tsk = (priv_tsk_insert cfg S t).tsk := by
    rw [e]; split <;> rfl
  have hc : (core_tsk_insert cfg s t).cur = (priv_tsk_insert cfg S t).cur := by
    rw [e]; split <;> rfl
  refine ⟨?_, fun x => ?_, fun x hx => ?_, ?_, by rw [hc, f3, hSc]⟩
  · rw [hr, f1, hSr, (hSp t).1, tsk_walk_congr S.tsk s.tsk _ _ (fun n => (hSp n).1)]
  · rw [ht]; exact ⟨by rw [(f2 x).1, (hSp x).1], by rw [(f2 x).2.2, (hSp x).2]⟩
  · rw [ht, (f2 x).2.1, hSi x hx]
  · rw [ht, (f2 t).2.1, hSt]

theorem inv_insert (cfg : Config) (s : Kernel) (R : Ring) (t w : Nat) (R' : Ring)
    (hinv : rdy_inv s R) (ht : t ≠ IDLE) (hid : (s.tsk t).id ≠ tid_t.ID_READY)
    (hR : priv_tsk_insert_links w s.tsk R t = some R') :
    rdy_inv (core_tsk_insert cfg s t) R' := by
  obtain ⟨i1, i2, i3, i4, i5, i6⟩ := hinv
  have htr : t ∉ s.ready := fun h => hid ((i5 t).mpr h)
  have htl : t ∉ IDLE :: s.ready := fun h => by
    rcases List.mem_cons.mp h with h | h
    · exact ht h
    · exact htr h
  obtain ⟨r1, _, r3⟩ := ring_tsk_insert s.tsk R t s.ready i1 i2 htl i3
  obtain ⟨f1, f2, f3, f4, _⟩ := core_tsk_insert_facts cfg s t
  refine ⟨by rw [f1]; exact r1 w R' hR, by rw [f1]; exact r3, by rw [(f2 IDLE).1]; exact i3,
    by rw [f3 IDLE (Ne.symm ht)]; exact i4, fun x => ?_, fun x => by rw [(f2 x).2]; exact i6 x⟩
  rw [f1, mem_priv_rdy_insert]
  by_cases hx : x = t
  · subst hx; exact ⟨fun _ => Or.inl rfl, fun _ => f4⟩
  · rw [f3 x hx, i5 x]
    exact ⟨fun h => Or.inr h, fun h => h.resolve_left hx⟩

theorem core_tsk_remove_facts (s : Kernel) (t : Nat) :
    (core_tsk_remove s t).ready = s.ready.filter (fun n => decide (n ≠ t)) ∧
    (∀ x, ((core_tsk_remove s t).tsk x).prio = (s.tsk x).prio ∧
      ((core_tsk_remove s t).tsk x).mtx_tree = (s.tsk x).mtx_tree) ∧
    (∀ x, x ≠ t → ((core_tsk_remove s t).tsk x).id = (s.tsk x).id) ∧
    ((core_tsk_remove s t).tsk t).id = tid_t.ID_STOPPED := by
  simp only [core_tsk_remove, priv_tsk_remove, priv_rdy_remove]
  split <;>
  · refine ⟨rfl, fun x => ?_, fun x hx => ?_, ?_⟩
    · by_cases h : x = t
      · subst h; simp [port_ctx_switch, Kernel.setTsk, upd]
      · simp [port_ctx_switch, Kernel.setTsk, upd, h]
    · simp [port_ctx_switch, Kernel.setTsk, upd, hx]
    · simp [port_ctx_switch, Kernel.setTsk, upd]

theorem inv_remove (s : Kernel) (R : Ring) (t : Nat)
    (hinv : rdy_inv s R) (hid : (s.tsk t).id = tid_t.ID_READY) :
    rdy_inv (core_tsk_remove s t) (priv_rdy_remove_links R t) := by
  obtain ⟨i1, i2, i3, i4, i5, i6⟩ := hinv
  have htr : t ∈ s.ready := (i5 t).mp hid
  have ht : t ≠ IDLE := fun e => (List.nodup_cons.mp i2).1 (e ▸ htr)
  obtain ⟨r1, r2, _⟩ := ring_remove R t s.ready i1 i2 htr
  obtain ⟨f1, f2, f3, f4⟩ := core_tsk_remove_facts s t
  refine ⟨by rw [f1]; exact r1, by rw [f1]; exact r2, by rw [(f2 IDLE).1]; exact i3,
    by rw [f3 IDLE (Ne.symm ht)]; exact i4, fun x => ?_, fun x => by rw [(f2 x).2]; exact i6 x⟩
  rw [f1]
  by_cases hx : x = t
  · subst hx
    rw [f4]
    exact ⟨fun h => (by cases h), fun h => absurd h (not_mem_filter_ne x _)⟩
  · rw [f3 x hx, i5 x, List.mem_filter]
    exact ⟨fun h => ⟨h, by simpa using hx⟩, fun h => h.1⟩

theorem seg_head (R : Ring) (a z : Nat) (l : List Nat) (h : is_seg R a l z) :
    R.next a = l.headD z := by
  cases l with
  | nil => exact h.1
  | cons b l => exact h.1

theorem ring_relink (tsk : Nat → tsk_t) (R : Ring) (t : Nat) (l : List Nat)
    (hring : is_ring R IDLE l) (hnd : (IDLE :: l).Nodup) (ht : t ∈ l)
    (hidle : (tsk IDLE).prio = 0) :
    (∀ w R', priv_tsk_insert_links w tsk (priv_rdy_remove_links R t) t = some R' →
      is_ring R' IDLE
        (priv_rdy_insert t
          (if (tsk t).prio ≠ 0 then
            tsk_walk tsk (tsk t).prio (l.filter (fun n => decide (n ≠ t))) else none)
          (l.filter (fun n => decide (n ≠ t))))) ∧
    (∀ w, l.length ≤ w →
      ∃ R', priv_tsk_insert_links w tsk (priv_rdy_remove_links R t) t = some R') ∧
    (IDLE :: priv_rdy_insert t
      (if (tsk t).prio ≠ 0 then
        tsk_walk tsk (tsk t).prio (l.filter (fun n => decide (n ≠ t))) else none)
      (l.filter (fun n => decide (n ≠ t)))).Nodup ∧
    (∀ x, x ∈ priv_rdy_insert t
        (if (tsk t).prio ≠ 0 then
          tsk_walk tsk (tsk t).prio (l.filter (fun n => decide (n ≠ t))) else none)
        (l.filter (fun n => decide (n ≠ t))) ↔ x ∈ l) := by
  obtain ⟨r1, r2, r3⟩ := ring_remove R t l hring hnd ht
  obtain ⟨q1, q2, q3⟩ := ring_tsk_insert tsk (priv_rdy_remove_links R t) t _ r1 r2 r3 hidle
  refine ⟨q1, fun w hw => q2 w ?_, q3, fun x => ?_⟩
  · have hlt : (l.filter (fun n => decide (n ≠ t))).length < l.length := by
      have hsub : (l.filter (fun n => decide (n ≠ t))).Sublist l := List.filter_sublist l
      rcases Nat.lt_or_ge (l.filter (fun n => decide (n ≠ t))).length l.length with h | h
      · exact h
      · have := hsub.eq_of_length_le h
        exact absurd ht (by rw [← this]; exact not_mem_filter_ne t l)
    omega
  · rw [mem_priv_rdy_insert, List.mem_filter]
    constructor
    · rintro (h | h)
      · rw [h]; exact ht
      · exact h.1
    · intro h
      by_cases hx : x = t
      · exact Or.inl hx
      · exact Or.inr ⟨h, by simpa using hx⟩

theorem inv_frame (s S : Kernel) (R : Ring) (hinv : rdy_inv s R) (hr : S.ready = s.ready)
    (ht : ∀ x, (S.tsk x).id = (s.tsk x).id ∧ (S.tsk x).mtx_tree = (s.tsk x).mtx_tree)
    (hp : (S.tsk IDLE).prio = 0) : rdy_inv S R := by
  obtain ⟨i1, i2, i3, i4, i5, i6⟩ := hinv
  exact ⟨by rw [hr]; exact i1, by rw [hr]; exact i2, hp, by rw [(ht IDLE).1]; exact i4,
    fun x => by rw [(ht x).1, hr]; exact i5 x, fun x => by rw [(ht x).2]; exact i6 x⟩

theorem rotate_inv (cfg : Config) (s X : Kernel) (R : Ring) (w : Nat) (R' : Ring)
    (hinv : rdy_inv s R) (hr : X.ready = s.ready)
    (ht : ∀ x, (X.tsk x).id = (s.tsk x).id ∧ (X.tsk x).mtx_tree = (s.tsk x).mtx_tree ∧
      (X.tsk x).prio = (s.tsk x).prio)
    (hR : priv_tsk_insert_links w s.tsk (priv_rdy_remove_links R (R.next IDLE)) (R.next IDLE) =
      some R') :
    rdy_inv (tsk_rotate cfg X (R.next IDLE)) R' ∧
    (tsk_rotate cfg X (R.next IDLE)).cur = R'.next IDLE := by
  obtain ⟨i1, i2, i3, i4, i5, i6⟩ := hinv
  have hnext := seg_head R IDLE IDLE s.ready i1
  cases hl : s.ready with
  | nil =>
    rw [hl] at hnext i1
    simp only [List.headD_nil] at hnext
    rw [hnext] at hR ⊢
    have hp0 : ¬ (s.tsk IDLE).prio ≠ 0 := by rw [i3]; simp
    simp only [priv_tsk_insert_links, if_neg hp0, Option.some.injEq] at hR
    have hring' : is_ring R' IDLE [] := by
      rw [← hR]
      have h1 : R.next IDLE = IDLE := i1.1
      have h2 : R.prev IDLE = IDLE := i1.2
      simp [is_ring, is_seg, priv_rdy_insert_links, priv_rdy_remove_links, h1, h2]
    obtain ⟨Y, hY⟩ : ∃ Y : Kernel, Y =
        (if cfg.robin && !cfg.hw_timer then X.setTsk IDLE { X.tsk IDLE with slice := 0 }
          else X) := ⟨_, rfl⟩
    have e : tsk_rotate cfg X IDLE = { Y with cur := IDLE_next Y } := by
      rw [hY]; simp [tsk_rotate]
    have hYr : Y.ready = [] := by
      rw [hY]; split
      · show X.ready = []; rw [hr, hl]
      · rw [hr, hl]
    have hYt : ∀ x, (Y.tsk x).id = (s.tsk x).id ∧ (Y.tsk x).mtx_tree = (s.tsk x).mtx_tree ∧
        (Y.tsk x).prio = (s.tsk x).prio := by
      intro x
      rw [hY]; split
      · by_cases h : x = IDLE
        · subst h; simpa [Kernel.setTsk, upd] using ht IDLE
        · simpa [Kernel.setTsk, upd, h] using ht x
      · exact ht x
    rw [e]
    refine ⟨⟨by show is_ring R' IDLE Y.ready; rw [hYr]; exact hring',
      by show (IDLE :: Y.ready).Nodup; rw [hYr]; simp,
      by show (Y.tsk IDLE).prio = 0; rw [(hYt IDLE).2.2]; exact i3,
      by show (Y.tsk IDLE).id = tid_t.ID_IDLE; rw [(hYt IDLE).1]; exact i4,
      fun x => by
        show (Y.tsk x).id = tid_t.ID_READY ↔ x ∈ Y.ready
        rw [(hYt x).1, hYr, i5 x, hl],
      fun x => by
        show (Y.tsk x).mtx_tree ≠ some IDLE
        rw [(hYt x).2.1]; exact i6 x⟩, ?_⟩
    show IDLE_next Y = R'.next IDLE
    rw [IDLE_next, hYr]
    exact hring'.1.symm
  | cons c l =>
    rw [hl] at hnext
    simp only [List.headD_cons] at hnext
    rw [hnext] at hR ⊢
    have hcI : c ≠ IDLE := by
      intro e
      rw [hl] at i2
      exact (List.nodup_cons.mp i2).1 (by rw [e]; exact List.mem_cons_self _ _)
    have hcm : c ∈ s.ready := by rw [hl]; exact List.mem_cons_self _ _
    obtain ⟨q1, _, q3, q4⟩ := ring_relink s.tsk R c s.ready i1 i2 hcm i3
    obtain ⟨Y, hY⟩ : ∃ Y : Kernel, Y = priv_tsk_insert cfg (priv_tsk_remove X c) c := ⟨_, rfl⟩
    have e : tsk_rotate cfg X c = { Y with cur := IDLE_next Y } := by
      rw [hY]; simp [tsk_rotate, hcI]
    obtain ⟨f1, f2, _⟩ := priv_tsk_insert_facts cfg (priv_tsk_remove X c) c
    have hXt : (priv_tsk_remove X c).tsk = X.tsk := rfl
    have hXr : (priv_tsk_remove X c).ready = s.ready.filter (fun n => decide (n ≠ c)) := by
      show X.ready.filter (fun n => decide (n ≠ c)) = _
      rw [hr]
    have hYr : Y.ready = priv_rdy_insert c
        (if (s.tsk c).prio ≠ 0 then
          tsk_walk s.tsk (s.tsk c).prio (s.ready.filter (fun n => decide (n ≠ c))) else none)
        (s.ready.filter (fun n => decide (n ≠ c))) := by
      rw [hY, f1, hXt, hXr, (ht c).2.2, tsk_walk_congr X.tsk s.tsk _ _ (fun n => (ht n).2.2)]
    have hYt : ∀ x, (Y.tsk x).id = (s.tsk x).id ∧ (Y.tsk x).mtx_tree = (s.tsk x).mtx_tree ∧
        (Y.tsk x).prio = (s.tsk x).prio := by
      intro x
      rw [hY, (f2 x).1, (f2 x).2.1, (f2 x).2.2, hXt]
      exact ht x
    have hring' : is_ring R' IDLE Y.ready := by rw [hYr]; exact q1 w R' hR
    rw [e]
    refine ⟨⟨hring', by show (IDLE :: Y.ready).Nodup; rw [hYr]; exact q3,
      by show (Y.tsk IDLE).prio = 0; rw [(hYt IDLE).2.2]; exact i3,
      by show (Y.tsk IDLE).id = tid_t.ID_IDLE; rw [(hYt IDLE).1]; exact i4,
      fun x => by
        show (Y.tsk x).id = tid_t.ID_READY ↔ x ∈ Y.ready
        rw [(hYt x).1, hYr, q4 x]; exact i5 x,
      fun x => by
        show (Y.tsk x).mtx_tree ≠ some IDLE
        rw [(hYt x).2.1]; exact i6 x⟩, ?_⟩
    show IDLE_next Y = R'.next IDLE
    rw [IDLE_next, seg_head R' IDLE IDLE Y.ready hring']

theorem inv_handler (cfg : Config) (s : Kernel) (R : Ring) (w : Nat) (R' : Ring)
    (hinv : rdy_inv s R) (hR : core_tsk_handler_links cfg w s R = some R') :
    rdy_inv (core_tsk_handler cfg s) R' ∧ (core_tsk_handler cfg s).cur = R'.next IDLE := by
  have hnext : IDLE_next s = R.next IDLE := by
    rw [IDLE_next, seg_head R IDLE IDLE s.ready hinv.1]
  obtain ⟨s0, hs0⟩ : ∃ s0 : Kernel, s0 = { s with ctx_switch := false } := ⟨_, rfl⟩
  have e : core_tsk_handler cfg s =
      if s.cur = R.next IDLE then tsk_rotate cfg s0 (R.next IDLE)
      else if (cfg.robin && !cfg.hw_timer) &&
          decide ((s.tsk (R.next IDLE)).slice ≥ cfg.slice_max) then
        tsk_rotate cfg (s0.setTsk (R.next IDLE) { s0.tsk (R.next IDLE) with slice := 0 })
          (R.next IDLE)
      else { s0 with cur := R.next IDLE } := by
    rw [← hnext, hs0]; rfl
  rw [e]
  unfold core_tsk_handler_links at hR
  by_cases h1 : s.cur = R.next IDLE
  · rw [if_pos h1] at hR ⊢
    exact rotate_inv cfg s s0 R w R' hinv (by rw [hs0])
      (fun x => by rw [hs0]; exact ⟨rfl, rfl, rfl⟩) hR
  · rw [if_neg h1] at hR ⊢
    by_cases h2 : ((cfg.robin && !cfg.hw_timer) &&
        decide ((s.tsk (R.next IDLE)).slice ≥ cfg.slice_max)) = true
    · rw [if_pos h2] at hR ⊢
      refine rotate_inv cfg s _ R w R' hinv (by rw [hs0]; rfl) (fun x => ?_) hR
      rw [hs0]
      by_cases hx : x = R.next IDLE
      · rw [hx]; simp [Kernel.setTsk, upd]
      · simp [Kernel.setTsk, upd, hx]
    · rw [if_neg h2] at hR ⊢
      simp only [Option.some.injEq] at hR
      subst hR
      refine ⟨inv_frame s _ R hinv (by rw [hs0]) (fun x => by rw [hs0]; exact ⟨rfl, rfl⟩)
        (by rw [hs0]; exact hinv.2.2.1), rfl⟩

theorem handler_links_progress (cfg : Config) (s : Kernel) (R : Ring) (w : Nat)
    (hinv : rdy_inv s R) (hw : s.ready.length < w) :
    ∃ R', core_tsk_handler_links cfg w s R = some R' := by
  obtain ⟨i1, i2, i3, _, _, _⟩ := hinv
  have hnext := seg_head R IDLE IDLE s.ready i1
  have hrot : ∃ R', priv_tsk_insert_links w s.tsk (priv_rdy_remove_links R (R.next IDLE))
      (R.next IDLE) = some R' := by
    cases hl : s.ready with
    | nil =>
      rw [hl] at hnext
      simp only [List.headD_nil] at hnext
      rw [hnext]
      have hp0 : ¬ (s.tsk IDLE).prio ≠ 0 := by rw [i3]; simp
      simp only [priv_tsk_insert_links, if_neg hp0]
      exact ⟨_, rfl⟩
    | cons c l =>
      rw [hl] at hnext
      simp only [List.headD_cons] at hnext
      rw [hnext]
      have hcm : c ∈ s.ready := by rw [hl]; exact List.mem_cons_self _ _
      exact (ring_relink s.tsk R c s.ready i1 i2 hcm i3).2.1 w (by omega)
  unfold core_tsk_handler_links
  split
  · exact hrot
  · split
    · exact hrot
    · exact ⟨_, rfl⟩

theorem transfer_rdy_facts (s : Kernel) (x que : Nat) :
    (core_tsk_transfer s x que).ready = s.ready ∧
    ∀ t, ((core_tsk_transfer s x que).tsk t).id = (s.tsk t).id ∧
      ((core_tsk_transfer s x que).tsk t).mtx_tree = (s.tsk t).mtx_tree ∧
      ((core_tsk_transfer s x que).tsk t).prio = (s.tsk t).prio := by
  refine ⟨rfl, fun t => ?_⟩
  by_cases h : t = x
  · subst h
    simp [core_tsk_transfer, core_tsk_append, core_tsk_unlink, Kernel.setTsk, upd]
  · simp [core_tsk_transfer, core_tsk_append, core_tsk_unlink, Kernel.setTsk, upd, h]

theorem inv_setprio (s : Kernel) (R : Ring) (t p : Nat) (hinv : rdy_inv s R) (ht : t ≠ IDLE) :
    rdy_inv (s.setTsk t { s.tsk t with prio := p }) R := by
  refine inv_frame s _ R hinv rfl (fun x => ?_) ?_
  · by_cases h : x = t
    · subst h; simp [Kernel.setTsk, upd]
    · simp [Kernel.setTsk, upd, h]
  · simp only [Kernel.setTsk]
    rw [upd_other _ _ _ _ (Ne.symm ht)]
    exact hinv.2.2.1

theorem inv_prio (cfg : Config) (w : Nat) (fuel : Nat) :
    ∀ (s : Kernel) (R : Ring) (t p : Nat) (R' : Ring), rdy_inv s R → t ≠ IDLE →
      core_tsk_prio_links cfg w fuel s R t p = some R' →
      rdy_inv (core_tsk_prio cfg fuel s t p) R' := by
  induction fuel with
  | zero =>
    intro s R t p R' hinv _ hR
    simp only [core_tsk_prio_links, Option.some.injEq] at hR
    subst hR
    exact hinv
  | succ n ih =>
    intro s R t p R' hinv ht hR
    obtain ⟨P, hP⟩ : ∃ P, P = inherited_prio s t p := ⟨_, rfl⟩
    obtain ⟨s1, hs1⟩ : ∃ s1 : Kernel, s1 = s.setTsk t { s.tsk t with prio := P } := ⟨_, rfl⟩
    obtain ⟨s2, hs2⟩ : ∃ s2 : Kernel, s2 = (match (s1.tsk t).guard with
        | some que => core_tsk_transfer s1 t que
        | none => s1) := ⟨_, rfl⟩
    have hstep : core_tsk_prio cfg (n + 1) s t p =
        if (s.tsk t).prio ≠ P then
          if t = s1.cur then
            if (s1.tsk (sub_next s1 t)).prio > P then port_ctx_switch s1 else s1
          else if (s1.tsk t).id = tid_t.ID_READY then
            core_tsk_insert cfg (priv_tsk_remove s1 t) t
          else if (s1.tsk t).id = tid_t.ID_DELAYED then
            match (s2.tsk t).mtx_tree with
            | some owner => core_tsk_prio cfg n s2 owner P
            | none => s2
          else s1
        else s := by
      rw [hs2, hs1, hP]; rfl
    have hlink : core_tsk_prio_links cfg w (n + 1) s R t p =
        if (s.tsk t).prio ≠ P then
          if t = s1.cur then some R
          else if (s1.tsk t).id = tid_t.ID_READY then
            priv_tsk_insert_links w s1.tsk (priv_rdy_remove_links R t) t
          else if (s1.tsk t).id = tid_t.ID_DELAYED then
            match (s2.tsk t).mtx_tree with
            | some owner => core_tsk_prio_links cfg w n s2 R owner P
            | none => some R
          else some R
        else some R := by
      rw [hs2, hs1, hP]; rfl
    rw [hlink] at hR
    rw [hstep]
    have hinv1 : rdy_inv s1 R := by rw [hs1]; exact inv_setprio s R t P hinv ht
    by_cases hchg : (s.tsk t).prio ≠ P
    · rw [if_pos hchg] at hR ⊢
      by_cases hcur : t = s1.cur
      · rw [if_pos hcur] at hR ⊢
        simp only [Option.some.injEq] at hR
        subst hR
        split
        · exact inv_frame s1 _ R hinv1 rfl (fun x => ⟨rfl, rfl⟩) hinv1.2.2.1
        · exact hinv1
      · rw [if_neg hcur] at hR ⊢
        by_cases hrd : (s1.tsk t).id = tid_t.ID_READY
        · rw [if_pos hrd] at hR ⊢
          obtain ⟨i1, i2, i3, i4, i5, i6⟩ := hinv1
          have htm : t ∈ s1.ready := (i5 t).mp hrd
          obtain ⟨q1, _, q3, q4⟩ := ring_relink s1.tsk R t s1.ready i1 i2 htm i3
          obtain ⟨f1, f2, f3, f4, _⟩ := core_tsk_insert_facts cfg (priv_tsk_remove s1 t) t
          have hXt : (priv_tsk_remove s1 t).tsk = s1.tsk := rfl
          have hXr : (priv_tsk_remove s1 t).ready =
              s1.ready.filter (fun n => decide (n ≠ t)) := rfl
          rw [hXt, hXr] at f1
          refine ⟨by rw [f1]; exact q1 w R' hR, by rw [f1]; exact q3,
            by rw [(f2 IDLE).1, hXt]; exact i3,
            by rw [f3 IDLE (Ne.symm ht), hXt]; exact i4, fun x => ?_,
            fun x => by rw [(f2 x).2, hXt]; exact i6 x⟩
          rw [f1, q4 x]
          by_cases hx : x = t
          · subst hx; rw [f4]; exact ⟨fun _ => htm, fun _ => rfl⟩
          · rw [f3 x hx, hXt]; exact i5 x
        · rw [if_neg hrd] at hR ⊢
          by_cases hdl : (s1.tsk t).id = tid_t.ID_DELAYED
          · rw [if_pos hdl] at hR ⊢
            have hinv2 : rdy_inv s2 R := by
              rw [hs2]
              cases hg : (s1.tsk t).guard with
              | none => exact hinv1
              | some que =>
                obtain ⟨g1, g2⟩ := transfer_rdy_facts s1 t que
                exact inv_frame s1 _ R hinv1 g1 (fun x => ⟨(g2 x).1, (g2 x).2.1⟩)
                  (by rw [(g2 IDLE).2.2]; exact hinv1.2.2.1)
            cases ho : (s2.tsk t).mtx_tree with
            | none =>
              rw [ho] at hR
              simp only [Option.some.injEq] at hR
              subst hR
              exact hinv2
            | some owner =>
              rw [ho] at hR
              have hoI : owner ≠ IDLE := by
                intro e
                exact hinv2.2.2.2.2.2 t (by rw [ho, e])
              exact ih s2 R owner P R' hinv2 hoI hR
          · rw [if_neg hdl] at hR ⊢
            simp only [Option.some.injEq] at hR
            subst hR
            exact hinv1
    · rw [if_neg hchg] at hR ⊢
      simp only [Option.some.injEq] at hR
      subst hR
      exact hinv

theorem inv_cur_prio (s : Kernel) (R : Ring) (p : Nat) (hinv : rdy_inv s R)
    (hcur : s.cur ≠ IDLE) : rdy_inv (core_cur_prio s p) R := by
  obtain ⟨s1, hs1⟩ : ∃ s1 : Kernel,
    s1 = s.setTsk s.cur { s.tsk s.cur with prio := inherited_prio s s.cur p } := ⟨_, rfl⟩
  have e : core_cur_prio s p =
      if (s.tsk s.cur).prio ≠ inherited_prio s s.cur p then
        if (s1.tsk (sub_next s1 s.cur)).prio > inherited_prio s s.cur p then port_ctx_switch s1
        else s1
      else s := by
    rw [hs1]; rfl
  have hinv1 : rdy_inv s1 R := by rw [hs1]; exact inv_setprio s R s.cur _ hinv hcur
  rw [e]
  split
  · split
    · exact inv_frame s1 _ R hinv1 rfl (fun x => ⟨rfl, rfl⟩) hinv1.2.2.1
    · exact hinv1
  · exact hinv

theorem reach_inv (cfg : Config) (s : Kernel) (R : Ring) (h : rdy_reach cfg s R) :
    rdy_inv s R := by
  induction h with
  | init s R h1 h2 h3 h4 h5 h6 =>
    refine ⟨by rw [h1]; exact h2, ?_, h3, h4, fun t => by rw [h1, h5 t]; simp, h6⟩
    rw [h1]
    have : MAIN ≠ IDLE := by decide
    simp [this.symm]
  | insert s R t w R' _ ht hid hR ih => exact inv_insert cfg s R t w R' ih ht hid hR
  | remove s R t _ hid ih => exact inv_remove s R t ih hid
  | prio s R t p fuel w R' _ ht hR ih => exact inv_prio cfg w fuel s R t p R' ih ht hR
  | cur_prio s R p _ hc ih => exact inv_cur_prio s R p ih hc
  | handler s R w R' _ hR ih => exact (inv_handler cfg s R w R' ih hR).1

/-- C29.  In every state reachable from the initial ready list of `MAIN` and `IDLE` by
`core_tsk_insert` of tasks that are not ready, `core_tsk_remove` of ready tasks, priority
changes of tasks other than `IDLE` and `core_tsk_handler`, the links of the ready list make
up a well-formed circular list in which the `IDLE` task is linked, followed by the tasks of
the ready list, each of them once: the list is never empty.  `core_tsk_handler` ends, its
loop running through the ready list once at most, and sets `System.cur` to the node behind
`IDLE` in the list it leaves, a task of the ready list or `IDLE` itself; `core_tsk_insert`
of a task that is not ready ends as well. -/
theorem idle_sentinel (cfg : Config) (s : Kernel) (R : Ring) (h : rdy_reach cfg s R) :
    is_ring R IDLE s.ready ∧ (IDLE :: s.ready).Nodup ∧
    (∀ x, x ∈ IDLE :: s.ready → R.prev (R.next x) = x ∧ R.next (R.prev x) = x) ∧
    (s.tsk IDLE).prio = 0 ∧ (s.tsk IDLE).id = tid_t.ID_IDLE ∧
    (∀ t, (s.tsk t).id = tid_t.ID_READY ↔ t ∈ s.ready) ∧
    (∀ w, s.ready.length < w → ∃ R', core_tsk_handler_links cfg w s R = some R') ∧
    (∀ w R', core_tsk_handler_links cfg w s R = some R' →
      is_ring R' IDLE (core_tsk_handler cfg s).ready ∧
      (core_tsk_handler cfg s).cur = R'.next IDLE ∧
      (core_tsk_handler cfg s).cur ∈ IDLE :: (core_tsk_handler cfg s).ready) ∧
    (∀ t w, t ≠ IDLE → (s.tsk t).id ≠ tid_t.ID_READY → s.ready.length < w →
      ∃ R', priv_tsk_insert_links w s.tsk R t = some R') := by
  have hinv := reach_inv cfg s R h
  obtain ⟨i1, i2, i3, i4, i5, i6⟩ := hinv
  obtain ⟨w1, w2, w3⟩ := seg_wf R s.ready IDLE IDLE i1
  refine ⟨i1, i2, ?_, i3, i4, i5,
    fun w hw => handler_links_progress cfg s R w ⟨i1, i2, i3, i4, i5, i6⟩ hw, ?_, ?_⟩
  · intro x hx
    rcases List.mem_cons.mp hx with hx | hx
    · rw [hx]; exact ⟨w2, w3⟩
    · exact w1 x hx
  · intro w R' hR
    obtain ⟨j, hc⟩ := inv_handler cfg s R w R' ⟨i1, i2, i3, i4, i5, i6⟩ hR
    refine ⟨j.1, hc, ?_⟩
    rw [hc]
    have := seg_next_mem R' (core_tsk_handler cfg s).ready IDLE IDLE j.1 IDLE
      (List.mem_cons_self _ _)
    rcases List.mem_append.mp this with h1 | h1
    · exact List.mem_cons_of_mem _ h1
    · rw [List.mem_singleton.mp h1]; exact List.mem_cons_self _ _
  · intro t w ht hid hw
    have htl : t ∉ IDLE :: s.ready := fun hm => by
      rcases List.mem_cons.mp hm with hm | hm
      · exact ht hm
      · exact hid ((i5 t).mpr hm)
    exact (ring_tsk_insert s.tsk R t s.ready i1 i2 htl i3).2.1 w hw

theorem ex_start_reach :
    rdy_reach cfg32 (core_tsk_insert cfg32 ex_start 7) (priv_rdy_insert_links ex_ring 7 MAIN) := by
  refine rdy_reach.insert ex_start ex_ring 7 2 _ ?_ (by decide) (by decide) rfl
  refine rdy_reach.init ex_start ex_ring (by decide) (by decide) (by decide) (by decide) ?_ ?_
  · intro t
    by_cases h7 : t = 7
    · subst h7; decide
    · by_cases hM : t = MAIN
      · subst hM; decide
      · by_cases hI : t = IDLE
        · subst hI; decide
        · by_cases hW : t = WAIT
          · subst hW; decide
          · simp [ex_start, boot, Kernel.setTsk, upd, h7, hM, hI, hW, tsk_zero]
  · intro t
    by_cases h7 : t = 7
    · subst h7; decide
    · by_cases hM : t = MAIN
      · subst hM; decide
      · by_cases hI : t = IDLE
        · subst hI; decide
        · by_cases hW : t = WAIT
          · subst hW; decide
          · simp [ex_start, boot, Kernel.setTsk, upd, h7, hM, hI, hW, tsk_zero]

/-- Witness of C29: after `core_tsk_insert` of the task 7 of priority 5 in the boot state,
the circular list of `IDLE` is the list of the task 7 and `MAIN`. -/
theorem idle_sentinel_witness :
    is_ring (priv_rdy_insert_links ex_ring 7 MAIN) IDLE [7, MAIN] ∧
    (core_tsk_insert cfg32 ex_start 7).ready = [7, MAIN] :=
  ⟨(idle_sentinel cfg32 (core_tsk_insert cfg32 ex_start 7)
      (priv_rdy_insert_links ex_ring 7 MAIN) ex_start_reach).1, by decide⟩


/-! ### C27: the invariant of the message queue -/

theorem msg_inv_frame (cfg : Config) (msg limit : Nat) (s S : Kernel)
    (hinv : msg_inv cfg msg limit s) (hm : S.msg msg = s.msg msg)
    (hq : (S.queue msg).Sublist (s.queue msg))
    (ht : ∀ t, t ∈ S.queue msg → (S.tsk t).evt_size = (s.tsk t).evt_size) :
    msg_inv cfg msg limit S := by
  obtain ⟨i1, i2, i3, i4, i5⟩ := hinv
  refine ⟨by rw [hm]; exact i1, by rw [hm]; exact i2, by rw [hm]; exact i3, i4.sublist hq, ?_⟩
  rw [hm]
  intro hc t htq
  rw [ht t htq]
  exact i5 hc t (hq.subset htq)

theorem push_body_msg (cfg : Config) (s1 : Kernel) (msg q S : Nat) (frame : List Nat)
    (hwf : msg_wf cfg (s1.msg msg)) (hring : ring (s1.msg msg) = frame)
    (hsize : (s1.msg msg).size = S) (hlen : frame.length = S) :
    msg_wf cfg ((priv_msg_putUpdate_body cfg s1 msg q).msg msg) ∧
    ((priv_msg_putUpdate_body cfg s1 msg q).msg msg).limit = (s1.msg msg).limit ∧
    framed cfg ((priv_msg_putUpdate_body cfg s1 msg q).msg msg) [] := by
  have hcount : (s1.msg msg).count = S := by rw [← ring_length, hring, hlen]
  obtain ⟨w3, t3, r3, c3, z3, l3⟩ := getn_wf cfg S (s1.msg msg) hwf (by rw [hcount])
  obtain ⟨m3, hm3⟩ : ∃ m3 : msg_t, m3 = (msg_getn cfg S (s1.msg msg)).2 := ⟨_, rfl⟩
  rw [← hm3] at w3 r3 c3 z3 l3
  rw [hcount, Nat.sub_self] at c3
  have hb : (priv_msg_putUpdate_body cfg s1 msg q).msg msg = { m3 with size := 0 } := by
    unfold priv_msg_putUpdate_body
    simp only [wakeup_msg]
    simp only [priv_msg_getSize, priv_msg_get, Kernel.setTsk, Kernel.setMsg, upd_same, hsize,
      ← hm3, c3, if_true]
  rw [hb]
  refine ⟨w3, l3, ?_, rfl⟩
  show ring { m3 with size := 0 } = stream cfg []
  have : ring { m3 with size := 0 } = ring m3 := rfl
  rw [this, r3, hring, List.drop_of_length_le (by omega)]
  rfl

theorem inv_transmit (cfg : Config) (msg limit : Nat) (s : Kernel) (data size : Nat)
    (hinv : msg_inv cfg msg limit s) (hs : 1 ≤ size) (hsl : size ≤ (s.msg msg).limit)
    (hsp : size ≤ priv_msg_space cfg s msg) (hw : 2 * limit + cfg.usz < UMOD cfg) :
    msg_inv cfg msg limit (msg_transmit cfg s msg data size) := by
  obtain ⟨i1, i2, ⟨fs, hfr, hne⟩, i4, i5⟩ := hinv
  have hcount := framed_count cfg _ fs hfr
  have hemp := (framed_empty cfg _ fs hfr hne).1
  have hcl : (s.msg msg).count ≤ (s.msg msg).limit := i1.2.2.1
  have hcase : (fs = [] ∧ size ≤ (s.msg msg).limit) ∨
      ((s.queue msg = [] ∧ (stream cfg fs).length + size + cfg.usz ≤ (s.msg msg).limit)) := by
    by_cases hc : (s.msg msg).count = 0
    · exact Or.inl ⟨hemp.mp hc, hsl⟩
    · right
      have hpos : 0 < (s.msg msg).count := Nat.pos_of_ne_zero hc
      by_cases hq : s.queue msg = []
      · by_cases hlt : (s.msg msg).count + cfg.usz < (s.msg msg).limit
        · have := (priv_msg_space_cases cfg s msg).2.1 hpos hq hlt i1.1
          unfold msg_space at this
          rw [this] at hsp
          exact ⟨hq, by rw [← hcount]; omega⟩
        · have := (priv_msg_space_cases cfg s msg).2.2 hpos
            (Or.inr ⟨by omega, by rw [i2] at hcl; omega⟩)
          unfold msg_space at this
          rw [this] at hsp
          omega
      · have := (priv_msg_space_cases cfg s msg).2.2 hpos (Or.inl hq)
        unfold msg_space at this
        rw [this] at hsp
        omega
  obtain ⟨m', e1, w1, f1, l1⟩ := put_frame cfg s msg data size fs i1 hfr hne hs
    (hcase.imp id (fun h => h.2))
  have hne' : ∀ f, f ∈ fs ++ [load s.mem data size] → 1 ≤ f.length := by
    intro f hf
    rcases List.mem_append.mp hf with h | h
    · exact hne f h
    · rw [List.mem_singleton.mp h, load_length]; exact hs
  obtain ⟨S2, hS2⟩ : ∃ S2 : Kernel, S2 = s.setMsg msg m' := ⟨_, rfl⟩
  have e : msg_transmit cfg s msg data size = priv_msg_putUpdate cfg S2 msg := by
    unfold msg_transmit
    simp only []
    rw [e1, hS2]
  have hS2m : S2.msg msg = m' := by rw [hS2]; simp [Kernel.setMsg]
  have hS2q : S2.queue = s.queue := by rw [hS2]; rfl
  have hS2t : S2.tsk = s.tsk := by rw [hS2]; rfl
  rw [e]
  by_cases hq : s.queue msg = []
  · rw [putUpdate_idle cfg S2 msg (by rw [hS2q]; exact hq)]
    refine ⟨by rw [hS2m]; exact w1, by rw [hS2m, l1]; exact i2,
      ⟨_, by rw [hS2m]; exact f1, hne'⟩, by rw [hS2q]; exact i4, ?_⟩
    intro _ t ht
    rw [hS2q, hq] at ht
    cases ht
  · have hfs : fs = [] := by
      rcases hcase with h | h
      · exact h.1
      · exact absurd h.1 hq
    subst hfs
    have hring : ring m' = load s.mem data size := by
      rw [f1.1]; simp [stream, tail_stream]
    have hsize : m'.size = size := by
      rw [f1.2]; simp [load_length]
    obtain ⟨p1, p2, _, _, _, _, _, _⟩ := putUpdate_loop_spec cfg msg (s.queue msg)
      (S2.queue msg).length S2 (by rw [hS2q]) i4 (by rw [hS2q])
    rw [putUpdate_unfold]
    cases hd : ((priv_msg_putUpdate_loop cfg msg (S2.queue msg).length S2).queue msg).head? with
    | none =>
      simp only []
      have hqe : (priv_msg_putUpdate_loop cfg msg (S2.queue msg).length S2).queue msg = [] :=
        List.head?_eq_none_iff.mp hd
      refine ⟨by rw [p2, hS2m]; exact w1, by rw [p2, hS2m, l1]; exact i2,
        ⟨_, by rw [p2, hS2m]; exact f1, hne'⟩, by rw [hqe]; simp, ?_⟩
      intro _ t ht
      rw [hqe] at ht
      cases ht
    | some q =>
      simp only []
      obtain ⟨L, hL⟩ : ∃ L : Kernel,
        L = priv_msg_putUpdate_loop cfg msg (S2.queue msg).length S2 := ⟨_, rfl⟩
      rw [← hL] at hd p1 p2 ⊢
      have hLm : L.msg msg = m' := by rw [p2, hS2m]
      obtain ⟨qs, hqs⟩ : ∃ qs, L.queue msg = q :: qs := by
        cases hlq : L.queue msg with
        | nil => rw [hlq] at hd; cases hd
        | cons a b =>
          rw [hlq] at hd
          simp only [List.head?_cons, Option.some.injEq] at hd
          exact ⟨b, by rw [hd]⟩
      have hsub : (L.queue msg).Sublist (s.queue msg) := by
        rw [p1]; exact List.dropWhile_sublist _
      have hndL : (L.queue msg).Nodup := i4.sublist hsub
      obtain ⟨b1, b2, b3⟩ := push_body_msg cfg L msg q size (load s.mem data size)
        (by rw [hLm]; exact w1) (by rw [hLm]; exact hring) (by rw [hLm]; exact hsize)
        (load_length _ _ _)
      have b4 := (push_body cfg L msg q size qs (load s.mem data size) hqs
        (by rw [← hqs]; exact hndL) (by rw [hLm]; exact w1) (by rw [hLm]; exact hring)
        (by rw [hLm]; exact hsize) (load_length _ _ _))
      refine ⟨b1, by rw [b2, hLm, l1]; exact i2, ⟨[], b3, fun f hf => by cases hf⟩, ?_, ?_⟩
      · rw [b4.1]
        rw [hqs] at hndL
        exact (List.nodup_cons.mp hndL).2
      · intro hc
        exact absurd b4.2.2.2.2.1 hc

theorem insert_perm (t : Nat) (nxt : Option Nat) (l : List Nat) :
    (priv_rdy_insert t nxt l).Perm (t :: l) := by
  induction l with
  | nil =>
    cases nxt with
    | none => simp [priv_rdy_insert]
    | some n => simp [priv_rdy_insert]
  | cons x l ih =>
    cases nxt with
    | none =>
      have : priv_rdy_insert t none (x :: l) = (x :: l) ++ [t] := by simp [priv_rdy_insert]
      rw [this]
      exact List.perm_append_singleton t (x :: l)
    | some n =>
      by_cases h : x = n
      · simp [priv_rdy_insert, h]
      · have : priv_rdy_insert t (some n) (x :: l) = x :: priv_rdy_insert t (some n) l := by
          simp [priv_rdy_insert, h]
        rw [this]
        exact (List.Perm.cons x ih).trans (List.Perm.swap t x l)

theorem wait_msg_facts (cfg : Config) (s : Kernel) (que x : Nat)
    (wait : Kernel → Nat → Nat → Kernel × Option event_t)
    (hwait : wait = core_tsk_waitFor cfg ∨ wait = core_tsk_waitUntil cfg) :
    (wait s que x).1.msg = s.msg ∧
    (∀ t, ((wait s que x).1.tsk t).evt_size = (s.tsk t).evt_size) ∧
    ((wait s que x).1.queue que = s.queue que ∨
      ((wait s que x).1.queue que).Perm (s.cur :: s.queue que)) := by
  obtain ⟨t1, t2, _, _, _, t6, _, _⟩ := core_sys_time_fields cfg s
  have key : ∀ T : Kernel, T.msg = s.msg → T.queue = s.queue →
      (∀ t, (T.tsk t).evt_size = (s.tsk t).evt_size) →
      (priv_tsk_wait cfg T s.cur que true).msg = s.msg ∧
      (∀ t, ((priv_tsk_wait cfg T s.cur que true).tsk t).evt_size = (s.tsk t).evt_size) ∧
      ((priv_tsk_wait cfg T s.cur que true).queue que).Perm (s.cur :: s.queue que) := by
    intro T hm hq he
    obtain ⟨_, w2, _, _, w5, w6, _, _⟩ := priv_tsk_wait_spec cfg T s.cur que true
    refine ⟨by rw [(priv_tsk_wait_fields cfg T s.cur que true).1, hm], fun t => ?_, ?_⟩
    · by_cases h : t = s.cur
      · rw [h, w5]; exact he s.cur
      · rw [w6 t h]; exact he t
    · rw [w2, hq]; exact insert_perm _ _ _
  rcases hwait with h | h
  · subst h
    unfold core_tsk_waitFor
    simp only []
    have hT : ∀ t, (((core_sys_time cfg s).2.setTsk s.cur
        { (core_sys_time cfg s).2.tsk s.cur with
          start := (core_sys_time cfg s).1, delay := x }).tsk t).evt_size =
        (s.tsk t).evt_size := by
      intro t
      by_cases h : t = s.cur
      · subst h; simp [Kernel.setTsk, upd, t1]
      · simp [Kernel.setTsk, upd, h, t1]
    split
    · exact ⟨t6, hT, Or.inl (by show (core_sys_time cfg s).2.queue que = _; rw [t2])⟩
    · obtain ⟨k1, k2, k3⟩ := key _ (show ((core_sys_time cfg s).2.setTsk s.cur _).msg = _ from t6)
        (show ((core_sys_time cfg s).2.setTsk s.cur _).queue = _ from t2) hT
      exact ⟨k1, k2, Or.inr k3⟩
  · subst h
    unfold core_tsk_waitUntil
    simp only []
    have hT : ∀ t, (((core_sys_time cfg s).2.setTsk s.cur
        { (core_sys_time cfg s).2.tsk s.cur with
          start := (core_sys_time cfg s).1,
          delay := (x + CMOD cfg - (core_sys_time cfg s).1 % CMOD cfg) % CMOD cfg }).tsk
            t).evt_size = (s.tsk t).evt_size := by
      intro t
      by_cases h : t = s.cur
      · subst h; simp [Kernel.setTsk, upd, t1]
      · simp [Kernel.setTsk, upd, h, t1]
    split
    · exact ⟨t6, hT, Or.inl (by show (core_sys_time cfg s).2.queue que = _; rw [t2])⟩
    · obtain ⟨k1, k2, k3⟩ := key _ (show ((core_sys_time cfg s).2.setTsk s.cur _).msg = _ from t6)
        (show ((core_sys_time cfg s).2.setTsk s.cur _).queue = _ from t2) hT
      exact ⟨k1, k2, Or.inr k3⟩

theorem inv_block (cfg : Config) (msg limit : Nat) (s s1 : Kernel) (size time : Nat)
    (wait : Kernel → Nat → Nat → Kernel × Option event_t)
    (hwait : wait = core_tsk_waitFor cfg ∨ wait = core_tsk_waitUntil cfg)
    (hinv : msg_inv cfg msg limit s) (hcur : s.cur ∉ s.queue msg)
    (hb : (s.msg msg).count ≠ 0 → 1 ≤ size ∧ size ≤ limit)
    (h1m : s1.msg = s.msg) (h1q : s1.queue = s.queue) (h1c : s1.cur = s.cur)
    (h1o : ∀ t, t ≠ s.cur → s1.tsk t = s.tsk t) (h1e : (s1.tsk s.cur).evt_size = size) :
    msg_inv cfg msg limit (wait s1 msg time).1 := by
  obtain ⟨i1, i2, i3, i4, i5⟩ := hinv
  obtain ⟨w1, w2, w3⟩ := wait_msg_facts cfg s1 msg time wait hwait
  rw [h1m] at w1
  rw [h1q, h1c] at w3
  refine ⟨by rw [w1]; exact i1, by rw [w1]; exact i2, by rw [w1]; exact i3, ?_, ?_⟩
  · rcases w3 with h | h
    · rw [h]; exact i4
    · exact h.nodup_iff.mpr (List.nodup_cons.mpr ⟨hcur, i4⟩)
  · rw [w1]
    intro hc t ht
    have hmem : t = s.cur ∨ t ∈ s.queue msg := by
      rcases w3 with h | h
      · rw [h] at ht; exact Or.inr ht
      · exact List.mem_cons.mp (h.subset ht)
    rw [w2 t]
    rcases hmem with h | h
    · rw [h, h1e]; exact hb hc
    · have hne : t ≠ s.cur := fun e => hcur (e ▸ h)
      rw [h1o t hne]; exact i5 hc t h

theorem inv_take (cfg : Config) (msg limit : Nat) (s : Kernel) (data size : Nat)
    (hinv : msg_inv cfg msg limit s) (hw : 2 * limit + cfg.usz < UMOD cfg) :
    msg_inv cfg msg limit (msg_take cfg s msg data size).1 := by
  by_cases h : size > 0 ∧ (s.msg msg).size > 0 ∧ size ≥ (s.msg msg).size
  · obtain ⟨i1, i2, ⟨fs, hfr, hne⟩, i4, i5⟩ := hinv
    cases fs with
    | nil =>
      have := hfr.2
      simp only [] at this
      omega
    | cons f rest =>
      have hfl : f.length = (s.msg msg).size := hfr.2.symm
      obtain ⟨r1, m2, r2, r3, r4, r5⟩ := receive_head cfg s msg data size f rest i1 hfr hne
        (by omega)
      obtain ⟨S, hS⟩ : ∃ S : Kernel,
        S = { s with msg := upd s.msg msg m2, mem := store s.mem data f } := ⟨_, rfl⟩
      rw [r1, r2, ← hS]
      have hSm : S.msg msg = m2 := by rw [hS]; simp
      have hSq : S.queue = s.queue := by rw [hS]
      have hSt : S.tsk = s.tsk := by rw [hS]
      have hcount : (s.msg msg).count ≠ 0 := by
        have := framed_count cfg _ _ hfr
        have h1 := frame_le_stream cfg (f :: rest) f (List.mem_cons_self _ _)
        omega
      have hsnd := i5 hcount
      obtain ⟨k, g1, g2, g3, g4, g5, _, _, _, _, g10, _⟩ := getUpdate_loop_spec cfg msg
        (s.queue msg) (S.queue msg).length S rest (by rw [hSq]) i4 (by rw [hSq])
        (by rw [hSm]; exact r3) (by rw [hSm]; exact r4)
        (fun g hg => hne g (List.mem_cons_of_mem _ hg))
        (fun t ht => by rw [hSt, hSm, r5, i2]; exact hsnd t ht)
        (by rw [hSm, r5, i2]; exact hw)
      show msg_inv cfg msg limit (priv_msg_getUpdate_loop cfg msg (S.queue msg).length S)
      refine ⟨g3, by rw [g5, hSm, r5]; exact i2, ⟨_, g4, ?_⟩, ?_, ?_⟩
      · intro g hg
        rcases List.mem_append.mp hg with h1 | h1
        · exact hne g (List.mem_cons_of_mem _ h1)
        · obtain ⟨t, ht, e⟩ := List.mem_map.mp h1
          rw [← e]
          unfold sender_frame
          rw [load_length, hSt]
          exact (hsnd t ((List.take_sublist _ _).subset ht)).1
      · rw [g2]; exact i4.sublist (List.drop_sublist _ _)
      · intro _ t ht
        rw [g2] at ht
        have hnt : t ∉ (s.queue msg).take k := by
          intro h1
          have hnd := i4
          rw [← List.take_append_drop k (s.queue msg)] at hnd
          exact (List.nodup_append.mp hnd).2.2 h1 ht
        rw [g10 t hnt, hSt]
        exact hsnd t ((List.drop_sublist _ _).subset ht)
  · have e : msg_take cfg s msg data size = (s, 0) := by
      unfold msg_take msg_receive priv_msg_count
      by_cases h1 : size > 0
      · rw [if_pos h1]
        by_cases h2 : (s.msg msg).size > 0
        · rw [if_pos h2, if_neg (fun h3 => h ⟨h1, h2, h3⟩)]
        · rw [if_neg h2]
      · rw [if_neg h1]
    rw [e]; exact hinv

theorem inv_give (cfg : Config) (msg limit : Nat) (s : Kernel) (data size : Nat)
    (hinv : msg_inv cfg msg limit s) (hw : 2 * limit + cfg.usz < UMOD cfg) :
    msg_inv cfg msg limit (msg_give cfg s msg data size).1 := by
  unfold msg_give
  split
  · rename_i h
    split
    · rename_i h2
      exact inv_transmit cfg msg limit s data size hinv h.1 h.2 h2 hw
    · exact hinv
  · exact hinv

theorem inv_send (cfg : Config) (msg limit : Nat) (s : Kernel) (data size time : Nat)
    (wait : Kernel → Nat → Nat → Kernel × Option event_t)
    (hwait : wait = core_tsk_waitFor cfg ∨ wait = core_tsk_waitUntil cfg)
    (hinv : msg_inv cfg msg limit s) (hcur : s.cur ∉ s.queue msg)
    (hw : 2 * limit + cfg.usz < UMOD cfg) :
    msg_inv cfg msg limit (priv_msg_send cfg s msg data size time wait).1 := by
  unfold priv_msg_send
  split
  · rename_i h
    split
    · rename_i h2
      exact inv_transmit cfg msg limit s data size hinv h.1 h.2 h2 hw
    · have hb := inv_block cfg msg limit s
        (s.setTsk s.cur { s.tsk s.cur with odata := data, evt_size := size }) size time wait
        hwait hinv hcur (fun _ => ⟨h.1, by rw [← hinv.2.1]; exact h.2⟩) rfl rfl rfl
        (fun t ht => by simp [Kernel.setTsk, upd, ht]) (by simp [Kernel.setTsk, upd])
      simp only []
      split <;> exact hb
  · exact hinv

theorem inv_wait (cfg : Config) (msg limit : Nat) (s : Kernel) (data size time : Nat)
    (wait : Kernel → Nat → Nat → Kernel × Option event_t)
    (hwait : wait = core_tsk_waitFor cfg ∨ wait = core_tsk_waitUntil cfg)
    (hinv : msg_inv cfg msg limit s) (hcur : s.cur ∉ s.queue msg)
    (hw : 2 * limit + cfg.usz < UMOD cfg) :
    msg_inv cfg msg limit (priv_msg_wait cfg s msg data size time wait).1 := by
  unfold priv_msg_wait
  split
  · rename_i h
    split
    · rename_i h2
      have e : msg_receive cfg s msg data size = msg_take cfg s msg data size := by
        unfold msg_take
        rw [if_pos h, if_pos h2]
      simp only []
      rw [e]
      exact inv_take cfg msg limit s data size hinv hw
    · rename_i h2
      obtain ⟨fs, hfr, hne⟩ := hinv.2.2.1
      have hc0 : (s.msg msg).count = 0 := by
        have h3 := (framed_empty cfg _ fs hfr hne)
        exact h3.1.mpr (h3.2.mp (by omega))
      have hb := inv_block cfg msg limit s
        (s.setTsk s.cur { s.tsk s.cur with idata := data, evt_size := size }) size time wait
        hwait hinv hcur (fun hc => absurd hc0 hc) rfl rfl rfl
        (fun t ht => by simp [Kernel.setTsk, upd, ht]) (by simp [Kernel.setTsk, upd])
      simp only []
      split <;> exact hb
  · exact hinv

theorem inv_kill (cfg : Config) (msg limit : Nat) (s : Kernel)
    (hinv : msg_inv cfg msg limit s) : msg_inv cfg msg limit (msg_kill cfg s msg) := by
  obtain ⟨i1, i2, _, _, _⟩ := hinv
  obtain ⟨g1, _, _, g4, _, _⟩ := core_all_wakeup_loop_spec cfg msg event_t.E_STOPPED
    ((s.setMsg msg { s.msg msg with count := 0, first := 0, next := 0, size := 0 }).queue
      msg).length
    (s.setMsg msg { s.msg msg with count := 0, first := 0, next := 0, size := 0 }) (le_refl _)
  have hm : (msg_kill cfg s msg).msg msg =
      { s.msg msg with count := 0, first := 0, next := 0, size := 0 } := by
    show (core_all_wakeup_loop cfg msg event_t.E_STOPPED _ _).msg msg = _
    rw [g4]; simp [Kernel.setMsg]
  have hq : (msg_kill cfg s msg).queue msg = [] := g1
  have hl : 0 < (s.msg msg).limit := by
    have := i1.2.1
    omega
  refine ⟨?_, by rw [hm]; exact i2, ⟨[], ?_, fun f hf => by cases hf⟩, by rw [hq]; simp, ?_⟩
  · rw [hm]
    exact ⟨i1.1, hl, Nat.zero_le _, by simp⟩
  · rw [hm]
    exact ⟨by simp [ring, stream], rfl⟩
  · rw [hm]
    intro hc
    exact absurd rfl hc

theorem core_all_wakeup_loop_sublist (cfg : Config) (que : Nat) (e : event_t) (fuel : Nat)
    (s : Kernel) :
    ∀ q, ((core_all_wakeup_loop cfg que e fuel s).queue q).Sublist (s.queue q) := by
  induction fuel generalizing s with
  | zero => intro q; exact List.Sublist.refl _
  | succ n ih =>
    unfold core_all_wakeup_loop
    cases hq : s.queue que with
    | nil => intro q; exact List.Sublist.refl _
    | cons h rest =>
      simp only [List.head?_cons]
      intro q
      have := ih (core_tsk_wakeup cfg s (some h) e).1 q
      rw [wakeup_queue] at this
      exact this.trans (List.filter_sublist _)

theorem core_all_wakeup_loop_size (cfg : Config) (que : Nat) (e : event_t) (fuel : Nat)
    (s : Kernel) :
    (core_all_wakeup_loop cfg que e fuel s).msg = s.msg ∧
    ∀ t, ((core_all_wakeup_loop cfg que e fuel s).tsk t).evt_size = (s.tsk t).evt_size := by
  induction fuel generalizing s with
  | zero => exact ⟨rfl, fun _ => rfl⟩
  | succ n ih =>
    unfold core_all_wakeup_loop
    cases hq : s.queue que with
    | nil => exact ⟨rfl, fun _ => rfl⟩
    | cons h rest =>
      simp only [List.head?_cons]
      obtain ⟨a1, a2⟩ := ih (core_tsk_wakeup cfg s (some h) e).1
      refine ⟨by rw [a1, wakeup_msg], fun t => ?_⟩
      rw [a2 t]
      by_cases ht : t = h
      · rw [ht, wakeup_tsk_self]
      · rw [wakeup_tsk_other _ _ _ _ _ ht]

theorem priv_tsk_insert_size (cfg : Config) (s : Kernel) (t : Nat) :
    (priv_tsk_insert cfg s t).msg = s.msg ∧ (priv_tsk_insert cfg s t).queue = s.queue ∧
    ∀ x, ((priv_tsk_insert cfg s t).tsk x).evt_size = (s.tsk x).evt_size := by
  unfold priv_tsk_insert
  simp only []
  split
  · refine ⟨rfl, rfl, fun x => ?_⟩
    by_cases h : x = t
    · subst h; simp [Kernel.setTsk, upd]
    · simp [Kernel.setTsk, upd, h]
  · exact ⟨rfl, rfl, fun _ => rfl⟩

theorem tsk_rotate_size (cfg : Config) (s : Kernel) (nxt : Nat) :
    (tsk_rotate cfg s nxt).msg = s.msg ∧ (tsk_rotate cfg s nxt).queue = s.queue ∧
    ∀ x, ((tsk_rotate cfg s nxt).tsk x).evt_size = (s.tsk x).evt_size := by
  unfold tsk_rotate
  simp only []
  split
  · split
    · refine ⟨rfl, rfl, fun x => ?_⟩
      by_cases h : x = nxt
      · subst h; simp [Kernel.setTsk, upd]
      · simp [Kernel.setTsk, upd, h]
    · exact ⟨rfl, rfl, fun _ => rfl⟩
  · exact priv_tsk_insert_size cfg (priv_tsk_remove s nxt) nxt

theorem core_tsk_handler_size (cfg : Config) (s : Kernel) :
    (core_tsk_handler cfg s).msg = s.msg ∧ (core_tsk_handler cfg s).queue = s.queue ∧
    ∀ x, ((core_tsk_handler cfg s).tsk x).evt_size = (s.tsk x).evt_size := by
  unfold core_tsk_handler
  simp only []
  split
  · exact tsk_rotate_size cfg { s with ctx_switch := false } _
  · split
    · obtain ⟨a1, a2, a3⟩ := tsk_rotate_size cfg
        (({ s with ctx_switch := false } : Kernel).setTsk
          (IDLE_next { s with ctx_switch := false })
          { ({ s with ctx_switch := false } : Kernel).tsk
              (IDLE_next { s with ctx_switch := false }) with slice := 0 })
        (IDLE_next { s with ctx_switch := false })
      refine ⟨a1, a2, fun x => ?_⟩
      rw [a3 x]
      by_cases h : x = IDLE_next { s with ctx_switch := false }
      · rw [h]; simp [Kernel.setTsk, upd]
      · simp [Kernel.setTsk, upd, h]
    · exact ⟨rfl, rfl, fun _ => rfl⟩

theorem handler_body_size (cfg : Config) (s : Kernel) (tmr : Nat) :
    (core_tmr_handler_body cfg s tmr).msg = s.msg ∧
    (∀ q, ((core_tmr_handler_body cfg s tmr).queue q).Sublist (s.queue q)) ∧
    ∀ t, ((core_tmr_handler_body cfg s tmr).tsk t).evt_size = (s.tsk t).evt_size := by
  have hset : ∀ (S : Kernel) (v : tsk_t), v.evt_size = (S.tsk tmr).evt_size →
      ∀ t, ((S.setTsk tmr v).tsk t).evt_size = (S.tsk t).evt_size := by
    intro S v hv t
    by_cases h : t = tmr
    · subst h; simp [Kernel.setTsk, upd, hv]
    · simp [Kernel.setTsk, upd, h]
  unfold core_tmr_handler_body
  simp only []
  split
  · obtain ⟨s2, hs2⟩ : ∃ s2 : Kernel,
      s2 = (s.setTsk tmr { s.tsk tmr with
          start := ((s.tsk tmr).start + (s.tsk tmr).delay) % CMOD cfg }).setTsk tmr
        { (s.setTsk tmr { s.tsk tmr with
            start := ((s.tsk tmr).start + (s.tsk tmr).delay) % CMOD cfg }).tsk tmr with
          delay := (s.tsk tmr).period } := ⟨_, rfl⟩
    rw [← hs2]
    have h2 : s2.msg = s.msg ∧ s2.queue = s.queue ∧
        ∀ t, (s2.tsk t).evt_size = (s.tsk t).evt_size := by
      rw [hs2]
      refine ⟨rfl, rfl, fun t => ?_⟩
      by_cases h : t = tmr
      · subst h; simp [Kernel.setTsk, upd]
      · simp [Kernel.setTsk, upd, h]
    obtain ⟨s3, hs3⟩ : ∃ s3 : Kernel,
      s3 = core_tmr_remove
        (if (s2.tsk tmr).state then { s2 with fired := tmr :: s2.fired } else s2) tmr := ⟨_, rfl⟩
    have h3 : s3.msg = s.msg ∧ s3.queue = s.queue ∧
        ∀ t, (s3.tsk t).evt_size = (s.tsk t).evt_size := by
      obtain ⟨a1, a2, a3⟩ := h2
      rw [hs3]
      split
      · refine ⟨a1, a2, fun t => ?_⟩
        have := hset { s2 with fired := tmr :: s2.fired }
          { ({ s2 with fired := tmr :: s2.fired } : Kernel).tsk tmr with
            id := tid_t.ID_STOPPED } rfl t
        exact this.trans (a3 t)
      · refine ⟨a1, a2, fun t => ?_⟩
        have := hset s2 { s2.tsk tmr with id := tid_t.ID_STOPPED } rfl t
        exact this.trans (a3 t)
    obtain ⟨t1, t2, _, _, _, t6, _, _⟩ := core_sys_time_fields cfg s3
    obtain ⟨s5, hs5⟩ : ∃ s5 : Kernel,
      s5 = (if ((core_sys_time cfg s3).2.tsk tmr).delay ≥
              ((core_sys_time cfg s3).1 + CMOD cfg -
                ((core_sys_time cfg s3).2.tsk tmr).start % CMOD cfg + 1) % CMOD cfg
            then priv_tmr_insert cfg (core_sys_time cfg s3).2 tmr tid_t.ID_TIMER
            else (core_sys_time cfg s3).2) := ⟨_, rfl⟩
    have h5 : s5.msg = s.msg ∧ s5.queue = s.queue ∧
        ∀ t, (s5.tsk t).evt_size = (s.tsk t).evt_size := by
      obtain ⟨a1, a2, a3⟩ := h3
      rw [hs5]
      split
      · refine ⟨by show (core_sys_time cfg s3).2.msg = _; rw [t6, a1],
          by show (core_sys_time cfg s3).2.queue = _; rw [t2, a2], fun t => ?_⟩
        have := hset (core_sys_time cfg s3).2
          { (core_sys_time cfg s3).2.tsk tmr with id := tid_t.ID_TIMER } rfl t
        refine Eq.trans this ?_
        rw [t1]; exact a3 t
      · exact ⟨by rw [t6, a1], by rw [t2, a2], fun t => by rw [t1]; exact a3 t⟩
    have e : priv_tmr_wakeup cfg s2 tmr event_t.E_SUCCESS =
        core_all_wakeup_loop cfg tmr event_t.E_SUCCESS (s5.queue tmr).length s5 := by
      rw [hs5, hs3]; rfl
    rw [e]
    obtain ⟨a1, a2, a3⟩ := h5
    obtain ⟨b1, b2⟩ := core_all_wakeup_loop_size cfg tmr event_t.E_SUCCESS
      (s5.queue tmr).length s5
    refine ⟨by rw [b1, a1], fun q => ?_, fun t => by rw [b2 t, a3 t]⟩
    have hq : (s5.queue q).Sublist (s.queue q) := by simp [a2]
    exact (core_all_wakeup_loop_sublist cfg tmr event_t.E_SUCCESS (s5.queue tmr).length s5
      q).trans hq
  · refine ⟨by rw [wakeup_msg]; rfl, fun q => ?_, fun t => ?_⟩
    · rw [wakeup_queue]
      exact List.filter_sublist _
    · by_cases h : t = tmr
      · rw [h, wakeup_tsk_self]
        simp [Kernel.setTsk, upd]
      · rw [wakeup_tsk_other _ _ _ _ _ h]
        simp [Kernel.setTsk, upd, h]

theorem core_tmr_handler_size (cfg : Config) (fuel : Nat) (s : Kernel) :
    (core_tmr_handler cfg fuel s).msg = s.msg ∧
    (∀ q, ((core_tmr_handler cfg fuel s).queue q).Sublist (s.queue q)) ∧
    ∀ t, ((core_tmr_handler cfg fuel s).tsk t).evt_size = (s.tsk t).evt_size := by
  induction fuel generalizing s with
  | zero => exact ⟨rfl, fun _ => List.Sublist.refl _, fun _ => rfl⟩
  | succ n ih =>
    rw [handler_step]
    have hx : ∀ x, (priv_tmr_expired cfg s x).2.msg = s.msg ∧
        (priv_tmr_expired cfg s x).2.queue = s.queue ∧
        (priv_tmr_expired cfg s x).2.tsk = s.tsk := by
      intro x
      obtain ⟨k, _, e⟩ := priv_tmr_expired_state cfg s x
      rw [e]; exact ⟨rfl, rfl, rfl⟩
    cases hh : s.timers.head? with
    | none =>
      obtain ⟨x1, x2, x3⟩ := hx none
      exact ⟨x1, fun q => by rw [x2], fun t => by rw [x3]⟩
    | some tmr =>
      obtain ⟨x1, x2, x3⟩ := hx (some tmr)
      simp only []
      split
      · obtain ⟨a1, a2, a3⟩ := ih (core_tmr_handler_body cfg (priv_tmr_expired cfg s (some tmr)).2 tmr)
        obtain ⟨b1, b2, b3⟩ := handler_body_size cfg (priv_tmr_expired cfg s (some tmr)).2 tmr
        refine ⟨by rw [a1, b1, x1], fun q => ?_, fun t => by rw [a3 t, b3 t, x3]⟩
        have := (a2 q).trans (b2 q)
        rw [x2] at this; exact this
      · exact ⟨x1, fun q => by rw [x2], fun t => by rw [x3]⟩

theorem reach_msg_inv (cfg : Config) (msg limit : Nat) (s : Kernel)
    (h : msg_reach cfg msg limit s) (hw : 2 * limit + cfg.usz < UMOD cfg) :
    msg_inv cfg msg limit s := by
  induction h with
  | init s data hl =>
    have hm : (msg_init s msg limit data).msg msg =
        { count := 0, limit := limit, first := 0, next := 0, size := 0, data := data } := by
      simp [msg_init, Kernel.setMsg]
    have hq : (msg_init s msg limit data).queue msg = [] := by simp [msg_init]
    refine ⟨?_, by rw [hm], ⟨[], ?_, fun f hf => by cases hf⟩, by rw [hq]; simp, ?_⟩
    · rw [hm]
      exact ⟨by show limit < UMOD cfg; omega, hl, Nat.zero_le _, by simp⟩
    · rw [hm]
      exact ⟨by simp [ring, stream], rfl⟩
    · rw [hm]
      intro hc
      exact absurd rfl hc
  | give s data size _ ih => exact inv_give cfg msg limit s data size ih hw
  | take s data size _ ih => exact inv_take cfg msg limit s data size ih hw
  | sendFor s data size time _ hc ih =>
    exact inv_send cfg msg limit s data size time _ (Or.inl rfl) ih hc hw
  | sendUntil s data size time _ hc ih =>
    exact inv_send cfg msg limit s data size time _ (Or.inr rfl) ih hc hw
  | waitFor s data size time _ hc ih =>
    exact inv_wait cfg msg limit s data size time _ (Or.inl rfl) ih hc hw
  | waitUntil s data size time _ hc ih =>
    exact inv_wait cfg msg limit s data size time _ (Or.inr rfl) ih hc hw
  | kill s _ ih => exact inv_kill cfg msg limit s ih
  | switch s _ ih =>
    obtain ⟨a1, a2, a3⟩ := core_tsk_handler_size cfg s
    exact msg_inv_frame cfg msg limit s _ ih (by rw [a1]) (by rw [a2]) (fun t _ => a3 t)
  | tick s _ ih =>
    exact msg_inv_frame cfg msg limit s _ ih rfl (List.Sublist.refl _) (fun _ _ => rfl)
  | timer s fuel _ ih =>
    obtain ⟨a1, a2, a3⟩ := core_tmr_handler_size cfg fuel s
    exact msg_inv_frame cfg msg limit s _ ih (by rw [a1]) (a2 msg) (fun t _ => a3 t)

/-- C27. In every state reachable from `msg_init` with a capacity of at least one byte by
`msg_give`, `msg_take`, the blocking calls `msg_sendFor`, `msg_sendUntil`, `msg_waitFor` and
`msg_waitUntil`, `msg_kill`, context switches, ticks and runs of the timer handler, the
capacity is the one given to `msg_init`, `count` is at most `limit`, `first` and `next` are
below `limit`, and it is not the case that `count > 0` and `size = 0`; the capacity is such
that `2 * limit + sizeof(unsigned)` is a value of `unsigned`. -/
theorem queue_invariant (cfg : Config) (msg limit : Nat) (s : Kernel)
    (h : msg_reach cfg msg limit s) (hw : 2 * limit + cfg.usz < UMOD cfg) :
    (s.msg msg).limit = limit ∧ 1 ≤ limit ∧
    (s.msg msg).count ≤ limit ∧ (s.msg msg).first < limit ∧ (s.msg msg).next < limit ∧
    ¬ ((s.msg msg).count > 0 ∧ (s.msg msg).size = 0) := by
  obtain ⟨⟨_, w2, w3, w4⟩, i2, ⟨fs, hfr, hne⟩, _, _⟩ := reach_msg_inv cfg msg limit s h hw
  rw [i2] at w2 w3
  have he := framed_empty cfg _ fs hfr hne
  refine ⟨i2, by omega, w3, w2, ?_, fun hc => ?_⟩
  · rw [w4, i2]
    exact Nat.mod_lt _ (by omega)
  · have := he.1.mpr (he.2.mp hc.2)
    omega

theorem queue_invariant_witness :
    msg_reach cfg32 100 8 ex_space ∧ 2 * 8 + cfg32.usz < UMOD cfg32 ∧
    (ex_space.msg 100).limit = 8 ∧ 1 ≤ 8 ∧
    (ex_space.msg 100).count ≤ 8 ∧ (ex_space.msg 100).first < 8 ∧
    (ex_space.msg 100).next < 8 ∧
    ¬ ((ex_space.msg 100).count > 0 ∧ (ex_space.msg 100).size = 0) :=
  ⟨msg_reach.give _ 1000 6 (msg_reach.init (boot cfg32 1) (fun _ => 0) (by decide)),
    by decide,
    queue_invariant cfg32 100 8 ex_space
      (msg_reach.give _ 1000 6 (msg_reach.init (boot cfg32 1) (fun _ => 0) (by decide)))
      (by decide)⟩

/-! ### C30: the frames in the buffer -/

theorem tail_stream_length (cfg : Config) (gs : List (List Nat)) :
    (tail_stream cfg gs).length = (gs.map (fun g => cfg.usz + g.length)).sum := by
  induction gs with
  | nil => rfl
  | cons g gs ih =>
    simp only [tail_stream, List.length_append, enc_unsigned_length, List.map_cons,
      List.sum_cons, ih]

theorem take_head (cfg : Config) (msg limit : Nat) (s : Kernel) (data size : Nat)
    (fs : List (List Nat)) (hinv : msg_inv cfg msg limit s)
    (hfr : framed cfg (s.msg msg) fs) (hne : ∀ f, f ∈ fs → 1 ≤ f.length)
    (hw : 2 * limit + cfg.usz < UMOD cfg)
    (h0 : msg_count s msg ≠ 0) (hs : msg_count s msg ≤ size) :
    (msg_take cfg s msg data size).2 = msg_count s msg ∧
    load (msg_take cfg s msg data size).1.mem data (msg_count s msg) = fs.headD [] := by
  obtain ⟨i1, i2, _, i4, i5⟩ := hinv
  have hc : msg_count s msg = (s.msg msg).size := rfl
  cases fs with
  | nil =>
    have := hfr.2
    simp only [] at this
    omega
  | cons f rest =>
    have hfl : (s.msg msg).size = f.length := hfr.2
    obtain ⟨r1, m2, r2, r3, r4, r5⟩ := receive_head cfg s msg data size f rest i1 hfr hne
      (by omega)
    obtain ⟨S, hS⟩ : ∃ S : Kernel,
      S = { s with msg := upd s.msg msg m2, mem := store s.mem data f } := ⟨_, rfl⟩
    rw [r1, r2, ← hS, hc, hfl]
    have hSm : S.msg msg = m2 := by rw [hS]; simp
    have hSq : S.queue = s.queue := by rw [hS]
    have hSt : S.tsk = s.tsk := by rw [hS]
    have hcount : (s.msg msg).count ≠ 0 := by
      have := framed_count cfg _ _ hfr
      have h1 := frame_le_stream cfg (f :: rest) f (List.mem_cons_self _ _)
      omega
    obtain ⟨k, _, _, _, _, _, g6, _⟩ := getUpdate_loop_spec cfg msg
      (s.queue msg) (S.queue msg).length S rest (by rw [hSq]) i4 (by rw [hSq])
      (by rw [hSm]; exact r3) (by rw [hSm]; exact r4)
      (fun g hg => hne g (List.mem_cons_of_mem _ hg))
      (fun t ht => by rw [hSt, hSm, r5, i2]; exact i5 hcount t ht)
      (by rw [hSm, r5, i2]; exact hw)
    refine ⟨rfl, ?_⟩
    show load (priv_msg_getUpdate_loop cfg msg (S.queue msg).length S).mem data f.length = f
    rw [g6, hS]
    exact load_store f s.mem data

theorem ex_frames_fields :
    (ex_frames.msg 100).count = 9 ∧ (ex_frames.msg 100).size = 3 ∧
    (ex_frames.msg 100).next = 9 := by decide

/-- C30. In every state reachable from `msg_init` by `msg_give`, `msg_take`, the blocking
send and receive calls, `msg_kill`, context switches, ticks and runs of the timer handler,
the bytes in the buffer are the payload of the head frame followed by every later frame as
`sizeof(unsigned)` bytes of its length and its payload; `size` is the length of the head
frame, `count` is `size` plus the sum over the later frames of `sizeof(unsigned)` plus the
length, `next` is `(first + count) mod limit`, `size` is 0 exactly when `count` is 0, so
`msg_count` returns 0 exactly when the buffer is empty, and otherwise the length that a
`msg_take` with room for it returns, which stores the head frame at `data`; the capacity is
such that `2 * limit + sizeof(unsigned)` is a value of `unsigned`. -/
theorem frame_accounting (cfg : Config) (msg limit : Nat) (s : Kernel)
    (h : msg_reach cfg msg limit s) (hw : 2 * limit + cfg.usz < UMOD cfg) :
    ∃ fs : List (List Nat),
      ring (s.msg msg) = stream cfg fs ∧ (∀ f, f ∈ fs → 1 ≤ f.length) ∧
      (s.msg msg).size = (fs.headD []).length ∧
      (s.msg msg).count =
        (s.msg msg).size + (fs.tail.map (fun g => cfg.usz + g.length)).sum ∧
      (s.msg msg).next = ((s.msg msg).first + (s.msg msg).count) % limit ∧
      ((s.msg msg).size = 0 ↔ (s.msg msg).count = 0) ∧
      (msg_count s msg = 0 ↔ (s.msg msg).count = 0) ∧
      (msg_count s msg = 0 ↔ fs = []) ∧
      ∀ data size, msg_count s msg ≠ 0 → msg_count s msg ≤ size →
        (msg_take cfg s msg data size).2 = msg_count s msg ∧
        load (msg_take cfg s msg data size).1.mem data (msg_count s msg) = fs.headD [] := by
  have hinv := reach_msg_inv cfg msg limit s h hw
  obtain ⟨⟨_, _, _, w4⟩, i2, ⟨fs, hfr, hne⟩, _, _⟩ := id hinv
  have he := framed_empty cfg _ fs hfr hne
  have hc := framed_count cfg _ fs hfr
  have hsz : (s.msg msg).size = (fs.headD []).length := by
    have := hfr.2
    cases fs with
    | nil => exact this
    | cons f gs => exact this
  refine ⟨fs, hfr.1, hne, hsz, ?_, by rw [w4, i2], ⟨fun h0 => he.1.mpr (he.2.mp h0),
    fun h0 => he.2.mpr (he.1.mp h0)⟩, ⟨fun h0 => he.1.mpr (he.2.mp h0),
    fun h0 => he.2.mpr (he.1.mp h0)⟩, he.2,
    fun data size h0 hs => take_head cfg msg limit s data size fs hinv hfr hne hw h0 hs⟩
  rw [hc, hsz]
  cases fs with
  | nil => rfl
  | cons f gs =>
    simp only [stream, List.length_append, tail_stream_length, List.headD_cons, List.tail_cons]

theorem frame_accounting_witness :
    msg_reach cfg32 100 16 ex_frames ∧ 2 * 16 + cfg32.usz < UMOD cfg32 ∧
    ∃ fs : List (List Nat),
      ring (ex_frames.msg 100) = stream cfg32 fs ∧ (∀ f, f ∈ fs → 1 ≤ f.length) ∧
      (ex_frames.msg 100).size = (fs.headD []).length ∧
      (ex_frames.msg 100).count =
        (ex_frames.msg 100).size + (fs.tail.map (fun g => cfg32.usz + g.length)).sum ∧
      (ex_frames.msg 100).next = ((ex_frames.msg 100).first + (ex_frames.msg 100).count) % 16 ∧
      ((ex_frames.msg 100).size = 0 ↔ (ex_frames.msg 100).count = 0) ∧
      (msg_count ex_frames 100 = 0 ↔ (ex_frames.msg 100).count = 0) ∧
      (msg_count ex_frames 100 = 0 ↔ fs = []) ∧
      ∀ data size, msg_count ex_frames 100 ≠ 0 → msg_count ex_frames 100 ≤ size →
        (msg_take cfg32 ex_frames 100 data size).2 = msg_count ex_frames 100 ∧
        load (msg_take cfg32 ex_frames 100 data size).1.mem data (msg_count ex_frames 100) =
          fs.headD [] :=
  ⟨msg_reach.give _ 2000 2
      (msg_reach.give _ 1000 3 (msg_reach.init (boot cfg32 1) (fun _ => 0) (by decide))),
    by decide,
    frame_accounting cfg32 100 16 ex_frames
      (msg_reach.give _ 2000 2
        (msg_reach.give _ 1000 3 (msg_reach.init (boot cfg32 1) (fun _ => 0) (by decide))))
      (by decide)⟩

/-! ### C31: round-robin rotation -/

theorem handler_rotate (cfg : Config) (s : Kernel) (c : Nat) (rest : List Nat)
    (hr : s.ready = c :: rest) (hcur : s.cur = c) (hidle : c ≠ IDLE) :
    core_tsk_handler cfg s =
      { priv_tsk_insert cfg (priv_tsk_remove { s with ctx_switch := false } c) c with
        cur := IDLE_next
          (priv_tsk_insert cfg (priv_tsk_remove { s with ctx_switch := false } c) c) } := by
  have hn : IDLE_next { s with ctx_switch := false } = c := by
    simp [IDLE_next, hr]
  unfold core_tsk_handler
  simp only [hn]
  rw [if_pos hcur]
  unfold tsk_rotate
  simp only [if_neg hidle]

/-- C31.  The ready list is sorted by non-increasing priority and the current task `c` is
its first task, in front of the tasks `rest`.  `core_tsk_handler` moves the current task
behind the tasks `a` of `rest` of greater or equal priority, which are the tasks of its own
priority, and in front of the tasks `b` of lower priority; the other tasks keep their
order, the list stays sorted, no priority changes, and `System.cur` is the new first task:
the first task of `a`, or `c` again when no other task has its priority.  So when the
second task has the priority of the current one, in which case `core_ctx_switch` requests
a switch, the second task becomes current and the former current task is the last one of
its priority band.  On the pointers of a well-formed ready list the handler ends and
leaves the circular list of `IDLE` and these tasks. -/
theorem round_robin (cfg : Config) (s : Kernel) (c : Nat) (rest : List Nat)
    (hr : s.ready = c :: rest) (hcur : s.cur = c) (hidle : c ≠ IDLE) (hnd : c ∉ rest)
    (hsorted : s.ready.Pairwise (fun a b => (s.tsk b).prio ≤ (s.tsk a).prio)) :
    (∃ a b, rest = a ++ b ∧ (core_tsk_handler cfg s).ready = a ++ c :: b ∧
      (∀ x, x ∈ a → (s.tsk x).prio = (s.tsk c).prio) ∧
      (∀ x, x ∈ b → (s.tsk x).prio < (s.tsk c).prio) ∧
      (core_tsk_handler cfg s).cur = a.headD c) ∧
    (core_tsk_handler cfg s).ready.filter (fun n => decide (n ≠ c)) = rest ∧
    (core_tsk_handler cfg s).ready.count c = 1 ∧
    (core_tsk_handler cfg s).cur = (core_tsk_handler cfg s).ready.headD IDLE ∧
    (core_tsk_handler cfg s).ready.Pairwise
      (fun a b => ((core_tsk_handler cfg s).tsk b).prio ≤
        ((core_tsk_handler cfg s).tsk a).prio) ∧
    (∀ n, ((core_tsk_handler cfg s).tsk n).prio = (s.tsk n).prio) ∧
    (∀ d rest', rest = d :: rest' → (s.tsk d).prio = (s.tsk c).prio →
      (core_ctx_switch s).ctx_switch = true ∧ (core_tsk_handler cfg s).cur = d ∧
      ∃ a b, (core_tsk_handler cfg s).ready = d :: a ++ c :: b ∧
        (∀ x, x ∈ d :: a → (s.tsk x).prio = (s.tsk c).prio) ∧
        (∀ x, x ∈ b → (s.tsk x).prio < (s.tsk c).prio)) ∧
    ((∀ x, x ∈ rest → (s.tsk x).prio < (s.tsk c).prio) →
      (core_tsk_handler cfg s).ready = s.ready ∧ (core_tsk_handler cfg s).cur = c) ∧
    (∀ R, rdy_inv s R →
      (∀ w, s.ready.length < w → ∃ R', core_tsk_handler_links cfg w s R = some R') ∧
      ∀ w R', core_tsk_handler_links cfg w s R = some R' →
        is_ring R' IDLE (core_tsk_handler cfg s).ready ∧
        (core_tsk_handler cfg s).cur = R'.next IDLE) := by
  have hh := handler_rotate cfg s c rest hr hcur hidle
  obtain ⟨s0, hs0⟩ : ∃ s0 : Kernel, s0 = { s with ctx_switch := false } := ⟨_, rfl⟩
  rw [← hs0] at hh
  have h0r : s0.ready = c :: rest := by rw [hs0]; exact hr
  have h0t : s0.tsk = s.tsk := by rw [hs0]
  have hfil : s0.ready.filter (fun n => decide (n ≠ c)) = rest := by
    rw [h0r, List.filter_cons_of_neg (by simp)]
    exact filter_ne_of_not_mem c rest hnd
  have hsr : rest.Pairwise (fun a b => (s.tsk b).prio ≤ (s.tsk a).prio) := by
    rw [hr] at hsorted
    exact (List.pairwise_cons.mp hsorted).2
  have hle : ∀ x, x ∈ rest → (s.tsk x).prio ≤ (s.tsk c).prio := by
    rw [hr] at hsorted
    exact (List.pairwise_cons.mp hsorted).1
  obtain ⟨⟨a, b, e1, e2, e3, e4⟩, hso, hp⟩ := insert_after_remove cfg s0 c
    (by rw [hfil, h0t]; exact hsr)
  rw [hfil] at e1
  rw [h0t] at e3 e4 hp
  obtain ⟨S, hS⟩ : ∃ S : Kernel, S = priv_tsk_insert cfg (priv_tsk_remove s0 c) c := ⟨_, rfl⟩
  rw [← hS] at hh e2 hso hp
  have hrdy : (core_tsk_handler cfg s).ready = a ++ c :: b := by rw [hh]; exact e2
  have htsk : (core_tsk_handler cfg s).tsk = S.tsk := by rw [hh]
  have hc : (core_tsk_handler cfg s).cur = (a ++ c :: b).headD IDLE := by
    rw [hh]
    show IDLE_next S = _
    rw [IDLE_next, e2]
  have ha : ∀ x, x ∈ a → (s.tsk x).prio = (s.tsk c).prio := fun x hx =>
    le_antisymm (hle x (by rw [e1]; exact List.mem_append.mpr (Or.inl hx))) (e3 x hx)
  have hca : (a ++ c :: b).headD IDLE = a.headD c := by
    cases a with
    | nil => rfl
    | cons x l => rfl
  have hcb : c ∉ a ∧ c ∉ b := by
    rw [e1] at hnd
    exact ⟨fun h => hnd (List.mem_append.mpr (Or.inl h)),
      fun h => hnd (List.mem_append.mpr (Or.inr h))⟩
  refine ⟨⟨a, b, e1, hrdy, ha, e4, by rw [hc, hca]⟩, ?_, ?_, by rw [hc, hrdy], ?_,
    fun n => by rw [htsk]; exact hp n, ?_, ?_, ?_⟩
  · rw [hrdy, List.filter_append, List.filter_cons_of_neg (by simp),
      filter_ne_of_not_mem c a hcb.1, filter_ne_of_not_mem c b hcb.2, e1]
  · rw [hrdy, List.count_append, List.count_cons_self, List.count_eq_zero_of_not_mem hcb.1,
      List.count_eq_zero_of_not_mem hcb.2]
  · rw [hrdy, htsk, ← e2]; exact hso
  · intro d rest' hd hpd
    have hsw : (core_ctx_switch s).ctx_switch = true := by
      unfold core_ctx_switch
      simp only [IDLE_next, hr, hd, List.headD_cons]
      rw [if_pos hpd]
      rfl
    have hda : ∃ a', a = d :: a' := by
      cases a with
      | nil =>
        rw [List.nil_append] at e1
        have := e4 d (by rw [← e1, hd]; exact List.mem_cons_self _ _)
        omega
      | cons x l =>
        rw [hd] at e1
        simp only [List.cons_append, List.cons.injEq] at e1
        exact ⟨l, by rw [e1.1]⟩
    obtain ⟨a', ha'⟩ := hda
    refine ⟨hsw, by rw [hc, hca, ha']; rfl, a', b, by rw [hrdy, ha'], ?_, e4⟩
    intro x hx
    exact ha x (by rw [ha']; exact hx)
  · intro hlow
    have hanil : a = [] := by
      cases a with
      | nil => rfl
      | cons x l =>
        have h1 := ha x (List.mem_cons_self _ _)
        have h2 := hlow x (by rw [e1]; exact List.mem_cons_self _ _)
        omega
    subst hanil
    rw [List.nil_append] at hrdy e1
    exact ⟨by rw [hrdy, hr, e1], by rw [hc]; rfl⟩
  · intro R hinv
    refine ⟨fun w hw => handler_links_progress cfg s R w hinv hw, fun w R' hR => ?_⟩
    obtain ⟨j, hj⟩ := inv_handler cfg s R w R' hinv hR
    exact ⟨j.1, hj⟩

/-- Witness of C31: in `ex_band` the main task is current and first in the ready list, in
front of the task 7 of the same priority and of the task 8 of lower priority; the handler
makes the task 7 current and puts the main task behind it. -/
theorem round_robin_witness :
    (core_tsk_handler cfg32 ex_band).ready = [7, MAIN, 8] ∧
    (core_tsk_handler cfg32 ex_band).cur = 7 ∧
    (core_ctx_switch ex_band).ctx_switch = true ∧
    (core_tsk_handler cfg32 ex_band).ready.filter (fun n => decide (n ≠ MAIN)) = [7, 8] :=
  ⟨by decide,
    ((round_robin cfg32 ex_band MAIN [7, 8] (by decide) (by decide) (by decide) (by decide)
      (by decide)).2.2.2.2.2.2.1 7 [8] rfl (by decide)).2.1,
    ((round_robin cfg32 ex_band MAIN [7, 8] (by decide) (by decide) (by decide) (by decide)
      (by decide)).2.2.2.2.2.2.1 7 [8] rfl (by decide)).1,
    (round_robin cfg32 ex_band MAIN [7, 8] (by decide) (by decide) (by decide) (by decide)
      (by decide)).2.1⟩

/-! ### C33: the cutoff of an absolute deadline -/

theorem sub_now_wrap (M now : Nat) (hM : 0 < M) : (now + M - now % M) % M = 0 := by
  have h1 : now % M ≤ now := Nat.mod_le _ _
  have h2 : now + M - now % M = M + M * (now / M) := by
    have := Nat.div_add_mod now M
    omega
  rw [h2, Nat.add_mul_mod_self_left, Nat.mod_self]

/-- C33.  For every state, whose clock reads `now`, and every time point `time`,
`core_tsk_waitUntil` stores `start = now` and `delay = (time - now) mod 2^w` in the current
task.  It returns `E_TIMEOUT` at once exactly when this delay is greater than `CNT_MAX / 2`
(rounded down), and then the ready list, the wait lists and the timer list are as they
were.  Otherwise it blocks the current task: the task is out of the ready list, on the wait
list and in the timer list, with the tag `ID_DELAYED`, with `start = now` and this delay.
This is the case for `time = now`, where the task blocks with the delay 0, while
`core_tsk_waitFor` returns `E_TIMEOUT` at once for the delay `IMMEDIATE`, which is 0. -/
theorem deadline_cutoff (cfg : Config) (s : Kernel) (que time : Nat) :
    ((core_tsk_waitUntil cfg s que time).2 = some event_t.E_TIMEOUT ↔
      (time + CMOD cfg - (core_sys_time cfg s).1 % CMOD cfg) % CMOD cfg > CNT_MAX cfg / 2) ∧
    ((core_tsk_waitUntil cfg s que time).2 = none ↔
      ¬ (time + CMOD cfg - (core_sys_time cfg s).1 % CMOD cfg) % CMOD cfg > CNT_MAX cfg / 2) ∧
    ((core_tsk_waitUntil cfg s que time).1.tsk s.cur).start = (core_sys_time cfg s).1 ∧
    ((core_tsk_waitUntil cfg s que time).1.tsk s.cur).delay =
      (time + CMOD cfg - (core_sys_time cfg s).1 % CMOD cfg) % CMOD cfg ∧
    ((core_tsk_waitUntil cfg s que time).2 = some event_t.E_TIMEOUT →
      (core_tsk_waitUntil cfg s que time).1.ready = s.ready ∧
      (core_tsk_waitUntil cfg s que time).1.queue = s.queue ∧
      (core_tsk_waitUntil cfg s que time).1.timers = s.timers ∧
      (core_tsk_waitUntil cfg s que time).1.cur = s.cur ∧
      ((core_tsk_waitUntil cfg s que time).1.tsk s.cur).id = (s.tsk s.cur).id ∧
      ((core_tsk_waitUntil cfg s que time).1.tsk s.cur).guard = (s.tsk s.cur).guard ∧
      (∀ t, t ≠ s.cur → (core_tsk_waitUntil cfg s que time).1.tsk t = s.tsk t)) ∧
    ((core_tsk_waitUntil cfg s que time).2 = none →
      s.cur ∉ (core_tsk_waitUntil cfg s que time).1.ready ∧
      (core_tsk_waitUntil cfg s que time).1.ready =
        s.ready.filter (fun n => decide (n ≠ s.cur)) ∧
      s.cur ∈ (core_tsk_waitUntil cfg s que time).1.queue que ∧
      s.cur ∈ (core_tsk_waitUntil cfg s que time).1.timers ∧
      ((core_tsk_waitUntil cfg s que time).1.tsk s.cur).id = tid_t.ID_DELAYED ∧
      ((core_tsk_waitUntil cfg s que time).1.tsk s.cur).guard = some que) ∧
    ((core_tsk_waitUntil cfg s que (core_sys_time cfg s).1).2 = none ∧
      ((core_tsk_waitUntil cfg s que (core_sys_time cfg s).1).1.tsk s.cur).delay = 0 ∧
      s.cur ∈ (core_tsk_waitUntil cfg s que (core_sys_time cfg s).1).1.queue que ∧
      s.cur ∈ (core_tsk_waitUntil cfg s que (core_sys_time cfg s).1).1.timers) ∧
    (IMMEDIATE = 0 ∧ (core_tsk_waitFor cfg s que IMMEDIATE).2 = some event_t.E_TIMEOUT ∧
      (core_tsk_waitFor cfg s que IMMEDIATE).1.queue = s.queue ∧
      (core_tsk_waitFor cfg s que IMMEDIATE).1.timers = s.timers) := by
  obtain ⟨t1, t2, t3, t4, t5, _, _, _⟩ := core_sys_time_fields cfg s
  have key : ∀ tm : Nat,
      ((core_tsk_waitUntil cfg s que tm).2 = some event_t.E_TIMEOUT ↔
        (tm + CMOD cfg - (core_sys_time cfg s).1 % CMOD cfg) % CMOD cfg > CNT_MAX cfg / 2) ∧
      ((core_tsk_waitUntil cfg s que tm).2 = none ↔
        ¬ (tm + CMOD cfg - (core_sys_time cfg s).1 % CMOD cfg) % CMOD cfg > CNT_MAX cfg / 2) ∧
      ((core_tsk_waitUntil cfg s que tm).1.tsk s.cur).start = (core_sys_time cfg s).1 ∧
      ((core_tsk_waitUntil cfg s que tm).1.tsk s.cur).delay =
        (tm + CMOD cfg - (core_sys_time cfg s).1 % CMOD cfg) % CMOD cfg ∧
      ((core_tsk_waitUntil cfg s que tm).2 = some event_t.E_TIMEOUT →
        (core_tsk_waitUntil cfg s que tm).1.ready = s.ready ∧
        (core_tsk_waitUntil cfg s que tm).1.queue = s.queue ∧
        (core_tsk_waitUntil cfg s que tm).1.timers = s.timers ∧
        (core_tsk_waitUntil cfg s que tm).1.cur = s.cur ∧
        ((core_tsk_waitUntil cfg s que tm).1.tsk s.cur).id = (s.tsk s.cur).id ∧
        ((core_tsk_waitUntil cfg s que tm).1.tsk s.cur).guard = (s.tsk s.cur).guard ∧
        (∀ t, t ≠ s.cur → (core_tsk_waitUntil cfg s que tm).1.tsk t = s.tsk t)) ∧
      ((core_tsk_waitUntil cfg s que tm).2 = none →
        s.cur ∉ (core_tsk_waitUntil cfg s que tm).1.ready ∧
        (core_tsk_waitUntil cfg s que tm).1.ready =
          s.ready.filter (fun n => decide (n ≠ s.cur)) ∧
        s.cur ∈ (core_tsk_waitUntil cfg s que tm).1.queue que ∧
        s.cur ∈ (core_tsk_waitUntil cfg s que tm).1.timers ∧
        ((core_tsk_waitUntil cfg s que tm).1.tsk s.cur).id = tid_t.ID_DELAYED ∧
        ((core_tsk_waitUntil cfg s que tm).1.tsk s.cur).guard = some que) := by
    intro tm
    obtain ⟨d, hd⟩ : ∃ d, d = (tm + CMOD cfg - (core_sys_time cfg s).1 % CMOD cfg) % CMOD cfg :=
      ⟨_, rfl⟩
    obtain ⟨T, hT⟩ : ∃ T : Kernel, T = (core_sys_time cfg s).2.setTsk s.cur
        { (core_sys_time cfg s).2.tsk s.cur with
          start := (core_sys_time cfg s).1, delay := d } := ⟨_, rfl⟩
    have hTs : (T.tsk s.cur).start = (core_sys_time cfg s).1 ∧ (T.tsk s.cur).delay = d ∧
        (T.tsk s.cur).id = (s.tsk s.cur).id ∧ (T.tsk s.cur).guard = (s.tsk s.cur).guard := by
      rw [hT]; simp [Kernel.setTsk, upd, t1]
    have hTo : ∀ t, t ≠ s.cur → T.tsk t = s.tsk t := by
      intro t ht; rw [hT]; simp [Kernel.setTsk, upd, ht, t1]
    have hTr : T.ready = s.ready ∧ T.queue = s.queue ∧ T.timers = s.timers ∧ T.cur = s.cur := by
      rw [hT]; exact ⟨t3, t2, t4, t5⟩
    rw [← hd]
    by_cases hc : d > CNT_MAX cfg / 2
    · have e : core_tsk_waitUntil cfg s que tm = (T, some event_t.E_TIMEOUT) := by
        unfold core_tsk_waitUntil
        simp only []
        rw [← hd, if_pos hc, hT]
      rw [e]
      exact ⟨⟨fun _ => hc, fun _ => rfl⟩, ⟨fun h => absurd h (by simp), fun h => absurd hc h⟩,
        hTs.1, hTs.2.1,
        fun _ => ⟨hTr.1, hTr.2.1, hTr.2.2.1, hTr.2.2.2, hTs.2.2.1, hTs.2.2.2, hTo⟩,
        fun h => absurd h (by simp)⟩
    · have e : core_tsk_waitUntil cfg s que tm = (priv_tsk_wait cfg T s.cur que true, none) := by
        unfold core_tsk_waitUntil
        simp only []
        rw [← hd, if_neg hc, hT]
      rw [e]
      obtain ⟨w1, w2, _, w4, w5, _, _, _⟩ := priv_tsk_wait_spec cfg T s.cur que true
      refine ⟨⟨fun h => absurd h (by simp), fun h => absurd h hc⟩, ⟨fun _ => hc, fun _ => rfl⟩,
        by show ((priv_tsk_wait cfg T s.cur que true).tsk s.cur).start = _; rw [w5]; exact hTs.1,
        by show ((priv_tsk_wait cfg T s.cur que true).tsk s.cur).delay = _; rw [w5]; exact hTs.2.1,
        fun h => absurd h (by simp), fun _ => ?_⟩
      refine ⟨?_, ?_, ?_, ?_, ?_, ?_⟩
      · show s.cur ∉ (priv_tsk_wait cfg T s.cur que true).ready
        rw [w1]
        exact not_mem_filter_ne _ _
      · show (priv_tsk_wait cfg T s.cur que true).ready = _
        rw [w1, hTr.1]
      · show s.cur ∈ (priv_tsk_wait cfg T s.cur que true).queue que
        rw [w2]
        exact (mem_priv_rdy_insert _ _ _ _).mpr (Or.inl rfl)
      · show s.cur ∈ (priv_tsk_wait cfg T s.cur que true).timers
        rw [w4]
        exact (mem_priv_rdy_insert _ _ _ _).mpr (Or.inl rfl)
      · show ((priv_tsk_wait cfg T s.cur que true).tsk s.cur).id = _
        rw [w5]
      · show ((priv_tsk_wait cfg T s.cur que true).tsk s.cur).guard = _
        rw [w5]
  have hnow : ((core_sys_time cfg s).1 + CMOD cfg - (core_sys_time cfg s).1 % CMOD cfg) %
      CMOD cfg = 0 := sub_now_wrap (CMOD cfg) _ (CMOD_pos cfg)
  obtain ⟨k1, k2, k3, k4, k5, k6⟩ := key time
  obtain ⟨n1, n2, n3, n4, n5, n6⟩ := key (core_sys_time cfg s).1
  have hblk : (core_tsk_waitUntil cfg s que (core_sys_time cfg s).1).2 = none :=
    n2.mpr (by rw [hnow]; exact Nat.not_lt_zero _)
  obtain ⟨f1, _, _⟩ := waitFor_spec cfg s que IMMEDIATE
  have himm : (core_tsk_waitFor cfg s que IMMEDIATE).1 =
      (core_sys_time cfg s).2.setTsk s.cur
        { (core_sys_time cfg s).2.tsk s.cur with
          start := (core_sys_time cfg s).1, delay := IMMEDIATE } ∧
      (core_tsk_waitFor cfg s que IMMEDIATE).2 = some event_t.E_TIMEOUT := by
    unfold core_tsk_waitFor
    simp
  refine ⟨k1, k2, k3, k4, k5, k6, ⟨hblk, by rw [n4, hnow], (n6 hblk).2.2.1, (n6 hblk).2.2.2.1⟩,
    rfl, himm.2, by rw [himm.1]; exact t2, by rw [himm.1]; exact t4⟩

/-! ### C34: the timer handler terminates -/

theorem expired_tick_state (cfg : Config) (s : Kernel) (htick : cfg.hw_timer = false) :
    (∀ t, priv_tmr_expired cfg s (some t) = (tmr_expired_now cfg s t, s)) ∧
    priv_tmr_expired cfg s none = (false, s) := by
  constructor
  · intro t
    simp [priv_tmr_expired, htick, core_sys_time, tmr_expired_now]
  · have : priv_tmr_expired_tick cfg s.cnt 0 (INFINITE cfg) = false := by
      cases h : priv_tmr_expired_tick cfg s.cnt 0 (INFINITE cfg) with
      | false => rfl
      | true => exact absurd rfl (expired_tick_elapsed cfg _ _ _ h).1
    simp [priv_tmr_expired, htick, core_sys_time, this]

theorem wakeup_times (cfg : Config) (s : Kernel) (t : Nat) (e : event_t) (x : Nat) :
    ((core_tsk_wakeup cfg s (some t) e).1.tsk x).start = (s.tsk x).start ∧
    ((core_tsk_wakeup cfg s (some t) e).1.tsk x).delay = (s.tsk x).delay := by
  by_cases h : x = t
  · rw [h, wakeup_tsk_self]
    exact ⟨rfl, rfl⟩
  · rw [wakeup_tsk_other _ _ _ _ _ h]
    exact ⟨rfl, rfl⟩

theorem all_wakeup_times (cfg : Config) (que : Nat) (e : event_t) (fuel : Nat) (s : Kernel) :
    (core_all_wakeup_loop cfg que e fuel s).cnt = s.cnt ∧
    (core_all_wakeup_loop cfg que e fuel s).timers.Sublist s.timers ∧
    ∀ x, ((core_all_wakeup_loop cfg que e fuel s).tsk x).start = (s.tsk x).start ∧
      ((core_all_wakeup_loop cfg que e fuel s).tsk x).delay = (s.tsk x).delay := by
  induction fuel generalizing s with
  | zero => exact ⟨rfl, List.Sublist.refl _, fun _ => ⟨rfl, rfl⟩⟩
  | succ n ih =>
    unfold core_all_wakeup_loop
    cases hq : s.queue que with
    | nil => exact ⟨rfl, List.Sublist.refl _, fun _ => ⟨rfl, rfl⟩⟩
    | cons h rest =>
      simp only [List.head?_cons]
      obtain ⟨a1, a2, a3⟩ := ih (core_tsk_wakeup cfg s (some h) e).1
      refine ⟨by rw [a1, (wakeup_clock cfg s h e).1], ?_, fun x => ?_⟩
      · refine a2.trans ?_
        rw [wakeup_timers]
        exact List.filter_sublist _
      · rw [(a3 x).1, (a3 x).2]
        exact wakeup_times cfg s h e x

theorem body_round (cfg : Config) (s : Kernel) (tmr : Nat) (rest : List Nat)
    (htick : cfg.hw_timer = false) (hhead : s.timers = tmr :: rest) :
    (core_tmr_handler_body cfg s tmr).cnt = s.cnt ∧
    (∀ x, x ≠ tmr →
      ((core_tmr_handler_body cfg s tmr).tsk x).start = (s.tsk x).start ∧
      ((core_tmr_handler_body cfg s tmr).tsk x).delay = (s.tsk x).delay) ∧
    ((core_tmr_handler_body cfg s tmr).timers.Sublist
        (rest.filter (fun n => decide (n ≠ tmr))) ∨
      (tmr_expired_now cfg (core_tmr_handler_body cfg s tmr) tmr = false ∧
        ∃ L, (core_tmr_handler_body cfg s tmr).timers.Sublist L ∧
          L.Perm (tmr :: rest.filter (fun n => decide (n ≠ tmr))))) := by
  have hfil : s.timers.filter (fun n => decide (n ≠ tmr)) =
      rest.filter (fun n => decide (n ≠ tmr)) := by
    rw [hhead, List.filter_cons_of_neg (by simp)]
  unfold core_tmr_handler_body
  simp only []
  split
  · obtain ⟨s2, hs2⟩ : ∃ s2 : Kernel,
      s2 = (s.setTsk tmr { s.tsk tmr with
          start := ((s.tsk tmr).start + (s.tsk tmr).delay) % CMOD cfg }).setTsk tmr
        { (s.setTsk tmr { s.tsk tmr with
            start := ((s.tsk tmr).start + (s.tsk tmr).delay) % CMOD cfg }).tsk tmr with
          delay := (s.tsk tmr).period } := ⟨_, rfl⟩
    rw [← hs2]
    have h2 : s2.cnt = s.cnt ∧ s2.timers = s.timers ∧ ∀ t, t ≠ tmr → s2.tsk t = s.tsk t := by
      rw [hs2]
      refine ⟨rfl, rfl, fun t ht => ?_⟩
      simp [Kernel.setTsk, upd, ht]
    obtain ⟨s3, hs3⟩ : ∃ s3 : Kernel,
      s3 = core_tmr_remove
        (if (s2.tsk tmr).state then { s2 with fired := tmr :: s2.fired } else s2) tmr := ⟨_, rfl⟩
    have h3 : s3.cnt = s.cnt ∧ s3.timers = rest.filter (fun n => decide (n ≠ tmr)) ∧
        ∀ t, t ≠ tmr → s3.tsk t = s.tsk t := by
      obtain ⟨a1, a2, a3⟩ := h2
      rw [hs3]
      split
      · refine ⟨a1, ?_, fun t ht => ?_⟩
        · show s2.timers.filter (fun n => decide (n ≠ tmr)) = _
          rw [a2, hfil]
        · simp [core_tmr_remove, priv_tmr_remove, priv_rdy_remove, Kernel.setTsk,
            upd_other _ _ _ _ ht, a3 t ht]
      · refine ⟨a1, ?_, fun t ht => ?_⟩
        · show s2.timers.filter (fun n => decide (n ≠ tmr)) = _
          rw [a2, hfil]
        · simp [core_tmr_remove, priv_tmr_remove, priv_rdy_remove, Kernel.setTsk,
            upd_other _ _ _ _ ht, a3 t ht]
    have htime : core_sys_time cfg s3 = (s3.cnt, s3) := by
      simp [core_sys_time, htick]
    obtain ⟨s5, hs5⟩ : ∃ s5 : Kernel,
      s5 = (if ((core_sys_time cfg s3).2.tsk tmr).delay ≥
              ((core_sys_time cfg s3).1 + CMOD cfg -
                ((core_sys_time cfg s3).2.tsk tmr).start % CMOD cfg + 1) % CMOD cfg
            then priv_tmr_insert cfg (core_sys_time cfg s3).2 tmr tid_t.ID_TIMER
            else (core_sys_time cfg s3).2) := ⟨_, rfl⟩
    have e : priv_tmr_wakeup cfg s2 tmr event_t.E_SUCCESS =
        core_all_wakeup_loop cfg tmr event_t.E_SUCCESS (s5.queue tmr).length s5 := by
      rw [hs5, hs3]; rfl
    rw [e]
    obtain ⟨b1, b2, b3⟩ := all_wakeup_times cfg tmr event_t.E_SUCCESS (s5.queue tmr).length s5
    obtain ⟨a1, a2, a3⟩ := h3
    rw [htime] at hs5
    simp only [] at hs5
    obtain ⟨p1, _, _, _, _, p6⟩ := priv_tmr_insert_frame cfg s3 tmr tid_t.ID_TIMER
    have h5c : s5.cnt = s.cnt := by
      rw [hs5]
      split
      · rw [p1, a1]
      · exact a1
    have h5o : ∀ t, t ≠ tmr → s5.tsk t = s.tsk t := by
      intro t ht
      rw [hs5]
      split
      · rw [p6 t ht, a3 t ht]
      · exact a3 t ht
    refine ⟨by rw [b1, h5c], fun x hx => by rw [(b3 x).1, (b3 x).2, h5o x hx]; exact ⟨rfl, rfl⟩,
      ?_⟩
    by_cases hc : (s3.tsk tmr).delay ≥
        (s3.cnt + CMOD cfg - (s3.tsk tmr).start % CMOD cfg + 1) % CMOD cfg
    · right
      rw [if_pos hc] at hs5
      have h5s : (s5.tsk tmr).start = (s3.tsk tmr).start ∧
          (s5.tsk tmr).delay = (s3.tsk tmr).delay := by
        rw [hs5]
        simp [priv_tmr_insert, Kernel.setTsk, upd]
      constructor
      · unfold tmr_expired_now priv_tmr_expired_tick
        rw [b1, (b3 tmr).1, (b3 tmr).2, h5s.1, h5s.2, h5c, ← a1, if_pos hc]
      · refine ⟨s5.timers, b2, ?_⟩
        have : s5.timers = priv_rdy_insert tmr
            (if (s3.tsk tmr).delay ≠ INFINITE cfg then
              tmr_walk cfg (upd s3.tsk tmr { s3.tsk tmr with id := tid_t.ID_TIMER })
                (s3.tsk tmr).start (s3.tsk tmr).delay s3.timers else none) s3.timers := by
          rw [hs5]
          simp [priv_tmr_insert, Kernel.setTsk, upd]
        rw [this, a2]
        exact insert_perm _ _ _
    · left
      rw [if_neg hc] at hs5
      have : s5.timers = rest.filter (fun n => decide (n ≠ tmr)) := by rw [hs5, a2]
      rw [← this]
      exact b2
  · obtain ⟨s1, hs1⟩ : ∃ s1 : Kernel, s1 = s.setTsk tmr { s.tsk tmr with
        start := ((s.tsk tmr).start + (s.tsk tmr).delay) % CMOD cfg } := ⟨_, rfl⟩
    rw [← hs1]
    have h1 : s1.cnt = s.cnt ∧ s1.timers = s.timers ∧ ∀ t, t ≠ tmr → s1.tsk t = s.tsk t := by
      rw [hs1]
      refine ⟨rfl, rfl, fun t ht => ?_⟩
      simp [Kernel.setTsk, upd, ht]
    refine ⟨by rw [(wakeup_clock cfg s1 tmr _).1, h1.1], fun x hx => ?_, Or.inl ?_⟩
    · rw [(wakeup_times cfg s1 tmr _ x).1, (wakeup_times cfg s1 tmr _ x).2, h1.2.2 x hx]
      exact ⟨rfl, rfl⟩
    · rw [wakeup_timers, h1.2.1, hfil]

theorem body_count (cfg : Config) (s : Kernel) (tmr : Nat) (rest : List Nat)
    (htick : cfg.hw_timer = false) (hhead : s.timers = tmr :: rest) :
    (core_tmr_handler_body cfg s tmr).timers.countP
        (tmr_expired_now cfg (core_tmr_handler_body cfg s tmr)) ≤
      rest.countP (tmr_expired_now cfg s) ∧
    (tmr ∉ (core_tmr_handler_body cfg s tmr).timers ∨
      tmr_expired_now cfg (core_tmr_handler_body cfg s tmr) tmr = false) ∧
    (∀ x, x ∈ (core_tmr_handler_body cfg s tmr).timers → x ∈ s.timers) := by
  obtain ⟨c1, c2, c3⟩ := body_round cfg s tmr rest htick hhead
  obtain ⟨B, hB⟩ : ∃ B : Kernel, B = core_tmr_handler_body cfg s tmr := ⟨_, rfl⟩
  rw [← hB] at c1 c2 c3 ⊢
  have hcongr : ∀ l : List Nat, (∀ x, x ∈ l → x ≠ tmr) →
      l.countP (tmr_expired_now cfg B) = l.countP (tmr_expired_now cfg s) := by
    intro l hl
    apply List.countP_congr
    intro x hx
    unfold tmr_expired_now
    rw [c1, (c2 x (hl x hx)).1, (c2 x (hl x hx)).2]
  have hfl : ∀ x, x ∈ rest.filter (fun n => decide (n ≠ tmr)) → x ≠ tmr := by
    intro x hx
    simpa using (List.mem_filter.mp hx).2
  have hbase : (rest.filter (fun n => decide (n ≠ tmr))).countP (tmr_expired_now cfg B) ≤
      rest.countP (tmr_expired_now cfg s) := by
    rw [hcongr _ hfl]
    exact (List.filter_sublist _).countP_le _
  rcases c3 with h | ⟨hne, L, hL, hp⟩
  · refine ⟨le_trans (h.countP_le _) hbase, Or.inl ?_, fun x hx => ?_⟩
    · intro hm
      exact hfl tmr (h.subset hm) rfl
    · rw [hhead]
      exact List.mem_cons_of_mem _ (List.mem_filter.mp (h.subset hx)).1
  · refine ⟨?_, Or.inr hne, fun x hx => ?_⟩
    · refine le_trans (hL.countP_le _) ?_
      rw [hp.countP_eq, List.countP_cons_of_neg _ _ (by rw [hne]; simp)]
      exact hbase
    · rw [hhead]
      rcases List.mem_cons.mp (hp.subset (hL.subset hx)) with h1 | h1
      · rw [h1]; exact List.mem_cons_self _ _
      · exact List.mem_cons_of_mem _ (List.mem_filter.mp h1).1

theorem handler_ends (cfg : Config) (htick : cfg.hw_timer = false) :
    ∀ (n : Nat) (s : Kernel), s.timers.countP (tmr_expired_now cfg s) ≤ n →
      ∃ k R, k ≤ s.timers.countP (tmr_expired_now cfg s) ∧
        (∀ fuel, k < fuel → core_tmr_handler cfg fuel s = R) ∧
        (priv_tmr_expired cfg R R.timers.head?).1 = false ∧
        R.cnt = s.cnt ∧ (∀ x, x ∈ R.timers → x ∈ s.timers) := by
  intro n
  induction n with
  | zero =>
    intro s hs
    refine ⟨0, s, Nat.zero_le _, fun fuel hf => ?_, ?_, rfl, fun _ h => h⟩
    · obtain ⟨m, rfl⟩ : ∃ m, fuel = m + 1 := ⟨fuel - 1, by omega⟩
      rw [handler_step]
      cases hh : s.timers.head? with
      | none => simp only []; rw [(expired_tick_state cfg s htick).2]
      | some tmr =>
        simp only []
        rw [(expired_tick_state cfg s htick).1 tmr]
        have hm : tmr ∈ s.timers := List.mem_of_mem_head? hh
        have : tmr_expired_now cfg s tmr = false := by
          cases he : tmr_expired_now cfg s tmr with
          | false => rfl
          | true =>
            have := List.countP_pos_iff.mpr ⟨tmr, hm, he⟩
            omega
        simp [this]
    · cases hh : s.timers.head? with
      | none => rw [(expired_tick_state cfg s htick).2]
      | some tmr =>
        rw [(expired_tick_state cfg s htick).1 tmr]
        have hm : tmr ∈ s.timers := List.mem_of_mem_head? hh
        cases he : tmr_expired_now cfg s tmr with
        | false => rfl
        | true =>
          have := List.countP_pos_iff.mpr ⟨tmr, hm, he⟩
          omega
  | succ n ih =>
    intro s hs
    cases hl : s.timers with
    | nil =>
      refine ⟨0, s, Nat.zero_le _, fun fuel hf => ?_, ?_, rfl,
        fun _ h => (by rw [← hl]; exact h)⟩
      · obtain ⟨m, rfl⟩ : ∃ m, fuel = m + 1 := ⟨fuel - 1, by omega⟩
        rw [handler_step, hl]
        simp only [List.head?_nil]
        rw [(expired_tick_state cfg s htick).2]
      · rw [hl]
        simp only [List.head?_nil]
        rw [(expired_tick_state cfg s htick).2]
    | cons tmr rest =>
      cases he : tmr_expired_now cfg s tmr with
      | false =>
        refine ⟨0, s, Nat.zero_le _, fun fuel hf => ?_, ?_, rfl,
          fun _ h => (by rw [← hl]; exact h)⟩
        · obtain ⟨m, rfl⟩ : ∃ m, fuel = m + 1 := ⟨fuel - 1, by omega⟩
          rw [handler_step, hl]
          simp only [List.head?_cons]
          rw [(expired_tick_state cfg s htick).1 tmr]
          simp [he]
        · rw [hl]
          simp only [List.head?_cons]
          rw [(expired_tick_state cfg s htick).1 tmr]
          exact he
      | true =>
        obtain ⟨c1, _, c3⟩ := body_count cfg s tmr rest htick hl
        have hcnt : (tmr :: rest).countP (tmr_expired_now cfg s) =
            rest.countP (tmr_expired_now cfg s) + 1 := List.countP_cons_of_pos _ _ he
        rw [hl, hcnt] at hs
        obtain ⟨k, R, k1, k2, k3, k4, k5⟩ := ih (core_tmr_handler_body cfg s tmr) (by omega)
        refine ⟨k + 1, R, by rw [hcnt]; omega, fun fuel hf => ?_, k3, ?_, fun x hx => ?_⟩
        · obtain ⟨m, rfl⟩ : ∃ m, fuel = m + 1 := ⟨fuel - 1, by omega⟩
          rw [handler_step, hl]
          simp only [List.head?_cons]
          rw [(expired_tick_state cfg s htick).1 tmr]
          simp only [he, if_true]
          exact k2 m (by omega)
        · rw [k4, (body_round cfg s tmr rest htick hl).1]
        · rw [← hl]
          exact c3 x (k5 x hx)

theorem handler_timers_mem (cfg : Config) (htick : cfg.hw_timer = false) (fuel : Nat) :
    ∀ (s : Kernel) (x : Nat), x ∈ (core_tmr_handler cfg fuel s).timers → x ∈ s.timers := by
  induction fuel with
  | zero => intro s x hx; exact hx
  | succ n ih =>
    intro s x hx
    rw [handler_step] at hx
    cases hl : s.timers with
    | nil =>
      rw [hl] at hx
      simp only [List.head?_nil] at hx
      rw [(expired_tick_state cfg s htick).2, hl] at hx
      exact hx
    | cons tmr rest =>
      rw [hl] at hx
      simp only [List.head?_cons] at hx
      rw [(expired_tick_state cfg s htick).1 tmr] at hx
      simp only [] at hx
      rw [← hl]
      split at hx
      · exact (body_count cfg s tmr rest htick hl).2.2 x (ih _ x hx)
      · exact hx

/-- C34.  In the periodic-tick variant, where the clock is the tick counter, which the
handler does not change, and for every timer list, which ends in the `WAIT` sentinel of
delay `INFINITE`, `core_tmr_handler` terminates: its loop ends after at most as many rounds
`k` as there are expired timers in the list, so every run with more than `k` rounds of fuel
gives the same state `R`, in which `priv_tmr_expired` is false for the head of the timer
list; the counter is as it was and no timer has been added to the list.  Each round of the
loop, for an expired head `tmr`, either removes the head, which then stays out of the list
until the handler returns, or links it again only when `priv_tmr_expired` is false for it;
the number of expired timers in the list decreases with every round. -/
theorem handler_terminates (cfg : Config) (s : Kernel) (htick : cfg.hw_timer = false) :
    (∃ k R, k ≤ s.timers.countP (tmr_expired_now cfg s) ∧ k ≤ s.timers.length ∧
      (∀ fuel, k < fuel → core_tmr_handler cfg fuel s = R) ∧
      (priv_tmr_expired cfg R R.timers.head?).1 = false ∧
      (∀ t, R.timers.head? = some t →
        (R.tsk t).delay ≥ (R.cnt + CMOD cfg - (R.tsk t).start % CMOD cfg + 1) % CMOD cfg) ∧
      R.cnt = s.cnt ∧ (∀ x, x ∈ R.timers → x ∈ s.timers)) ∧
    (∀ t, (priv_tmr_expired cfg s (some t)).1 = tmr_expired_now cfg s t ∧
      (priv_tmr_expired cfg s (some t)).2 = s) ∧
    (∀ tmr rest, s.timers = tmr :: rest → (priv_tmr_expired cfg s (some tmr)).1 = true →
      (∀ fuel, core_tmr_handler cfg (fuel + 1) s =
        core_tmr_handler cfg fuel (core_tmr_handler_body cfg s tmr)) ∧
      (tmr ∉ (core_tmr_handler_body cfg s tmr).timers ∨
        (priv_tmr_expired cfg (core_tmr_handler_body cfg s tmr) (some tmr)).1 = false) ∧
      (tmr ∉ (core_tmr_handler_body cfg s tmr).timers →
        ∀ fuel, tmr ∉ (core_tmr_handler cfg fuel (core_tmr_handler_body cfg s tmr)).timers) ∧
      (core_tmr_handler_body cfg s tmr).timers.countP
          (tmr_expired_now cfg (core_tmr_handler_body cfg s tmr)) <
        s.timers.countP (tmr_expired_now cfg s)) := by
  refine ⟨?_, fun t => by rw [(expired_tick_state cfg s htick).1 t]; exact ⟨rfl, rfl⟩, ?_⟩
  · obtain ⟨k, R, k1, k2, k3, k4, k5⟩ := handler_ends cfg htick _ s (le_refl _)
    refine ⟨k, R, k1, le_trans k1 (List.countP_le_length _), k2, k3, fun t ht => ?_, k4, k5⟩
    rw [ht, (expired_tick_state cfg R htick).1 t] at k3
    simp only [tmr_expired_now, priv_tmr_expired_tick] at k3
    by_contra hc
    rw [if_neg hc] at k3
    cases k3
  · intro tmr rest hl he
    rw [(expired_tick_state cfg s htick).1 tmr] at he
    simp only [] at he
    obtain ⟨c1, c2, _⟩ := body_count cfg s tmr rest htick hl
    refine ⟨fun fuel => ?_, ?_, fun hn fuel hm => ?_, ?_⟩
    · rw [handler_step, hl]
      simp only [List.head?_cons]
      rw [(expired_tick_state cfg s htick).1 tmr]
      simp only [he, if_true]
    · rw [(expired_tick_state cfg _ htick).1 tmr]
      exact c2
    · exact hn (handler_timers_mem cfg htick fuel _ tmr hm)
    · rw [hl, List.countP_cons_of_pos _ _ he]
      omega

/-- Witness of C34: the port `cfg32` has the periodic tick; in `ex_forever` the timer 7 has
expired, and the handler ends after one round of its loop at most. -/
theorem handler_terminates_witness :
    cfg32.hw_timer = false ∧
    ∃ k R, k ≤ 1 ∧ (∀ fuel, k < fuel → core_tmr_handler cfg32 fuel ex_forever = R) ∧
      (priv_tmr_expired cfg32 R R.timers.head?).1 = false :=
  ⟨rfl, (handler_terminates cfg32 ex_forever rfl).1.imp (fun _ h => h.imp (fun _ h2 =>
    ⟨le_trans h2.1 (by decide), h2.2.2.1, h2.2.2.2.1⟩))⟩

/-! ### C32: whole frames only -/

theorem transmit_push (cfg : Config) (s : Kernel) (msg src S : Nat)
    (hwf : msg_wf cfg (s.msg msg)) (hempty : (s.msg msg).count = 0)
    (hS : 1 ≤ S) (hSl : S ≤ (s.msg msg).limit)
    (hnd : (s.queue msg).Nodup)
    (hrcv : ∀ t, t ∈ s.queue msg → (s.tsk t).evt_size < UMOD cfg) :
    (∀ t, t ∈ (s.queue msg).takeWhile (fun t => decide ((s.tsk t).evt_size < S)) →
      woken event_t.E_TIMEOUT t (msg_transmit cfg s msg src S) ∧
      ((msg_transmit cfg s msg src S).tsk t).evt_size = (s.tsk t).evt_size ∧
      msg_resume cfg (msg_transmit cfg s msg src S) t (s.tsk t).evt_size = 0) ∧
    ((s.queue msg).dropWhile (fun t => decide ((s.tsk t).evt_size < S)) = [] →
      (msg_transmit cfg s msg src S).queue msg = [] ∧
      (msg_transmit cfg s msg src S).mem = s.mem ∧
      ((msg_transmit cfg s msg src S).msg msg).size = S ∧
      ((msg_transmit cfg s msg src S).msg msg).count = S ∧
      ring ((msg_transmit cfg s msg src S).msg msg) = load s.mem src S) ∧
    (∀ q qs, (s.queue msg).dropWhile (fun t => decide ((s.tsk t).evt_size < S)) = q :: qs →
      (msg_transmit cfg s msg src S).queue msg = qs ∧
      woken event_t.E_SUCCESS q (msg_transmit cfg s msg src S) ∧
      load (msg_transmit cfg s msg src S).mem (s.tsk q).idata S = load s.mem src S ∧
      (∀ a, a < (s.tsk q).idata ∨ (s.tsk q).idata + S ≤ a →
        (msg_transmit cfg s msg src S).mem a = s.mem a) ∧
      ((msg_transmit cfg s msg src S).tsk q).evt_size = (s.tsk q).evt_size - S ∧
      msg_resume cfg (msg_transmit cfg s msg src S) q (s.tsk q).evt_size = S ∧
      ((msg_transmit cfg s msg src S).msg msg).size = 0 ∧
      ((msg_transmit cfg s msg src S).msg msg).count = 0 ∧
      (∀ t, t ∈ qs → (msg_transmit cfg s msg src S).tsk t = s.tsk t)) := by
  have hU : S < UMOD cfg := lt_of_le_of_lt hSl hwf.1
  -- the frame is written to the buffer
  obtain ⟨m1, hm1⟩ : ∃ m1 : msg_t, m1 = { s.msg msg with size := S } := ⟨_, rfl⟩
  have hm1c : m1.count = 0 := by rw [hm1]; exact hempty
  have hm1l : m1.limit = (s.msg msg).limit := by rw [hm1]
  have hm1s : m1.size = S := by rw [hm1]
  have hwf1 : msg_wf cfg m1 := by rw [hm1]; exact hwf
  have hring1 : ring m1 = [] := by simp [ring, hm1c]
  obtain ⟨m2, hm2⟩ : ∃ m2 : msg_t, m2 = msg_putn cfg (load s.mem src S) m1 := ⟨_, rfl⟩
  obtain ⟨w2, r2, c2, s2, l2⟩ := putn_wf cfg (load s.mem src S) m1 hwf1
    (by simp [load_length, hm1c, hm1l, hSl])
  rw [← hm2] at w2 r2 c2 s2 l2
  simp only [hring1, List.nil_append, hm1c, load_length, Nat.zero_add, hm1s] at r2 c2 s2
  have hlen : (load s.mem src S).length = S := load_length _ _ _
  have e1 : priv_msg_put cfg (priv_msg_putSize cfg s msg S) msg src S = s.setMsg msg m2 := by
    rw [hm2, hm1]
    simp [priv_msg_put, priv_msg_putSize, hempty, Kernel.setMsg]
  obtain ⟨sP, hsP⟩ : ∃ sP : Kernel, sP = s.setMsg msg m2 := ⟨_, rfl⟩
  have hPq : sP.queue msg = s.queue msg := by rw [hsP]; rfl
  have hPt : sP.tsk = s.tsk := by rw [hsP]; rfl
  have hPm : sP.msg msg = m2 := by rw [hsP]; simp [Kernel.setMsg]
  have hPmem : sP.mem = s.mem := by rw [hsP]; rfl
  have et : msg_transmit cfg s msg src S = priv_msg_putUpdate cfg sP msg := by
    unfold msg_transmit; simp only []; rw [e1, hsP]
  rw [et, putUpdate_unfold]
  obtain ⟨i1, i2, i3, i4, i5, i6, i7, i8⟩ :=
    putUpdate_loop_spec cfg msg (s.queue msg) (sP.queue msg).length sP hPq hnd (by rw [hPq])
  simp only [hPt, hPm, s2] at i1 i4 i5 i6
  obtain ⟨s1, hs1⟩ : ∃ s1 : Kernel,
    s1 = priv_msg_putUpdate_loop cfg msg (sP.queue msg).length sP := ⟨_, rfl⟩
  rw [← hs1] at i1 i2 i3 i4 i5 i6 i7 i8 ⊢
  have h1m : s1.msg msg = m2 := by rw [i2, hPm]
  have hsplit := List.takeWhile_append_dropWhile
    (fun t => decide ((s.tsk t).evt_size < S)) (s.queue msg)
  have hnd2 : ((s.queue msg).takeWhile (fun t => decide ((s.tsk t).evt_size < S)) ++
      (s.queue msg).dropWhile (fun t => decide ((s.tsk t).evt_size < S))).Nodup := by
    rw [hsplit]; exact hnd
  have hsmall : ∀ t, t ∈ (s.queue msg).takeWhile (fun t => decide ((s.tsk t).evt_size < S)) →
      msg_resume cfg s1 t (s.tsk t).evt_size = 0 := by
    intro t ht
    unfold msg_resume
    rw [(i5 t).1]
    exact sub_self_wrap cfg _ (hrcv t ((List.takeWhile_sublist _).subset ht))
  cases hd : (s.queue msg).dropWhile (fun t => decide ((s.tsk t).evt_size < S)) with
  | nil =>
    rw [hd] at i1
    rw [i1]
    simp only [List.head?_nil]
    refine ⟨?_, ?_, ?_⟩
    · intro t ht
      exact ⟨i4 t ht, (i5 t).1, hsmall t ht⟩
    · intro _
      exact ⟨i1, by rw [i3, hPmem], by rw [h1m, s2], by rw [h1m, c2], by rw [h1m, r2]⟩
    · intro q qs h; cases h
  | cons q qs =>
    rw [hd] at i1 hnd2
    rw [i1]
    simp only [List.head?_cons]
    have hndq : (q :: qs).Nodup := (List.nodup_append.mp hnd2).2.1
    have hqmem : q ∈ s.queue msg := by
      have : q ∈ (s.queue msg).dropWhile (fun t => decide ((s.tsk t).evt_size < S)) := by
        rw [hd]; exact List.mem_cons_self _ _
      exact (List.dropWhile_sublist _).subset this
    have hqge : S ≤ (s.tsk q).evt_size := by
      have := dropWhile_head (fun t => decide ((s.tsk t).evt_size < S)) (s.queue msg) q qs hd
      simp only [decide_eq_false_iff_not] at this
      omega
    have hqnot : q ∉ (s.queue msg).takeWhile (fun t => decide ((s.tsk t).evt_size < S)) :=
      fun hm => (List.nodup_append.mp hnd2).2.2 hm (List.mem_cons_self _ _)
    obtain ⟨b1, b2, b3, b4, b5, b6, b7, b8⟩ := push_body cfg s1 msg q S qs (load s.mem src S)
      i1 hndq (by rw [h1m]; exact w2) (by rw [h1m]; exact r2) (by rw [h1m]; exact s2) hlen
    obtain ⟨sf, hsf⟩ : ∃ sf : Kernel, sf = priv_msg_putUpdate_body cfg s1 msg q := ⟨_, rfl⟩
    rw [← hsf] at b1 b2 b3 b4 b5 b6 b7 b8 ⊢
    have h1q : s1.tsk q = s.tsk q := i6 q hqnot
    rw [h1q] at b2 b3
    rw [i3, hPmem] at b2
    have hev : (sf.tsk q).evt_size = (s.tsk q).evt_size - S := by
      rw [b3]; exact sub_wrap cfg _ _ hqge (hrcv q hqmem)
    refine ⟨?_, ?_, ?_⟩
    · intro t ht
      have htq : t ≠ q := fun e => hqnot (e ▸ ht)
      refine ⟨b8 t _ htq (i4 t ht), by rw [b7 t htq]; exact (i5 t).1, ?_⟩
      have := hsmall t ht
      unfold msg_resume at this ⊢
      rw [b7 t htq]; exact this
    · intro h; cases h
    · intro q' qs' h
      simp only [List.cons.injEq] at h
      obtain ⟨h1, h2⟩ := h
      subst h1 h2
      refine ⟨b1, b6, ?_, ?_, hev, ?_, b4, b5, ?_⟩
      · rw [b2]
        have := load_store (load s.mem src S) s.mem (s.tsk q).idata
        rw [hlen] at this
        exact this
      · intro a ha
        rw [b2]
        exact store_other _ _ _ _ (by rw [hlen]; exact ha)
      · unfold msg_resume
        rw [hev]
        have h3 := hrcv q hqmem
        have hm : ((s.tsk q).evt_size - S) % UMOD cfg = (s.tsk q).evt_size - S :=
          Nat.mod_eq_of_lt (by omega)
        have : (s.tsk q).evt_size + UMOD cfg - ((s.tsk q).evt_size - S) = S + UMOD cfg := by
          omega
        rw [hm, this, Nat.add_mod_right]
        exact Nat.mod_eq_of_lt hU
      · intro t ht
        have htq : t ≠ q := fun e => (List.nodup_cons.mp hndq).1 (e ▸ ht)
        have htn : t ∉ (s.queue msg).takeWhile (fun t => decide ((s.tsk t).evt_size < S)) :=
          fun hm => (List.nodup_append.mp hnd2).2.2 hm (List.mem_cons_of_mem _ ht)
        rw [b7 t htq, i6 t htn]

theorem receive_small (cfg : Config) (s : Kernel) (msg data n time : Nat)
    (wait : Kernel → Nat → Nat → Kernel × Option event_t) (h : n < (s.msg msg).size) :
    msg_take cfg s msg data n = (s, 0) ∧
    priv_msg_wait cfg s msg data n time wait = (s, some 0) := by
  have hr : msg_receive cfg s msg data n = (s, 0) := by
    unfold msg_receive priv_msg_count
    rw [if_neg (by omega)]
  constructor
  · unfold msg_take
    split
    · split
      · exact hr
      · rfl
    · rfl
  · unfold priv_msg_wait
    split
    · rw [if_pos (by omega)]
      simp only [hr]
    · rfl

theorem wait_receive (cfg : Config) (s : Kernel) (msg data n time : Nat)
    (wait : Kernel → Nat → Nat → Kernel × Option event_t)
    (hn : 0 < n) (hs : 0 < (s.msg msg).size) :
    priv_msg_wait cfg s msg data n time wait =
      ((msg_take cfg s msg data n).1, some (msg_take cfg s msg data n).2) := by
  unfold priv_msg_wait msg_take
  rw [if_pos hn, if_pos hs, if_pos hn, if_pos hs]

theorem wait_cases (cfg : Config) (s : Kernel) (msg data n time : Nat)
    (wait : Kernel → Nat → Nat → Kernel × Option event_t)
    (hwait : wait = core_tsk_waitFor cfg ∨ wait = core_tsk_waitUntil cfg)
    (hn : n < UMOD cfg) :
    ((priv_msg_wait cfg s msg data n time wait).2 = none ∧ msg_count s msg = 0) ∨
    (priv_msg_wait cfg s msg data n time wait).2 = some 0 ∨
    (msg_count s msg ≠ 0 ∧ priv_msg_wait cfg s msg data n time wait =
      ((msg_take cfg s msg data n).1, some (msg_take cfg s msg data n).2)) := by
  by_cases h0 : 0 < n
  · by_cases hs : 0 < (s.msg msg).size
    · right; right
      exact ⟨by unfold msg_count priv_msg_count; omega,
        wait_receive cfg s msg data n time wait h0 hs⟩
    · obtain ⟨s1, hs1⟩ : ∃ s1 : Kernel,
        s1 = s.setTsk s.cur { s.tsk s.cur with idata := data, evt_size := n } := ⟨_, rfl⟩
      have he : (s1.tsk s1.cur).evt_size = n := by rw [hs1]; simp [Kernel.setTsk, upd]
      have hc : s1.cur = s.cur := by rw [hs1]; rfl
      obtain ⟨z1, _⟩ := blocked_call_zero cfg s1 msg n time wait hwait hn he
      have e : priv_msg_wait cfg s msg data n time wait =
          (match (wait s1 msg time).2 with
            | some _ => ((wait s1 msg time).1, some (msg_resume cfg (wait s1 msg time).1 s.cur n))
            | none => ((wait s1 msg time).1, none)) := by
        unfold priv_msg_wait
        rw [if_pos h0, if_neg hs]
        subst hs1
        rfl
      rw [e]
      cases hr : (wait s1 msg time).2 with
      | none =>
        left
        exact ⟨rfl, by unfold msg_count priv_msg_count; omega⟩
      | some ev =>
        right; left
        have := (z1 ev hr).2
        rw [hc] at this
        simp only [this]
  · right; left
    have : n = 0 := by omega
    subst this
    unfold priv_msg_wait
    rw [if_neg (by omega)]

theorem take_cases (cfg : Config) (msg limit : Nat) (s : Kernel) (data n : Nat)
    (fs : List (List Nat)) (hinv : msg_inv cfg msg limit s)
    (hfr : framed cfg (s.msg msg) fs) (hne : ∀ f, f ∈ fs → 1 ≤ f.length)
    (hw : 2 * limit + cfg.usz < UMOD cfg) :
    msg_take cfg s msg data n = (s, 0) ∨
    ((msg_take cfg s msg data n).2 = (fs.headD []).length ∧ 1 ≤ (fs.headD []).length ∧
      (fs.headD []).length ≤ n ∧
      load (msg_take cfg s msg data n).1.mem data (fs.headD []).length = fs.headD []) := by
  have hsz : (s.msg msg).size = (fs.headD []).length := by
    have := hfr.2
    cases fs with
    | nil => exact this
    | cons f gs => exact this
  by_cases h : n > 0 ∧ (s.msg msg).size > 0 ∧ n ≥ (s.msg msg).size
  · right
    have hc : msg_count s msg = (s.msg msg).size := rfl
    obtain ⟨t1, t2⟩ := take_head cfg msg limit s data n fs hinv hfr hne hw
      (by rw [hc]; omega) (by rw [hc]; omega)
    rw [hc, hsz] at t1 t2
    exact ⟨t1, by omega, by omega, t2⟩
  · left
    unfold msg_take msg_receive priv_msg_count
    by_cases h1 : n > 0
    · rw [if_pos h1]
      by_cases h2 : (s.msg msg).size > 0
      · rw [if_pos h2, if_neg (fun h3 => h ⟨h1, h2, h3⟩)]
      · rw [if_neg h2]
    · rw [if_neg h1]

theorem transmit_resume (cfg : Config) (s : Kernel) (msg src S : Nat)
    (hwf : msg_wf cfg (s.msg msg)) (hempty : (s.msg msg).count = 0)
    (hS : 1 ≤ S) (hSl : S ≤ (s.msg msg).limit)
    (hnd : (s.queue msg).Nodup)
    (hrcv : ∀ t, t ∈ s.queue msg → (s.tsk t).evt_size < UMOD cfg) :
    ∀ t, t ∈ s.queue msg →
      (msg_resume cfg (msg_transmit cfg s msg src S) t (s.tsk t).evt_size = 0 ∧
        (woken event_t.E_TIMEOUT t (msg_transmit cfg s msg src S) ∨
          t ∈ (msg_transmit cfg s msg src S).queue msg)) ∨
      (msg_resume cfg (msg_transmit cfg s msg src S) t (s.tsk t).evt_size = S ∧
        S ≤ (s.tsk t).evt_size ∧
        woken event_t.E_SUCCESS t (msg_transmit cfg s msg src S) ∧
        load (msg_transmit cfg s msg src S).mem (s.tsk t).idata S = load s.mem src S) := by
  obtain ⟨p1, p2, p3⟩ := transmit_push cfg s msg src S hwf hempty hS hSl hnd hrcv
  intro t ht
  rw [← List.takeWhile_append_dropWhile (fun t => decide ((s.tsk t).evt_size < S))
    (s.queue msg)] at ht
  rcases List.mem_append.mp ht with h1 | h1
  · exact Or.inl ⟨(p1 t h1).2.2, Or.inl (p1 t h1).1⟩
  · cases hd : (s.queue msg).dropWhile (fun t => decide ((s.tsk t).evt_size < S)) with
    | nil => rw [hd] at h1; cases h1
    | cons q qs =>
      rw [hd] at h1
      obtain ⟨b1, b2, b3, _, _, b6, _, _, b9⟩ := p3 q qs hd
      rcases List.mem_cons.mp h1 with e | e
      · right
        rw [e]
        have hge := dropWhile_head (fun t => decide ((s.tsk t).evt_size < S)) (s.queue msg)
          q qs hd
        simp only [decide_eq_false_iff_not] at hge
        exact ⟨b6, by omega, b2, b3⟩
      · left
        refine ⟨?_, Or.inr (by rw [b1]; exact e)⟩
        unfold msg_resume
        rw [b9 t e]
        have hm : t ∈ s.queue msg := by
          have : t ∈ (s.queue msg).dropWhile (fun t => decide ((s.tsk t).evt_size < S)) := by
            rw [hd]; exact List.mem_cons_of_mem _ e
          exact (List.dropWhile_sublist _).subset this
        exact sub_self_wrap cfg _ (hrcv t hm)

/-- C32.  In every state reachable from `msg_init` (with a capacity such that
`2 * limit + sizeof(unsigned)` is a value of `unsigned`) a receive never delivers part of a
frame.  When a frame of `S` bytes is given or sent to the empty queue, the receivers that
wait with a requested size smaller than `S` in front of the first receiver with room for
the frame are woken by `priv_msg_putUpdate` with `E_TIMEOUT` and their call returns 0; the
call of every waiting receiver returns 0, the receiver being woken with `E_TIMEOUT` or
still waiting, or it returns `S`, the receiver having room for the frame and the whole
frame at its destination.  When no waiting receiver has room, the frame stays whole in the
buffer and `msg_count` returns `S`: a receive with a requested size smaller than `S`
returns 0 and changes nothing, and `msg_take` with a size of at least `S` returns `S` and
stores the frame.  In every reachable state `msg_take` returns 0 and changes nothing, or
returns the length of the frame at the head of the buffer, which it stores whole;
`msg_waitFor` and `msg_waitUntil` block on the empty queue, or return 0, or return what
`msg_take` returns; the timer handler and `msg_kill` leave `evt.size` as it is, so the call
of a receiver they wake returns 0. -/
theorem whole_frames (cfg : Config) (msg limit : Nat) (s : Kernel)
    (h : msg_reach cfg msg limit s) (hw : 2 * limit + cfg.usz < UMOD cfg) :
    (∀ src S, (s.msg msg).count = 0 → 1 ≤ S → S ≤ limit →
      (∀ t, t ∈ s.queue msg → (s.tsk t).evt_size < UMOD cfg) →
      (msg_give cfg s msg src S = (msg_transmit cfg s msg src S, S) ∧
        (∀ time, msg_sendFor cfg s msg src S time = (msg_transmit cfg s msg src S, some S) ∧
          msg_sendUntil cfg s msg src S time = (msg_transmit cfg s msg src S, some S))) ∧
      (∀ t, t ∈ (s.queue msg).takeWhile (fun t => decide ((s.tsk t).evt_size < S)) →
        woken event_t.E_TIMEOUT t (msg_transmit cfg s msg src S) ∧
        ((msg_transmit cfg s msg src S).tsk t).evt_size = (s.tsk t).evt_size ∧
        msg_resume cfg (msg_transmit cfg s msg src S) t (s.tsk t).evt_size = 0) ∧
      (∀ t, t ∈ s.queue msg →
        (msg_resume cfg (msg_transmit cfg s msg src S) t (s.tsk t).evt_size = 0 ∧
          (woken event_t.E_TIMEOUT t (msg_transmit cfg s msg src S) ∨
            t ∈ (msg_transmit cfg s msg src S).queue msg)) ∨
        (msg_resume cfg (msg_transmit cfg s msg src S) t (s.tsk t).evt_size = S ∧
          S ≤ (s.tsk t).evt_size ∧
          woken event_t.E_SUCCESS t (msg_transmit cfg s msg src S) ∧
          load (msg_transmit cfg s msg src S).mem (s.tsk t).idata S = load s.mem src S)) ∧
      ((∀ t, t ∈ s.queue msg → (s.tsk t).evt_size < S) →
        (msg_transmit cfg s msg src S).queue msg = [] ∧
        (msg_transmit cfg s msg src S).mem = s.mem ∧
        msg_count (msg_transmit cfg s msg src S) msg = S ∧
        ((msg_transmit cfg s msg src S).msg msg).count = S ∧
        ring ((msg_transmit cfg s msg src S).msg msg) = load s.mem src S ∧
        (∀ data n time, n < S →
          msg_take cfg (msg_transmit cfg s msg src S) msg data n =
            (msg_transmit cfg s msg src S, 0) ∧
          msg_waitFor cfg (msg_transmit cfg s msg src S) msg data n time =
            (msg_transmit cfg s msg src S, some 0) ∧
          msg_waitUntil cfg (msg_transmit cfg s msg src S) msg data n time =
            (msg_transmit cfg s msg src S, some 0)) ∧
        (∀ data n, S ≤ n →
          (msg_take cfg (msg_transmit cfg s msg src S) msg data n).2 = S ∧
          load (msg_take cfg (msg_transmit cfg s msg src S) msg data n).1.mem data S =
            load s.mem src S))) ∧
    (∃ fs : List (List Nat), framed cfg (s.msg msg) fs ∧ (∀ f, f ∈ fs → 1 ≤ f.length) ∧
      msg_count s msg = (fs.headD []).length ∧
      ∀ data n,
        (msg_take cfg s msg data n = (s, 0) ∨
          ((msg_take cfg s msg data n).2 = (fs.headD []).length ∧
            1 ≤ (fs.headD []).length ∧ (fs.headD []).length ≤ n ∧
            load (msg_take cfg s msg data n).1.mem data (fs.headD []).length =
              fs.headD [])) ∧
        (n < msg_count s msg → ∀ time,
          msg_waitFor cfg s msg data n time = (s, some 0) ∧
          msg_waitUntil cfg s msg data n time = (s, some 0)) ∧
        (n < UMOD cfg → ∀ time,
          (((msg_waitFor cfg s msg data n time).2 = none ∧ msg_count s msg = 0) ∨
            (msg_waitFor cfg s msg data n time).2 = some 0 ∨
            (msg_count s msg ≠ 0 ∧ msg_waitFor cfg s msg data n time =
              ((msg_take cfg s msg data n).1, some (msg_take cfg s msg data n).2))) ∧
          (((msg_waitUntil cfg s msg data n time).2 = none ∧ msg_count s msg = 0) ∨
            (msg_waitUntil cfg s msg data n time).2 = some 0 ∨
            (msg_count s msg ≠ 0 ∧ msg_waitUntil cfg s msg data n time =
              ((msg_take cfg s msg data n).1, some (msg_take cfg s msg data n).2))))) ∧
    (∀ t, (s.tsk t).evt_size < UMOD cfg →
      (∀ fuel, msg_resume cfg (core_tmr_handler cfg fuel s) t (s.tsk t).evt_size = 0) ∧
      msg_resume cfg (msg_kill cfg s msg) t (s.tsk t).evt_size = 0) := by
  have hinv := reach_msg_inv cfg msg limit s h hw
  obtain ⟨i1, i2, ⟨fs, hfr, hne⟩, i4, i5⟩ := id hinv
  refine ⟨?_, ⟨fs, hfr, hne, ?_, fun data n => ⟨?_, ?_, ?_⟩⟩, ?_⟩
  · intro src S hempty hS hSl hrcv
    have hSl' : S ≤ (s.msg msg).limit := by rw [i2]; exact hSl
    obtain ⟨p1, p2, p3⟩ := transmit_push cfg s msg src S i1 hempty hS hSl' i4 hrcv
    have hsp : S ≤ priv_msg_space cfg s msg := by
      unfold priv_msg_space
      simp only []
      rw [if_pos hempty]
      exact hSl'
    have hcond : S > 0 ∧ S ≤ (s.msg msg).limit := ⟨hS, hSl'⟩
    refine ⟨⟨?_, fun time => ⟨?_, ?_⟩⟩, p1,
      transmit_resume cfg s msg src S i1 hempty hS hSl' i4 hrcv, ?_⟩
    · unfold msg_give
      rw [if_pos hcond, if_pos hsp]
    · unfold msg_sendFor priv_msg_send
      rw [if_pos hcond, if_pos hsp]
    · unfold msg_sendUntil priv_msg_send
      rw [if_pos hcond, if_pos hsp]
    · intro hall
      have hd : (s.queue msg).dropWhile (fun t => decide ((s.tsk t).evt_size < S)) = [] := by
        rw [List.dropWhile_eq_nil_iff]
        intro x hx
        simpa using hall x hx
      obtain ⟨q1, q2, q3, q4, q5⟩ := p2 hd
      obtain ⟨T, hT⟩ : ∃ T : Kernel, T = msg_transmit cfg s msg src S := ⟨_, rfl⟩
      rw [← hT] at q1 q2 q3 q4 q5 ⊢
      have hTinv : msg_inv cfg msg limit T := by
        rw [hT]
        exact inv_transmit cfg msg limit s src S hinv hS hSl' hsp hw
      have hTfr : framed cfg (T.msg msg) [load s.mem src S] := by
        refine ⟨by rw [q5]; simp [stream, tail_stream], ?_⟩
        simp only [load_length]
        exact q3
      have hTne : ∀ f, f ∈ [load s.mem src S] → 1 ≤ f.length := by
        intro f hf
        rw [List.mem_singleton.mp hf, load_length]
        exact hS
      have hTc : msg_count T msg = S := q3
      refine ⟨q1, q2, hTc, q4, q5, fun data n time hn => ?_, fun data n hn => ?_⟩
      · have hlt : n < (T.msg msg).size := by rw [q3]; exact hn
        exact ⟨(receive_small cfg T msg data n time (core_tsk_waitFor cfg) hlt).1,
          (receive_small cfg T msg data n time (core_tsk_waitFor cfg) hlt).2,
          (receive_small cfg T msg data n time (core_tsk_waitUntil cfg) hlt).2⟩
      · obtain ⟨t1, t2⟩ := take_head cfg msg limit T data n [load s.mem src S] hTinv hTfr hTne
          hw (by rw [hTc]; omega) (by rw [hTc]; exact hn)
        rw [hTc] at t1 t2
        exact ⟨t1, t2⟩
  · have := hfr.2
    cases fs with
    | nil => exact this
    | cons f gs => exact this
  · exact take_cases cfg msg limit s data n fs hinv hfr hne hw
  · intro hn time
    exact ⟨(receive_small cfg s msg data n time (core_tsk_waitFor cfg) hn).2,
      (receive_small cfg s msg data n time (core_tsk_waitUntil cfg) hn).2⟩
  · intro hn time
    exact ⟨wait_cases cfg s msg data n time (core_tsk_waitFor cfg) (Or.inl rfl) hn,
      wait_cases cfg s msg data n time (core_tsk_waitUntil cfg) (Or.inr rfl) hn⟩
  · intro t ht
    refine ⟨fun fuel => ?_, ?_⟩
    · unfold msg_resume
      rw [(core_tmr_handler_size cfg fuel s).2.2 t]
      exact sub_self_wrap cfg _ ht
    · unfold msg_resume
      have : ((msg_kill cfg s msg).tsk t).evt_size = (s.tsk t).evt_size :=
        (core_all_wakeup_loop_size cfg msg event_t.E_STOPPED _ _).2 t
      rw [this]
      exact sub_self_wrap cfg _ ht

theorem ex_push_reach : msg_reach cfg32 100 16 ex_push :=
  msg_reach.waitFor _ 2000 3 5
    (msg_reach.init { boot cfg32 1 with mem := fun a => a % 7 } (fun _ => 0) (by decide))
    (by decide)

/-- Witness of C32: the main task waits for 3 bytes on the queue of `ex_push`, which is
reachable from `msg_init`; a frame of 5 bytes is given.  The main task is woken with
`E_TIMEOUT`, its call returns 0 and `msg_count` returns 5. -/
theorem whole_frames_witness :
    msg_reach cfg32 100 16 ex_push ∧ 2 * 16 + cfg32.usz < UMOD cfg32 ∧
    woken event_t.E_TIMEOUT MAIN (msg_transmit cfg32 ex_push 100 1000 5) ∧
    msg_resume cfg32 (msg_transmit cfg32 ex_push 100 1000 5) MAIN 3 = 0 ∧
    msg_count (msg_transmit cfg32 ex_push 100 1000 5) 100 = 5 :=
  ⟨ex_push_reach, by decide,
    (((whole_frames cfg32 100 16 ex_push ex_push_reach (by decide)).1 1000 5 (by decide)
      (by decide) (by decide) (by decide)).2.1 MAIN (by decide)).1,
    (((whole_frames cfg32 100 16 ex_push ex_push_reach (by decide)).1 1000 5 (by decide)
      (by decide) (by decide) (by decide)).2.1 MAIN (by decide)).2.2,
    (((whole_frames cfg32 100 16 ex_push ex_push_reach (by decide)).1 1000 5 (by decide)
      (by decide) (by decide) (by decide)).2.2.2 (by decide)).2.2.1⟩

/-! ### Capacities for which the sum of the fit test wraps

The sum `count + evt.size + sizeof(unsigned)` of the fit test of `priv_msg_getUpdate` is
taken in `unsigned`.  For a capacity with `2 * limit + sizeof(unsigned)` beyond the range
of `unsigned` the sum can wrap; the run below, on the 32-bit port, turns the wrap into a
frame that is written although it does not fit. -/

theorem putc_fields (cfg : Config) (m : msg_t) (c : Nat)
    (hl : m.limit < UMOD cfg) (hn : m.next < m.limit) :
    (priv_msg_putc cfg m c).count = (m.count + 1) % UMOD cfg ∧
    (priv_msg_putc cfg m c).next = (m.next + 1) % m.limit ∧
    (priv_msg_putc cfg m c).first = m.first ∧
    (priv_msg_putc cfg m c).limit = m.limit ∧
    (priv_msg_putc cfg m c).size = m.size ∧
    (priv_msg_putc cfg m c).data = upd m.data m.next c := by
  refine ⟨rfl, ?_, rfl, rfl, rfl, rfl⟩
  show (if (m.next + 1) % UMOD cfg < m.limit then (m.next + 1) % UMOD cfg else 0) = _
  rw [Nat.mod_eq_of_lt (by omega)]
  by_cases h : m.next + 1 < m.limit
  · rw [if_pos h, Nat.mod_eq_of_lt h]
  · rw [if_neg h]
    have : m.next + 1 = m.limit := by omega
    rw [this, Nat.mod_self]

theorem putn_fields (cfg : Config) (bs : List Nat) :
    ∀ m : msg_t, m.limit < UMOD cfg → m.next < m.limit → m.count < UMOD cfg →
      (msg_putn cfg bs m).count = (m.count + bs.length) % UMOD cfg ∧
      (msg_putn cfg bs m).next = (m.next + bs.length) % m.limit ∧
      (msg_putn cfg bs m).first = m.first ∧
      (msg_putn cfg bs m).limit = m.limit ∧
      (msg_putn cfg bs m).size = m.size := by
  induction bs with
  | nil =>
    intro m _ hn hc
    refine ⟨?_, ?_, rfl, rfl, rfl⟩
    · show m.count = _
      rw [List.length_nil, Nat.add_zero, Nat.mod_eq_of_lt hc]
    · show m.next = _
      rw [List.length_nil, Nat.add_zero, Nat.mod_eq_of_lt hn]
  | cons b bs ih =>
    intro m hl hn hc
    obtain ⟨c1, n1, f1, l1, s1, _⟩ := putc_fields cfg m b hl hn
    have hpos : 0 < UMOD cfg := by omega
    have hn1 : (priv_msg_putc cfg m b).next < (priv_msg_putc cfg m b).limit := by
      rw [n1, l1]; exact Nat.mod_lt _ (by omega)
    have hc1 : (priv_msg_putc cfg m b).count < UMOD cfg := by
      rw [c1]; exact Nat.mod_lt _ hpos
    obtain ⟨i1, i2, i3, i4, i5⟩ := ih (priv_msg_putc cfg m b) (by rw [l1]; exact hl) hn1 hc1
    have e : msg_putn cfg (b :: bs) m = msg_putn cfg bs (priv_msg_putc cfg m b) := rfl
    rw [e]
    refine ⟨?_, ?_, by rw [i3, f1], by rw [i4, l1], by rw [i5, s1]⟩
    · rw [i1, c1, List.length_cons, Nat.mod_add_mod]
      congr 1
      omega
    · rw [i2, n1, l1, List.length_cons, Nat.mod_add_mod]
      congr 1
      omega

theorem putn_data_other (cfg : Config) (bs : List Nat) :
    ∀ (m : msg_t) (i : Nat), m.limit < UMOD cfg → m.next < m.limit →
      (∀ k, k < bs.length → (m.next + k) % m.limit ≠ i) →
      (msg_putn cfg bs m).data i = m.data i := by
  induction bs with
  | nil => intro m i _ _ _; rfl
  | cons b bs ih =>
    intro m i hl hn hk
    obtain ⟨_, n1, _, l1, _, d1⟩ := putc_fields cfg m b hl hn
    have hn1 : (priv_msg_putc cfg m b).next < (priv_msg_putc cfg m b).limit := by
      rw [n1, l1]; exact Nat.mod_lt _ (by omega)
    have e : msg_putn cfg (b :: bs) m = msg_putn cfg bs (priv_msg_putc cfg m b) := rfl
    rw [e, ih (priv_msg_putc cfg m b) i (by rw [l1]; exact hl) hn1 ?_, d1]
    · have h0 := hk 0 (by simp)
      rw [Nat.add_zero, Nat.mod_eq_of_lt hn] at h0
      exact upd_other _ _ _ _ (fun h => h0 h.symm)
    · intro k hk'
      rw [n1, l1, Nat.mod_add_mod]
      have := hk (k + 1) (by simp only [List.length_cons]; omega)
      rwa [show m.next + 1 + k = m.next + (k + 1) by omega]

theorem mod_shift_ne (a j l : Nat) (ha : a < l) (hj0 : 0 < j) (hj : j < l) :
    (a + j) % l ≠ a := by
  intro h
  by_cases h1 : a + j < l
  · rw [Nat.mod_eq_of_lt h1] at h; omega
  · have h2 : (a + j) % l = a + j - l := by
      rw [Nat.mod_eq_sub_mod (by omega), Nat.mod_eq_of_lt (by omega)]
    omega

theorem putn_data_at (cfg : Config) (bs : List Nat) :
    ∀ (m : msg_t) (k : Nat), m.limit < UMOD cfg → m.next < m.limit →
      bs.length ≤ m.limit → k < bs.length →
      (msg_putn cfg bs m).data ((m.next + k) % m.limit) = bs.getD k 0 := by
  induction bs with
  | nil => intro m k _ _ _ hk; simp at hk
  | cons b bs ih =>
    intro m k hl hn hlen hk
    obtain ⟨_, n1, _, l1, _, d1⟩ := putc_fields cfg m b hl hn
    have hn1 : (priv_msg_putc cfg m b).next < (priv_msg_putc cfg m b).limit := by
      rw [n1, l1]; exact Nat.mod_lt _ (by omega)
    have e : msg_putn cfg (b :: bs) m = msg_putn cfg bs (priv_msg_putc cfg m b) := rfl
    simp only [List.length_cons] at hlen hk
    rw [e]
    cases k with
    | zero =>
      rw [Nat.add_zero, Nat.mod_eq_of_lt hn,
        putn_data_other cfg bs (priv_msg_putc cfg m b) m.next (by rw [l1]; exact hl) hn1 ?_, d1]
      · simp
      · intro j hj
        rw [n1, l1, Nat.mod_add_mod, show m.next + 1 + j = m.next + (j + 1) by omega]
        exact mod_shift_ne m.next (j + 1) m.limit hn (by omega) (by omega)
    | succ k =>
      have := ih (priv_msg_putc cfg m b) k (by rw [l1]; exact hl) hn1 (by rw [l1]; omega)
        (by omega)
      rw [n1, l1, Nat.mod_add_mod, show m.next + 1 + k = m.next + (k + 1) by omega] at this
      rw [this]
      simp

theorem getc_fields (cfg : Config) (m : msg_t)
    (hl : m.limit < UMOD cfg) (hf : m.first < m.limit) :
    (priv_msg_getc cfg m).1 = m.data m.first ∧
    (priv_msg_getc cfg m).2.count = (m.count + UMOD cfg - 1) % UMOD cfg ∧
    (priv_msg_getc cfg m).2.first = (m.first + 1) % m.limit ∧
    (priv_msg_getc cfg m).2.next = m.next ∧
    (priv_msg_getc cfg m).2.limit = m.limit ∧
    (priv_msg_getc cfg m).2.size = m.size ∧
    (priv_msg_getc cfg m).2.data = m.data := by
  refine ⟨rfl, rfl, ?_, rfl, rfl, rfl, rfl⟩
  show (if (m.first + 1) % UMOD cfg < m.limit then (m.first + 1) % UMOD cfg else 0) = _
  rw [Nat.mod_eq_of_lt (by omega)]
  by_cases h : m.first + 1 < m.limit
  · rw [if_pos h, Nat.mod_eq_of_lt h]
  · rw [if_neg h]
    have : m.first + 1 = m.limit := by omega
    rw [this, Nat.mod_self]

theorem getn_fields (cfg : Config) (n : Nat) :
    ∀ m : msg_t, m.limit < UMOD cfg → m.first < m.limit → m.count < UMOD cfg →
      ((msg_getn cfg n m).2.count + n) % UMOD cfg = m.count ∧
      (msg_getn cfg n m).2.count < UMOD cfg ∧
      (msg_getn cfg n m).2.first = (m.first + n) % m.limit ∧
      (msg_getn cfg n m).2.next = m.next ∧
      (msg_getn cfg n m).2.limit = m.limit ∧
      (msg_getn cfg n m).2.size = m.size ∧
      (msg_getn cfg n m).2.data = m.data ∧
      (msg_getn cfg n m).1 =
        (List.range n).map (fun k => m.data ((m.first + k) % m.limit)) := by
  induction n with
  | zero =>
    intro m _ hf hc
    refine ⟨?_, hc, ?_, rfl, rfl, rfl, rfl, rfl⟩
    · show (m.count + 0) % UMOD cfg = m.count
      rw [Nat.add_zero, Nat.mod_eq_of_lt hc]
    · show m.first = _
      rw [Nat.add_zero, Nat.mod_eq_of_lt hf]
  | succ n ih =>
    intro m hl hf hc
    obtain ⟨b1, c1, f1, n1, l1, s1, d1⟩ := getc_fields cfg m hl hf
    have hpos : 0 < UMOD cfg := by omega
    have hf1 : (priv_msg_getc cfg m).2.first < (priv_msg_getc cfg m).2.limit := by
      rw [f1, l1]; exact Nat.mod_lt _ (by omega)
    have hc1 : (priv_msg_getc cfg m).2.count < UMOD cfg := by
      rw [c1]; exact Nat.mod_lt _ hpos
    obtain ⟨i1, i2, i3, i4, i5, i6, i7, i8⟩ := ih (priv_msg_getc cfg m).2
      (by rw [l1]; exact hl) hf1 hc1
    have e1 : (msg_getn cfg (n + 1) m).2 = (msg_getn cfg n (priv_msg_getc cfg m).2).2 := rfl
    have e2 : (msg_getn cfg (n + 1) m).1 =
        (priv_msg_getc cfg m).1 :: (msg_getn cfg n (priv_msg_getc cfg m).2).1 := rfl
    rw [e1, e2]
    refine ⟨?_, i2, ?_, by rw [i4, n1], by rw [i5, l1], by rw [i6, s1], by rw [i7, d1], ?_⟩
    · have h1 : ((msg_getn cfg n (priv_msg_getc cfg m).2).2.count + (n + 1)) % UMOD cfg =
          (((msg_getn cfg n (priv_msg_getc cfg m).2).2.count + n) % UMOD cfg + 1) %
            UMOD cfg := by
        rw [Nat.mod_add_mod]; rfl
      rw [h1, i1, c1, Nat.mod_add_mod,
        show m.count + UMOD cfg - 1 + 1 = m.count + UMOD cfg by omega, Nat.add_mod_right,
        Nat.mod_eq_of_lt hc]
    · rw [i3, f1, l1, Nat.mod_add_mod]
      congr 1
      omega
    · rw [i8, b1, d1, f1, l1, List.range_succ_eq_map, List.map_cons, List.map_map]
      congr 1
      · rw [Nat.add_zero, Nat.mod_eq_of_lt hf]
      · apply List.map_congr_left
        intro k _
        show m.data (((m.first + 1) % m.limit + k) % m.limit) = m.data ((m.first + (k + 1)) % m.limit)
        rw [Nat.mod_add_mod, show m.first + 1 + k = m.first + (k + 1) by omega]

theorem map_range_getD (f : Nat → Nat) (n k : Nat) (h : k < n) :
    ((List.range n).map f).getD k 0 = f k := by
  rw [List.getD_eq_getElem?_getD, List.getElem?_map, List.getElem?_range h]
  rfl

theorem load_getD (mem : Nat → Nat) (a n k : Nat) (h : k < n) :
    (load mem a n).getD k 0 = mem (a + k) :=
  map_range_getD _ n k h

theorem put_setMsg (cfg : Config) (s : Kernel) (msg data size : Nat) (M : msg_t) :
    priv_msg_put cfg (s.setMsg msg M) msg data size =
      s.setMsg msg (msg_putn cfg (load s.mem data size) M) := by
  simp [priv_msg_put, Kernel.setMsg]

theorem frame_put (cfg : Config) (s : Kernel) (msg src size : Nat)
    (hc : (s.msg msg).count ≠ 0) (hs : 0 < size) :
    priv_msg_put cfg (priv_msg_putSize cfg s msg size) msg src size =
      s.setMsg msg (msg_putn cfg (load s.mem src size)
        (msg_putn cfg (enc_unsigned cfg.usz size) (s.msg msg))) := by
  have e1 : priv_msg_putSize cfg s msg size =
      s.setMsg msg (msg_putn cfg (enc_unsigned cfg.usz size) (s.msg msg)) := by
    unfold priv_msg_putSize
    simp only []
    rw [if_neg hc, if_pos hs]
  rw [e1, put_setMsg]

theorem frame_put_empty (cfg : Config) (s : Kernel) (msg src size : Nat)
    (hc : (s.msg msg).count = 0) :
    priv_msg_put cfg (priv_msg_putSize cfg s msg size) msg src size =
      s.setMsg msg (msg_putn cfg (load s.mem src size) { s.msg msg with size := size }) := by
  have e1 : priv_msg_putSize cfg s msg size = s.setMsg msg { s.msg msg with size := size } := by
    unfold priv_msg_putSize
    simp only []
    rw [if_pos hc]
  rw [e1, put_setMsg]

theorem give_empty (cfg : Config) (s : Kernel) (msg src size : Nat)
    (hq : s.queue msg = []) (hc : (s.msg msg).count = 0)
    (hs : 0 < size) (hsl : size ≤ (s.msg msg).limit) :
    (msg_give cfg s msg src size).1 =
      s.setMsg msg (msg_putn cfg (load s.mem src size) { s.msg msg with size := size }) := by
  have hsp : size ≤ priv_msg_space cfg s msg := by
    unfold priv_msg_space
    simp only []
    rw [if_pos hc]
    exact hsl
  unfold msg_give
  rw [if_pos ⟨hs, hsl⟩, if_pos hsp]
  show msg_transmit cfg s msg src size = _
  unfold msg_transmit
  simp only []
  rw [frame_put_empty cfg s msg src size hc]
  exact putUpdate_idle cfg _ msg hq

theorem give_more (cfg : Config) (s : Kernel) (msg src size : Nat)
    (hq : s.queue msg = []) (hc : (s.msg msg).count ≠ 0)
    (hs : 0 < size) (hsl : size ≤ (s.msg msg).limit)
    (hsp : size ≤ priv_msg_space cfg s msg) :
    (msg_give cfg s msg src size).1 =
      s.setMsg msg (msg_putn cfg (load s.mem src size)
        (msg_putn cfg (enc_unsigned cfg.usz size) (s.msg msg))) := by
  unfold msg_give
  rw [if_pos ⟨hs, hsl⟩, if_pos hsp]
  show msg_transmit cfg s msg src size = _
  unfold msg_transmit
  simp only []
  rw [frame_put cfg s msg src size hc hs]
  exact putUpdate_idle cfg _ msg hq

theorem space_more (cfg : Config) (s : Kernel) (msg : Nat)
    (hq : s.queue msg = []) (hc : (s.msg msg).count ≠ 0)
    (hlt : ((s.msg msg).count + cfg.usz) % UMOD cfg < (s.msg msg).limit) :
    priv_msg_space cfg s msg =
      ((s.msg msg).limit + 2 * UMOD cfg - (s.msg msg).count % UMOD cfg - cfg.usz % UMOD cfg) %
        UMOD cfg := by
  unfold priv_msg_space
  simp only []
  rw [if_neg hc, if_pos ⟨hq, hlt⟩]

theorem send_blocks (cfg : Config) (s : Kernel) (msg src size delay : Nat)
    (hq : s.queue msg = [])
    (hs : 0 < size) (hsl : size ≤ (s.msg msg).limit)
    (hsp : ¬ size ≤ priv_msg_space cfg s msg) (hd : delay ≠ IMMEDIATE) :
    (msg_sendFor cfg s msg src size delay).1.msg = s.msg ∧
    (msg_sendFor cfg s msg src size delay).1.mem = s.mem ∧
    (msg_sendFor cfg s msg src size delay).1.cur = s.cur ∧
    (msg_sendFor cfg s msg src size delay).1.queue msg = [s.cur] ∧
    ((msg_sendFor cfg s msg src size delay).1.tsk s.cur).odata = src ∧
    ((msg_sendFor cfg s msg src size delay).1.tsk s.cur).evt_size = size ∧
    (msg_sendFor cfg s msg src size delay).2 = none := by
  have hb : (core_tsk_waitFor cfg
      (s.setTsk s.cur { s.tsk s.cur with odata := src, evt_size := size }) msg delay).2 = none :=
    (waitFor_spec cfg _ msg delay).1.mpr hd
  have e : msg_sendFor cfg s msg src size delay =
      ((core_tsk_waitFor cfg
        (s.setTsk s.cur { s.tsk s.cur with odata := src, evt_size := size }) msg delay).1,
        none) := by
    unfold msg_sendFor priv_msg_send
    rw [if_pos ⟨hs, hsl⟩, if_neg hsp]
    simp only [hb]
  obtain ⟨w1, w2, w3, w4, _, w6, w7, _⟩ := wait_blocked_fields cfg
    (s.setTsk s.cur { s.tsk s.cur with odata := src, evt_size := size }) msg delay
    (core_tsk_waitFor cfg) (Or.inl rfl) hb
  rw [e]
  refine ⟨w1, w2, w3, w4 hq, ?_, ?_, rfl⟩
  · exact w6.trans (by simp [Kernel.setTsk])
  · exact w7.trans (by simp [Kernel.setTsk])

theorem take_eq (cfg : Config) (s : Kernel) (msg dst size : Nat)
    (hs : 0 < size) (h0 : 0 < (s.msg msg).size) (hge : (s.msg msg).size ≤ size) :
    msg_take cfg s msg dst size =
      (priv_msg_getUpdate cfg
        (priv_msg_getSize cfg (priv_msg_get cfg s msg dst (s.msg msg).size) msg) msg,
        (s.msg msg).size) := by
  unfold msg_take msg_receive priv_msg_count
  rw [if_pos hs, if_pos h0, if_pos hge]

theorem get_getSize (cfg : Config) (s : Kernel) (msg dst n : Nat)
    (h : (msg_getn cfg n (s.msg msg)).2.count ≠ 0) :
    priv_msg_getSize cfg (priv_msg_get cfg s msg dst n) msg =
      { s with
        msg := upd s.msg msg
          { (msg_getn cfg cfg.usz (msg_getn cfg n (s.msg msg)).2).2 with
            size := dec_unsigned (msg_getn cfg cfg.usz (msg_getn cfg n (s.msg msg)).2).1 },
        mem := store s.mem dst (msg_getn cfg n (s.msg msg)).1 } := by
  have e : (priv_msg_get cfg s msg dst n).msg msg = (msg_getn cfg n (s.msg msg)).2 := by
    simp [priv_msg_get, Kernel.setMsg]
  unfold priv_msg_getSize
  simp only []
  rw [e, if_neg h]
  simp [priv_msg_get, Kernel.setMsg]

theorem pull_one (cfg : Config) (s : Kernel) (msg t : Nat)
    (hq : s.queue msg = [t]) (hc : (s.msg msg).count ≠ 0) (hs : 0 < (s.tsk t).evt_size)
    (hfit : ((s.msg msg).count + (s.tsk t).evt_size + cfg.usz) % UMOD cfg ≤ (s.msg msg).limit) :
    (priv_msg_getUpdate cfg s msg).msg msg =
      msg_putn cfg (load s.mem (s.tsk t).odata (s.tsk t).evt_size)
        (msg_putn cfg (enc_unsigned cfg.usz (s.tsk t).evt_size) (s.msg msg)) ∧
    (priv_msg_getUpdate cfg s msg).queue msg = [] ∧
    (priv_msg_getUpdate cfg s msg).mem = s.mem ∧
    woken event_t.E_SUCCESS t (priv_msg_getUpdate cfg s msg) ∧
    ((priv_msg_getUpdate cfg s msg).tsk t).evt_size = 0 := by
  have e0 : priv_msg_getUpdate cfg s msg = priv_msg_getUpdate_loop cfg msg (0 + 1) s := by
    unfold priv_msg_getUpdate
    rw [hq]
    rfl
  have e1 := getUpdate_loop_cons cfg msg 0 s t [] hq
  rw [if_pos (Or.inr hfit)] at e1
  have e2 : (priv_msg_putSize cfg s msg (s.tsk t).evt_size).tsk = s.tsk := by
    unfold priv_msg_putSize
    simp only []
    rw [if_neg hc, if_pos hs]
    rfl
  rw [e2, frame_put cfg s msg _ _ hc hs] at e1
  rw [e0, e1]
  refine ⟨?_, ?_, ?_, ⟨?_, ?_, ?_, ?_⟩, ?_⟩
  · show (core_tsk_wakeup cfg _ (some t) event_t.E_SUCCESS).1.msg msg = _
    rw [wakeup_msg]
    simp [Kernel.setTsk, Kernel.setMsg]
  · show (core_tsk_wakeup cfg _ (some t) event_t.E_SUCCESS).1.queue msg = _
    rw [wakeup_queue]
    show List.filter _ (s.queue msg) = []
    rw [hq]
    simp
  · show (core_tsk_wakeup cfg _ (some t) event_t.E_SUCCESS).1.mem = _
    rw [wakeup_mem]
    rfl
  · show t ∈ (core_tsk_wakeup cfg _ (some t) event_t.E_SUCCESS).1.ready
    rw [wakeup_mem_ready]
    exact Or.inl rfl
  · show ((core_tsk_wakeup cfg _ (some t) event_t.E_SUCCESS).1.tsk t).event = _
    rw [wakeup_tsk_self]
  · show ((core_tsk_wakeup cfg _ (some t) event_t.E_SUCCESS).1.tsk t).id = _
    rw [wakeup_tsk_self]
  · show t ∉ (core_tsk_wakeup cfg _ (some t) event_t.E_SUCCESS).1.timers
    rw [wakeup_timers]
    simp
  · show ((core_tsk_wakeup cfg _ (some t) event_t.E_SUCCESS).1.tsk t).evt_size = _
    rw [wakeup_tsk_self]
    simp [Kernel.setTsk]

theorem UMOD32 : UMOD cfg32 = 4294967296 := by
  rw [UMOD_eq]
  rfl

theorem setMsg_msg (s : Kernel) (m : Nat) (v : msg_t) : (s.setMsg m v).msg m = v := by
  simp [Kernel.setMsg]

theorem setMsg_queue (s : Kernel) (m : Nat) (v : msg_t) : (s.setMsg m v).queue = s.queue := rfl

theorem setMsg_cur (s : Kernel) (m : Nat) (v : msg_t) : (s.setMsg m v).cur = s.cur := rfl

theorem setMsg_mem (s : Kernel) (m : Nat) (v : msg_t) : (s.setMsg m v).mem = s.mem := rfl

theorem setMsg_tsk (s : Kernel) (m : Nat) (v : msg_t) : (s.setMsg m v).tsk = s.tsk := rfl

/-- The fields of a queue after a frame has been written behind the bytes in use: the bytes
of its length and then its bytes. -/
theorem frame_fields (cfg : Config) (m : msg_t) (bs : List Nat) (n : Nat)
    (hlen : bs.length = n)
    (hl : m.limit < UMOD cfg) (hn : m.next < m.limit) (hc : m.count < UMOD cfg) :
    (msg_putn cfg bs (msg_putn cfg (enc_unsigned cfg.usz n) m)).count =
      (m.count + cfg.usz + n) % UMOD cfg ∧
    (msg_putn cfg bs (msg_putn cfg (enc_unsigned cfg.usz n) m)).next =
      (m.next + cfg.usz + n) % m.limit ∧
    (msg_putn cfg bs (msg_putn cfg (enc_unsigned cfg.usz n) m)).first = m.first ∧
    (msg_putn cfg bs (msg_putn cfg (enc_unsigned cfg.usz n) m)).limit = m.limit ∧
    (msg_putn cfg bs (msg_putn cfg (enc_unsigned cfg.usz n) m)).size = m.size := by
  obtain ⟨a1, a2, a3, a4, a5⟩ := putn_fields cfg (enc_unsigned cfg.usz n) m hl hn hc
  rw [enc_unsigned_length] at a1 a2
  have hpos : 0 < UMOD cfg := by omega
  obtain ⟨b1, b2, b3, b4, b5⟩ := putn_fields cfg bs (msg_putn cfg (enc_unsigned cfg.usz n) m)
    (by rw [a4]; exact hl) (by rw [a2, a4]; exact Nat.mod_lt _ (by omega))
    (by rw [a1]; exact Nat.mod_lt _ hpos)
  rw [hlen] at b1 b2
  refine ⟨by rw [b1, a1, Nat.mod_add_mod], by rw [b2, a2, a4, Nat.mod_add_mod],
    by rw [b3, a3], by rw [b4, a4], by rw [b5, a5]⟩

/-- The bytes of a queue after a frame has been written behind the bytes in use. -/
theorem frame_data (cfg : Config) (m : msg_t) (bs : List Nat) (n : Nat)
    (hlen : bs.length = n) (hnl : n ≤ m.limit) (hu : cfg.usz ≤ m.limit)
    (hl : m.limit < UMOD cfg) (hn : m.next < m.limit) (hc : m.count < UMOD cfg) :
    (∀ k, k < n →
      (msg_putn cfg bs (msg_putn cfg (enc_unsigned cfg.usz n) m)).data
        ((m.next + cfg.usz + k) % m.limit) = bs.getD k 0) ∧
    (∀ i, (∀ k, k < cfg.usz + n → (m.next + k) % m.limit ≠ i) →
      (msg_putn cfg bs (msg_putn cfg (enc_unsigned cfg.usz n) m)).data i = m.data i) ∧
    (∀ k, k < cfg.usz → (∀ j, j < n → (m.next + cfg.usz + j) % m.limit ≠ (m.next + k) % m.limit) →
      (msg_putn cfg bs (msg_putn cfg (enc_unsigned cfg.usz n) m)).data
        ((m.next + k) % m.limit) = (enc_unsigned cfg.usz n).getD k 0) := by
  obtain ⟨a1, a2, a3, a4, a5⟩ := putn_fields cfg (enc_unsigned cfg.usz n) m hl hn hc
  rw [enc_unsigned_length] at a1 a2
  have hpos : 0 < UMOD cfg := by omega
  have hl1 : (msg_putn cfg (enc_unsigned cfg.usz n) m).limit < UMOD cfg := by rw [a4]; exact hl
  have hn1 : (msg_putn cfg (enc_unsigned cfg.usz n) m).next <
      (msg_putn cfg (enc_unsigned cfg.usz n) m).limit := by
    rw [a2, a4]; exact Nat.mod_lt _ (by omega)
  refine ⟨fun k hk => ?_, fun i hi => ?_, fun k hk hj => ?_⟩
  · have := putn_data_at cfg bs (msg_putn cfg (enc_unsigned cfg.usz n) m) k hl1 hn1
      (by rw [a4, hlen]; exact hnl) (by rw [hlen]; exact hk)
    rw [a2, a4, Nat.mod_add_mod] at this
    exact this
  · rw [putn_data_other cfg bs _ i hl1 hn1 ?_, putn_data_other cfg _ m i hl hn ?_]
    · intro k hk
      rw [enc_unsigned_length] at hk
      exact hi k (by omega)
    · intro k hk
      rw [hlen] at hk
      rw [a2, a4, Nat.mod_add_mod, Nat.add_assoc]
      exact hi (cfg.usz + k) (by omega)
  · rw [putn_data_other cfg bs _ _ hl1 hn1 ?_]
    · exact putn_data_at cfg _ m k hl hn (by rw [enc_unsigned_length]; exact hu)
        (by rw [enc_unsigned_length]; exact hk)
    · intro j hj'
      rw [hlen] at hj'
      rw [a2, a4, Nat.mod_add_mod]
      exact hj j hj'

/-- The state after `priv_msg_get` of `n` bytes and `priv_msg_getSize`, when bytes are left
in the buffer after the `n` bytes. -/
theorem get_getSize_fields (cfg : Config) (s : Kernel) (msg dst n : Nat)
    (hl : (s.msg msg).limit < UMOD cfg) (hf : (s.msg msg).first < (s.msg msg).limit)
    (hc : (s.msg msg).count < UMOD cfg)
    (h : ∀ c, c < UMOD cfg → (c + n) % UMOD cfg = (s.msg msg).count → c ≠ 0) :
    (((priv_msg_getSize cfg (priv_msg_get cfg s msg dst n) msg).msg msg).count + cfg.usz + n) %
      UMOD cfg = (s.msg msg).count ∧
    ((priv_msg_getSize cfg (priv_msg_get cfg s msg dst n) msg).msg msg).count < UMOD cfg ∧
    ((priv_msg_getSize cfg (priv_msg_get cfg s msg dst n) msg).msg msg).first =
      ((s.msg msg).first + n + cfg.usz) % (s.msg msg).limit ∧
    ((priv_msg_getSize cfg (priv_msg_get cfg s msg dst n) msg).msg msg).next = (s.msg msg).next ∧
    ((priv_msg_getSize cfg (priv_msg_get cfg s msg dst n) msg).msg msg).limit =
      (s.msg msg).limit ∧
    ((priv_msg_getSize cfg (priv_msg_get cfg s msg dst n) msg).msg msg).data =
      (s.msg msg).data ∧
    ((priv_msg_getSize cfg (priv_msg_get cfg s msg dst n) msg).msg msg).size =
      dec_unsigned ((List.range cfg.usz).map
        (fun k => (s.msg msg).data (((s.msg msg).first + n + k) % (s.msg msg).limit))) ∧
    (priv_msg_getSize cfg (priv_msg_get cfg s msg dst n) msg).mem =
      store s.mem dst ((List.range n).map
        (fun k => (s.msg msg).data (((s.msg msg).first + k) % (s.msg msg).limit))) ∧
    (priv_msg_getSize cfg (priv_msg_get cfg s msg dst n) msg).queue = s.queue ∧
    (priv_msg_getSize cfg (priv_msg_get cfg s msg dst n) msg).tsk = s.tsk ∧
    (priv_msg_getSize cfg (priv_msg_get cfg s msg dst n) msg).cur = s.cur := by
  obtain ⟨a1, a2, a3, a4, a5, a6, a7, a8⟩ := getn_fields cfg n (s.msg msg) hl hf hc
  have hpos : 0 < UMOD cfg := by omega
  have hne := h _ a2 a1
  obtain ⟨b1, b2, b3, b4, b5, b6, b7, b8⟩ := getn_fields cfg cfg.usz (msg_getn cfg n (s.msg msg)).2
    (by rw [a5]; exact hl) (by rw [a3, a5]; exact Nat.mod_lt _ (by omega)) a2
  rw [get_getSize cfg s msg dst n hne]
  refine ⟨?_, ?_, ?_, ?_, ?_, ?_, ?_, ?_, rfl, rfl, rfl⟩
  · show (((upd s.msg msg _) msg).count + cfg.usz + n) % UMOD cfg = _
    rw [upd_same]
    show ((msg_getn cfg cfg.usz (msg_getn cfg n (s.msg msg)).2).2.count + cfg.usz + n) %
      UMOD cfg = _
    rw [← Nat.mod_add_mod, b1, a1]
  · show ((upd s.msg msg _) msg).count < _
    rw [upd_same]
    exact b2
  · show ((upd s.msg msg _) msg).first = _
    rw [upd_same]
    show (msg_getn cfg cfg.usz (msg_getn cfg n (s.msg msg)).2).2.first = _
    rw [b3, a3, a5, Nat.mod_add_mod]
  · show ((upd s.msg msg _) msg).next = _
    rw [upd_same]
    show (msg_getn cfg cfg.usz (msg_getn cfg n (s.msg msg)).2).2.next = _
    rw [b4, a4]
  · show ((upd s.msg msg _) msg).limit = _
    rw [upd_same]
    show (msg_getn cfg cfg.usz (msg_getn cfg n (s.msg msg)).2).2.limit = _
    rw [b5, a5]
  · show ((upd s.msg msg _) msg).data = _
    rw [upd_same]
    show (msg_getn cfg cfg.usz (msg_getn cfg n (s.msg msg)).2).2.data = _
    rw [b7, a7]
  · show ((upd s.msg msg _) msg).size = _
    rw [upd_same]
    show dec_unsigned (msg_getn cfg cfg.usz (msg_getn cfg n (s.msg msg)).2).1 = _
    rw [b8, a7, a3, a5]
    congr 1
    apply List.map_congr_left
    intro k _
    show (s.msg msg).data _ = (s.msg msg).data _
    rw [Nat.mod_add_mod]
  · show store s.mem dst (msg_getn cfg n (s.msg msg)).1 = _
    rw [a8]

theorem ex_wrap0_fields :
    (ex_wrap0.msg 100).count = 0 ∧ (ex_wrap0.msg 100).limit = 3221225472 ∧
    (ex_wrap0.msg 100).first = 0 ∧ (ex_wrap0.msg 100).next = 0 ∧
    ex_wrap0.queue 100 = [] ∧ ex_wrap0.cur = MAIN ∧
    ex_wrap0.mem = fun a => if a < 3000000000 then 1 else 0 := by
  have hm : ex_wrap0.msg 100 =
      { count := 0, limit := 3221225472, first := 0, next := 0, size := 0,
        data := fun _ => 0 } := by
    simp [ex_wrap0, msg_init, Kernel.setMsg]
  have hq : ex_wrap0.queue 100 = [] := by simp [ex_wrap0, msg_init]
  rw [hm]
  exact ⟨rfl, rfl, rfl, rfl, hq, rfl, rfl⟩

theorem ex_wrap1_fields :
    (ex_wrap1.msg 100).count = 1 ∧ (ex_wrap1.msg 100).limit = 3221225472 ∧
    (ex_wrap1.msg 100).first = 0 ∧ (ex_wrap1.msg 100).next = 1 ∧
    (ex_wrap1.msg 100).size = 1 ∧
    ex_wrap1.queue 100 = [] ∧ ex_wrap1.cur = MAIN ∧ ex_wrap1.mem = ex_wrap0.mem := by
  obtain ⟨c0, l0, f0, n0, q0, u0, _⟩ := ex_wrap0_fields
  have e : ex_wrap1 = ex_wrap0.setMsg 100
      (msg_putn cfg32 (load ex_wrap0.mem 0 1) { ex_wrap0.msg 100 with size := 1 }) :=
    give_empty cfg32 ex_wrap0 100 0 1 q0 c0 (by omega) (by rw [l0]; omega)
  have hl : ({ ex_wrap0.msg 100 with size := 1 } : msg_t).limit = 3221225472 := l0
  have hn : ({ ex_wrap0.msg 100 with size := 1 } : msg_t).next = 0 := n0
  have hc : ({ ex_wrap0.msg 100 with size := 1 } : msg_t).count = 0 := c0
  have hf : ({ ex_wrap0.msg 100 with size := 1 } : msg_t).first = 0 := f0
  obtain ⟨a1, a2, a3, a4, a5⟩ := putn_fields cfg32 (load ex_wrap0.mem 0 1)
    { ex_wrap0.msg 100 with size := 1 } (by rw [hl, UMOD32]; omega) (by rw [hn, hl]; omega)
    (by rw [hc, UMOD32]; omega)
  rw [load_length, hc, UMOD32] at a1
  rw [load_length, hn, hl] at a2
  rw [e, setMsg_msg, setMsg_queue, setMsg_cur, setMsg_mem]
  exact ⟨a1, a4.trans hl, a3.trans hf, a2, a5, q0, u0, rfl⟩

theorem ex_wrap1_space : priv_msg_space cfg32 ex_wrap1 100 = 3221225467 := by
  obtain ⟨c1, l1, f1, n1, s1, q1, u1, m1⟩ := ex_wrap1_fields
  have hu : cfg32.usz = 4 := rfl
  rw [space_more cfg32 ex_wrap1 100 q1 (by rw [c1]; omega)
    (by rw [c1, l1, UMOD32, hu]; omega), c1, l1, UMOD32, hu]

theorem ex_wrap2_fields :
    (ex_wrap2.msg 100).count = 2147483653 ∧ (ex_wrap2.msg 100).limit = 3221225472 ∧
    (ex_wrap2.msg 100).first = 0 ∧ (ex_wrap2.msg 100).next = 2147483653 ∧
    (ex_wrap2.msg 100).size = 1 ∧
    ex_wrap2.queue 100 = [] ∧ ex_wrap2.cur = MAIN ∧ ex_wrap2.mem = ex_wrap0.mem ∧
    (∀ k, k < 4 → (ex_wrap2.msg 100).data (1 + k) = (enc_unsigned 4 2147483648).getD k 0) ∧
    (ex_wrap2.msg 100).data 2147483652 = 1 := by
  obtain ⟨c1, l1, f1, n1, s1, q1, u1, m1⟩ := ex_wrap1_fields
  have hu : cfg32.usz = 4 := rfl
  have hl : (ex_wrap1.msg 100).limit < UMOD cfg32 := by rw [l1, UMOD32]; omega
  have hn : (ex_wrap1.msg 100).next < (ex_wrap1.msg 100).limit := by rw [n1, l1]; omega
  have hc : (ex_wrap1.msg 100).count < UMOD cfg32 := by rw [c1, UMOD32]; omega
  obtain ⟨a1, a2, a3, a4, a5⟩ := frame_fields cfg32 (ex_wrap1.msg 100)
    (load ex_wrap1.mem 0 2147483648) 2147483648 (load_length _ _ _) hl hn hc
  obtain ⟨d1, d2, d3⟩ := frame_data cfg32 (ex_wrap1.msg 100)
    (load ex_wrap1.mem 0 2147483648) 2147483648 (load_length _ _ _) (by rw [l1]; omega)
    (by rw [l1, hu]; omega) hl hn hc
  have hb : (load ex_wrap1.mem 0 2147483648).getD 2147483647 0 = 1 := by
    rw [load_getD _ _ _ _ (by omega), m1, ex_wrap0_fields.2.2.2.2.2.2]
    rfl
  have e : ex_wrap2 = ex_wrap1.setMsg 100
      (msg_putn cfg32 (load ex_wrap1.mem 0 2147483648)
        (msg_putn cfg32 (enc_unsigned cfg32.usz 2147483648) (ex_wrap1.msg 100))) :=
    give_more cfg32 ex_wrap1 100 0 2147483648 q1 (by rw [c1]; omega) (by omega)
      (by rw [l1]; omega) (by rw [ex_wrap1_space]; omega)
  obtain ⟨bs, hbs⟩ : ∃ bs : List Nat, bs = load ex_wrap1.mem 0 2147483648 := ⟨_, rfl⟩
  rw [← hbs] at hb e a1 a2 a3 a4 a5 d1 d2 d3
  obtain ⟨M, hM⟩ : ∃ M : msg_t, M = msg_putn cfg32 bs
      (msg_putn cfg32 (enc_unsigned cfg32.usz 2147483648) (ex_wrap1.msg 100)) := ⟨_, rfl⟩
  rw [← hM] at e a1 a2 a3 a4 a5 d1 d2 d3
  rw [c1, hu, UMOD32] at a1
  rw [n1, l1, hu] at a2
  rw [n1, l1, hu] at d1 d3
  rw [e, setMsg_msg, setMsg_queue, setMsg_cur, setMsg_mem]
  refine ⟨a1, a4.trans l1, a3.trans f1, a2, a5.trans s1, q1, u1, m1, fun k hk => ?_, ?_⟩
  · have h1 := d3 k hk (fun j hj => by omega)
    rw [Nat.mod_eq_of_lt (by omega)] at h1
    exact h1
  · have h1 := d1 2147483647 (by omega)
    rw [show (1 + 4 + 2147483647) % 3221225472 = 2147483652 from by omega, hb] at h1
    exact h1

theorem ex_wrap2_space : priv_msg_space cfg32 ex_wrap2 100 = 1073741815 := by
  obtain ⟨c1, l1, f1, n1, s1, q1, u1, m1, _⟩ := ex_wrap2_fields
  have hu : cfg32.usz = 4 := rfl
  rw [space_more cfg32 ex_wrap2 100 q1 (by rw [c1]; omega)
    (by rw [c1, l1, UMOD32, hu]; omega), c1, l1, UMOD32, hu]

theorem map_range_eq (f : Nat → Nat) (l : List Nat) (n : Nat) (hlen : l.length = n)
    (h : ∀ k, k < n → f k = l.getD k 0) : (List.range n).map f = l := by
  apply List.ext_getElem
  · rw [List.length_map, List.length_range, hlen]
  · intro i h1 h2
    rw [List.getElem_map, List.getElem_range]
    rw [List.length_map, List.length_range] at h1
    rw [h i h1, List.getD_eq_getElem _ _ h2]

theorem store_at (bs : List Nat) (mem : Nat → Nat) (a k : Nat) (h : k < bs.length) :
    store mem a bs (a + k) = bs.getD k 0 := by
  have h1 := load_getD (store mem a bs) a bs.length k h
  rw [load_store] at h1
  exact h1.symm

/-- The first receive of the run: the frame of one byte is taken from a buffer that holds
it and a frame of `N` bytes; the state before `priv_msg_getUpdate`. -/
theorem wrap_taken (s : Kernel) (N dst : Nat) (hN : N = 2147483648)
    (hm : (s.msg 100).limit = 3221225472 ∧ (s.msg 100).count = N + 5 ∧ (s.msg 100).first = 0 ∧
      (s.msg 100).next = N + 5 ∧ (s.msg 100).size = 1)
    (hd : ∀ k, k < 4 → (s.msg 100).data (1 + k) = (enc_unsigned 4 N).getD k 0) :
    msg_take cfg32 s 100 dst 1 =
      (priv_msg_getUpdate cfg32 (priv_msg_getSize cfg32 (priv_msg_get cfg32 s 100 dst 1) 100) 100,
        1) ∧
    (((priv_msg_getSize cfg32 (priv_msg_get cfg32 s 100 dst 1) 100).msg 100).limit = 3221225472 ∧
      ((priv_msg_getSize cfg32 (priv_msg_get cfg32 s 100 dst 1) 100).msg 100).count = N ∧
      ((priv_msg_getSize cfg32 (priv_msg_get cfg32 s 100 dst 1) 100).msg 100).first = 5 ∧
      ((priv_msg_getSize cfg32 (priv_msg_get cfg32 s 100 dst 1) 100).msg 100).next = N + 5 ∧
      ((priv_msg_getSize cfg32 (priv_msg_get cfg32 s 100 dst 1) 100).msg 100).size = N) ∧
    ((priv_msg_getSize cfg32 (priv_msg_get cfg32 s 100 dst 1) 100).msg 100).data =
      (s.msg 100).data ∧
    (priv_msg_getSize cfg32 (priv_msg_get cfg32 s 100 dst 1) 100).queue = s.queue ∧
    (priv_msg_getSize cfg32 (priv_msg_get cfg32 s 100 dst 1) 100).tsk = s.tsk ∧
    (priv_msg_getSize cfg32 (priv_msg_get cfg32 s 100 dst 1) 100).cur = s.cur ∧
    (∀ a, a < dst → (priv_msg_getSize cfg32 (priv_msg_get cfg32 s 100 dst 1) 100).mem a =
      s.mem a) := by
  obtain ⟨l0, c0, f0, n0, s0⟩ := hm
  have hu : cfg32.usz = 4 := rfl
  have hU := UMOD32
  obtain ⟨g1, g2, g3, g4, g5, g6, g7, g8, g9, g10, g11⟩ := get_getSize_fields cfg32 s 100 dst 1
    (by rw [l0, hU]; omega) (by rw [f0, l0]; omega) (by rw [c0, hU]; omega)
    (fun c hc hcc => by rw [hU] at hc; rw [hU, c0] at hcc; omega)
  refine ⟨?_, ⟨g5.trans l0, ?_, ?_, g4.trans n0, ?_⟩, g6, g9, g10, g11, fun a ha => ?_⟩
  · have := take_eq cfg32 s 100 dst 1 (by omega) (by rw [s0]; omega) (by rw [s0])
    rw [s0] at this
    exact this
  · rw [hU, c0, hu] at g1
    rw [hU] at g2
    omega
  · rw [g3, f0, l0, hu]
  · rw [g7, f0, l0, hu]
    rw [map_range_eq _ (enc_unsigned 4 N) 4 (enc_unsigned_length 4 N) (fun k hk => by
      show (s.msg 100).data ((0 + 1 + k) % 3221225472) = _
      rw [Nat.mod_eq_of_lt (by omega), Nat.zero_add]
      exact hd k hk)]
    exact dec_enc_unsigned 4 N (by rw [hN]; norm_num)
  · rw [g8]
    exact store_other _ _ _ _ (Or.inl ha)

/-- The pull forward of the run: the buffer holds a frame of `N` bytes and the task `t`
offers a frame of `N` bytes; the sum of the fit test wraps and the frame is written over
the frame in the buffer. -/
theorem wrap_pull (T : Kernel) (N t : Nat) (hN : N = 2147483648)
    (hm : (T.msg 100).limit = 3221225472 ∧ (T.msg 100).count = N ∧ (T.msg 100).first = 5 ∧
      (T.msg 100).next = N + 5 ∧ (T.msg 100).size = N)
    (hq : T.queue 100 = [t]) (ho : (T.tsk t).odata = 3000000000)
    (he : (T.tsk t).evt_size = N)
    (hmem : ∀ a, 3000000000 ≤ a → a < 9000000000 → T.mem a = 0)
    (hd1 : (T.msg 100).data (N + 4) = 1) :
    (((priv_msg_getUpdate cfg32 T 100).msg 100).limit = 3221225472 ∧
      ((priv_msg_getUpdate cfg32 T 100).msg 100).count = 4 ∧
      ((priv_msg_getUpdate cfg32 T 100).msg 100).first = 5 ∧
      ((priv_msg_getUpdate cfg32 T 100).msg 100).next = 1073741833 ∧
      ((priv_msg_getUpdate cfg32 T 100).msg 100).size = N) ∧
    (priv_msg_getUpdate cfg32 T 100).queue 100 = [] ∧
    ((priv_msg_getUpdate cfg32 T 100).msg 100).data 5 = 0 ∧
    ((priv_msg_getUpdate cfg32 T 100).msg 100).data (N + 4) = 1 ∧
    woken event_t.E_SUCCESS t (priv_msg_getUpdate cfg32 T 100) ∧
    ((priv_msg_getUpdate cfg32 T 100).tsk t).evt_size = 0 ∧
    (priv_msg_getUpdate cfg32 T 100).mem = T.mem := by
  obtain ⟨l0, c0, f0, n0, s0⟩ := hm
  have hu : cfg32.usz = 4 := rfl
  have hU := UMOD32
  obtain ⟨p1, p2, p3, p4, p5⟩ := pull_one cfg32 T 100 t hq (by rw [c0]; omega)
    (by rw [he]; omega) (by rw [c0, he, l0, hU, hu]; omega)
  rw [ho, he] at p1
  have hl : (T.msg 100).limit < UMOD cfg32 := by rw [l0, hU]; omega
  have hn : (T.msg 100).next < (T.msg 100).limit := by rw [n0, l0]; omega
  have hc : (T.msg 100).count < UMOD cfg32 := by rw [c0, hU]; omega
  obtain ⟨a1, a2, a3, a4, a5⟩ := frame_fields cfg32 (T.msg 100)
    (load T.mem 3000000000 N) N (load_length _ _ _) hl hn hc
  obtain ⟨d1, d2, _⟩ := frame_data cfg32 (T.msg 100)
    (load T.mem 3000000000 N) N (load_length _ _ _) (by rw [l0]; omega)
    (by rw [l0, hu]; omega) hl hn hc
  rw [← p1] at a1 a2 a3 a4 a5 d1 d2
  rw [c0, hu, hU] at a1
  rw [n0, l0, hu] at a2 d1 d2
  refine ⟨⟨a4.trans l0, ?_, a3.trans f0, ?_, a5.trans s0⟩, p2, ?_, ?_, p4, p5, p3⟩
  · rw [a1]; omega
  · rw [a2]; omega
  · have h1 := d1 1073741820 (by omega)
    rw [show (N + 5 + 4 + 1073741820) % 3221225472 = 5 from by omega,
      load_getD _ _ _ _ (by omega), hmem _ (by omega) (by omega)] at h1
    exact h1
  · rw [d2 (N + 4) (fun k hk => by omega)]
    exact hd1

/-- The end of the run: a frame of `d` bytes is given and the frame at the head is taken;
more bytes are counted than the buffer has. -/
theorem wrap_over (W : Kernel) (N d src dst : Nat) (hN : N = 2147483648) (hd : d = 1610612736)
    (hm : (W.msg 100).limit = 3221225472 ∧ (W.msg 100).count = 4 ∧ (W.msg 100).first = 5 ∧
      (W.msg 100).next = 1073741833 ∧ (W.msg 100).size = N)
    (hq : W.queue 100 = []) :
    ((msg_take cfg32 (msg_give cfg32 W 100 src d).1 100 dst N).1.msg 100).limit = 3221225472 ∧
    ((msg_take cfg32 (msg_give cfg32 W 100 src d).1 100 dst N).1.msg 100).count =
      3758096388 := by
  obtain ⟨l0, c0, f0, n0, s0⟩ := hm
  have hu : cfg32.usz = 4 := rfl
  have hU := UMOD32
  have hsp : priv_msg_space cfg32 W 100 = 3221225464 := by
    rw [space_more cfg32 W 100 hq (by rw [c0]; omega) (by rw [c0, l0, hU, hu]; omega),
      c0, l0, hU, hu]
  have e := give_more cfg32 W 100 src d hq (by rw [c0]; omega) (by omega)
    (by rw [l0]; omega) (by rw [hsp]; omega)
  have hl : (W.msg 100).limit < UMOD cfg32 := by rw [l0, hU]; omega
  have hn : (W.msg 100).next < (W.msg 100).limit := by rw [n0, l0]; omega
  have hc : (W.msg 100).count < UMOD cfg32 := by rw [c0, hU]; omega
  obtain ⟨a1, a2, a3, a4, a5⟩ := frame_fields cfg32 (W.msg 100)
    (load W.mem src d) d (load_length _ _ _) hl hn hc
  obtain ⟨G, hG⟩ : ∃ G : Kernel, G = (msg_give cfg32 W 100 src d).1 := ⟨_, rfl⟩
  obtain ⟨M, hM⟩ : ∃ M : msg_t, M = msg_putn cfg32 (load W.mem src d)
      (msg_putn cfg32 (enc_unsigned cfg32.usz d) (W.msg 100)) := ⟨_, rfl⟩
  rw [← hG, ← hM] at e
  rw [← hM] at a1 a2 a3 a4 a5
  rw [← hG]
  have gm : G.msg 100 = M := by rw [e, setMsg_msg]
  have gq : G.queue 100 = [] := by rw [e, setMsg_queue]; exact hq
  rw [c0, hu, hU] at a1
  have gsz : (G.msg 100).size = N := by rw [gm, a5, s0]
  have t1 := take_eq cfg32 G 100 dst N (by omega) (by rw [gsz]; omega) (by rw [gsz])
  rw [gsz] at t1
  obtain ⟨g1, g2, g3, g4, g5, g6, g7, g8, g9, g10, g11⟩ := get_getSize_fields cfg32 G 100 dst N
    (by rw [gm, a4, l0, hU]; omega) (by rw [gm, a3, a4, f0, l0]; omega)
    (by rw [gm, a1, hU]; omega)
    (fun c hc hcc => by rw [hU] at hc; rw [hU, gm, a1] at hcc; omega)
  have tq : (priv_msg_getSize cfg32 (priv_msg_get cfg32 G 100 dst N) 100).queue 100 = [] := by
    rw [g9]; exact gq
  rw [t1]
  show ((priv_msg_getUpdate cfg32 _ 100).msg 100).limit = 3221225472 ∧
    ((priv_msg_getUpdate cfg32 _ 100).msg 100).count = 3758096388
  rw [getUpdate_idle cfg32 _ 100 tq]
  refine ⟨by rw [g5, gm, a4, l0], ?_⟩
  rw [hU, gm, a1, hu] at g1
  rw [hU] at g2
  omega

/-- The receive after the pull forward of the run: the bytes delivered begin with a byte
of the frame pulled forward and end with a byte of the frame that was in the buffer. -/
theorem wrap_deliver (W : Kernel) (N dst : Nat) (hN : N = 2147483648)
    (hm : (W.msg 100).limit = 3221225472 ∧ (W.msg 100).count = 4 ∧ (W.msg 100).first = 5 ∧
      (W.msg 100).next = 1073741833 ∧ (W.msg 100).size = N)
    (hq : W.queue 100 = [])
    (hd0 : (W.msg 100).data 5 = 0) (hd1 : (W.msg 100).data (N + 4) = 1) :
    (msg_take cfg32 W 100 dst N).2 = N ∧
    (load (msg_take cfg32 W 100 dst N).1.mem dst N).getD 0 0 = 0 ∧
    (load (msg_take cfg32 W 100 dst N).1.mem dst N).getD 2147483647 0 = 1 := by
  obtain ⟨l0, c0, f0, n0, s0⟩ := hm
  have hu : cfg32.usz = 4 := rfl
  have hU := UMOD32
  have t1 := take_eq cfg32 W 100 dst N (by omega) (by rw [s0]; omega) (by rw [s0])
  rw [s0] at t1
  obtain ⟨g1, g2, g3, g4, g5, g6, g7, g8, g9, g10, g11⟩ := get_getSize_fields cfg32 W 100 dst N
    (by rw [l0, hU]; omega) (by rw [f0, l0]; omega) (by rw [c0, hU]; omega)
    (fun c hc hcc => by rw [hU] at hc; rw [hU, c0] at hcc; omega)
  have tq : (priv_msg_getSize cfg32 (priv_msg_get cfg32 W 100 dst N) 100).queue 100 = [] := by
    rw [g9]; exact hq
  rw [t1]
  show N = N ∧ (load (priv_msg_getUpdate cfg32 _ 100).mem dst N).getD 0 0 = 0 ∧
    (load (priv_msg_getUpdate cfg32 _ 100).mem dst N).getD 2147483647 0 = 1
  rw [getUpdate_idle cfg32 _ 100 tq, g8, f0, l0]
  have hlen : ((List.range N).map (fun k => (W.msg 100).data ((5 + k) % 3221225472))).length = N := by
    rw [List.length_map, List.length_range]
  refine ⟨rfl, ?_, ?_⟩
  · rw [load_getD _ _ _ _ (by omega), store_at _ _ _ _ (by rw [hlen]; omega),
      map_range_getD _ _ _ (by omega)]
    show (W.msg 100).data ((5 + 0) % 3221225472) = 0
    rw [show (5 + 0) % 3221225472 = 5 from by omega]
    exact hd0
  · rw [load_getD _ _ _ _ (by omega), store_at _ _ _ _ (by rw [hlen]; omega),
      map_range_getD _ _ _ (by omega)]
    show (W.msg 100).data ((5 + 2147483647) % 3221225472) = 1
    rw [show (5 + 2147483647) % 3221225472 = N + 4 from by omega]
    exact hd1

theorem framed_size_le (cfg : Config) (m : msg_t) (fs : List (List Nat))
    (h : framed cfg m fs) : m.size ≤ m.count := by
  have hc := framed_count cfg m fs h
  have hs := h.2
  cases fs with
  | nil =>
    have : m.size = 0 := hs
    omega
  | cons f gs =>
    have h1 : m.size = f.length := hs
    rw [hc, h1]
    simp [stream]

theorem ex_wrap2_reach : msg_reach cfg32 100 3221225472 ex_wrap2 :=
  msg_reach.give ex_wrap1 0 2147483648
    (msg_reach.give ex_wrap0 0 1 (msg_reach.init _ _ (by omega)))

/-- The run that makes the sum of the fit test wrap: `s3` is the state after the send
that blocks, `T` the state of the receive before `priv_msg_getUpdate` and `W` the state
after the receive. -/
theorem wrap_run (s3 T W : Kernel)
    (h3 : s3 = (msg_sendFor cfg32 ex_wrap2 100 3000000000 2147483648 5).1)
    (hT : T = priv_msg_getSize cfg32 (priv_msg_get cfg32 s3 100 9000000000 1) 100)
    (hW : W = (msg_take cfg32 s3 100 9000000000 1).1) :
    (msg_reach cfg32 100 3221225472 s3 ∧ msg_reach cfg32 100 3221225472 W ∧
      W = priv_msg_getUpdate cfg32 T 100) ∧
    (((T.msg 100).limit = 3221225472 ∧ (T.msg 100).count = 2147483648 ∧
        (T.msg 100).first = 5 ∧ (T.msg 100).next = 2147483653 ∧
        (T.msg 100).size = 2147483648) ∧
      T.queue 100 = [MAIN] ∧ (T.tsk MAIN).odata = 3000000000 ∧
      (T.tsk MAIN).evt_size = 2147483648) ∧
    (((W.msg 100).limit = 3221225472 ∧ (W.msg 100).count = 4 ∧ (W.msg 100).first = 5 ∧
        (W.msg 100).next = 1073741833 ∧ (W.msg 100).size = 2147483648) ∧
      W.queue 100 = [] ∧ (W.msg 100).data 5 = 0 ∧ (W.msg 100).data 2147483652 = 1 ∧
      woken event_t.E_SUCCESS MAIN W ∧ (W.tsk MAIN).evt_size = 0) := by
  obtain ⟨c2, l2, f2, n2, z2, q2, u2, m2, d2, e2⟩ := ex_wrap2_fields
  obtain ⟨b1, b2, b3, b4, b5, b6, _⟩ := send_blocks cfg32 ex_wrap2 100 3000000000 2147483648 5
    q2 (by omega) (by rw [l2]; omega) (by rw [ex_wrap2_space]; omega) (by decide)
  have r3 : msg_reach cfg32 100 3221225472 s3 := by
    rw [h3]
    exact msg_reach.sendFor ex_wrap2 3000000000 2147483648 5 ex_wrap2_reach
      (by rw [q2]; simp)
  rw [← h3] at b1 b2 b3 b4 b5 b6
  rw [u2] at b4 b5 b6
  have hm3 : (s3.msg 100).limit = 3221225472 ∧ (s3.msg 100).count = 2147483648 + 5 ∧
      (s3.msg 100).first = 0 ∧ (s3.msg 100).next = 2147483648 + 5 ∧ (s3.msg 100).size = 1 := by
    rw [b1]
    exact ⟨l2, c2, f2, n2, z2⟩
  have hd3 : ∀ k, k < 4 →
      (s3.msg 100).data (1 + k) = (enc_unsigned 4 2147483648).getD k 0 := by
    rw [b1]
    exact d2
  obtain ⟨t1, t2, t3, t4, t5, t6, t7⟩ := wrap_taken s3 2147483648 9000000000 rfl hm3 hd3
  rw [← hT] at t1 t2 t3 t4 t5 t6 t7
  have hmem : ∀ a, 3000000000 ≤ a → a < 9000000000 → T.mem a = 0 := by
    intro a h1 h2
    rw [t7 a h2, b2, m2, ex_wrap0_fields.2.2.2.2.2.2]
    show (if a < 3000000000 then 1 else 0) = 0
    rw [if_neg (by omega)]
  have h4 : (2147483648 : Nat) + 4 = 2147483652 := by norm_num
  have h5 : (2147483648 : Nat) + 5 = 2147483653 := by norm_num
  have hd1 : (T.msg 100).data (2147483648 + 4) = 1 := by
    rw [t3, b1, h4]
    exact e2
  have hq : T.queue 100 = [MAIN] := by rw [t4]; exact b4
  have ho : (T.tsk MAIN).odata = 3000000000 := by rw [t5]; exact b5
  have he : (T.tsk MAIN).evt_size = 2147483648 := by rw [t5]; exact b6
  obtain ⟨p1, p2, p3, p4, p5, p6, _⟩ := wrap_pull T 2147483648 MAIN rfl t2 hq ho he hmem hd1
  have eW : W = priv_msg_getUpdate cfg32 T 100 := by
    rw [hW, t1]
  rw [← eW] at p1 p2 p3 p4 p5 p6
  rw [h4] at p4
  have t2' := t2
  rw [h5] at t2'
  refine ⟨⟨r3, ?_, eW⟩, ⟨t2', hq, ho, he⟩, ⟨p1, p2, p3, p4, p5, p6⟩⟩
  rw [hW]
  exact msg_reach.take s3 9000000000 1 r3

theorem wrap_deliver_ne (W : Kernel) (N dst : Nat)
    (hN : N = 2147483648)
    (hm : (W.msg 100).limit = 3221225472 ∧ (W.msg 100).count = 4 ∧ (W.msg 100).first = 5 ∧
      (W.msg 100).next = 1073741833 ∧ (W.msg 100).size = N)
    (hq : W.queue 100 = [])
    (hd0 : (W.msg 100).data 5 = 0) (hd1 : (W.msg 100).data (N + 4) = 1) :
    (∀ (m : Nat → Nat) (a : Nat), m a ≠ 0 →
      load (msg_take cfg32 W 100 dst N).1.mem dst N ≠ load m a N) ∧
    (∀ (m : Nat → Nat) (a : Nat), m (a + 2147483647) ≠ 1 →
      load (msg_take cfg32 W 100 dst N).1.mem dst N ≠ load m a N) := by
  obtain ⟨_, g0, g1⟩ := wrap_deliver W N dst hN hm hq hd0 hd1
  refine ⟨fun m a hne h => ?_, fun m a hne h => ?_⟩
  · rw [h, load_getD _ _ _ _ (by omega)] at g0
    exact hne g0
  · rw [h, load_getD _ _ _ _ (by omega)] at g1
    exact hne g1

theorem ex_wrap0_mem (a : Nat) : ex_wrap0.mem a = if a < 3000000000 then 1 else 0 := by
  rw [ex_wrap0_fields.2.2.2.2.2.2]

theorem wrap_pull_facts (s3 T : Kernel)
    (h3 : s3 = (msg_sendFor cfg32 ex_wrap2 100 3000000000 2147483648 5).1)
    (hT : T = priv_msg_getSize cfg32 (priv_msg_get cfg32 s3 100 9000000000 1) 100) :
    msg_wf cfg32 (T.msg 100) ∧
    framed cfg32 (T.msg 100) [ring (T.msg 100)] ∧
    (ring (T.msg 100)).length = 2147483648 ∧
    T.queue 100 = [MAIN] ∧
    (T.msg 100).limit = 3221225472 ∧ (T.msg 100).count = 2147483648 ∧
    (T.tsk MAIN).evt_size = 2147483648 ∧
    ¬ 2 * (T.msg 100).limit + cfg32.usz < UMOD cfg32 ∧
    ¬ frame_fits cfg32 (T.msg 100).limit (T.msg 100).count (T.tsk MAIN).evt_size ∧
    (priv_msg_getUpdate cfg32 T 100).queue 100 = [] ∧
    woken event_t.E_SUCCESS MAIN (priv_msg_getUpdate cfg32 T 100) ∧
    msg_resume cfg32 (priv_msg_getUpdate cfg32 T 100) MAIN 2147483648 = 2147483648 ∧
    ((priv_msg_getUpdate cfg32 T 100).msg 100).count = 4 ∧
    ((priv_msg_getUpdate cfg32 T 100).msg 100).size = 2147483648 ∧
    ¬ msg_wf cfg32 ((priv_msg_getUpdate cfg32 T 100).msg 100) := by
  obtain ⟨⟨_, _, eW⟩, ⟨⟨tl, tc, tf, tn, ts⟩, tq, _, te⟩, ⟨⟨wl, wc, wf, wn, ws⟩, wq, _, _, ww, we⟩⟩ :=
    wrap_run s3 T (msg_take cfg32 s3 100 9000000000 1).1 h3 hT rfl
  rw [eW] at wl wc wf wn ws wq ww we
  have hu : cfg32.usz = 4 := rfl
  have hU := UMOD32
  refine ⟨?_, ?_, ?_, tq, tl, tc, te, ?_, ?_, wq, ww, ?_, wc, ws, ?_⟩
  · unfold msg_wf
    rw [tl, tf, tc, tn, hU]
    omega
  · refine ⟨by simp [stream, tail_stream], ?_⟩
    show (T.msg 100).size = (ring (T.msg 100)).length
    rw [ring_length, ts, tc]
  · rw [ring_length, tc]
  · rw [tl, hU, hu]
    omega
  · unfold frame_fits
    rw [tl, tc, te, hu]
    omega
  · unfold msg_resume
    rw [we, hU]
  · unfold msg_wf
    rw [wl, wf, wc, wn, hU]
    omega

/-- Counterexample to C13 as stated.  On the 32-bit port a queue of 3221225472 bytes is
given a frame of 1 byte and a frame of 2147483648 bytes; a send of 2147483648 bytes by the
main task does not fit and blocks; the frame of 1 byte is taken.  In the state `T` of that
receive before `priv_msg_getUpdate` the buffer holds the one frame of 2147483648 bytes,
and the main task is the blocked sender.  Its frame does not fit, yet
`priv_msg_getUpdate` takes the sender off the wait list and wakes it with `E_SUCCESS`, its
send returning the full size: the sum of the fit test wraps to 4, since
`2 * limit + sizeof(unsigned)` is not a value of `unsigned`.  Afterwards 4 bytes are
counted for a first frame of 2147483648 bytes, and the indices are not consistent. -/
theorem pull_forward_counterexample :
    ∃ T : Kernel,
      T = priv_msg_getSize cfg32 (priv_msg_get cfg32
        (msg_sendFor cfg32 ex_wrap2 100 3000000000 2147483648 5).1 100 9000000000 1) 100 ∧
      msg_wf cfg32 (T.msg 100) ∧
      framed cfg32 (T.msg 100) [ring (T.msg 100)] ∧
      (ring (T.msg 100)).length = 2147483648 ∧
      T.queue 100 = [MAIN] ∧
      (T.msg 100).limit = 3221225472 ∧ (T.msg 100).count = 2147483648 ∧
      (T.tsk MAIN).evt_size = 2147483648 ∧
      ¬ 2 * (T.msg 100).limit + cfg32.usz < UMOD cfg32 ∧
      ¬ frame_fits cfg32 (T.msg 100).limit (T.msg 100).count (T.tsk MAIN).evt_size ∧
      (priv_msg_getUpdate cfg32 T 100).queue 100 = [] ∧
      woken event_t.E_SUCCESS MAIN (priv_msg_getUpdate cfg32 T 100) ∧
      msg_resume cfg32 (priv_msg_getUpdate cfg32 T 100) MAIN 2147483648 = 2147483648 ∧
      ((priv_msg_getUpdate cfg32 T 100).msg 100).count = 4 ∧
      ((priv_msg_getUpdate cfg32 T 100).msg 100).size = 2147483648 ∧
      ¬ msg_wf cfg32 ((priv_msg_getUpdate cfg32 T 100).msg 100) :=
  ⟨_, rfl, wrap_pull_facts _ _ rfl rfl⟩

theorem wrap_over_facts (s3 W V : Kernel)
    (h3 : s3 = (msg_sendFor cfg32 ex_wrap2 100 3000000000 2147483648 5).1)
    (hW : W = (msg_take cfg32 s3 100 9000000000 1).1)
    (hV : V = (msg_take cfg32 (msg_give cfg32 W 100 3000000000 1610612736).1
      100 9000000000 2147483648).1) :
    msg_reach cfg32 100 3221225472 V ∧
    (V.msg 100).limit = 3221225472 ∧ (V.msg 100).count = 3758096388 ∧
    ¬ (V.msg 100).count ≤ (V.msg 100).limit := by
  obtain ⟨⟨_, rW, _⟩, _, ⟨hm, wq, _⟩⟩ :=
    wrap_run s3 (priv_msg_getSize cfg32 (priv_msg_get cfg32 s3 100 9000000000 1) 100) W h3 rfl hW
  obtain ⟨v1, v2⟩ := wrap_over W 2147483648 1610612736 3000000000 9000000000 rfl rfl hm wq
  rw [← hV] at v1 v2
  refine ⟨?_, v1, v2, by rw [v1, v2]; omega⟩
  rw [hV]
  exact msg_reach.take _ 9000000000 2147483648 (msg_reach.give W 3000000000 1610612736 rW)

/-- Counterexample to C27 as stated.  On the 32-bit port a queue of 3221225472 bytes is
initialised and given a frame of 1 byte and a frame of 2147483648 bytes; a send of
2147483648 bytes by the main task blocks; the frame of 1 byte is taken, and the sum of the
fit test of `priv_msg_getUpdate` wraps, so that the frame of the blocked sender is written
although it does not fit (state `W`).  After a `msg_give` of 1610612736 bytes and a
`msg_take` of the frame at the head (state `V`) the queue counts 3758096388 bytes in a
buffer of 3221225472 bytes. -/
theorem queue_invariant_counterexample :
    ∃ W V : Kernel,
      W = (msg_take cfg32 (msg_sendFor cfg32 ex_wrap2 100 3000000000 2147483648 5).1
        100 9000000000 1).1 ∧
      V = (msg_take cfg32 (msg_give cfg32 W 100 3000000000 1610612736).1
        100 9000000000 2147483648).1 ∧
      msg_reach cfg32 100 3221225472 V ∧
      (V.msg 100).limit = 3221225472 ∧ (V.msg 100).count = 3758096388 ∧
      ¬ (V.msg 100).count ≤ (V.msg 100).limit :=
  ⟨_, _, rfl, rfl, wrap_over_facts _ _ _ rfl rfl rfl⟩

theorem wrap_frame_facts (s3 W : Kernel)
    (h3 : s3 = (msg_sendFor cfg32 ex_wrap2 100 3000000000 2147483648 5).1)
    (hW : W = (msg_take cfg32 s3 100 9000000000 1).1) :
    msg_reach cfg32 100 3221225472 W ∧
    (W.msg 100).limit = 3221225472 ∧ (W.msg 100).count = 4 ∧ (W.msg 100).first = 5 ∧
    (W.msg 100).next = 1073741833 ∧ (W.msg 100).size = 2147483648 ∧
    msg_count W 100 = 2147483648 ∧
    (W.msg 100).next ≠ ((W.msg 100).first + (W.msg 100).count) % (W.msg 100).limit ∧
    ¬ ∃ fs : List (List Nat), framed cfg32 (W.msg 100) fs := by
  obtain ⟨⟨_, rW, _⟩, _, ⟨⟨wl, wc, wf, wn, ws⟩, _⟩⟩ :=
    wrap_run s3 (priv_msg_getSize cfg32 (priv_msg_get cfg32 s3 100 9000000000 1) 100) W h3 rfl hW
  refine ⟨rW, wl, wc, wf, wn, ws, ws, by rw [wl, wc, wf, wn]; omega, ?_⟩
  rintro ⟨fs, hfr⟩
  have := framed_size_le cfg32 _ fs hfr
  rw [ws, wc] at this
  omega

/-- Counterexample to C30 as stated.  On the 32-bit port a queue of 3221225472 bytes is
initialised and given a frame of 1 byte and a frame of 2147483648 bytes; a send of
2147483648 bytes by the main task blocks; the frame of 1 byte is taken, and the sum of the
fit test of `priv_msg_getUpdate` wraps, so that the frame of the blocked sender is written
although it does not fit.  In the state `W` after that receive `msg_count` returns
2147483648 while 4 bytes are counted in the buffer, `next` is not
`(first + count) mod limit`, and no sequence of frames accounts for the buffer. -/
theorem frame_accounting_counterexample :
    ∃ W : Kernel,
      W = (msg_take cfg32 (msg_sendFor cfg32 ex_wrap2 100 3000000000 2147483648 5).1
        100 9000000000 1).1 ∧
      msg_reach cfg32 100 3221225472 W ∧
      (W.msg 100).limit = 3221225472 ∧ (W.msg 100).count = 4 ∧ (W.msg 100).first = 5 ∧
      (W.msg 100).next = 1073741833 ∧ (W.msg 100).size = 2147483648 ∧
      msg_count W 100 = 2147483648 ∧
      (W.msg 100).next ≠ ((W.msg 100).first + (W.msg 100).count) % (W.msg 100).limit ∧
      ¬ ∃ fs : List (List Nat), framed cfg32 (W.msg 100) fs :=
  ⟨_, rfl, wrap_frame_facts _ _ rfl rfl⟩

theorem wrap_whole_facts (s3 W : Kernel)
    (h3 : s3 = (msg_sendFor cfg32 ex_wrap2 100 3000000000 2147483648 5).1)
    (hW : W = (msg_take cfg32 s3 100 9000000000 1).1) :
    msg_reach cfg32 100 3221225472 W ∧
    msg_count W 100 = 2147483648 ∧
    (msg_take cfg32 W 100 9000000000 2147483648).2 = 2147483648 ∧
    (load (msg_take cfg32 W 100 9000000000 2147483648).1.mem 9000000000 2147483648).getD 0 0
      = 0 ∧
    (load (msg_take cfg32 W 100 9000000000 2147483648).1.mem 9000000000
      2147483648).getD 2147483647 0 = 1 ∧
    load (msg_take cfg32 W 100 9000000000 2147483648).1.mem 9000000000 2147483648 ≠
      load ex_wrap0.mem 0 2147483648 ∧
    load (msg_take cfg32 W 100 9000000000 2147483648).1.mem 9000000000 2147483648 ≠
      load ex_wrap0.mem 3000000000 2147483648 := by
  obtain ⟨⟨_, rW, _⟩, _, ⟨hm, wq, d0, d1, _⟩⟩ :=
    wrap_run s3 (priv_msg_getSize cfg32 (priv_msg_get cfg32 s3 100 9000000000 1) 100) W h3 rfl hW
  have h4 : (2147483648 : Nat) + 4 = 2147483652 := by norm_num
  have d1' : (W.msg 100).data (2147483648 + 4) = 1 := by rw [h4]; exact d1
  obtain ⟨g0, g1, g2⟩ := wrap_deliver W 2147483648 9000000000 rfl hm wq d0 d1'
  obtain ⟨n0, n1⟩ := wrap_deliver_ne W 2147483648 9000000000 rfl hm wq d0 d1'
  refine ⟨rW, hm.2.2.2.2, g0, g1, g2, n0 _ 0 ?_, n1 _ 3000000000 ?_⟩
  · rw [ex_wrap0_mem, if_pos (by omega)]
    omega
  · rw [ex_wrap0_mem, if_neg (by omega)]
    omega

/-- Counterexample to C32 as stated.  On the 32-bit port a queue of 3221225472 bytes is
initialised and given a frame of 1 byte and a frame of 2147483648 bytes from the address 0,
where every byte is 1; a send of 2147483648 bytes from the address 3000000000, where every
byte is 0, blocks the main task; the frame of 1 byte is taken, and the sum of the fit test
of `priv_msg_getUpdate` wraps, so that the frame of the blocked sender is written over the
frame in the buffer.  In the state `W` after that receive `msg_count` returns 2147483648,
and `msg_take` returns 2147483648 and delivers bytes that begin with a byte 0 of the frame
sent and end with a byte 1 of the frame given: part of one frame and part of another, and
neither of the two frames. -/
theorem whole_frames_counterexample :
    ∃ W : Kernel,
      W = (msg_take cfg32 (msg_sendFor cfg32 ex_wrap2 100 3000000000 2147483648 5).1
        100 9000000000 1).1 ∧
      msg_reach cfg32 100 3221225472 W ∧
      msg_count W 100 = 2147483648 ∧
      (msg_take cfg32 W 100 9000000000 2147483648).2 = 2147483648 ∧
      (load (msg_take cfg32 W 100 9000000000 2147483648).1.mem 9000000000
        2147483648).getD 0 0 = 0 ∧
      (load (msg_take cfg32 W 100 9000000000 2147483648).1.mem 9000000000
        2147483648).getD 2147483647 0 = 1 ∧
      load (msg_take cfg32 W 100 9000000000 2147483648).1.mem 9000000000 2147483648 ≠
        load ex_wrap0.mem 0 2147483648 ∧
      load (msg_take cfg32 W 100 9000000000 2147483648).1.mem 9000000000 2147483648 ≠
        load ex_wrap0.mem 3000000000 2147483648 :=
  ⟨_, rfl, wrap_whole_facts _ _ rfl rfl⟩


end StateOS
